import Mathlib

/-!
Boomerang: the type lattice of the data-flow based type analysis

A shallow embedding of `src/type/type.cpp` and `src/type/dfa.cpp`.

Modelling conventions
* A `SharedType` is modelled by the value of the object it designates (`Ty`).  The receiver of a
  method and its argument are taken to be distinct objects that share no sub-object, so that a
  pointer comparison between a receiver-side object and an argument-side object is false; the
  member objects of compounds and unions carry an optional object tag (`obj`) so that two
  member lists can be said to hold the very same object.
* Methods that mutate the receiver return the new value of the receiver.  `MeetResult.origin`
  records which object the returned pointer designates (the receiver, the argument, or an
  object created by the call).
* The process-wide state read and written by the type algebra (`Type::namedTypes`,
  `nextUnionNumber`) is passed explicitly as `Globals`.
* Recursive methods whose recursion is not bounded by the structure of the receiver take a
  `fuel` argument and return `none` when it runs out.  `none` is also the result where the
  source has no defined result (an `assert` fails, an empty member vector is indexed, a division
  by zero).
* `size`, `Length` are unsigned machine integers in the source and natural numbers here; the
  `int` signedness counter is an integer.  No operation of this part of the source wraps
  within the range of the machine types.
-/

namespace Boomerang

/-! ## Data model -/

mutual
/-- The class hierarchy below `Type` (`eType` tags).  A function type carries its signature
(`none` is the null pointer); signatures are declared outside these sources and are identified
up to `Signature::operator==`. -/
inductive Ty where
  | void
  | func (signature : Option Nat)
  | integer (size : Nat) (signedness : Int)
  | float (size : Nat)
  | boolean
  | char
  | pointer (points_to : Ty)
  | array (BaseType : Ty) (Length : Nat)
  | named (name : String)
  | compound (members : Members) (generic : Bool) (nextGenericMemberNum : Nat)
  | union (li : Members)
  | size (size : Nat)
  | upper (base_type : Ty)
  | lower (base_type : Ty)
/-- The `types`/`names` vectors of a `CompoundType` and the `UnionElement`s of a `UnionType`.
`obj` tags the type object of the member: `some k` for an object that other types may hold as
well, `none` for an object held by this member only. -/
inductive Members where
  | nil
  | cons (type : Ty) (name : String) (obj : Option Nat) (tail : Members)
end

/-- Values declared in headers that are not part of the sources. -/
structure Env where
  /-- the macro STD_SIZE, the number of bits of a pointer -/
  STD_SIZE : Nat
  /-- the macro NO_BOUND, the length of an unbounded array -/
  NO_BOUND : Nat
  /-- the virtual method `Type::isComplete` -/
  isComplete : Ty → Bool
  /-- the text of `FuncType::getCtype` for a function type with a signature -/
  sigCtype : Nat → Bool → String
  /-- the methods `UpperType::getSize` and `LowerType::getSize`, given the type -/
  halfSize : Ty → Nat

/-- The process-wide state of the type algebra. -/
structure Globals where
  /-- the registry `Type::namedTypes` -/
  namedTypes : List (String × Ty)
  /-- the counter `nextUnionNumber` of dfa.cpp -/
  nextUnionNumber : Nat

/-- Which object a returned `SharedType` designates. -/
inductive Origin where
  | receiver
  | argument
  | created
  deriving DecidableEq, Repr

/-- The outcome of `meetWith`: the returned type, the object it designates, the change flag
`ch` after the call and the global state after the call.  When `origin` is `receiver` the
returned value `ty` is the value of the receiver after the call. -/
structure MeetResult where
  ty : Ty
  origin : Origin
  ch : Bool
  g : Globals

/-! ## Member lists -/

namespace Members

def length : Members → Nat
  | nil => 0
  | cons _ _ _ tl => tl.length + 1

def any (p : Ty → Bool) : Members → Bool
  | nil => false
  | cons t _ _ tl => p t || any p tl

def all (p : Ty → Bool) : Members → Bool
  | nil => true
  | cons t _ _ tl => p t && all p tl

def append : Members → Members → Members
  | nil, m => m
  | cons t n o tl, m => cons t n o (append tl m)

/-- The member at position `i` (`types[i]`). -/
def get? : Members → Nat → Option Ty
  | nil, _ => none
  | cons t _ _ _, 0 => some t
  | cons _ _ _ tl, i + 1 => get? tl i

/-- The member list without its element at position `i` (`li.erase(it)`). -/
def eraseIdx : Members → Nat → Members
  | nil, _ => nil
  | cons _ _ _ tl, 0 => tl
  | cons t n o tl, i + 1 => cons t n o (eraseIdx tl i)

def toList : Members → List (Ty × String)
  | nil => []
  | cons t n _ tl => (t, n) :: toList tl

end Members

/-! ## Type tags -/

namespace Ty

def isVoid : Ty → Bool | void => true | _ => false
def isFunc : Ty → Bool | func _ => true | _ => false
def isInteger : Ty → Bool | integer _ _ => true | _ => false
def isFloat : Ty → Bool | float _ => true | _ => false
def isBoolean : Ty → Bool | boolean => true | _ => false
def isChar : Ty → Bool | char => true | _ => false
def isPointer : Ty → Bool | pointer _ => true | _ => false
def isArray : Ty → Bool | array _ _ => true | _ => false
def isNamed : Ty → Bool | named _ => true | _ => false
def isCompound : Ty → Bool | compound _ _ _ => true | _ => false
def isUnion : Ty → Bool | union _ => true | _ => false
def isSize : Ty → Bool | size _ => true | _ => false
def isUpper : Ty → Bool | upper _ => true | _ => false
def isLower : Ty → Bool | lower _ => true | _ => false

end Ty

/-! ## operator== -/

/-- The comparison of signatures in `FuncType::operator==`: a null signature equals only a
null signature, two signatures are compared by `Signature::operator==`.  When only the other
signature is null the source dereferences it; this definition answers false there, which is
not an answer of the source, and the theorems on function types leave out the pairs of a
function type with a signature and one without (`oneNullSignature`). -/
def FuncType.sameSignature : Option Nat → Option Nat → Bool
  | none, none => true
  | none, some _ => false
  | some a, some b => a == b
  | some _, none => false

mutual
/-- The virtual `Type::operator==`, entered with the static counter `pointerCompareNest` at
`nest`.  `PointerType::operator==` answers true once the counter reaches 20; this definition
follows one comparison up to that answer and does not follow the counter afterwards.  It is
the answer of the source whenever the cut-off is not reached, that is whenever one of the two
types nests pointers to a depth that added to `nest` stays below 20: the counter is then back
at `nest` when the comparison returns (`Ty.eqCount_of_pointerNesting`).  Once a comparison has
reached the cut-off the source leaves the counter incremented, for the members compared after
it and for later calls; `Ty.eqCount` follows the counter, and the theorems that depend on the
answer of a comparison are stated for types below that depth. -/
def Ty.eqNest : Ty → Ty → Nat → Bool
  | .void, o, _ => o.isVoid
  | .func s, o, _ =>
    match o with
    | .func s2 => FuncType.sameSignature s s2
    | _ => false
  | .integer s g, o, _ =>
    match o with
    | .integer s2 g2 =>
      (s == 0 || s2 == 0 || s == s2) &&
        ((decide (g < 0) && decide (g2 < 0)) || (decide (g = 0) && decide (g2 = 0)) ||
          (decide (g > 0) && decide (g2 > 0)))
    | _ => false
  | .float s, o, _ =>
    match o with
    | .float s2 => s == 0 || s2 == 0 || s == s2
    | _ => false
  | .boolean, o, _ => o.isBoolean
  | .char, o, _ => o.isChar
  | .pointer p, o, nest =>
    match o with
    | .pointer q => if nest + 1 ≥ 20 then true else Ty.eqNest p q (nest + 1)
    | _ => false
  | .array b l, o, nest =>
    match o with
    | .array b2 l2 => Ty.eqNest b b2 nest && l2 == l
    | _ => false
  | .named n, o, _ =>
    match o with
    | .named m => n == m
    | _ => false
  | .compound ms _ _, o, nest =>
    match o with
    | .compound ms2 _ _ => ms2.length == ms.length && Members.eqTypes ms ms2 nest
    | _ => false
  | .union li, o, nest =>
    match o with
    | .union li2 => li2.length == li.length && Members.allFound li li2 nest
    | _ => false
  | .size s, o, _ =>
    match o with
    | .size s2 => s == s2
    | _ => false
  | .upper b, o, nest =>
    match o with
    | .upper b2 => Ty.eqNest b b2 nest
    | _ => false
  | .lower b, o, nest =>
    match o with
    | .lower b2 => Ty.eqNest b b2 nest
    | _ => false
/-- The loop of `CompoundType::operator==` over two member vectors of the same length. -/
def Members.eqTypes : Members → Members → Nat → Bool
  | .nil, _, _ => true
  | .cons t _ _ tl, o, nest =>
    match o with
    | .cons t2 _ _ tl2 => Ty.eqNest t t2 nest && Members.eqTypes tl tl2 nest
    | .nil => true
/-- The loop of `UnionType::operator==`: every element of the receiver is found in the other
union (`uother.li.find(el)`). -/
def Members.allFound : Members → Members → Nat → Bool
  | .nil, _, _ => true
  | .cons t _ _ tl, o, nest =>
    Members.any (fun e => Ty.eqNest t e nest) o && Members.allFound tl o nest
end

/-- `*a == *b` with `pointerCompareNest` at zero. -/
def Ty.opEq (a b : Ty) : Bool := Ty.eqNest a b 0

/-- `*a != *b` (`Type::operator!=`). -/
def Ty.opNe (a b : Ty) : Bool := !(Ty.opEq a b)

/-! ## The element set of a union -/

/-- Modelled from the spec: `UnionEntrySet` and `UnionElement` are declared in type.h, which is
not part of the sources; a union holds a set of `(name, type)` elements, and two elements are
the same element when their types are equal under `Type::operator==`.  `find` looks for an
element equal to the key. -/
def Members.find (li : Members) (key : Ty) : Bool :=
  li.any (fun e => Ty.opEq key e)

/-- `li.insert(ue)`: no effect when an equal element is present; the set is kept in insertion
order. -/
def Members.insert (li : Members) (t : Ty) (name : String) (obj : Option Nat) : Members :=
  if li.find t then li else li.append (.cons t name obj .nil)

/-- `li.insert(first, last)` for the elements of another union. -/
def Members.insertAll (li : Members) : Members → Members
  | .nil => li
  | .cons t n o tl => Members.insertAll (li.insert t n o) tl

/-- `UnionType::addType` on the element set `li`: the elements of a union are inserted one by
one, any other type becomes one element.  (The argument is not a pointer to the receiver.) -/
def UnionType.addType (li : Members) (n : Ty) (str : String) (obj : Option Nat) : Members :=
  match n with
  | .union li2 => li.insertAll li2
  | _ => li.insert n str obj

/-- The loop of `UnionType::clone`: `u->addType(el.type, el.name)` for each element. -/
def UnionType.addEach (u : Members) : Members → Members
  | .nil => u
  | .cons t n o tl => UnionType.addEach (UnionType.addType u t n o) tl

/-! ## clone -/

mutual
/-- The virtual method `Type::clone`.  A compound is copied member by member into a new,
non-generic compound; a union is copied by adding each element, the element objects being
shared with the original. -/
def Ty.clone : Ty → Ty
  | .void => .void
  | .func s => .func s
  | .integer s g => .integer s g
  | .float s => .float s
  | .boolean => .boolean
  | .char => .char
  | .pointer p => .pointer (Ty.clone p)
  | .array b l => .array (Ty.clone b) l
  | .named n => .named n
  | .compound ms _ _ => .compound (Members.cloneTypes ms) false 1
  | .union li => .union (UnionType.addEach .nil li)
  | .size s => .size s
  | .upper b => .upper (Ty.clone b)
  | .lower b => .lower (Ty.clone b)
/-- The loop of `CompoundType::clone`: each member type is cloned into a new object. -/
def Members.cloneTypes : Members → Members
  | .nil => .nil
  | .cons t n _ tl => .cons (Ty.clone t) n none (Members.cloneTypes tl)
end

/-! ## Printing -/

/-- The crude representation written by `operator<<(QTextStream&, const Type&)`. -/
def Ty.toString (env : Env) : Ty → String
  | .integer s g => (if g = 0 then "j" else if g > 0 then "i" else "u") ++ Nat.repr s
  | .float s => "f" ++ Nat.repr s
  | .pointer p => Ty.toString env p ++ "*"
  | .size s => Nat.repr s
  | .char => "c"
  | .void => "v"
  | .boolean => "b"
  | .compound _ _ _ => "struct"
  | .union _ => "union"
  | .func _ => "func"
  | .array b l =>
    "[" ++ Ty.toString env b ++ (if l = env.NO_BOUND then "" else ", " ++ Nat.repr l) ++ "]"
  | .named n => n
  | .upper b => "U(" ++ Ty.toString env b ++ ")"
  | .lower b => "L(" ++ Ty.toString env b ++ ")"

/-- `IntegerType::getCtype`. -/
def IntegerType.getCtype (size : Nat) (signedness : Int) (final : Bool) : String :=
  if signedness ≥ 0 then
    (if !final && decide (signedness = 0) then "/*signed?*/" else "") ++
      (if size = 32 then "int"
       else if size = 16 then "short"
       else if size = 8 then "char"
       else if size = 1 then "bool"
       else if size = 64 then "long long"
       else (if !final then "?" else "") ++ "int")
  else
    (if size = 32 then "unsigned int"
     else if size = 16 then "unsigned short"
     else if size = 8 then "unsigned char"
     else if size = 1 then "bool"
     else if size = 64 then "unsigned long long"
     else if final then "unsigned int" else "?unsigned int")

mutual
/-- The virtual method `Type::getCtype(final)`. -/
def Ty.getCtype (env : Env) (final : Bool) : Ty → String
  | .void => "void"
  | .func none => "void (void)"
  | .func (some sig) => env.sigCtype sig final
  | .integer s g => IntegerType.getCtype s g final
  | .float s => if s = 32 then "float" else "double"
  | .boolean => "bool"
  | .char => "char"
  | .pointer p => Ty.getCtype env final p ++ (if p.isPointer then "*" else " *")
  | .array b l =>
    if l = env.NO_BOUND then Ty.getCtype env final b ++ "[]"
    else Ty.getCtype env final b ++ "[" ++ Nat.repr l ++ "]"
  | .named n => n
  | .compound ms _ _ => "struct \x7b " ++ Members.getCtypes env final ms ++ "\x7d"
  | .union li => "union \x7b " ++ Members.getCtypes env final li ++ "\x7d"
  | .size s => "__size" ++ Nat.repr s
  | .upper b => "/*upper*/(" ++ Ty.toString env b ++ ")"
  | .lower b => "/*lower*/(" ++ Ty.toString env b ++ ")"
/-- The member loop of `CompoundType::getCtype` and of `UnionType::getCtype`. -/
def Members.getCtypes (env : Env) (final : Bool) : Members → String
  | .nil => ""
  | .cons t n _ tl =>
    Ty.getCtype env final t ++ (if n ≠ "" then " " ++ n else "") ++ "; " ++
      Members.getCtypes env final tl
end

/-! ## Named types and resolution -/

/-- `Type::getNamedType`: the registry entry of a name, `none` for the null pointer. -/
def getNamedType (nt : List (String × Ty)) (name : String) : Option Ty :=
  nt.lookup name

/-- `NamedType::resolvesTo`: follows the registry while the entry is itself a named type.  The
outer `none` is fuel exhaustion, the inner `none` the null pointer. -/
def NamedType.resolvesTo (nt : List (String × Ty)) : Nat → String → Option (Option Ty)
  | 0, _ => none
  | fuel + 1, name =>
    match getNamedType nt name with
    | some (.named m) => NamedType.resolvesTo nt fuel m
    | r => some r

/-- The object examined by `resolvesToX()` and cast by `asX()`: the type itself, or for a named
type what `resolvesTo()` returns. -/
def Ty.resolved (nt : List (String × Ty)) (fuel : Nat) : Ty → Option (Option Ty)
  | .named n => NamedType.resolvesTo nt fuel n
  | t => some (some t)

/-- The test `ty && ty->isX()` on a resolved object. -/
def kindIs (p : Ty → Bool) : Option Ty → Bool
  | some t => p t
  | none => false

/-- `Type::resolvesToVoid` and its siblings (the macro RESOLVES_TO_TYPE), for the tag test `p`. -/
def Ty.resolvesToKind (p : Ty → Bool) (nt : List (String × Ty)) (fuel : Nat) (t : Ty) :
    Option Bool :=
  (Ty.resolved nt fuel t).map (kindIs p)

def Ty.resolvesToVoid := Ty.resolvesToKind Ty.isVoid
def Ty.resolvesToFunc := Ty.resolvesToKind Ty.isFunc
def Ty.resolvesToBoolean := Ty.resolvesToKind Ty.isBoolean
def Ty.resolvesToChar := Ty.resolvesToKind Ty.isChar
def Ty.resolvesToInteger := Ty.resolvesToKind Ty.isInteger
def Ty.resolvesToFloat := Ty.resolvesToKind Ty.isFloat
def Ty.resolvesToPointer := Ty.resolvesToKind Ty.isPointer
def Ty.resolvesToArray := Ty.resolvesToKind Ty.isArray
def Ty.resolvesToCompound := Ty.resolvesToKind Ty.isCompound
def Ty.resolvesToUnion := Ty.resolvesToKind Ty.isUnion
def Ty.resolvesToSize := Ty.resolvesToKind Ty.isSize
def Ty.resolvesToUpper := Ty.resolvesToKind Ty.isUpper
def Ty.resolvesToLower := Ty.resolvesToKind Ty.isLower

/-! ## Sizes -/

/-- Sum of the member sizes (`CompoundType::getSize`), for the size function `f`. -/
def Members.sumSizes (f : Ty → Option Nat) : Members → Option Nat
  | .nil => some 0
  | .cons t _ _ tl =>
    match f t with
    | none => none
    | some s =>
      match Members.sumSizes f tl with
      | none => none
      | some r => some (s + r)

/-- Largest element size (`UnionType::getSize`), for the size function `f`. -/
def Members.maxSize (f : Ty → Option Nat) : Members → Option Nat
  | .nil => some 0
  | .cons t _ _ tl =>
    match f t with
    | none => none
    | some s =>
      match Members.maxSize f tl with
      | none => none
      | some r => some (max s r)

/-- The virtual method `Type::getSize` (in bits). -/
def Ty.getSize (env : Env) (nt : List (String × Ty)) : Nat → Ty → Option Nat
  | _, .integer s _ => some s
  | _, .float s => some s
  | _, .boolean => some 1
  | _, .char => some 8
  | _, .void => some 0
  | _, .func _ => some 0
  | _, .pointer _ => some env.STD_SIZE
  | _, .size s => some s
  | _, .upper b => some (env.halfSize (.upper b))
  | _, .lower b => some (env.halfSize (.lower b))
  | 0, .array _ _ => none
  | 0, .named _ => none
  | 0, .compound _ _ _ => none
  | 0, .union _ => none
  | fuel + 1, .array b l =>
    match Ty.getSize env nt fuel b with
    | none => none
    | some s => some (s * l)
  | fuel + 1, .named n =>
    match NamedType.resolvesTo nt (fuel + 1) n with
    | none => none
    | some none => some 0
    | some (some ty) => Ty.getSize env nt fuel ty
  | fuel + 1, .compound ms _ _ => Members.sumSizes (Ty.getSize env nt fuel) ms
  | fuel + 1, .union li => Members.maxSize (Ty.getSize env nt fuel) li

/-! ## Pointers, arrays, compounds -/

/-- `PointerType::pointsToAlpha`, on the pointee. -/
def PointerType.pointsToAlpha (points_to : Ty) : Bool :=
  match points_to with
  | .void => true
  | .named n => "alpha".toList.isPrefixOf n.toList
  | _ => false

/-- `PointerType::pointerDepth`, on the pointee. -/
def PointerType.pointerDepth : Ty → Nat
  | .pointer p => PointerType.pointerDepth p + 1
  | _ => 1

/-- `PointerType::getFinalPointsTo`, on the pointee. -/
def PointerType.getFinalPointsTo : Ty → Ty
  | .pointer p => PointerType.getFinalPointsTo p
  | t => t

/-- `ArrayType::convertLength(b)` on an array of base `BaseType` and length `Length`. -/
def ArrayType.convertLength (env : Env) (nt : List (String × Ty)) (fuel : Nat)
    (BaseType : Ty) (Length : Nat) (b : Ty) : Option Nat :=
  if Length ≠ env.NO_BOUND then
    match Ty.getSize env nt fuel BaseType, Ty.getSize env nt fuel b with
    | some oldBits, some newBits =>
      some (((if oldBits / 8 = 0 then 1 else oldBits / 8) * Length) /
        (if newBits / 8 = 0 then 1 else newBits / 8))
    | _, _ => none
  else some env.NO_BOUND

/-- Comparison of two `SharedType` members as pointers: both designate the same object. -/
def samePtr : Option Nat → Option Nat → Bool
  | some a, some b => a == b
  | _, _ => false

/-- The loop shared by `isSuperStructOf` and `isSubStructOf`: the first `n` members of both
vectors are the same objects, `n` being the length of `short`. -/
def Members.sameObjects : Members → Members → Bool
  | .nil, _ => true
  | .cons _ _ o tl, .cons _ _ o2 tl2 => samePtr o2 o && Members.sameObjects tl tl2
  | .cons _ _ _ _, .nil => false

/-- `CompoundType::isSuperStructOf(other)` on a compound with members `types`. -/
def CompoundType.isSuperStructOf (types : Members) (other : Ty) : Bool :=
  match other with
  | .compound otypes _ _ =>
    if otypes.length > types.length then false else Members.sameObjects otypes types
  | _ => false

/-- `CompoundType::isSubStructOf(other)` on a compound with members `types`. -/
def CompoundType.isSubStructOf (types : Members) (other : Ty) : Bool :=
  match other with
  | .compound otypes _ _ =>
    if types.length > otypes.length then false else Members.sameObjects types otypes
  | _ => false

/-- `Type::isSubTypeOrEqual`. -/
def Ty.isSubTypeOrEqual (nt : List (String × Ty)) (fuel : Nat) (this other : Ty) : Option Bool :=
  match Ty.resolved nt fuel this, Ty.resolved nt fuel other with
  | some rt, some ro =>
    if kindIs Ty.isVoid rt then some true
    else if Ty.opEq this other then some true
    else if kindIs Ty.isCompound rt && kindIs Ty.isCompound ro then
      match rt with
      | some (.compound types _ _) => some (CompoundType.isSubStructOf types other)
      | _ => none
    else some false
  | _, _ => none

/-! ## Compatibility -/

/-- A loop over members that returns false at the first member for which `f` is false. -/
def Members.allM (f : Ty → Option Bool) : Members → Option Bool
  | .nil => some true
  | .cons t _ _ tl =>
    match f t with
    | none => none
    | some false => some false
    | some true => Members.allM f tl

/-- A loop over members that returns true at the first member for which `f` is true. -/
def Members.anyM (f : Ty → Option Bool) : Members → Option Bool
  | .nil => some false
  | .cons t _ _ tl =>
    match f t with
    | none => none
    | some true => some true
    | some false => Members.anyM f tl

/-- The loop of `CompoundType::isCompatible` over two member vectors of the same length. -/
def Members.all2M (f : Ty → Ty → Option Bool) : Members → Members → Option Bool
  | .cons t _ _ tl, .cons t2 _ _ tl2 =>
    match f t t2 with
    | none => none
    | some false => some false
    | some true => Members.all2M f tl tl2
  | _, _ => some true

/-- The base type of a resolved array object. -/
def baseOf : Option Ty → Option Ty
  | some (.array b _) => some b
  | _ => none

/-- The element set of a resolved union object. -/
def elementsOf : Option Ty → Option Members
  | some (.union li) => some li
  | _ => none

/-- The test `other.resolvesToSize() && other.getSize() == n`. -/
def sizeIs (env : Env) (nt : List (String × Ty)) (fuel : Nat) (ro : Option Ty) (other : Ty)
    (n : Nat) : Option Bool :=
  if kindIs Ty.isSize ro then
    match Ty.getSize env nt fuel other with
    | none => none
    | some otherSize => some (decide (otherSize = n))
  else some false

mutual
/-- `Type::isCompatibleWith(other, all)`: delegates to the other type when that resolves to a
compound, an array or a union. -/
def Ty.isCompatibleWith (env : Env) (nt : List (String × Ty)) :
    Nat → Ty → Ty → Bool → Option Bool
  | 0, _, _, _ => none
  | fuel + 1, this, other, all =>
    match Ty.resolved nt fuel other with
    | none => none
    | some ro =>
      if kindIs Ty.isCompound ro || kindIs Ty.isArray ro || kindIs Ty.isUnion ro then
        Ty.isCompatible env nt fuel other this all
      else Ty.isCompatible env nt fuel this other all
/-- The virtual method `Type::isCompatible(other, all)`, one case per class.  Where the source
casts `other` to the class it resolves to, the resolved object is used. -/
def Ty.isCompatible (env : Env) (nt : List (String × Ty)) :
    Nat → Ty → Ty → Bool → Option Bool
  | 0, _, _, _ => none
  | fuel + 1, this, other, all =>
    match this with
    | .void => some true
    | .func none => none
    | .named name =>
      if (match other with
          | .named oname => name == oname
          | _ => false) then some true
      else
        match NamedType.resolvesTo nt fuel name with
        | none => none
        | some (some resTo) => Ty.isCompatibleWith env nt fuel resTo other false
        | some none =>
          match Ty.resolved nt fuel other with
          | none => none
          | some ro => if kindIs Ty.isVoid ro then some true else some (Ty.opEq this other)
    | _ =>
    match Ty.resolved nt fuel other with
    | none => none
    | some ro =>
      if kindIs Ty.isVoid ro then some true
      else
      match this with
      | .void => some true
      | .named _ => none
      | .size sz =>
        match Ty.getSize env nt fuel other with
        | none => none
        | some otherSize =>
          if kindIs Ty.isFunc ro then some false
          else if otherSize = sz then some true
          else if kindIs Ty.isUnion ro then Ty.isCompatibleWith env nt fuel other this false
          else if kindIs Ty.isArray ro then
            match baseOf ro with
            | none => none
            | some b => Ty.isCompatibleWith env nt fuel this b false
          else some false
      | .integer sz _ =>
        if kindIs Ty.isInteger ro then some true
        else if kindIs Ty.isChar ro then some true
        else if kindIs Ty.isUnion ro then Ty.isCompatibleWith env nt fuel other this false
        else sizeIs env nt fuel ro other sz
      | .float sz =>
        if kindIs Ty.isFloat ro then some true
        else if kindIs Ty.isUnion ro then Ty.isCompatibleWith env nt fuel other this false
        else if kindIs Ty.isArray ro then
          match baseOf ro with
          | none => none
          | some b => Ty.isCompatibleWith env nt fuel this b false
        else sizeIs env nt fuel ro other sz
      | .char =>
        if kindIs Ty.isChar ro then some true
        else if kindIs Ty.isInteger ro then some true
        else
          match sizeIs env nt fuel ro other 8 with
          | none => none
          | some true => some true
          | some false =>
            if kindIs Ty.isUnion ro then Ty.isCompatibleWith env nt fuel other this false
            else if kindIs Ty.isArray ro then
              match baseOf ro with
              | none => none
              | some b => Ty.isCompatibleWith env nt fuel this b false
            else some false
      | .boolean =>
        if kindIs Ty.isBoolean ro then some true
        else if kindIs Ty.isUnion ro then Ty.isCompatibleWith env nt fuel other this false
        else sizeIs env nt fuel ro other 1
      | .func signature =>
        match signature with
        | none => none
        | some sig =>
          if Ty.opEq this other then some true
          else if kindIs Ty.isUnion ro then Ty.isCompatibleWith env nt fuel other this false
          else
            match sizeIs env nt fuel ro other env.STD_SIZE with
            | none => none
            | some true => some true
            | some false =>
              match ro with
              | some (.func osig) =>
                (match osig with
                | some a => some (a == sig)
                | none => none)
              | _ => some false
      | .pointer points_to =>
        if kindIs Ty.isUnion ro then Ty.isCompatibleWith env nt fuel other this false
        else
          match sizeIs env nt fuel ro other env.STD_SIZE with
          | none => none
          | some true => some true
          | some false =>
            match ro with
            | some (.pointer opoints_to) =>
              Ty.isCompatibleWith env nt fuel points_to opoints_to false
            | _ => some false
      | .array BaseType _ =>
        match (match baseOf ro with
               | some ob => Ty.isCompatibleWith env nt fuel BaseType ob false
               | none => some false) with
        | none => none
        | some true => some true
        | some false =>
          if kindIs Ty.isUnion ro then Ty.isCompatibleWith env nt fuel other this false
          else if !all then Ty.isCompatibleWith env nt fuel BaseType other false
          else some false
      | .union li =>
        match elementsOf ro with
        | some oli =>
          if li.length < oli.length then
            Members.allM (fun e => Ty.isCompatible env nt fuel (.union oli) e all) li
          else Members.allM (fun e => Ty.isCompatible env nt fuel this e all) oli
        | none => Members.anyM (fun e => Ty.isCompatibleWith env nt fuel other e all) li
      | .compound types _ _ =>
        if kindIs Ty.isUnion ro then Ty.isCompatibleWith env nt fuel other this false
        else
          match ro with
          | some (.compound otypes _ _) =>
            if otypes.length ≠ types.length then some false
            else Members.all2M (fun a b => Ty.isCompatibleWith env nt fuel a b false) types otypes
          | _ =>
            if all then some false
            else
              match types.get? 0 with
              | none => none
              | some t0 => Ty.isCompatibleWith env nt fuel t0 other false
      | .upper base_type =>
        match (match ro with
               | some (.upper ob) => Ty.isCompatibleWith env nt fuel base_type ob false
               | _ => some false) with
        | none => none
        | some true => some true
        | some false =>
          if kindIs Ty.isUnion ro then Ty.isCompatibleWith env nt fuel other this false
          else some false
      | .lower base_type =>
        match (match ro with
               | some (.lower ob) => Ty.isCompatibleWith env nt fuel base_type ob false
               | _ => some false) with
        | none => none
        | some true => some true
        | some false =>
          if kindIs Ty.isUnion ro then Ty.isCompatibleWith env nt fuel other this false
          else some false
end

/-! ## The meet operator -/

/-- `return this` with the receiver now holding `this`. -/
def retThis (this : Ty) (ch : Bool) (g : Globals) : Option MeetResult :=
  some { ty := this, origin := .receiver, ch := ch, g := g }

/-- Return of an object created by the call. -/
def retNew (t : Ty) (ch : Bool) (g : Globals) : Option MeetResult :=
  some { ty := t, origin := .created, ch := ch, g := g }

/-- The name of the registry entry that `NamedType::resolvesTo` returns. -/
def NamedType.finalName (nt : List (String × Ty)) : Nat → String → Option String
  | 0, _ => none
  | fuel + 1, name =>
    match getNamedType nt name with
    | some (.named m) => NamedType.finalName nt fuel m
    | _ => some name

/-- The registry after the object registered under `name` has taken the value `ty`. -/
def setNamedType (nt : List (String × Ty)) (name : String) (ty : Ty) : List (String × Ty) :=
  nt.map (fun e => if e.1 == name then (e.1, ty) else e)

/-- Modelled from the spec: `setSize` is declared in type.h, which is not part of the sources;
an integer or float adopts the size, a pointer has no size of its own, and the method is not
defined for the other classes. -/
def Ty.setSize : Ty → Nat → Option Ty
  | .integer _ g, n => some (.integer n g)
  | .float _, n => some (.float n)
  | .pointer p, _ => some (.pointer p)
  | _, _ => none

/-- The name of the member at position `i`. -/
def Members.getName? : Members → Nat → Option String
  | .nil, _ => none
  | .cons _ n _ _, 0 => some n
  | .cons _ _ _ tl, i + 1 => Members.getName? tl i

/-- The best meet found so far by the search loop of `UnionType::meetWith`
(`best_meet_quality`, `best_so_far`, `location_of_meet`). -/
structure BestMeet where
  quality : Nat
  type : Ty
  location : Nat

/-- How the search loop of `UnionType::meetWith` ends: by `return this` inside the loop, or
by running to the end of the element set. -/
inductive ScanResult where
  | noChange (g : Globals)
  | finished (best : Option BestMeet) (ch : Bool) (g : Globals)

/-- The search loop of `UnionType::meetWith` over the elements from position `i` on.
`compat v` is `v.isCompatibleWith(*other)`, `meet g curr ch` is `curr->meetWith(other, ch,
bHighestPtr)` and `quality` is the length of `getCtype()`. -/
def UnionType.scan (compat : Ty → Option Bool)
    (meet : Globals → Ty → Bool → Option MeetResult) (quality : Ty → Nat) :
    Members → Nat → Option BestMeet → Bool → Globals → Option ScanResult
  | .nil, _, best, ch, g => some (.finished best ch g)
  | .cons v _ _ tl, i, best, ch, g =>
    match compat v with
    | none => none
    | some false => UnionType.scan compat meet quality tl (i + 1) best ch g
    | some true =>
      match meet g v.clone ch with
      | none => none
      | some r =>
        if !r.ch then some (.noChange r.g)
        else if (match best with
                 | none => true
                 | some b => decide (quality r.ty < b.quality)) then
          UnionType.scan compat meet quality tl (i + 1)
            (some { quality := quality r.ty, type := r.ty, location := i }) r.ch r.g
        else UnionType.scan compat meet quality tl (i + 1) best r.ch r.g

/-- The loop of `UnionType::meetWith` over the elements of another union:
`meetWith(it.type, ch, bHighestPtr)` for each element, the receiver being updated in place. -/
def UnionType.meetEach (meet : Globals → Ty → Ty → Bool → Option MeetResult) :
    Members → Ty → Bool → Globals → Option MeetResult
  | .nil, this, ch, g => retThis this ch g
  | .cons t _ _ tl, this, ch, g =>
    match meet g this t ch with
    | none => none
    | some r => UnionType.meetEach meet tl r.ty r.ch r.g

/-- What the block of `PointerType::meetWith` guarded by `otherBase->resolvesToPointer()`
decides: `return this`, `return other->clone()`, or nothing. -/
inductive PtrShortcut where
  | retThis
  | retOtherClone
  | fallThrough

/-- The block of `PointerType::meetWith` guarded by `otherBase->resolvesToPointer()`, for the
pointees `points_to` of the receiver and `otherBase` of the other pointer. -/
def PointerType.basesShortcut (nt : List (String × Ty)) (fuel : Nat) (points_to otherBase : Ty) :
    Option PtrShortcut :=
  match Ty.resolved nt fuel otherBase with
  | none => none
  | some rob =>
    if kindIs Ty.isPointer rob then
      if Ty.opEq points_to otherBase then some .retThis
      else if PointerType.pointerDepth points_to = PointerType.pointerDepth otherBase then
        match Ty.resolved nt fuel (PointerType.getFinalPointsTo points_to) with
        | none => none
        | some rf =>
          if kindIs Ty.isVoid rf then some .retOtherClone
          else
            match Ty.resolved nt fuel (PointerType.getFinalPointsTo otherBase) with
            | none => none
            | some rof =>
              if kindIs Ty.isVoid rof then some .retThis
              else if Ty.opEq (PointerType.getFinalPointsTo points_to)
                  (PointerType.getFinalPointsTo otherBase) then some .retThis
              else some .fallThrough
      else some .fallThrough
    else some .fallThrough

/-- The text `x<n>` of a new union member name. -/
def unionName (n : Nat) : String := "x" ++ Nat.repr n

mutual
/-- The virtual method `Type::meetWith(other, ch, bHighestPtr)`, one case per class.  The local
flag `base_changed` of `ArrayType::meetWith`, which the source passes on without a first
value, starts as false. -/
def Ty.meetWith (env : Env) : Nat → Globals → Ty → Ty → Bool → Bool → Option MeetResult
  | 0, _, _, _, _, _ => none
  | fuel + 1, g, this, other, ch, bHighestPtr =>
    match this with
    | .void =>
      match Ty.resolved g.namedTypes fuel other with
      | none => none
      | some ro => retNew other.clone (ch || !(kindIs Ty.isVoid ro)) g
    | .named name =>
      match NamedType.resolvesTo g.namedTypes fuel name with
      | none => none
      | some (some rt) =>
        match Ty.meetWith env fuel g rt other ch bHighestPtr with
        | none => none
        | some r =>
          if r.origin = .receiver then
            match NamedType.finalName g.namedTypes fuel name with
            | none => none
            | some key =>
              retThis this r.ch { r.g with namedTypes := setNamedType r.g.namedTypes key r.ty }
          else some r
      | some none =>
        match Ty.resolved g.namedTypes fuel other with
        | none => none
        | some ro =>
          if kindIs Ty.isVoid ro then retThis this ch g
          else if Ty.opEq this other then retThis this ch g
          else Ty.createUnion env fuel g this other ch bHighestPtr
    | _ =>
    match Ty.resolved g.namedTypes fuel other with
    | none => none
    | some ro =>
      if kindIs Ty.isVoid ro then retThis this ch g
      else
      match this with
      | .void => none
      | .named _ => none
      | .func _ =>
        if Ty.opEq this other then retThis this ch g
        else Ty.createUnion env fuel g this other ch bHighestPtr
      | .integer sz signedness =>
        match ro with
        | some (.integer osize osignedness) =>
          let signedness1 :=
            if osignedness > 0 then signedness + 1
            else if osignedness < 0 then signedness - 1
            else signedness
          let ch1 := ch || (decide (signedness1 > 0) != decide (signedness > 0))
          let ch2 := ch1 || (decide (signedness1 < 0) != decide (signedness < 0))
          let sz1 := max sz osize
          retThis (.integer sz1 signedness1) (ch2 || decide (sz1 ≠ sz)) g
        | some (.size osize) =>
          if sz = 0 then retThis (.integer osize signedness) ch g
          else if sz = osize then retThis this ch g
          else retThis (.integer (max sz osize) signedness) (decide (max sz osize ≠ sz)) g
        | _ => Ty.createUnion env fuel g this other ch bHighestPtr
      | .float sz =>
        match ro with
        | some (.float osize) =>
          retThis (.float (max sz osize)) (ch || decide (max sz osize ≠ sz)) g
        | some (.size _) =>
          match Ty.getSize env g.namedTypes fuel other with
          | none => none
          | some otherSize => retThis (.float (max sz otherSize)) (ch || decide (sz ≠ otherSize)) g
        | _ => Ty.createUnion env fuel g this other ch bHighestPtr
      | .boolean =>
        if kindIs Ty.isBoolean ro then retThis this ch g
        else Ty.createUnion env fuel g this other ch bHighestPtr
      | .char =>
        if kindIs Ty.isChar ro then retThis this ch g
        else if kindIs Ty.isInteger ro then retNew other.clone true g
        else
          match ro with
          | some (.size 8) => retThis this ch g
          | _ => Ty.createUnion env fuel g this other ch bHighestPtr
      | .pointer points_to =>
        if (match ro with
            | some (.size osize) => decide (osize = env.STD_SIZE)
            | _ => false) then retThis this ch g
        else
          match ro with
          | some (.pointer otherBase) =>
            if PointerType.pointsToAlpha points_to && !PointerType.pointsToAlpha otherBase then
              retThis (.pointer otherBase) true g
            else if bHighestPtr then
              match Ty.isSubTypeOrEqual g.namedTypes fuel points_to otherBase with
              | none => none
              | some true => retNew other.clone ch g
              | some false =>
                match Ty.isSubTypeOrEqual g.namedTypes fuel otherBase points_to with
                | none => none
                | some true => retThis this ch g
                | some false => retNew (.pointer .void) ch g
            else
              match PointerType.basesShortcut g.namedTypes fuel points_to otherBase with
              | none => none
              | some .retThis => retThis this ch g
              | some .retOtherClone => retNew other.clone ch g
              | some .fallThrough =>
                match Ty.isCompatibleWith env g.namedTypes fuel points_to otherBase false with
                | none => none
                | some true =>
                  match Ty.meetWith env fuel g points_to otherBase ch bHighestPtr with
                  | none => none
                  | some r => retThis (.pointer r.ty) r.ch r.g
                | some false => Ty.createUnion env fuel g this other ch bHighestPtr
          | _ => Ty.createUnion env fuel g this other ch bHighestPtr
      | .array BaseType Length =>
        match ro with
        | some (.array otherBase otherLength) =>
          match Ty.meetWith env fuel g BaseType.clone otherBase ch bHighestPtr with
          | none => none
          | some r =>
            if Ty.opNe r.ty BaseType then
              match ArrayType.convertLength env r.g.namedTypes fuel BaseType Length r.ty with
              | none => none
              | some Length1 =>
                retThis (.array r.ty (if otherLength < Length1 then otherLength else Length1))
                  true r.g
            else
              retThis (.array BaseType (if otherLength < Length then otherLength else Length))
                r.ch r.g
        | _ =>
          if Ty.opEq BaseType other then retThis this ch g
          else
            match Ty.isCompatible env g.namedTypes fuel this other false with
            | none => none
            | some false => Ty.createUnion env fuel g this other ch bHighestPtr
            | some true =>
              match Ty.getSize env g.namedTypes fuel BaseType,
                  Ty.getSize env g.namedTypes fuel other with
              | some bitsize, some new_size =>
                if env.isComplete BaseType && !env.isComplete other then retThis this ch g
                else if decide (bitsize = new_size) && !BaseType.isSize && other.isSize then
                  retThis this ch g
                else
                  match Ty.meetWith env fuel g BaseType.clone other false false with
                  | none => none
                  | some r =>
                    if r.origin = .receiver then retThis this ch r.g
                    else if Length ≠ env.NO_BOUND then
                      if new_size = 0 then none
                      else retNew (.array r.ty ((Length * bitsize) / new_size)) ch r.g
                    else retNew (.array r.ty Length) ch r.g
              | _, _ => none
      | .compound types _ _ =>
        match ro with
        | some (.compound otypes ogeneric onext) =>
          if CompoundType.isSuperStructOf otypes this then
            some { ty := other, origin := .argument, ch := true, g := g }
          else if CompoundType.isSubStructOf types (.compound otypes ogeneric onext) then
            retThis this true g
          else if Ty.opEq this other then retThis this ch g
          else Ty.createUnion env fuel g this other ch bHighestPtr
        | _ =>
          match types.get? 0 with
          | none => none
          | some t0 =>
            match Ty.isCompatibleWith env g.namedTypes fuel t0 other false with
            | none => none
            | some true => retThis this ch g
            | some false => Ty.createUnion env fuel g this other ch bHighestPtr
      | .union li =>
        match elementsOf ro with
        | some oli =>
          UnionType.meetEach (fun g1 t e c => Ty.meetWith env fuel g1 t e c bHighestPtr)
            oli this ch g
        | none =>
          match UnionType.scan
              (fun v => Ty.isCompatibleWith env g.namedTypes fuel v other false)
              (fun g1 curr c => Ty.meetWith env fuel g1 curr other c bHighestPtr)
              (fun t => (Ty.getCtype env false t).length) li 0 none ch g with
          | none => none
          | some (.noChange g1) => retThis this false g1
          | some (.finished (some best) ch1 g1) =>
            match li.getName? best.location with
            | none => none
            | some nm =>
              retThis (.union ((li.eraseIdx best.location).insert best.type nm none)) ch1 g1
          | some (.finished none _ g1) =>
            retThis
              (.union (UnionType.addType li other.clone (unionName (g1.nextUnionNumber + 1)) none))
              true { g1 with nextUnionNumber := g1.nextUnionNumber + 1 }
      | .size sz =>
        match ro with
        | some (.size osize) =>
          if osize ≠ sz then retThis (.size (max sz osize)) (decide (max sz osize ≠ sz)) g
          else retThis this ch g
        | _ =>
          if kindIs Ty.isInteger ro || kindIs Ty.isFloat ro || kindIs Ty.isPointer ro then
            match Ty.getSize env g.namedTypes fuel other with
            | none => none
            | some otherSize =>
              if otherSize = 0 then
                match other.setSize sz with
                | none => none
                | some other1 => retNew other1.clone true g
              else retNew other.clone true g
          else Ty.createUnion env fuel g this other true bHighestPtr
      | .upper base_type =>
        match ro with
        | some (.upper otherBase) =>
          match Ty.meetWith env fuel g base_type.clone otherBase ch bHighestPtr with
          | none => none
          | some r =>
            if Ty.opNe r.ty base_type then retThis (.upper r.ty) true r.g
            else retThis this r.ch r.g
        | _ => Ty.createUnion env fuel g this other ch bHighestPtr
      | .lower _ =>
        match ro with
        | some (.upper _) => none
        | _ => Ty.createUnion env fuel g this other ch bHighestPtr
/-- `Type::createUnion(other, ch, bHighestPtr)`. -/
def Ty.createUnion (env : Env) : Nat → Globals → Ty → Ty → Bool → Bool → Option MeetResult
  | 0, _, _, _, _, _ => none
  | fuel + 1, g, this, other, ch, bHighestPtr =>
    match Ty.resolved g.namedTypes fuel this, Ty.resolved g.namedTypes fuel other with
    | some rt, some ro =>
      if kindIs Ty.isUnion rt then none
      else if kindIs Ty.isUnion ro then
        match Ty.meetWith env fuel g other this ch bHighestPtr with
        | none => none
        | some r => retNew r.ty.clone r.ch r.g
      else
        match (match ro with
               | some (.compound otypes _ _) =>
                 (match otypes.get? 0 with
                  | none => none
                  | some firstType => Ty.isCompatibleWith env g.namedTypes fuel firstType this false)
               | _ => some false) with
        | none => none
        | some true => retNew other.clone ch g
        | some false =>
          match (match ro with
                 | some (.array elemTy _) =>
                   Ty.isCompatibleWith env g.namedTypes fuel elemTy this false
                 | _ => some false) with
          | none => none
          | some true => retNew other.clone ch g
          | some false =>
            retNew
              (.union (UnionType.addType
                (UnionType.addType .nil this.clone (unionName (g.nextUnionNumber + 1)) none)
                other.clone (unionName (g.nextUnionNumber + 2)) none))
              true { g with nextUnionNumber := g.nextUnionNumber + 2 }
    | _, _ => none
end

/-! ## Pointer objects

`PointerType::setPointsTo` and the two assignments to `points_to` in `PointerType::meetWith`
compare and store object addresses; they are followed here on the addresses themselves. -/

/-- The address of a `Type` object. -/
abbrev Ref := Nat

/-- The objects that the methods of `PointerType` read and write: for each pointer object the
object that its `points_to` designates, which objects are of class `VoidType`, and the first
address that is not yet in use. -/
structure Heap where
  points_to : Ref → Option Ref
  isVoidObj : Ref → Bool
  next : Ref

/-- `VoidType::get()`: a new object of class `VoidType`, as `IntegerType::get` and
`FloatType::get` make a new object in type.cpp. -/
def Heap.newVoid (h : Heap) : Heap × Ref :=
  ({ h with isVoidObj := fun r => if r = h.next then true else h.isVoidObj r,
            next := h.next + 1 }, h.next)

/-- `PointerType::setPointsTo(p)` on the pointer object `self`. -/
def PointerType.setPointsTo (h : Heap) (self p : Ref) : Heap :=
  if p = self then
    { (h.newVoid).1 with
        points_to := fun r => if r = self then some (h.newVoid).2 else h.points_to r }
  else { h with points_to := fun r => if r = self then some p else h.points_to r }

/-- The constructor `PointerType::PointerType(p)`: the new pointer object and the heap that
holds it. -/
def PointerType.create (h : Heap) (p : Ref) : Heap × Ref :=
  (PointerType.setPointsTo { h with next := h.next + 1 } h.next p, h.next)

/-- The object that `points_to` of the receiver `self` designates after
`PointerType::meetWith(other, ch, bHighestPtr)`.  Before the call it designates `pt`, an object
of value `points_to`; `opt` is the object `otherPtr->getPointsTo()` when `other` resolves to a
pointer; `fresh` is the address of the object that the meet of the two pointees creates, when
it creates one.  The branches are those of the pointer case of `Ty.meetWith`, with the test
`otherPtr->getPointsTo() == shared_from_this()` made on the addresses. -/
def PointerType.pointeeAfterMeet (env : Env) (fuel : Nat) (g : Globals)
    (self pt opt fresh : Ref) (points_to other : Ty) (ch bHighestPtr : Bool) : Option Ref :=
  match Ty.meetWith env (fuel + 1) g (.pointer points_to) other ch bHighestPtr with
  | none => none
  | some _ =>
    match Ty.resolved g.namedTypes fuel other with
    | some (some (.pointer otherBase)) =>
      if PointerType.pointsToAlpha points_to && !PointerType.pointsToAlpha otherBase then
        if opt = self then some pt else some opt
      else if bHighestPtr then some pt
      else
        match PointerType.basesShortcut g.namedTypes fuel points_to otherBase with
        | some .fallThrough =>
          match Ty.isCompatibleWith env g.namedTypes fuel points_to otherBase false with
          | some true =>
            match Ty.meetWith env fuel g points_to otherBase ch bHighestPtr with
            | none => none
            | some r =>
              match r.origin with
              | .receiver => some pt
              | .argument => some opt
              | .created => some fresh
          | _ => some pt
        | _ => some pt
    | _ => some pt

/-! ## Notions used to state the properties -/

/-- A configuration for evaluations on concrete types: 32-bit pointers. -/
def sampleEnv : Env :=
  { STD_SIZE := 32, NO_BOUND := 9999999, isComplete := fun _ => true,
    sigCtype := fun _ _ => "void (void)", halfSize := fun _ => 16 }

/-- A heap of two objects: the Void object 0 and the pointer object 1, which points to it. -/
def sampleHeap : Heap :=
  { points_to := fun r => if r = 1 then some 0 else none, isVoidObj := fun r => r == 0, next := 2 }

/-- The state of a process that has registered no named type and created no union. -/
def noGlobals : Globals := { namedTypes := [], nextUnionNumber := 0 }

/-- The state after `Type::addNamedType("size_t", unsigned 32-bit integer)`. -/
def sizeTGlobals : Globals :=
  { namedTypes := [("size_t", .integer 32 (-1))], nextUnionNumber := 0 }

/-- The state after `Type::addNamedType("voidname", Void)`. -/
def voidNameGlobals : Globals := { namedTypes := [("voidname", .void)], nextUnionNumber := 0 }

/-- The types Void, Integer (signedness -1, 0 or +1, the three values of the data model),
Float, Boolean, Char and Func. -/
def Ty.isBasic : Ty → Bool
  | .void => true
  | .func _ => true
  | .integer _ sg => decide (-1 ≤ sg ∧ sg ≤ 1)
  | .float _ => true
  | .boolean => true
  | .char => true
  | _ => false

/-- One of the two types is Char and the other an Integer. -/
def charWithInteger (a b : Ty) : Bool :=
  (a.isChar && b.isInteger) || (a.isInteger && b.isChar)

/-- The types Void, Integer, Float, Boolean, Char, Func and Size. -/
def Ty.isScalar : Ty → Bool
  | .void => true
  | .func _ => true
  | .integer _ _ => true
  | .float _ => true
  | .boolean => true
  | .char => true
  | .size _ => true
  | _ => false

/-- The pairs (receiver, argument) of scalar types that `isCompatibleWith` accepts and for
which `meetWith` has no case: Integer with Char, Boolean with Size(1), Size(1) with Boolean,
Size(8) with Char, and Func with Size(STD_SIZE). -/
def compatibleWithoutCase (env : Env) : Ty → Ty → Bool
  | .integer _ _, .char => true
  | .boolean, .size n => n == 1
  | .size n, .boolean => n == 1
  | .size n, .char => n == 8
  | .func _, .size n => n == env.STD_SIZE
  | _, _ => false

/-- The elements of `rest` can be inserted one after the other into the set `acc`: none of
them is a union and none is found among `acc` and the elements before it. -/
def Members.isSetAfter : Members → Members → Bool
  | _, .nil => true
  | acc, .cons t n o tl =>
    !t.isUnion && !acc.find t && Members.isSetAfter (acc.append (.cons t n o .nil)) tl

mutual
/-- Every union that `clone` copies is a set: built by inserting its elements, none of which
is a union.  The condition follows the recursion of `clone`, which copies the elements of a
union without cloning them. -/
def Ty.unionsAreSets : Ty → Bool
  | .pointer p => Ty.unionsAreSets p
  | .array b _ => Ty.unionsAreSets b
  | .compound ms _ _ => Members.unionsAreSets ms
  | .union li => Members.isSetAfter .nil li
  | .upper b => Ty.unionsAreSets b
  | .lower b => Ty.unionsAreSets b
  | _ => true
/-- `Ty.unionsAreSets` for every member of a compound. -/
def Members.unionsAreSets : Members → Bool
  | .nil => true
  | .cons t _ _ tl => Ty.unionsAreSets t && Members.unionsAreSets tl
end

/-- The type that `a.meetWith(b, ch)` returns when called with `ch` false and without the
highest-pointer preference, from the state `noGlobals`. -/
def Ty.meet (env : Env) (fuel : Nat) (a b : Ty) : Option Ty :=
  (Ty.meetWith env fuel noGlobals a b false false).map (fun r => r.ty)

/-- The order of the lattice: `a ⊑ b` when `a meet b` equals `a` under `operator==`. -/
def Ty.le (env : Env) (fuel : Nat) (a b : Ty) : Option Bool :=
  (Ty.meet env fuel a b).map (fun r => Ty.opEq r a)

/-- The types Void, Boolean, Char and Float of a known (non-zero) size. -/
def Ty.isPlain : Ty → Bool
  | .void => true
  | .boolean => true
  | .char => true
  | .float s => decide (s ≠ 0)
  | _ => false

/-! ## The data-interval map -/

/-- `DataInterval`: the size in bytes, the name and the type of one item. -/
structure DataInterval where
  size : Nat
  name : String
  type : Ty

/-- `DataIntervalEntry`: the address of an item (`first`) and its interval (`second`). -/
abbrev DataIntervalEntry := Nat × DataInterval

/-- Values that the map takes from headers that are not part of the sources. -/
structure MapEnv where
  /-- the number of bits of an `ADDRESS` -/
  addrBits : Nat
  /-- the method `Type::getBytes`, as a function of the size in bits (`getSize()`) -/
  getBytes : Nat → Nat

/-- The sum of an address and an offset, in the width of `ADDRESS`. -/
def MapEnv.add (m : MapEnv) (a b : Nat) : Nat := (a + b) % 2 ^ m.addrBits

/-- The difference of two addresses, in the width of `ADDRESS`. -/
def MapEnv.sub (m : MapEnv) (a b : Nat) : Nat :=
  (a + (2 ^ m.addrBits - b % 2 ^ m.addrBits)) % 2 ^ m.addrBits

/-- The messages that the map logs. -/
inductive TypeError where
  | weavesAfter
  | weavesBefore
  | memberNotCompatible
  | notStructOrArray
  | structNotCompatible
  | arrayNotCompatible
  | overlapping
  | difference
  deriving DecidableEq, Repr

/-- The state that the operations of a `DataIntervalMap` leave: the map `dimap` (a `std::map`,
held as the list of its entries in increasing order of address), the global state of the type
algebra, the value of the type object that was passed to `addItem`, and the message logged. -/
structure MapResult where
  dimap : List DataIntervalEntry
  g : Globals
  ty : Ty
  error : Option TypeError

namespace DataIntervalMap

/-- The entry just before `dimap.upper_bound(k)`: the last entry whose address is at most `k`;
`none` when `upper_bound` is `begin()`. -/
def beforeUpperBound : List DataIntervalEntry → Nat → Option DataIntervalEntry
  | [], _ => none
  | e :: tl, k =>
    if e.1 ≤ k then
      match beforeUpperBound tl k with
      | some e2 => some e2
      | none => some e
    else none

/-- `DataIntervalMap::find_it`. -/
def find_it (dimap : List DataIntervalEntry) (addr : Nat) : Option DataIntervalEntry :=
  match beforeUpperBound dimap addr with
  | none => none
  | some it => if addr ≥ it.1 && decide (addr - it.1 < it.2.size) then some it else none

/-- `DataIntervalMap::find`. -/
def find (dimap : List DataIntervalEntry) (addr : Nat) : Option DataIntervalEntry :=
  find_it dimap addr

/-- The map after the entry at address `k` has been given the data `d`. -/
def assign : List DataIntervalEntry → Nat → DataInterval → List DataIntervalEntry
  | [], _, _ => []
  | e :: tl, k, d => if e.1 = k then (k, d) :: tl else e :: assign tl k d

/-- `ArrayType::isUnbounded` on a type of class `ArrayType`. -/
def isUnboundedArray (env : Env) : Ty → Bool
  | .array _ Length => Length == env.NO_BOUND
  | _ => false

/-- `DataIntervalMap::isClear(addr, size)`: the answer and the map afterwards. -/
def isClear (env : Env) (m : MapEnv) (dimap : List DataIntervalEntry) (addr size : Nat) :
    Bool × List DataIntervalEntry :=
  match beforeUpperBound dimap (m.sub (m.add addr size) 1) with
  | none => (true, dimap)
  | some it =>
    if (if m.add it.1 it.2.size < it.1 then 0xFFFFFFFF else m.add it.1 it.2.size) ≤ addr then
      (true, dimap)
    else if isUnboundedArray env it.2.type then
      (true, assign dimap it.1 { it.2 with size := m.sub addr it.1 })
    else (false, dimap)

/-- The iterator `upper_bound(last)` stands strictly before `lower_bound(addr)`: some entry has
its address after `last` and before `addr`. -/
def crossed (dimap : List DataIntervalEntry) (addr last : Nat) : Bool :=
  dimap.any (fun e => decide (last < e.1) && decide (e.1 < addr))

/-- The entries that a loop `for (it = lower_bound(addr); it != upper_bound(last); ++it)`
visits; `none` when the loop runs past `dimap.end()`. -/
def between (dimap : List DataIntervalEntry) (addr last : Nat) :
    Option (List DataIntervalEntry) :=
  if crossed dimap addr last then none
  else some (dimap.filter (fun e => decide (addr ≤ e.1) && decide (e.1 ≤ last)))

/-- The loop `for (it = it1; it != it2 && it != dimap.end();) dimap.erase(it++)` with
`it1 = lower_bound(addr)` and `it2 = upper_bound(last)`. -/
def eraseRange (dimap : List DataIntervalEntry) (addr last : Nat) : List DataIntervalEntry :=
  if crossed dimap addr last then dimap.filter (fun e => !decide (addr ≤ e.1))
  else dimap.filter (fun e => !(decide (addr ≤ e.1) && decide (e.1 ≤ last)))

/-- `dimap[addr] = d`: the entry is created in its place when there is none. -/
def put : List DataIntervalEntry → Nat → DataInterval → List DataIntervalEntry
  | [], k, d => [(k, d)]
  | e :: tl, k, d =>
    if k < e.1 then (k, d) :: e :: tl
    else if e.1 = k then (k, d) :: tl
    else e :: put tl k d

end DataIntervalMap

/-! ### Members of a compound at a bit offset -/

/-- The position of the member that covers the bit offset `n`, the members before it taking
`offset` bits: the search loop of `getTypeAtOffset`, `setTypeAtOffset` and `getNameAtOffset`.
The outer `none` is a size that cannot be computed, the inner `none` the end of the loop. -/
def Members.indexAtOffset (sz : Ty → Option Nat) : Members → Nat → Nat → Option (Option Nat)
  | .nil, _, _ => some none
  | .cons t _ _ tl, offset, n =>
    match sz t with
    | none => none
    | some s =>
      if offset ≤ n && decide (n < offset + s) then some (some 0)
      else
        match Members.indexAtOffset sz tl (offset + s) n with
        | none => none
        | some none => some none
        | some (some i) => some (some (i + 1))

/-- `CompoundType::getTypeAtOffset(n)`; the inner `none` is the null pointer. -/
def CompoundType.getTypeAtOffset (sz : Ty → Option Nat) (types : Members) (n : Nat) :
    Option (Option Ty) :=
  match Members.indexAtOffset sz types 0 n with
  | none => none
  | some none => some none
  | some (some i) => some (types.get? i)

/-- `CompoundType::getNameAtOffset(n)`; the inner `none` is the null string. -/
def CompoundType.getNameAtOffset (sz : Ty → Option Nat) (types : Members) (n : Nat) :
    Option (Option String) :=
  match Members.indexAtOffset sz types 0 n with
  | none => none
  | some none => some none
  | some (some i) => some (types.getName? i)

/-- The member list with the type at position `i` replaced.  With `same` the object of the
member is the one it was, with a new value; otherwise the member holds another object
(`types[i] = ty`). -/
def Members.setType : Members → Nat → Ty → Bool → Members
  | .nil, _, _, _ => .nil
  | .cons _ n o tl, 0, ty, same => .cons ty n (if same then o else none) tl
  | .cons t n o tl, i + 1, ty, same => .cons t n o (Members.setType tl i ty same)

/-- The member list with a new member put at position `i`, the members from `i` on moving up
by one place. -/
def Members.insertAt : Members → Nat → Ty → String → Members
  | ms, 0, ty, name => .cons ty name none ms
  | .nil, _ + 1, ty, name => .cons ty name none .nil
  | .cons t n o tl, i + 1, ty, name => .cons t n o (Members.insertAt tl i ty name)

/-- `CompoundType::setTypeAtOffset(n, ty)` on the member vectors: the member that covers bit
`n` takes the type `ty`, and when `ty` is smaller a member `pad` of class `SizeType` follows it
for the difference.  `sz` is `getSize()` at the time of the call. -/
def CompoundType.setTypeAtOffset (sz : Ty → Option Nat) (types : Members) (n : Nat) (ty : Ty)
    (same : Bool) : Option Members :=
  match Members.indexAtOffset sz types 0 n with
  | none => none
  | some none => some types
  | some (some i) =>
    match types.get? i with
    | none => none
    | some old =>
      match sz old, sz ty with
      | some oldsz, some newsz =>
        if newsz < oldsz then
          some (Members.insertAt (Members.setType types i ty same) (i + 1)
            (.size (oldsz - newsz)) "pad")
        else some (Members.setType types i ty same)
      | _, _ => none

/-- `ArrayType::setBaseType(b)`: the length after the call.  `cur` is the value of the object
`BaseType` at the time of the call. -/
def ArrayType.setBaseTypeLength (env : Env) (sz : Ty → Option Nat) (cur : Ty) (Length : Nat)
    (b : Ty) : Option Nat :=
  if Length ≠ env.NO_BOUND then
    match sz cur, sz b with
    | some oldBits, some newBits =>
      some (((if oldBits / 8 = 0 then 1 else oldBits / 8) * Length) /
        (if newBits / 8 = 0 then 1 else newBits / 8))
    | _, _ => none
  else some Length

/-! ### Insertion into the map -/

/-- The effect of a change made through `asCompound()` or `asArray()` to the object that `ty`
resolves to: a type that is not named takes the new value, a named type leaves the new value
in the registry. -/
def storeResolved (g : Globals) (fuel : Nat) (ty val : Ty) : Option (Ty × Globals) :=
  match ty with
  | .named n =>
    match NamedType.finalName g.namedTypes fuel n with
    | none => none
    | some key => some (ty, { g with namedTypes := setNamedType g.namedTypes key val })
  | _ => some (val, g)

namespace DataIntervalMap

/-- `DataIntervalMap::enterComponent`.  `ch` is the value that the local `ch`, which the
source does not initialise, holds when it is passed to `meetWith`. -/
def enterComponent (env : Env) (m : MapEnv) (fuel : Nat) (g : Globals)
    (dimap : List DataIntervalEntry) (pdie : DataIntervalEntry) (addr : Nat) (ty : Ty)
    (ch : Bool) : Option MapResult :=
  match Ty.resolved g.namedTypes fuel pdie.2.type with
  | none => none
  | some (some (.compound types generic nextGenericMemberNum)) =>
    match Members.indexAtOffset (Ty.getSize env g.namedTypes fuel) types 0
        (m.sub addr pdie.1 * 8) with
    | some (some i) =>
      match types.get? i with
      | none => none
      | some memberType =>
        match Ty.isCompatibleWith env g.namedTypes fuel memberType ty false with
        | none => none
        | some false =>
          some { dimap := dimap, g := g, ty := ty, error := some .memberNotCompatible }
        | some true =>
          match Ty.meetWith env fuel g memberType ty ch false with
          | none => none
          | some r =>
            match CompoundType.setTypeAtOffset (Ty.getSize env r.g.namedTypes fuel)
                (if r.origin = .receiver then Members.setType types i r.ty true else types)
                (m.sub addr pdie.1 * 8) r.ty (decide (r.origin = .receiver)) with
            | none => none
            | some types1 =>
              match storeResolved r.g fuel pdie.2.type
                  (.compound types1 generic nextGenericMemberNum) with
              | none => none
              | some (t1, g1) =>
                some { dimap := assign dimap pdie.1 { pdie.2 with type := t1 }, g := g1,
                       ty := ty, error := none }
    | _ => none
  | some (some (.array BaseType Length)) =>
    match Ty.isCompatibleWith env g.namedTypes fuel BaseType ty false with
    | none => none
    | some false => some { dimap := dimap, g := g, ty := ty, error := some .memberNotCompatible }
    | some true =>
      match Ty.meetWith env fuel g BaseType ty ch false with
      | none => none
      | some r =>
        match ArrayType.setBaseTypeLength env (Ty.getSize env r.g.namedTypes fuel)
            (if r.origin = .receiver then r.ty else BaseType) Length r.ty with
        | none => none
        | some Length1 =>
          match storeResolved r.g fuel pdie.2.type (.array r.ty Length1) with
          | none => none
          | some (t1, g1) =>
            some { dimap := assign dimap pdie.1 { pdie.2 with type := t1 }, g := g1,
                   ty := ty, error := none }
  | some _ => some { dimap := dimap, g := g, ty := ty, error := some .notStructOrArray }

/-- `DataIntervalMap::checkMatching`. -/
def checkMatching (env : Env) (fuel : Nat) (g : Globals) (dimap : List DataIntervalEntry)
    (pdie : DataIntervalEntry) (ty : Ty) : Option MapResult :=
  match Ty.isCompatibleWith env g.namedTypes fuel pdie.2.type ty false with
  | none => none
  | some true =>
    match Ty.meetWith env fuel g pdie.2.type ty false false with
    | none => none
    | some r =>
      some { dimap := assign dimap pdie.1 { pdie.2 with type := r.ty }, g := r.g, ty := ty,
             error := none }
  | some false => some { dimap := dimap, g := g, ty := ty, error := some .difference }

/-- What the first part of `replaceComponents` leaves: the map, the global state, the value of
the new type, the flag `ch`, and whether the new type is compatible with what it overlaps. -/
structure Checked where
  dimap : List DataIntervalEntry
  g : Globals
  ty : Ty
  ch : Bool
  ok : Bool

/-- The loop of `replaceComponents` for a new type that resolves to a compound, over the
entries `its` that the new item overlaps.  `ty` is the type passed to `addItem` and `types` the
members of the compound it resolves to. -/
def checkCompound (env : Env) (m : MapEnv) (fuel : Nat) (addr : Nat) (ty : Ty)
    (generic : Bool) (nextGenericMemberNum : Nat) :
    List DataIntervalEntry → List DataIntervalEntry → Globals → Members → Bool → Option Checked
  | [], dimap, g, types, ch =>
    match storeResolved g fuel ty (.compound types generic nextGenericMemberNum) with
    | none => none
    | some (t1, _) => some { dimap := dimap, g := g, ty := t1, ch := ch, ok := true }
  | it :: rest, dimap, g, types, ch =>
    match CompoundType.getTypeAtOffset (Ty.getSize env g.namedTypes fuel) types
        (m.sub it.1 addr * 8) with
    | some (some memberType) =>
      match Ty.isCompatibleWith env g.namedTypes fuel memberType it.2.type true with
      | none => none
      | some false =>
        match storeResolved g fuel ty (.compound types generic nextGenericMemberNum) with
        | none => none
        | some (t1, _) => some { dimap := dimap, g := g, ty := t1, ch := ch, ok := false }
      | some true =>
        match Ty.meetWith env fuel g it.2.type memberType ch false with
        | none => none
        | some r =>
          match CompoundType.setTypeAtOffset (Ty.getSize env r.g.namedTypes fuel) types
              (m.sub it.1 addr * 8) r.ty false with
          | none => none
          | some types1 =>
            match storeResolved r.g fuel ty (.compound types1 generic nextGenericMemberNum) with
            | none => none
            | some (_, g1) =>
              checkCompound env m fuel addr ty generic nextGenericMemberNum rest
                (if r.origin = .receiver then assign dimap it.1 { it.2 with type := r.ty }
                 else dimap) g1 types1 r.ch
    | _ => none

/-- The loop of `replaceComponents` for a new type that resolves to an array, over the entries
`its` that the new item overlaps.  `memberType` is the value of the object that the local
`memberType` designates, which is the base of the array. -/
def checkArray (env : Env) (fuel : Nat) (ty : Ty) :
    List DataIntervalEntry → List DataIntervalEntry → Globals → Ty → Nat → Bool → Option Checked
  | [], dimap, g, memberType, Length, ch =>
    match storeResolved g fuel ty (.array memberType Length) with
    | none => none
    | some (t1, _) => some { dimap := dimap, g := g, ty := t1, ch := ch, ok := true }
  | it :: rest, dimap, g, memberType, Length, ch =>
    match Ty.isCompatibleWith env g.namedTypes fuel memberType it.2.type true with
    | none => none
    | some false =>
      match storeResolved g fuel ty (.array memberType Length) with
      | none => none
      | some (t1, _) => some { dimap := dimap, g := g, ty := t1, ch := ch, ok := false }
    | some true =>
      match Ty.meetWith env fuel g memberType it.2.type ch false with
      | none => none
      | some r =>
        match ArrayType.setBaseTypeLength env (Ty.getSize env r.g.namedTypes fuel)
            (if r.origin = .receiver then r.ty else memberType) Length r.ty with
        | none => none
        | some Length1 =>
          match storeResolved r.g fuel ty (.array r.ty Length1) with
          | none => none
          | some (_, g1) => checkArray env fuel ty rest dimap g1 r.ty Length1 r.ch

/-- `DataIntervalMap::replaceComponents`.  The part that renames the locals of the procedure
does not touch the map and is left out.  `ch` is the value that the local `ch`, which the
source does not initialise, holds when it is first passed to `meetWith`. -/
def replaceComponents (env : Env) (m : MapEnv) (fuel : Nat) (g : Globals)
    (dimap : List DataIntervalEntry) (addr : Nat) (name : String) (ty : Ty) (ch : Bool) :
    Option MapResult :=
  match Ty.getSize env g.namedTypes fuel ty, Ty.resolved g.namedTypes fuel ty with
  | some bits, some rt =>
    match (match rt with
           | some (.compound types generic nextGenericMemberNum) =>
             match between dimap addr (m.sub (m.add addr (bits / 8)) 1) with
             | none => none
             | some its =>
               checkCompound env m fuel addr ty generic nextGenericMemberNum its dimap g types ch
           | some (.array BaseType Length) =>
             match between dimap addr (m.sub (m.add addr (bits / 8)) 1) with
             | none => none
             | some its => checkArray env fuel ty its dimap g BaseType Length ch
           | _ =>
             some { dimap := (isClear env m dimap addr ((bits + 7) / 8)).2, g := g, ty := ty,
                    ch := ch, ok := (isClear env m dimap addr ((bits + 7) / 8)).1 }) with
    | none => none
    | some c =>
      if c.ok then
        match Ty.getSize env c.g.namedTypes fuel c.ty with
        | none => none
        | some bits1 =>
          some { dimap := put (eraseRange c.dimap addr (m.sub (m.add addr (bits / 8)) 1)) addr
                            { size := m.getBytes bits1, name := name, type := c.ty },
                 g := c.g, ty := c.ty, error := none }
      else
        some { dimap := c.dimap, g := c.g, ty := c.ty,
               error := some (if kindIs Ty.isCompound rt then .structNotCompatible
                              else if kindIs Ty.isArray rt then .arrayNotCompatible
                              else .overlapping) }
  | _, _ => none

/-- `DataIntervalMap::addItem(addr, name, ty, forced)`.  A null `name` is `none`. -/
def addItem (env : Env) (m : MapEnv) (fuel : Nat) (g : Globals)
    (dimap : List DataIntervalEntry) (addr : Nat) (name : Option String) (ty : Ty)
    (ch : Bool) : Option MapResult :=
  match find dimap addr with
  | none => replaceComponents env m fuel g dimap addr (name.getD "<noname>") ty ch
  | some pdie =>
    match Ty.getSize env g.namedTypes fuel ty with
    | none => none
    | some bits =>
      if pdie.1 < addr then
        if m.add pdie.1 pdie.2.size < m.add addr (bits / 8) then
          some { dimap := dimap, g := g, ty := ty, error := some .weavesAfter }
        else enterComponent env m fuel g dimap pdie addr ty ch
      else if pdie.1 = addr then
        if m.add pdie.1 pdie.2.size < m.add addr (bits / 8) then
          replaceComponents env m fuel g dimap addr (name.getD "<noname>") ty ch
        else if m.add pdie.1 pdie.2.size = m.add addr (bits / 8) then
          checkMatching env fuel g dimap pdie ty
        else enterComponent env m fuel g dimap pdie addr ty ch
      else if m.add pdie.1 pdie.2.size > m.add addr (bits / 8) then
        some { dimap := dimap, g := g, ty := ty, error := some .weavesBefore }
      else replaceComponents env m fuel g dimap addr (name.getD "<noname>") ty ch

end DataIntervalMap

/-- The compound `struct { int a; char b; }`, whose member objects are the objects 1 and 2. -/
def sampleLong : Ty :=
  .compound (.cons (.integer 32 1) "a" (some 1) (.cons .char "b" (some 2) .nil)) false 1

/-- The compound `struct { int a; }`, whose member object is the object 1. -/
def sampleShort : Ty := .compound (.cons (.integer 32 1) "a" (some 1) .nil) false 1

/-- The compound `struct { int x; float y; }`, with member objects of its own. -/
def sampleIntFloat : Ty :=
  .compound (.cons (.integer 32 1) "x" none (.cons (.float 32) "y" none .nil)) false 1

/-- The compound `struct { float x; float y; }`, with member objects of its own. -/
def sampleFloats : Ty :=
  .compound (.cons (.float 32) "x" none (.cons (.float 32) "y" none .nil)) false 1

/-- The union `union { char x1; int[4] x2; }`. -/
def sampleUnion : Ty :=
  .union (.cons .char "x1" none (.cons (.array (.integer 32 1) 4) "x2" none .nil))

/-- A configuration of the map for evaluations: addresses of 32 bits, and `getBytes` rounding
the size in bits up to whole bytes, as `replaceComponents` does when it calls `isClear`. -/
def sampleMapEnv : MapEnv := { addrBits := 32, getBytes := fun bits => (bits + 7) / 8 }

/-- Every entry of the map ends at or before the address of the next entry, and the addresses
increase strictly. -/
def DataIntervalMap.ordered : List DataIntervalEntry → Bool
  | [] => true
  | e :: tl =>
    (match tl with
     | [] => true
     | e2 :: _ => decide (e.1 < e2.1) && decide (e.1 + e.2.size ≤ e2.1)) &&
    DataIntervalMap.ordered tl

/-- Two entries overlap: they are at different addresses and some byte belongs to both. -/
def DataIntervalMap.overlap (a b : DataIntervalEntry) : Bool :=
  decide (a.1 ≠ b.1) && decide (a.1 < b.1 + b.2.size) && decide (b.1 < a.1 + a.2.size)

/-- `addItem` from the state `r` with the sample configuration, a state without result
staying so. -/
def DataIntervalMap.thenAdd (r : Option MapResult) (addr : Nat) (name : String) (ty : Ty) :
    Option MapResult :=
  r.bind (fun s => DataIntervalMap.addItem sampleEnv sampleMapEnv 10 s.g s.dimap addr
    (some name) ty false)

/-- The empty map of a process that has registered no named type. -/
def DataIntervalMap.empty : Option MapResult :=
  some { dimap := [], g := noGlobals, ty := .void, error := none }

/-- The addresses, sizes and names of the entries of a map. -/
def DataIntervalMap.layout (r : Option MapResult) : Option (List (Nat × Nat × String)) :=
  r.map (fun s => s.dimap.map (fun e => (e.1, e.2.size, e.2.name)))

/-- The end of an entry as `isClear` computes it: the address past its last byte, or
`0xFFFFFFFF` when that sum overflows the width of an address. -/
def DataIntervalMap.endOf (m : MapEnv) (e : DataIntervalEntry) : Nat :=
  if m.add e.1 e.2.size < e.1 then 0xFFFFFFFF else m.add e.1 e.2.size

/-- A map of two entries: an unbounded array of `char` at 0x100 that has been shrunk to 16
bytes, and a 32-bit integer at 0x110. -/
def DataIntervalMap.sampleShrunk : List DataIntervalEntry :=
  [(0x100, { size := 16, name := "u", type := .array .char 9999999 }),
   (0x110, { size := 4, name := "i", type := .integer 32 1 })]

/-! ## The round-robin loops of the analyses -/

/-- The constant `DFA_ITER_LIMIT`. -/
def DFA_ITER_LIMIT : Nat := 20

/-- One pass of `UserProc::dfaTypeAnalysis` over the statement list: each statement is analysed
with `thisCh` false on entry, `analyse` giving the state and `thisCh` after the call, and `ch`
is set when `thisCh` is. -/
def dfaPass {σ ι : Type} (analyse : ι → σ → σ × Bool) : List ι → σ → Bool → σ × Bool
  | [], s, ch => (s, ch)
  | it :: rest, s, ch =>
    dfaPass analyse rest (analyse it s).1 (if (analyse it s).2 then true else ch)

/-- What the loop of `UserProc::dfaTypeAnalysis` leaves: the state of the procedure, the
variables `ch` and `iter`, and the number of passes over the statement list that were made. -/
structure DfaLoop (σ : Type) where
  state : σ
  ch : Bool
  iter : Nat
  passes : Nat

/-- The loop `for (iter = 1; iter <= DFA_ITER_LIMIT; ++iter)` of `UserProc::dfaTypeAnalysis`,
from the test of its condition; `left` is `DFA_ITER_LIMIT + 1 - iter`, the number of values of
`iter` that are still within the limit. -/
def dfaLoop {σ ι : Type} (analyse : ι → σ → σ × Bool) (stmts : List ι) :
    Nat → DfaLoop σ → DfaLoop σ
  | 0, l => l
  | left + 1, l =>
    let r := dfaPass analyse stmts l.state false
    if !r.2 then { state := r.1, ch := r.2, iter := l.iter, passes := l.passes + 1 }
    else dfaLoop analyse stmts left
      { state := r.1, ch := r.2, iter := l.iter + 1, passes := l.passes + 1 }

/-- What `UserProc::dfaTypeAnalysis` has done when it reaches its debug output: the loop result
and whether the warning `iteration limit exceeded` was logged. -/
structure DfaResult (σ : Type) where
  loop : DfaLoop σ
  warning : Bool

/-- `UserProc::dfaTypeAnalysis`, up to the warning.  `sigCh` is the result of
`signature->dfaTypeAnalysis(cfg)`, `s` the state that call leaves, `stmts` the statements of the
procedure and `analyse` the method `dfaTypeAnalysis` of a statement. -/
def UserProc.dfaTypeAnalysis {σ ι : Type} (analyse : ι → σ → σ × Bool) (stmts : List ι)
    (sigCh : Bool) (s : σ) : DfaResult σ :=
  let l := dfaLoop analyse stmts DFA_ITER_LIMIT { state := s, ch := sigCh, iter := 1, passes := 0 }
  { loop := l, warning := l.ch }

/-- The state of the procedure after `k` passes over the statement list, made one after the
other whatever they report. -/
def dfaStateAfter {σ ι : Type} (analyse : ι → σ → σ × Bool) (stmts : List ι) (s : σ) : Nat → σ
  | 0 => s
  | k + 1 => (dfaPass analyse stmts (dfaStateAfter analyse stmts s k) false).1

/-- The values of `thisCh` that the statements report in one pass from the state `s`. -/
def dfaReports {σ ι : Type} (analyse : ι → σ → σ × Bool) : List ι → σ → List Bool
  | [], _ => []
  | it :: rest, s => (analyse it s).2 :: dfaReports analyse rest (analyse it s).1

/-- Some statement reports a change in the pass number `k` (the first pass is number 1). -/
def dfaChanged {σ ι : Type} (analyse : ι → σ → σ × Bool) (stmts : List ι) (s : σ) (k : Nat) :
    Bool :=
  (dfaReports analyse stmts (dfaStateAfter analyse stmts s (k - 1))).any id

/-- Modelled from the spec: the enumeration `ProcStatus` (proc.h is not part of the sources), in
the order of the status machine of the spec, with `PROC_DECODED`, which the code compares with,
after `PROC_UNDECODED`. -/
inductive ProcStatus where
  | PROC_UNDECODED
  | PROC_DECODED
  | PROC_VISITED
  | PROC_INCYCLE
  | PROC_PRESERVEDS
  | PROC_EARLYDONE
  | PROC_FINAL
  | PROC_CODE_GENERATED
  deriving DecidableEq, Repr

/-- The integer value of an enumerator, which the comparisons of the code read. -/
def ProcStatus.toNat : ProcStatus → Nat
  | .PROC_UNDECODED => 0
  | .PROC_DECODED => 1
  | .PROC_VISITED => 2
  | .PROC_INCYCLE => 3
  | .PROC_PRESERVEDS => 4
  | .PROC_EARLYDONE => 5
  | .PROC_FINAL => 6
  | .PROC_CODE_GENERATED => 7

/-- The patterns that `middleDecompile` passes to `removeMatchingAssignsIfPossible`. -/
inductive AssignPattern where
  | tempWildStrConst
  | pc
  deriving DecidableEq, Repr

/-- The passes that the loop of `UserProc::middleDecompile` calls, as functions of the state of
the procedure; a pass that returns `bool` gives the state and its result.  For
`propagateStatements` the two results are the return value and the flag `convert`, which is
false on entry. -/
structure MiddleOps (σ : Type) where
  placePhiFunctions : σ → σ × Bool
  numberStatements : σ → σ
  doRenameBlockVars : Int → Bool → σ → σ × Bool
  theReturnStatement : σ → Bool
  updateModifieds : σ → σ
  updateReturns : σ → σ
  noChangeSignatures : Bool
  status : σ → ProcStatus
  findPreserveds : σ → σ
  updateCallDefines : σ → σ
  fixCallAndPhiRefs : σ → σ
  propagateStatements : Int → σ → σ × Bool × Bool
  setRenameLocalsParams : Bool → σ → σ
  removeSpAssignsIfPossible : σ → σ
  removeMatchingAssignsIfPossible : AssignPattern → σ → σ

/-- One execution of the body of the `do ... while (convert)` loop of `middleDecompile`: what
`propagateStatements` and the renaming after it returned, the flag `convert`, and what the
renaming at level 0 returned when it was called. -/
structure PropagateRound where
  propagated : Bool
  renamed : Bool
  convert : Bool
  renamed0 : Option Bool
  deriving DecidableEq, Repr

/-- One iteration of the outer loop of `middleDecompile`: the value of `pass`, what
`placePhiFunctions` and the first renaming returned, the executions of the propagation loop,
and the value of `change` at the test `if (!change) break`. -/
structure MiddlePass where
  pass : Int
  phi : Bool
  renamed : Bool
  rounds : List PropagateRound
  change : Bool
  deriving DecidableEq, Repr

/-- The body `for (int i=0; i < 3; i++)` of the loop that updates the returns. -/
def updateReturnsOnce {σ : Type} (ops : MiddleOps σ) (pass : Int) (s : σ) : σ :=
  let s1 := if ops.status s ≠ .PROC_INCYCLE then (ops.doRenameBlockVars pass true s).1 else s
  ops.findPreserveds (ops.fixCallAndPhiRefs (ops.updateCallDefines (ops.findPreserveds s1)))

/-- The loop `do { ... } while (convert)` of `middleDecompile`; `fuel` bounds the number of
executions of its body.  The result is the state, the variable `change` and the record of the
executions. -/
def propagateLoop {σ : Type} (ops : MiddleOps σ) (pass : Int) :
    Nat → σ → Bool → List PropagateRound → Option (σ × Bool × List PropagateRound)
  | 0, _, _, _ => none
  | fuel + 1, s, change, log =>
    let p := ops.propagateStatements pass s
    let r := ops.doRenameBlockVars pass true p.1
    if p.2.2 then
      let r0 := ops.doRenameBlockVars 0 true (ops.setRenameLocalsParams false r.1)
      propagateLoop ops pass fuel r0.1 (change || p.2.1 || r.2 || r0.2)
        (log ++ [{ propagated := p.2.1, renamed := r.2, convert := true, renamed0 := some r0.2 }])
    else
      some (r.1, change || p.2.1 || r.2,
        log ++ [{ propagated := p.2.1, renamed := r.2, convert := false, renamed0 := none }])

/-- The body of the loop `for (pass = 3; pass <= 12; ++pass)` of `middleDecompile`, up to the
test `if (!change)`: the state and the record of the iteration. -/
def middlePass {σ : Type} (ops : MiddleOps σ) (fuel : Nat) (pass : Int) (s : σ) :
    Option (σ × MiddlePass) :=
  let ph := ops.placePhiFunctions s
  let s1 := if ph.2 then ops.numberStatements ph.1 else ph.1
  let rn := ops.doRenameBlockVars pass false s1
  let s2 := if ops.theReturnStatement rn.1 then ops.updateReturns (ops.updateModifieds rn.1)
    else rn.1
  let s3 := if !ops.noChangeSignatures then
      updateReturnsOnce ops pass (updateReturnsOnce ops pass (updateReturnsOnce ops pass s2))
    else s2
  match propagateLoop ops pass fuel s3 (ph.2 || rn.2) [] with
  | none => none
  | some (s4, change, rounds) =>
    some (ops.removeMatchingAssignsIfPossible .pc
        (ops.removeMatchingAssignsIfPossible .tempWildStrConst
          (ops.removeSpAssignsIfPossible s4)),
      { pass := pass, phi := ph.2, renamed := rn.2, rounds := rounds, change := change })

/-- The loop `for (pass = 3; pass <= 12; ++pass)` of `middleDecompile` from the test of its
condition; `left` is `13 - pass`, the number of values of `pass` still within the bound.  The
result is the state, the variable `pass` and the record of the iterations. -/
def middleLoop {σ : Type} (ops : MiddleOps σ) (fuel : Nat) :
    Nat → Int → σ → List MiddlePass → Option (σ × Int × List MiddlePass)
  | 0, pass, s, log => some (s, pass, log)
  | left + 1, pass, s, log =>
    match middlePass ops fuel pass s with
    | none => none
    | some (s1, e) =>
      if !e.change then some (s1, pass, log ++ [e])
      else middleLoop ops fuel left (pass + 1) s1 (log ++ [e])

/-- The loop of `UserProc::middleDecompile` that repeats until no change, from `pass = 3`. -/
def UserProc.middleDecompileLoop {σ : Type} (ops : MiddleOps σ) (fuel : Nat) (s : σ) :
    Option (σ × Int × List MiddlePass) :=
  middleLoop ops fuel 10 3 s []

/-- The value that the executions of the propagation loop add to `change`. -/
def PropagateRound.reported (x : PropagateRound) : Bool :=
  x.propagated || x.renamed || (x.renamed0 == some true)

/-- The record of an iteration of the outer loop is consistent: the propagation loop ran at
least once, every execution but the last reported a converted call and the last did not, and
`change` is what phi placement, the renamings and the propagations reported. -/
def MiddlePass.sound (e : MiddlePass) : Prop :=
  e.rounds.map (fun x => x.convert) = List.replicate (e.rounds.length - 1) true ++ [false] ∧
  e.change = (e.phi || e.renamed || e.rounds.any (fun x => x.reported))

/-- Passes for the example over a counter as the state: `propagateStatements` adds one and
reports a change while the counter was below 2, it never converts an indirect call, and no
other pass changes anything. -/
def sampleMiddleOps : MiddleOps Nat where
  placePhiFunctions := fun s => (s, false)
  numberStatements := fun s => s
  doRenameBlockVars := fun _ _ s => (s, false)
  theReturnStatement := fun _ => false
  updateModifieds := fun s => s
  updateReturns := fun s => s
  noChangeSignatures := false
  status := fun _ => .PROC_VISITED
  findPreserveds := fun s => s
  updateCallDefines := fun s => s
  fixCallAndPhiRefs := fun s => s
  propagateStatements := fun _ s => (s + 1, decide (s < 2), false)
  setRenameLocalsParams := fun _ s => s
  removeSpAssignsIfPossible := fun s => s
  removeMatchingAssignsIfPossible := fun _ s => s

/-! ## The call-graph driver `UserProc::decompile`

The model keeps the parts of the program that the driver reads and writes: the status and the
cycle group of each procedure, the destinations of its calls, the objects of class `ProcSet`
and the path.  A procedure is identified by its address, which is also its place in the order
of a `ProcSet` (a `std::set` of pointers). -/

/-- The destination of the call statement of a CALL basic block: `getDestProc()` is null, a
library procedure, or the user procedure at the address `p`. -/
inductive CallDest where
  | null
  | lib
  | user (p : Nat)
  deriving DecidableEq, Repr

/-- The fields of a `UserProc` that the driver uses: `status`, `cycleGrp` (a pointer to a
`ProcSet`, or null) and the destinations of the CALL basic blocks in the order of the CFG. -/
structure UserProcState where
  status : ProcStatus
  cycleGrp : Option Nat
  calls : List CallDest

/-- The state of the driver: the procedures by address, the `ProcSet` objects in the order of
their allocation (a pointer to one is its index; its elements are in increasing order), the
list `path`, and the runs of `recursionGroupAnalysis` so far, each with the procedure it was
called on and the members of its cycle group. -/
structure ProgState where
  procs : Nat → UserProcState
  sets : List (List Nat)
  path : List Nat
  groupRuns : List (Nat × List Nat)

/-- The switches of `Boomerang::get()` that the driver reads, and the parts of the program
outside the sources that it calls: `Cfg::decodeIndirectJmp` and `Prog::reDecode`. -/
structure DriverEnv where
  noDecodeChildren : Bool
  noDecompile : Bool
  noRemoveNull : Bool
  decodeIndirectJmp : ProgState → Nat → Bool
  reDecode : ProgState → Nat → ProgState

/-- `std::set::insert` of one element. -/
def ProcSet.insert (x : Nat) : List Nat → List Nat
  | [] => [x]
  | y :: ys => if x < y then x :: y :: ys else if x = y then y :: ys else y :: ProcSet.insert x ys

/-- `std::set::insert` of a range of elements. -/
def ProcSet.insertAll (xs : List Nat) (set : List Nat) : List Nat :=
  xs.foldl (fun acc x => ProcSet.insert x acc) set

/-- The element that an iterator of the set reaches by `++` from the element `last`, or
`begin()` when `last` is absent; `none` is `end()`. -/
def ProcSet.next (set : List Nat) (last : Option Nat) : Option Nat :=
  set.find? (fun x => match last with
    | none => true
    | some l => decide (l < x))

namespace ProgState

/-- `UserProc::setStatus` on the procedure `p`. -/
def setStatus (st : ProgState) (p : Nat) (s : ProcStatus) : ProgState :=
  { st with procs := fun q => if q = p then { st.procs p with status := s } else st.procs q }

/-- The assignment `p->cycleGrp = cg`. -/
def setCycleGrp (st : ProgState) (p : Nat) (cg : Option Nat) : ProgState :=
  { st with procs := fun q => if q = p then { st.procs p with cycleGrp := cg } else st.procs q }

/-- The expression `new ProcSet`: the state with the new object, and the pointer to it. -/
def newProcSet (st : ProgState) : ProgState × Nat :=
  ({ st with sets := st.sets ++ [[]] }, st.sets.length)

/-- The elements of the set that `ptr` points to. -/
def getSet (st : ProgState) (ptr : Nat) : Option (List Nat) := st.sets.get? ptr

/-- Insertion of the elements `xs` into the set that `ptr` points to. -/
def insertInto (st : ProgState) (ptr : Nat) (xs : List Nat) : ProgState :=
  { st with sets := st.sets.modify (ProcSet.insertAll xs) ptr }

end ProgState

/-- A loop `for (it = s->begin(); it != s->end(); ++it)` over the set that `ptr` points to,
the body being able to insert into that set; `last` is the element that the iterator stands
on after the body, and `fuel` bounds the number of executions of the body. -/
def forProcSet (body : ProgState → Nat → Option ProgState) (ptr : Nat) :
    Nat → ProgState → Option Nat → Option ProgState
  | 0, _, _ => none
  | fuel + 1, st, last =>
    match st.getSet ptr with
    | none => none
    | some set =>
      match ProcSet.next set last with
      | none => some st
      | some cc =>
        match body st cc with
        | none => none
        | some st1 => forProcSet body ptr fuel st1 (some cc)

/-- The body of the loop of `decompile` that points the cycle group of each element of `child`
to `child`, after the union of the element's own cycle group into `child`. -/
def markElement (child : Nat) (st : ProgState) (cc : Nat) : Option ProgState :=
  match (st.procs cc).cycleGrp with
  | none => some (st.setCycleGrp cc (some child))
  | some cg =>
    match st.getSet cg with
    | none => none
    | some elems => some ((st.insertInto child elems).setCycleGrp cc (some child))

/-- `UserProc::initialiseDecompile`, as far as the driver state goes. -/
def initialiseDecompile (env : DriverEnv) (st : ProgState) (this : Nat) : ProgState :=
  if env.noDecompile then st.setStatus this .PROC_FINAL else st

/-- `UserProc::earlyDecompile`, which leaves the driver state as it is. -/
def earlyDecompile (st : ProgState) (_this : Nat) : ProgState := st

/-- `UserProc::remUnusedStmtEtc()`: the status becomes `PROC_FINAL` in
`remUnusedStmtEtc(RefCounter&)`, which is called unless `noRemoveNull` is set. -/
def remUnusedStmtEtc (env : DriverEnv) (st : ProgState) (this : Nat) : ProgState :=
  if !env.noRemoveNull then st.setStatus this .PROC_FINAL else st

/-- `UserProc::middleDecompile`, as far as the driver state goes; `decompile` is the driver,
which is entered again when an indirect jump or call has been decoded.  The result is the
state and the returned pointer. -/
def middleDecompile (env : DriverEnv)
    (decompile : ProgState → Nat → Option (ProgState × Option Nat)) (st : ProgState)
    (this : Nat) : Option (ProgState × Option Nat) :=
  if env.decodeIndirectJmp st this then
    let st1 := (env.reDecode st this).setStatus this .PROC_VISITED
    match decompile { st1 with path := st1.path.dropLast } this with
    | none => none
    | some (st2, ret) => some ({ st2 with path := st2.path ++ [this] }, ret)
  else
    let r := (st.setStatus this .PROC_EARLYDONE).newProcSet
    some (r.1, some r.2)

/-- A loop `for (p = cycleGrp->begin(); p != cycleGrp->end(); ++p)` of
`recursionGroupAnalysis` on the procedure `this`. -/
def forCycleGrp (body : ProgState → Nat → Option ProgState) (fuel : Nat) (st : ProgState)
    (this : Nat) : Option ProgState :=
  match (st.procs this).cycleGrp with
  | none => none
  | some cg => forProcSet body cg fuel st none

/-- `UserProc::recursionGroupAnalysis`, as far as the driver state goes. -/
def recursionGroupAnalysis (env : DriverEnv)
    (decompile : ProgState → Nat → Option (ProgState × Option Nat)) (fuel : Nat)
    (st : ProgState) (this : Nat) : Option ProgState :=
  match (st.procs this).cycleGrp with
  | none => none
  | some cg =>
    match st.getSet cg with
    | none => none
    | some members =>
      let st0 := { st with groupRuns := st.groupRuns ++ [(this, members)] }
      match forCycleGrp (fun s curp =>
          some (earlyDecompile (initialiseDecompile env (s.setStatus curp .PROC_INCYCLE) curp)
            curp)) fuel st0 this with
      | none => none
      | some st1 =>
        match forCycleGrp (fun s curp =>
            match middleDecompile env decompile s curp with
            | none => none
            | some (s1, _) => some (s1.setStatus curp .PROC_PRESERVEDS)) fuel st1 this with
        | none => none
        | some st2 =>
          match forCycleGrp (fun s p => some (remUnusedStmtEtc env s p)) fuel st2 this with
          | none => none
          | some st3 => forCycleGrp (fun s p => some (remUnusedStmtEtc env s p)) fuel st3 this

/-- The first element of `path` that is in the set `elems`. -/
def firstInGroup (path : List Nat) (elems : List Nat) : Option Nat :=
  path.find? (fun p => elems.contains p)

/-- The body of the loop of `decompile` over the CALL basic blocks, for the call with the
destination `dest`; `child` is the pointer that the variable `child` holds. -/
def decompileCall (decompile : ProgState → Nat → Option (ProgState × Option Nat)) (fuel : Nat)
    (this : Nat) (st : ProgState) (child : Nat) : CallDest → Option (ProgState × Nat)
  | .null => some (st, child)
  | .lib => some (st, child)
  | .user c =>
    if (st.procs c).status = .PROC_FINAL then some (st, child)
    else if ProcStatus.PROC_VISITED.toNat ≤ (st.procs c).status.toNat ∧
        (st.procs c).status.toNat ≤ ProcStatus.PROC_EARLYDONE.toNat then
      let marked : Option (ProgState × Nat) :=
        if st.path.contains c then
          some (st.insertInto child (st.path.dropWhile (fun p => p != c)), child)
        else
          match (st.procs c).cycleGrp with
          | none => none
          | some cg =>
            match st.getSet cg with
            | none => none
            | some elems =>
              match firstInGroup st.path elems with
              | none => none
              | some f =>
                some (st.insertInto cg ((st.path.dropWhile (fun p => p != f)).drop 1), cg)
      match marked with
      | none => none
      | some (st1, child1) =>
        match forProcSet (markElement child1) child1 fuel st1 none with
        | none => none
        | some st2 => some (st2.setStatus this .PROC_INCYCLE, child1)
    else
      match decompile st c with
      | none => none
      | some (_, none) => none
      | some (st1, some tmp) =>
        match st1.getSet tmp with
        | none => none
        | some elems =>
          let st2 := st1.insertInto child elems
          some (if elems.length > 0 then st2.setStatus this .PROC_INCYCLE else st2, child)

/-- The loop of `decompile` over the CALL basic blocks of the procedure. -/
def decompileCalls (decompile : ProgState → Nat → Option (ProgState × Option Nat)) (fuel : Nat)
    (this : Nat) : List CallDest → ProgState → Nat → Option (ProgState × Nat)
  | [], st, child => some (st, child)
  | dest :: rest, st, child =>
    match decompileCall decompile fuel this st child dest with
    | none => none
    | some (st1, child1) => decompileCalls decompile fuel this rest st1 child1

/-- The end of `decompile`: the last element of `path` is removed and `child` returned. -/
def decompileReturn (st : ProgState) (child : Nat) : ProgState × Option Nat :=
  ({ st with path := st.path.dropLast }, some child)

/-- The part of `decompile` after the analysis of a procedure that is not involved in
recursion: the two tests of `child->size()` that follow `middleDecompile`. -/
def decompileFinish (env : DriverEnv)
    (decompile : ProgState → Nat → Option (ProgState × Option Nat)) (fuel : Nat)
    (this : Nat) (st : ProgState) (child : Nat) : Option (ProgState × Option Nat) :=
  match st.getSet child with
  | none => none
  | some elems =>
    if elems.length = 0 then
      some (decompileReturn ((remUnusedStmtEtc env st this).setStatus this .PROC_FINAL) child)
    else
      match (st.procs this).cycleGrp with
      | none => none
      | some cg =>
        match st.getSet cg with
        | none => none
        | some group =>
          match firstInGroup st.path group with
          | none => none
          | some f =>
            if f = this then
              match recursionGroupAnalysis env decompile fuel st this with
              | none => none
              | some st1 =>
                let r := (st1.setStatus this .PROC_FINAL).newProcSet
                some (decompileReturn r.1 r.2)
            else some (decompileReturn st child)

/-- The body of `UserProc::decompile(path, indent)` for the procedure `this`, the calls of
`decompile` in it being calls of the function `decompile`.  The result is the state and the
returned pointer (null when the procedure already has the status `PROC_FINAL`); `none` stands
for a failed assertion or the use of a null pointer. -/
def decompileBody (env : DriverEnv)
    (decompile : ProgState → Nat → Option (ProgState × Option Nat)) (fuel : Nat)
    (st : ProgState) (this : Nat) : Option (ProgState × Option Nat) :=
  if (st.procs this).status.toNat ≥ ProcStatus.PROC_FINAL.toNat then some (st, none)
  else
    let st1 := if (st.procs this).status.toNat < ProcStatus.PROC_DECODED.toNat then
      env.reDecode st this else st
    let st2 := if (st1.procs this).status.toNat < ProcStatus.PROC_VISITED.toNat then
      st1.setStatus this .PROC_VISITED else st1
    let r := st2.newProcSet
    let st3 : ProgState := { r.1 with path := r.1.path ++ [this] }
    let looped := if !env.noDecodeChildren then
      decompileCalls decompile fuel this (st3.procs this).calls st3 r.2 else some (st3, r.2)
    match looped with
    | none => none
    | some (st4, child) =>
      match st4.getSet child with
      | none => none
      | some elems =>
        if elems.length = 0 then
          match middleDecompile env decompile
              (earlyDecompile (initialiseDecompile env st4 this) this) this with
          | none => none
          | some (_, none) => none
          | some (st5, some child1) =>
            match st5.getSet child1 with
            | none => none
            | some elems1 =>
              decompileFinish env decompile fuel this
                (if elems1.length ≠ 0 then { st5 with path := st5.path ++ [this] } else st5)
                child1
        else decompileFinish env decompile fuel this st4 child

/-- `UserProc::decompile(path, indent)`; `fuel` bounds the depth of the calls of `decompile`
and the number of executions of each loop over a `ProcSet`. -/
def UserProc.decompile (env : DriverEnv) : Nat → ProgState → Nat → Option (ProgState × Option Nat)
  | 0, _, _ => none
  | fuel + 1, st, this => decompileBody env (UserProc.decompile env fuel) fuel st this

/-- The program of two procedures at the addresses `a` and `b`, each decoded, not visited and
with one call, to the other, before any `ProcSet` is allocated. -/
def twoProcCycle (a b : Nat) : ProgState :=
  { procs := fun p =>
      { status := .PROC_DECODED, cycleGrp := none,
        calls := if p = a then [.user b] else if p = b then [.user a] else [] },
    sets := [], path := [], groupRuns := [] }

/-- The state in which `decompile` on the procedure `this` calls `decompile` on a callee: the
procedure is visited, its set `child` is allocated and the procedure is on the path. -/
def ProgState.entered (st : ProgState) (this : Nat) : ProgState :=
  { (st.setStatus this .PROC_VISITED).newProcSet.1 with path := st.path ++ [this] }

/-- The configuration in which no switch of the driver is set and no indirect jump is decoded. -/
def sampleDriverEnv : DriverEnv :=
  { noDecodeChildren := false, noDecompile := false, noRemoveNull := false,
    decodeIndirectJmp := fun _ _ => false, reDecode := fun st _ => st }

/-- A program of decoded, unvisited procedures with the given calls, before any `ProcSet` is
allocated. -/
def freshProgram (calls : Nat → List CallDest) : ProgState :=
  { procs := fun p => { status := .PROC_DECODED, cycleGrp := none, calls := calls p },
    sets := [], path := [], groupRuns := [] }

/-- The calls of four procedures at the addresses 1 to 4: 1 calls 2; 2 calls 3 and then 4;
3 calls 1; 4 calls 2. -/
def sampleCalls4 (p : Nat) : List CallDest :=
  if p = 1 then [.user 2] else if p = 2 then [.user 3, .user 4] else if p = 3 then [.user 1]
  else if p = 4 then [.user 2] else []

/-- The calls of three procedures at the addresses 1 to 3: 1 calls 2; 2 calls 1 and then 3;
3 calls 2. -/
def sampleCalls3 (p : Nat) : List CallDest :=
  if p = 1 then [.user 2] else if p = 2 then [.user 1, .user 3] else if p = 3 then [.user 2]
  else []

/-- The state in which `decompile` on the procedure 3 of `sampleCalls3` handles its call to the
procedure 2, in the run of `decompile` on the procedure 1: the procedures 1 and 2 share the
cycle group at the pointer 1, the set `child` of the procedure 3 is at the pointer 2. -/
def sampleBranchState : ProgState :=
  { procs := fun p =>
      { status := if p = 2 then .PROC_INCYCLE else if p = 1 ∨ p = 3 then .PROC_VISITED
          else .PROC_DECODED,
        cycleGrp := if p = 1 ∨ p = 2 then some 1 else none,
        calls := sampleCalls3 p },
    sets := [[], [1, 2], []], path := [1, 2, 3], groupRuns := [] }

/-! ## Expressions, proofs of preservation and `findPreserveds` -/

/-- Modelled from the spec: the operators of the expressions that the procedures of `UserProc`
test and that `Binary::ascendType` tells apart (operator.h is not part of the sources). -/
inductive OPER where
  | opIntConst
  | opStrConst
  | opRegOf
  | opMemOf
  | opLocal
  | opParam
  | opGlobal
  | opTemp
  | opAddrOf
  | opSubscript
  | opPlus
  | opMinus
  | opMult
  | opNeg
  | opEquals
  | opPC
  | opFlags
  | opZF
  | opCF
  | opDefineAll
  | opWild
  | opTrue
  | opFalse
  | opMemberAccess
  | opArrayIndex
  | opFlagCall
  | opDiv
  | opMults
  | opDivs
  | opShiftRA
  | opBitAnd
  | opBitOr
  | opBitXor
  | opShiftR
  | opShiftL
  | opLess
  | opGtr
  | opLessEq
  | opGtrEq
  | opLessUns
  | opGtrUns
  | opLessEqUns
  | opGtrEqUns
  | opNotEqual
  | opAnd
  | opOr
  deriving DecidableEq, Repr

/-- Modelled from the spec: the class `Exp` (exp.h and exp.cpp are not part of the sources), the
tagged sum of section 3.1 of the spec, compared structurally.  A location such as `r[28]`,
`m[e]` or a local is a `unary` of its operator; `ref e def` is the class `RefExp`, the
expression `e` subscripted with the statement `def`, which is null for `e{-}`. -/
inductive Exp where
  | const (k : Int)
  | strConst (s : String)
  | terminal (op : OPER)
  | unary (op : OPER) (e : Exp)
  | binary (op : OPER) (e1 e2 : Exp)
  | ref (e : Exp) (defn : Option Nat)
  deriving DecidableEq, Repr

namespace Exp

/-- `Exp::getOper`. -/
def getOper : Exp → OPER
  | .const _ => .opIntConst
  | .strConst _ => .opStrConst
  | .terminal op => op
  | .unary op _ => op
  | .binary op _ _ => op
  | .ref _ _ => .opSubscript

/-- `Exp::getArity`. -/
def getArity : Exp → Nat
  | .const _ => 0
  | .strConst _ => 0
  | .terminal _ => 0
  | .unary _ _ => 1
  | .binary _ _ _ => 2
  | .ref _ _ => 1

/-- `Exp::isRegOf`: the expression is a register. -/
def isRegOf : Exp → Bool
  | .unary .opRegOf _ => true
  | _ => false

/-- `Exp::isMemOf`: the expression is a memory location. -/
def isMemOf : Exp → Bool
  | .unary .opMemOf _ => true
  | _ => false

/-- `Exp::isIntConst`: the expression is an integer constant. -/
def isIntConst : Exp → Bool
  | .const _ => true
  | _ => false

/-- `Exp::isSubscript`: the expression is a `RefExp`. -/
def isSubscript : Exp → Bool
  | .ref _ _ => true
  | _ => false

/-- `Exp::isRegN(N)`: the register `r[N]`. -/
def isRegN (e : Exp) (N : Int) : Bool :=
  match e with
  | .unary .opRegOf (.const k) => k == N
  | _ => false

/-- `Location::regOf(N)`. -/
def regOf (N : Int) : Exp := .unary .opRegOf (.const N)

/-- `Location::memOf(e)`. -/
def memOf (e : Exp) : Exp := .unary .opMemOf e

end Exp

/-- A map `std::map<Exp*, Exp*, lessExpStar>`, as the list of its entries; the keys are
different, and the order of the entries, which `lessExpStar` gives in the source, is not
used. -/
abbrev ExpMap := List (Exp × Exp)

/-- `m.find(k)`: the value of the entry with the key `k`. -/
def ExpMap.find (m : ExpMap) (k : Exp) : Option Exp :=
  (List.find? (fun e => e.1 == k) m).map (fun e => e.2)

/-- `m[k] = v`. -/
def ExpMap.set : ExpMap → Exp → Exp → ExpMap
  | [], k, v => [(k, v)]
  | e :: tl, k, v => if e.1 = k then (k, v) :: tl else e :: ExpMap.set tl k v

/-- `m.erase(k)`. -/
def ExpMap.erase (m : ExpMap) (k : Exp) : ExpMap := List.filter (fun e => e.1 != k) m

/-- The maps `provenTrue` and `recurPremises` of a procedure. -/
structure ProofCaches where
  provenTrue : ExpMap
  recurPremises : ExpMap

/-- The state that proofs read and write: the maps of every procedure, by address, and the
static object `allEqAll`, the equation of `<all>` with `<all>`, as its two sides (`prove`
changes the sides of the query it is given in place). -/
structure ProofState where
  caches : Nat → ProofCaches
  allEqAll : Exp × Exp

/-- What `UserProc::prove` uses from outside the function: the switch `noProve`; whether
`cycleGrp` of a procedure is set; `defFor p e`, the result of `findDefFor(e)` on the return
statement of `p`, absent also when `p` has no return statement; the expression that the loop
over the used locations of a right-hand side leaves (each subscripted with `{-}`);
`Exp::simplify`; and `UserProc::prover`, with the query and the original query as pairs of
sides. -/
structure ProveEnv where
  noProve : Bool
  inCycle : Nat → Bool
  defFor : Nat → Exp → Option Exp
  subscriptNull : Exp → Exp
  simplify : Exp → Exp
  prover : ProofState → Nat → Exp × Exp → Exp × Exp → ProofState × Bool

namespace ProofState

/-- The assignment `provenTrue[l] = r` of the procedure `p`. -/
def setProven (st : ProofState) (p : Nat) (l r : Exp) : ProofState :=
  { st with caches := fun q =>
      if q = p then { st.caches p with provenTrue := ExpMap.set (st.caches p).provenTrue l r }
      else st.caches q }

/-- The assignment `recurPremises[l] = r` of the procedure `p`. -/
def setPremise (st : ProofState) (p : Nat) (l r : Exp) : ProofState :=
  { st with caches := fun q =>
      if q = p then
        { st.caches p with recurPremises := ExpMap.set (st.caches p).recurPremises l r }
      else st.caches q }

/-- The call `recurPremises.erase(l)` of the procedure `p`. -/
def erasePremise (st : ProofState) (p : Nat) (l : Exp) : ProofState :=
  { st with caches := fun q =>
      if q = p then
        { st.caches p with recurPremises := ExpMap.erase (st.caches p).recurPremises l }
      else st.caches q }

end ProofState

/-- The end of `UserProc::prove`, from the test of `cycleGrp`: the premise is saved, `prover`
runs on the query `(left, right)`, the premise is removed and the result is saved in
`provenTrue` when `conditional` is false and the result true. -/
def proveWithProver (env : ProveEnv) (st : ProofState) (this : Nat) (origLeft origRight : Exp)
    (left right : Exp) (conditional : Bool) : ProofState × Bool :=
  let st1 := if env.inCycle this then st.setPremise this origLeft origRight else st
  let r := env.prover st1 this (left, right) (origLeft, origRight)
  let st2 := if env.inCycle this then r.1.erasePremise this origLeft else r.1
  (if !conditional && r.2 then st2.setProven this origLeft origRight else st2, r.2)

/-- `UserProc::prove(query, conditional)` on the procedure `this`.  The query is an equation,
given by its two sides; `none` is the static object `allEqAll`, whose sides the function
changes in place.  `fuel` bounds the depth of the calls `prove(&allEqAll)`. -/
def UserProc.prove (env : ProveEnv) :
    Nat → ProofState → Nat → Option (Exp × Exp) → Bool → Option (ProofState × Bool)
  | 0, _, _, _, _ => none
  | fuel + 1, st, this, query, conditional =>
    let queryLeft := (query.getD st.allEqAll).1
    let queryRight := (query.getD st.allEqAll).2
    if ExpMap.find (st.caches this).provenTrue queryLeft = some queryRight then some (st, true)
    else if env.noProve then some (st, false)
    else
      let right1 := env.subscriptNull queryRight
      let st0 : ProofState :=
        if query.isNone then { st with allEqAll := (queryLeft, right1) } else st
      if queryLeft.getOper ≠ .opSubscript then
        match env.defFor this queryLeft with
        | some d =>
          let st1 : ProofState :=
            if query.isNone then { st0 with allEqAll := (d, right1) } else st0
          some (proveWithProver env st1 this queryLeft queryRight d right1 conditional)
        | none =>
          if queryLeft = env.simplify queryRight ∧ queryLeft.getOper ≠ .opDefineAll then
            match UserProc.prove env fuel st0 this none false with
            | none => none
            | some (st1, true) =>
              some (st1.setProven this queryLeft (env.simplify queryRight), true)
            | some (st1, false) => some (st1, false)
          else some (st0, false)
      else some (proveWithProver env st0 this queryLeft queryRight queryLeft right1 conditional)

/-- An assignment: the class `ImplicitAssign` (a type and a left-hand side) when `rhs` is
absent, otherwise the class `Assign`. -/
structure Assignment where
  type : Ty
  lhs : Exp
  rhs : Option Exp

/-- The lists `modifieds` and `returns` of a `ReturnStatement`. -/
structure ReturnStatement where
  modifieds : List Assignment
  returns : List Assignment

/-- Modelled from the spec: `ReturnStatement::removeModified(loc)` (statement.cpp is not part
of the sources): afterwards the return statement lists `loc` neither as modified nor as
returned. -/
def ReturnStatement.removeModified (rs : ReturnStatement) (loc : Exp) : ReturnStatement :=
  { modifieds := rs.modifieds.filter (fun a => a.lhs != loc),
    returns := rs.returns.filter (fun a => a.lhs != loc) }

/-- The first loop of `UserProc::findPreserveds`: `prove` on the equation of each modified
location with itself. -/
def proveModifieds (env : ProveEnv) (fuel : Nat) (this : Nat) :
    List Assignment → ProofState → Option ProofState
  | [], st => some st
  | mm :: rest, st =>
    match UserProc.prove env fuel st this (some (mm.lhs, mm.lhs)) false with
    | none => none
    | some (st1, _) => proveModifieds env fuel this rest st1

/-- The second loop of `UserProc::findPreserveds`, over the entries of `provenTrue`. -/
def removePreserveds : ExpMap → ReturnStatement → ReturnStatement
  | [], rs => rs
  | pp :: rest, rs =>
    removePreserveds rest (if pp.1 = pp.2 then rs.removeModified pp.1 else rs)

/-- `UserProc::findPreserveds` on the procedure `this` with the return statement
`theReturnStatement` (absent when the procedure has none). -/
def UserProc.findPreserveds (env : ProveEnv) (fuel : Nat) (st : ProofState) (this : Nat)
    (theReturnStatement : Option ReturnStatement) :
    Option (ProofState × Option ReturnStatement) :=
  match theReturnStatement with
  | none => some (st, none)
  | some rs =>
    match proveModifieds env fuel this rs.modifieds st with
    | none => none
    | some st1 => some (st1, some (removePreserveds (st1.caches this).provenTrue rs))

/-- The location `<all>`. -/
def Exp.defineAll : Exp := .terminal .opDefineAll

/-- A sample of what `prove` uses: nothing is switched off, `prover` leaves the state as it is
and returns `proved`, the definitions that reach the exit are given by `defs`, simplification
changes nothing and a right-hand side is subscripted as a whole. -/
def sampleProveEnv (defs : Exp → Option Exp) (proved : Exp → Bool) : ProveEnv :=
  { noProve := false, inCycle := fun _ => false, defFor := fun _ e => defs e,
    subscriptNull := fun e => .ref e none, simplify := fun e => e,
    prover := fun st _ q _ => (st, proved q.1) }

/-- A state of proofs in which the procedure 0 has proven that `<all>` is preserved, and the
static equation `allEqAll` is as initialised. -/
def sampleAllProven : ProofState :=
  { caches := fun p =>
      { provenTrue := if p = 0 then [(Exp.defineAll, Exp.defineAll)] else [],
        recurPremises := [] },
    allEqAll := (Exp.defineAll, Exp.defineAll) }

/-- A state of proofs in which nothing is proven. -/
def sampleNothingProven : ProofState :=
  { caches := fun _ => { provenTrue := [], recurPremises := [] },
    allEqAll := (Exp.defineAll, Exp.defineAll) }

/-- A return statement whose modifieds are `r28` and `r24`. -/
def sampleReturn : ReturnStatement :=
  { modifieds := [{ type := .integer 32 1, lhs := Exp.regOf 28, rhs := none },
      { type := .integer 32 1, lhs := Exp.regOf 24, rhs := none }],
    returns := [] }

/-! ## Final parameters -/

/-- One element of a phi-assignment: the defining statement (a pointer, null for a parameter)
and the expression, which may be null. -/
structure PhiInfo where
  defn : Option Nat
  e : Option Exp

/-- The statements that the procedures tell apart: `Assign`, `ImplicitAssign`, `PhiAssign`, and
the statements that are not assignments (calls, returns, branches). -/
inductive Statement where
  | assign (type : Ty) (lhs rhs : Exp)
  | implicitAssign (type : Ty) (lhs : Exp)
  | phiAssign (type : Ty) (lhs : Exp) (defs : List PhiInfo)
  | other

/-- `Statement::isImplicit`. -/
def Statement.isImplicit : Statement → Bool
  | .implicitAssign _ _ => true
  | _ => false

/-- `Statement::isPhi`. -/
def Statement.isPhi : Statement → Bool
  | .phiAssign _ _ _ => true
  | _ => false

/-- One parameter of a signature: type, name (absent when the signature is to make one up) and
expression. -/
structure Parameter where
  type : Ty
  name : Option String
  exp : Exp

/-- Modelled from the spec: the class `Signature` (signature.h and signature.cpp are not part of
the sources), as the data that the search for final parameters reads and writes: whether the
signature is forced, whether it has been promoted, the number of the stack pointer register, and
the ordered list of parameters, which `setNumParams(0)` empties, `addParameter` extends at the
end and `findParam(e)` searches for the first parameter with the expression `e`. -/
structure Signature where
  forced : Bool
  promoted : Bool
  stackRegister : Int
  params : List Parameter

namespace Signature

/-- `Signature::setNumParams(0)`. -/
def clearParams (sig : Signature) : Signature := { sig with params := [] }

/-- `Signature::findParam(e)`: the position of the parameter, absent for the result -1. -/
def findParam (sig : Signature) (e : Exp) : Option Nat :=
  match sig.params.findIdx? (fun p => p.exp == e) with
  | some i => some i
  | none => none

/-- `Signature::addParameter`. -/
def addParameter (sig : Signature) (ty : Ty) (name : Option String) (e : Exp) : Signature :=
  { sig with params := sig.params ++ [{ type := ty, name := name, exp := e }] }

/-- `Signature::removeParameter(n)`. -/
def removeParameter (sig : Signature) (n : Nat) : Signature :=
  { sig with params := sig.params.eraseIdx n }

end Signature

/-- What the search for final parameters takes from outside: whether the statement at a pointer
is an implicit assignment (`RefExp::isImplicitDef` on a reference that is not null), the order
`Signature::argumentCompare` of two assignments, and, for a forced signature, the expression of
a parameter after its components have been subscripted and converted to implicit
references. -/
structure ParamEnv where
  isImplicit : Nat → Bool
  argumentCompare : Assignment → Assignment → Bool
  implicitForm : Exp → Exp

/-- `RefExp::isImplicitDef`. -/
def ParamEnv.isImplicitDef (env : ParamEnv) : Option Nat → Bool
  | none => true
  | some d => env.isImplicit d

/-- The signature and the list `parameters` of a procedure. -/
structure ParamState where
  signature : Signature
  parameters : List Assignment

/-- `UserProc::isLocalOrParamPattern(e)`: is this the memory at `sp{-}` plus or minus a constant? -/
def UserProc.isLocalOrParamPattern (sig : Signature) (e : Exp) : Bool :=
  match e with
  | .unary .opMemOf addr =>
    if !sig.promoted then false
    else if addr = .ref (Exp.regOf sig.stackRegister) none then true
    else
      match addr with
      | .binary op left right =>
        if op ≠ .opPlus ∧ op ≠ .opMinus then false
        else if left ≠ .ref (Exp.regOf sig.stackRegister) none then false
        else right.isIntConst
      | _ => false
  | _ => false

/-- `UserProc::filterParams(e)`: true when `e` is to be left out.  For `r[x]` with `x` not a
constant, where the source reads `x` as a constant, the result is false. -/
def UserProc.filterParams (env : ParamEnv) (sig : Signature) (e : Exp) : Bool :=
  match e with
  | .terminal .opPC => true
  | .unary .opTemp _ => true
  | .unary .opRegOf (.const r) => r == sig.stackRegister
  | .unary .opMemOf addr =>
    if addr.isIntConst then true
    else
      match addr with
      | .ref reg d => env.isImplicitDef d && reg.isRegN sig.stackRegister
      | _ => false
  | .unary .opGlobal _ => true
  | _ => false

/-- The insertion of `as` into the ordered list of parameters: before the first element that
`as` is less than, or at the end. -/
def insertOrdered (cmp : Assignment → Assignment → Bool) (as : Assignment) :
    List Assignment → List Assignment
  | [] => [as]
  | nn :: rest => if cmp as nn then as :: nn :: rest else nn :: insertOrdered cmp as rest

/-- The loop of `insertParameter` that fills the signature from the list of parameters, with the
names `param1`, `param2`, ... -/
def addAllToSignature : List Assignment → Nat → Signature → Signature
  | [], _, sig => sig
  | a :: rest, i, sig =>
    addAllToSignature rest (i + 1) (sig.addParameter a.type (some ("param" ++ toString i)) a.lhs)

/-- `UserProc::insertParameter(e, ty)`. -/
def UserProc.insertParameter (env : ParamEnv) (st : ParamState) (e : Exp) (ty : Ty) :
    ParamState :=
  if UserProc.filterParams env st.signature e then st
  else
    let parameters :=
      insertOrdered env.argumentCompare { type := ty.clone, lhs := e, rhs := none } st.parameters
    { signature := addAllToSignature parameters 1 st.signature.clearParams,
      parameters := parameters }

/-- `UserProc::addParameter(e, ty)`: the parameter is removed from the signature when it is
there (`Proc::removeParameter`, which also removes the argument from the callers) and added at
the end. -/
def UserProc.addParameter (st : ParamState) (e : Exp) (ty : Ty) : ParamState :=
  let sig := match st.signature.findParam e with
    | some n => st.signature.removeParameter n
    | none => st.signature
  { st with signature := sig.addParameter ty none e }

/-- The loop of `findFinalParameters` over the statements of the procedure, which stops at the
first statement that is not an implicit assignment. -/
def findFinalParametersLoop (env : ParamEnv) : List Statement → ParamState → ParamState
  | [], st => st
  | s :: rest, st =>
    match s with
    | .implicitAssign ty e =>
      if st.signature.findParam e = none then
        if !(e.isRegOf || UserProc.isLocalOrParamPattern st.signature e) then
          findFinalParametersLoop env rest st
        else
          findFinalParametersLoop env rest
            (UserProc.insertParameter env (UserProc.addParameter st e ty) e ty)
      else findFinalParametersLoop env rest st
    | _ => st

/-- `UserProc::findFinalParameters`; `stmts` is the result of `getStatements`. -/
def UserProc.findFinalParameters (env : ParamEnv) (stmts : List Statement) (st : ParamState) :
    ParamState :=
  if st.signature.forced then
    { st with parameters := st.signature.params.map (fun p =>
        { type := p.type, lhs := env.implicitForm p.exp, rhs := none }) }
  else
    findFinalParametersLoop env stmts
      { signature := st.signature.clearParams, parameters := [] }

/-- The expression is the memory at `sp{-}` plus or minus an integer constant, `sp` being the
register with the number `sp`. -/
def Exp.isStackParam (sp : Int) (e : Exp) : Prop :=
  ∃ op K, (op = OPER.opPlus ∨ op = OPER.opMinus) ∧
    e = Exp.memOf (.binary op (.ref (Exp.regOf sp) none) (.const K))

/-- The expression is a register other than the stack pointer, or, for a promoted signature,
the memory at `sp{-}` plus or minus an integer constant. -/
def Exp.isParamLocation (promoted : Bool) (sp : Int) (e : Exp) : Prop :=
  (e.isRegOf = true ∧ e.isRegN sp = false) ∨ (promoted = true ∧ Exp.isStackParam sp e)

/-- The two tests that `findFinalParameters` and `insertParameter` make of a location. -/
def UserProc.acceptsParam (env : ParamEnv) (sig : Signature) (e : Exp) : Bool :=
  (e.isRegOf || UserProc.isLocalOrParamPattern sig e) && !UserProc.filterParams env sig e

/-- The invariant of the loop of `findFinalParameters`: the signature keeps its stack pointer
and its promotion, every parameter is an implicit assignment to a parameter location, and
every parameter location of the signature is in the list of parameters. -/
def ParamState.inv (promoted : Bool) (sp : Int) (st : ParamState) : Prop :=
  st.signature.promoted = promoted ∧ st.signature.stackRegister = sp ∧
  (∀ a ∈ st.parameters, a.rhs = none ∧ Exp.isParamLocation promoted sp a.lhs) ∧
  (∀ p ∈ st.signature.params, Exp.isParamLocation promoted sp p.exp →
    ∃ a ∈ st.parameters, a.lhs = p.exp)

/-- A sample of what the search for final parameters takes from outside: only null references
are implicit, and no assignment is less than another. -/
def sampleParamEnv : ParamEnv :=
  { isImplicit := fun _ => false, argumentCompare := fun _ _ => false, implicitForm := fun e => e }

/-- The memory at `r28{-} + 4`. -/
def Exp.stackParam4 : Exp :=
  Exp.memOf (.binary .opPlus (.ref (Exp.regOf 28) none) (.const 4))

/-! ## Redundant returns -/

/-- The parts of a procedure that `removeRedundantReturns` reads and writes: its name, whether
its signature is forced and the return expressions of the signature, the list of parameters,
the return statement (absent when the procedure has none), and the rest of the program. -/
structure ReturnsProc (σ : Type) where
  name : String
  forced : Bool
  signatureReturns : List Exp
  parameters : List Assignment
  theReturnStatement : Option ReturnStatement
  rest : σ

/-- What `removeRedundantReturns` calls: `gainfulUse p e` is the result of
`checkForGainfulUse` for the parameter `e` of the procedure; `dropParameter` is what the
removal of a parameter does to the symbol map, the signature and the CFG; `callersLive` gives
the locations of the use collector of each call statement in `callerSet`; `updateCallers` is
the loop over the callers that updates their arguments; `updateForUseChange` is that method
on this procedure and then on the callers, which may change the parameters;
`updateStatement` is what the same method does to an assignment held by the return statement
(it redoes the dataflow and erases or adds none of them); and `setRetType` is the call on the
signature. -/
structure ReturnsEnv (σ : Type) where
  gainfulUse : ReturnsProc σ → Exp → Bool
  dropParameter : Exp → σ → σ
  callersLive : σ → List (List Exp)
  updateCallers : σ → σ
  updateForUseChange : List Assignment × σ → List Assignment × σ
  updateStatement : List Assignment × σ → Assignment → Assignment
  setRetType : Assignment → σ → σ

/-- The loop of `removeRedundantParameters` over the parameters: the procedure, the list
`newParameters` and the variable `ret`. -/
def removeRedundantParametersLoop {σ : Type} (env : ReturnsEnv σ) :
    List Assignment → ReturnsProc σ → List Assignment → Bool →
      ReturnsProc σ × List Assignment × Bool
  | [], p, newParameters, ret => (p, newParameters, ret)
  | pp :: rest, p, newParameters, ret =>
    if env.gainfulUse p pp.lhs then
      removeRedundantParametersLoop env rest p (newParameters ++ [pp]) ret
    else
      removeRedundantParametersLoop env rest { p with rest := env.dropParameter pp.lhs p.rest }
        newParameters true

/-- `UserProc::removeRedundantParameters`: the procedure afterwards and the result. -/
def UserProc.removeRedundantParameters {σ : Type} (env : ReturnsEnv σ) (p : ReturnsProc σ) :
    ReturnsProc σ × Bool :=
  if p.forced then (p, false)
  else
    let r := removeRedundantParametersLoop env p.parameters p [] false
    ({ r.1 with parameters := r.2.1 }, r.2.2)

/-- The call of `updateForUseChange` on the procedure. -/
def ReturnsProc.updateForUseChange {σ : Type} (env : ReturnsEnv σ) (p : ReturnsProc σ) :
    ReturnsProc σ :=
  { p with parameters := (env.updateForUseChange (p.parameters, p.rest)).1,
           theReturnStatement := p.theReturnStatement.map (fun rs =>
             { modifieds := rs.modifieds.map (env.updateStatement (p.parameters, p.rest)),
               returns := rs.returns.map (env.updateStatement (p.parameters, p.rest)) }),
           rest := (env.updateForUseChange (p.parameters, p.rest)).2 }

/-- A loop of `removeRedundantReturns` over the returns of the return statement, which erases
the returns that `keep` rejects: the returns left and the variable `removedRets`. -/
def eraseReturns (keep : Assignment → Bool) : List Assignment → List Assignment × Bool
  | [] => ([], false)
  | a :: rest =>
    if keep a then (a :: (eraseReturns keep rest).1, (eraseReturns keep rest).2)
    else ((eraseReturns keep rest).1, true)

/-- The end of `removeRedundantReturns`: when the return statement has exactly one return,
the type of its assignment is given to `setRetType`. -/
def ReturnsProc.setRetType {σ : Type} (env : ReturnsEnv σ) (p : ReturnsProc σ) :
    ReturnsProc σ :=
  match p.theReturnStatement.map (fun rs => rs.returns) with
  | some [a] => { p with rest := env.setRetType a p.rest }
  | _ => p

/-- `UserProc::removeRedundantReturns`: the procedure afterwards and the result; `none` is
the use of a return expression that the signature of `main` does not have. -/
def UserProc.removeRedundantReturns {σ : Type} (env : ReturnsEnv σ) (p : ReturnsProc σ) :
    Option (ReturnsProc σ × Bool) :=
  let r1 := UserProc.removeRedundantParameters env p
  match r1.1.theReturnStatement with
  | none => some r1
  | some rs =>
    if r1.1.forced then
      let erased := eraseReturns (fun a => r1.1.signatureReturns.contains a.lhs) rs.returns
      let p2 : ReturnsProc σ :=
        { r1.1 with theReturnStatement := some { rs with returns := erased.1 } }
      some (if erased.2 then p2.updateForUseChange env else p2, erased.2)
    else
      let unionOfCallerLiveLocs : Option (List Exp) :=
        if r1.1.name = "main" then (r1.1.signatureReturns.get? 1).map (fun e => [e])
        else some (env.callersLive r1.1.rest).flatten
      match unionOfCallerLiveLocs with
      | none => none
      | some live =>
        let erased := eraseReturns (fun a => live.contains a.lhs) rs.returns
        let r2 := UserProc.removeRedundantParameters env
          { r1.1 with theReturnStatement := some { rs with returns := erased.1 } }
        let removedParams := r1.2 || r2.2
        let p3 : ReturnsProc σ :=
          if removedParams || erased.2 then
            ReturnsProc.updateForUseChange env { r2.1 with rest := env.updateCallers r2.1.rest }
          else r2.1
        some (p3.setRetType env, erased.2 || removedParams)

/-- The procedure with the returns that are live at some caller, as `removeRedundantReturns`
hands it to the second removal of parameters. -/
def ReturnsProc.withLiveReturns {σ : Type} (env : ReturnsEnv σ) (p : ReturnsProc σ)
    (rs : ReturnStatement) : ReturnsProc σ :=
  { (UserProc.removeRedundantParameters env p).1 with
    theReturnStatement := some { rs with returns := rs.returns.filter (fun a =>
      (env.callersLive (UserProc.removeRedundantParameters env p).1.rest).flatten.contains
        a.lhs) } }

/-- The parameters and the rest of the program when `removeRedundantReturns` calls
`updateForUseChange`: after the second removal of parameters and the update of the
callers. -/
def ReturnsProc.atUpdate {σ : Type} (env : ReturnsEnv σ) (p : ReturnsProc σ)
    (rs : ReturnStatement) : List Assignment × σ :=
  ((UserProc.removeRedundantParameters env (p.withLiveReturns env rs)).1.parameters,
    env.updateCallers (UserProc.removeRedundantParameters env (p.withLiveReturns env rs)).1.rest)

/-- An environment for the example: every parameter is in gainful use, one caller at which
only `r25` is live, and updates that change nothing. -/
def sampleReturnsEnv : ReturnsEnv Unit where
  gainfulUse := fun _ _ => true
  dropParameter := fun _ st => st
  callersLive := fun _ => [[Exp.regOf 25]]
  updateCallers := fun st => st
  updateForUseChange := fun x => x
  updateStatement := fun _ a => a
  setRetType := fun _ st => st

/-- The return statement of the example, which returns `r24` and `r25`. -/
def sampleReturns : ReturnStatement where
  modifieds := []
  returns := [{ type := .integer 32 0, lhs := Exp.regOf 24, rhs := some (.const 0) },
    { type := .integer 32 0, lhs := Exp.regOf 25, rhs := some (.const 1) }]

/-- The procedure `f` of the example, without parameters and with a signature that is not
forced. -/
def sampleReturnsProc : ReturnsProc Unit where
  name := "f"
  forced := false
  signatureReturns := []
  parameters := []
  theReturnStatement := some sampleReturns
  rest := ()

/-! ## Phi removal in `fromSSAform` -/

/-- `RefExp::getDef`: the statement of a subscripted expression. -/
def Exp.getDef : Exp → Option Nat
  | .ref _ d => d
  | _ => none

/-- A statement object: the statement and its enclosing BB (`getBB()`, null when it was never
set), a position in the list of BBs of the CFG. -/
structure StmtObj where
  stmt : Statement
  bb : Option Nat

/-- The procedure as the removal of phis reads and writes it: the statement objects (a
pointer to a statement is a position in `objs`, and a new statement is put at the end), the
CFG as the list of its BBs, each the list of its RTLs, each the list of the pointers to its
statements, the entry BB, the map `provenTrue`, and the symbols and locals. -/
structure SsaProc (σ : Type) where
  objs : List StmtObj
  cfg : List (List (List Nat))
  entryBB : Nat
  provenTrue : ExpMap
  symbols : σ

/-- What the removal of phis calls: `Exp::addUsedLocs`, `UserProc::getSymbolExp` on the
symbols and locals, and the type that the constructor `Assign(lhs, rhs)` gives to the new
assignment. -/
structure SsaEnv (σ : Type) where
  addUsedLocs : Exp → List Exp
  getSymbolExp : σ → Exp → Ty → Exp × σ
  assignType : Exp → Exp → Ty

/-- `UserProc::getStatements`: the statements of all BBs in the order of the CFG. -/
def SsaProc.getStatements {σ : Type} (p : SsaProc σ) : List Nat := p.cfg.flatten.flatten

/-- The test of `removeStatement` on one entry of `provenTrue`: some location used by one of
its sides is a subscript whose definition is the statement. -/
def usesStatement {σ : Type} (env : SsaEnv σ) (stmt : Nat) (pr : Exp × Exp) : Bool :=
  (env.addUsedLocs pr.2 ++ env.addUsedLocs pr.1).any
    (fun r => r.isSubscript && r.getDef == some stmt)

/-- The search of `removeStatement` through the RTLs of a BB: the first occurrence of the
statement is erased. -/
def eraseFromRTLs (stmt : Nat) : List (List Nat) → List (List Nat)
  | [] => []
  | rtl :: rest =>
    if rtl.contains stmt then rtl.erase stmt :: rest else rtl :: eraseFromRTLs stmt rest

/-- `UserProc::removeStatement`; `none` is the use of a null pointer (no such statement, or
its BB was never set). A BB that the CFG does not list leaves the CFG as it is. -/
def UserProc.removeStatement {σ : Type} (env : SsaEnv σ) (p : SsaProc σ) (stmt : Nat) :
    Option (SsaProc σ) :=
  match (p.objs[stmt]?).bind (fun o => o.bb) with
  | none => none
  | some bb =>
    some { p with
      provenTrue := p.provenTrue.filter (fun pr => !usesStatement env stmt pr),
      cfg := p.cfg.modify (eraseFromRTLs stmt) bb }

/-- Insertion at the start of the first RTL; `none` is the failed assertion that the BB has
an RTL. -/
def insertAtFront (as : Nat) : List (List Nat) → Option (List (List Nat))
  | [] => none
  | rtl :: rest => some ((as :: rtl) :: rest)

/-- Insertion at the end of the last RTL; `none` is the failed assertion that the BB has an
RTL. -/
def insertAtBack (as : Nat) : List (List Nat) → Option (List (List Nat))
  | [] => none
  | [rtl] => some [rtl ++ [as]]
  | rtl :: rtl2 :: rest => (insertAtBack as (rtl2 :: rest)).map (fun r => rtl :: r)

/-- `UserProc::insertAssignAfter`: for the null statement the new assignment goes to the
start of the entry BB, otherwise to the end of the BB of the statement. The BB of the new
assignment is not set. `none` is the use of a null pointer, a BB that the CFG does not list,
or a failed assertion. -/
def UserProc.insertAssignAfter {σ : Type} (env : SsaEnv σ) (p : SsaProc σ) (s : Option Nat)
    (left right : Exp) : Option (SsaProc σ) :=
  let as : StmtObj := { stmt := .assign (env.assignType left right) left right, bb := none }
  match s with
  | none =>
    match (p.cfg[p.entryBB]?).bind (insertAtFront p.objs.length) with
    | none => none
    | some rtls => some { p with objs := p.objs ++ [as], cfg := p.cfg.set p.entryBB rtls }
  | some d =>
    match (p.objs[d]?).bind (fun o => o.bb) with
    | none => none
    | some bb =>
      match (p.cfg[bb]?).bind (insertAtBack p.objs.length) with
      | none => none
      | some rtls => some { p with objs := p.objs ++ [as], cfg := p.cfg.set bb rtls }

/-- Modelled from the spec: `PhiAssign::convertToAssign(rhs)` (statement.cpp is not part of
the sources): the phi-assignment becomes, in place, the assignment of `rhs` to its left-hand
side. -/
def PhiAssign.convertToAssign {σ : Type} (p : SsaProc σ) (s : Nat) (rhs : Exp) : SsaProc σ :=
  match p.objs[s]? with
  | some { stmt := .phiAssign ty lhs _, bb := bb } =>
    { p with objs := p.objs.set s { stmt := .assign ty lhs rhs, bb := bb } }
  | _ => p

/-- The loop of `fromSSAform` over the operands of a phi that looks for operands that differ:
the variables `first` and `phiParamsSame` afterwards. -/
def phiParamsLoop : List PhiInfo → Option Exp → Option Exp × Bool
  | [], first => (first, true)
  | uu :: rest, first =>
    match uu.e with
    | none => phiParamsLoop rest first
    | some e =>
      match first with
      | none => phiParamsLoop rest (some e)
      | some f => if e == f then phiParamsLoop rest first else (first, false)

/-- The loop of `fromSSAform` over the operands of a phi that inserts the copies to
`tempLoc`. -/
def insertCopies {σ : Type} (env : SsaEnv σ) (tempLoc : Exp) :
    List PhiInfo → SsaProc σ → Option (SsaProc σ)
  | [], p => some p
  | rr :: rest, p =>
    match rr.e with
    | none => insertCopies env tempLoc rest p
    | some e =>
      match UserProc.insertAssignAfter env p rr.defn tempLoc e with
      | none => none
      | some p1 => insertCopies env tempLoc rest p1

/-- The body of the last loop of `fromSSAform` for the statement `s`; `none` is the use of a
pointer to no statement. -/
def removePhi {σ : Type} (env : SsaEnv σ) (p : SsaProc σ) (s : Nat) : Option (SsaProc σ) :=
  match p.objs[s]? with
  | none => none
  | some { stmt := .phiAssign ty lhs defs, bb := _ } =>
    if defs.isEmpty then UserProc.removeStatement env p s
    else
      match (if defs.length > 1 then phiParamsLoop defs none else (none, true)) with
      | (some first, true) =>
        if lhs == first then UserProc.removeStatement env p s
        else some (PhiAssign.convertToAssign p s first)
      | _ =>
        match insertCopies env (env.getSymbolExp p.symbols (.ref lhs (some s)) ty).1 defs
            { p with symbols := (env.getSymbolExp p.symbols (.ref lhs (some s)) ty).2 } with
        | none => none
        | some p1 =>
          some (PhiAssign.convertToAssign p1 s
            (env.getSymbolExp p.symbols (.ref lhs (some s)) ty).1)
  | some _ => some p

/-- The last loop of `fromSSAform` over the list `stmts`. -/
def removePhis {σ : Type} (env : SsaEnv σ) : List Nat → SsaProc σ → Option (SsaProc σ)
  | [], p => some p
  | s :: rest, p =>
    match removePhi env p s with
    | none => none
    | some p1 => removePhis env rest p1

/-- `UserProc::fromSSAform` from the comment "Now remove the phis" on: the list `stmts` holds
the statements of the procedure (the passes before the loop insert and remove none). -/
def UserProc.fromSSAform {σ : Type} (env : SsaEnv σ) (p : SsaProc σ) : Option (SsaProc σ) :=
  removePhis env p.getStatements p

/-- The statement at a pointer. -/
def SsaProc.stmtOf {σ : Type} (p : SsaProc σ) (s : Nat) : Option Statement :=
  (p.objs[s]?).map (fun o => o.stmt)

/-- The enclosing BB of the statement at a pointer. -/
def SsaProc.bbOf {σ : Type} (p : SsaProc σ) (s : Nat) : Option Nat :=
  (p.objs[s]?).bind (fun o => o.bb)

/-- Whether the statement at a pointer is a phi-assignment. -/
def SsaProc.isPhi {σ : Type} (p : SsaProc σ) (s : Nat) : Bool :=
  match p.stmtOf s with
  | some st => st.isPhi
  | none => false

/-- The RTLs of a BB of the CFG (none for a BB that the CFG does not list). -/
def SsaProc.rtlsOf {σ : Type} (p : SsaProc σ) (b : Nat) : List (List Nat) :=
  (p.cfg[b]?).getD []

/-- How often a BB lists a statement. -/
def SsaProc.occurs {σ : Type} (p : SsaProc σ) (b s : Nat) : Nat :=
  (p.rtlsOf b).flatten.count s

/-- The non-null operand expressions of a phi. -/
def phiOperands (defs : List PhiInfo) : List Exp := defs.filterMap (fun rr => rr.e)

/-- The operands of the phi-assignment at a pointer (none for another statement). -/
def SsaProc.phiDefsOf {σ : Type} (p : SsaProc σ) (s : Nat) : List PhiInfo :=
  match p.stmtOf s with
  | some (.phiAssign _ _ defs) => defs
  | _ => []

/-- Whether the place where `insertAssignAfter` puts a copy for the definition `d` has an
RTL: the entry BB for the null definition, otherwise the BB of the definition. -/
def SsaProc.targetOk {σ : Type} (p : SsaProc σ) : Option Nat → Bool
  | none => !(p.rtlsOf p.entryBB).isEmpty
  | some d =>
    match p.bbOf d with
    | some b => !(p.rtlsOf b).isEmpty
    | none => false

/-- Whether the statement at a pointer knows its BB and only that BB lists it, at most
once. -/
def SsaProc.inOwnBB {σ : Type} (p : SsaProc σ) (s : Nat) : Bool :=
  match p.bbOf s with
  | some b =>
    (List.range p.cfg.length).all (fun b1 => decide (p.occurs b1 s ≤ if b1 = b then 1 else 0))
  | none => false

/-- The structure that the CFG of a procedure has: every statement of the CFG is a statement
object; a phi-assignment knows its BB, and only that BB lists it, at most once; and for each
non-null operand of a phi the BB of the definition (the entry BB for a null definition) has
an RTL. -/
def SsaProc.wellFormed {σ : Type} (p : SsaProc σ) : Bool :=
  p.getStatements.all (fun s => decide (s < p.objs.length)) &&
  (List.range p.objs.length).all (fun s =>
    !p.isPhi s ||
      (p.inOwnBB s && (p.phiDefsOf s).all (fun rr => rr.e.isNone || p.targetOk rr.defn)))

/-- The same structure as properties of all pointers. -/
structure SsaProc.Sound {σ : Type} (p : SsaProc σ) : Prop where
  phiBB : ∀ s, p.isPhi s = true →
    ∃ b, p.bbOf s = some b ∧ ∀ b1, p.occurs b1 s ≤ if b1 = b then 1 else 0
  phiDefs : ∀ s, ∀ rr ∈ p.phiDefsOf s, rr.e ≠ none → p.targetOk rr.defn = true

/-- What every step of the removal of phis keeps: the entry BB, the statement objects that
exist (more may come), the BB of every statement, which BBs have an RTL, and, for a statement
that is still a phi, the statement itself, which is listed no more often than before. -/
structure SsaProc.Frame {σ : Type} (p q : SsaProc σ) : Prop where
  entry : q.entryBB = p.entryBB
  len : p.objs.length ≤ q.objs.length
  bb : ∀ s, q.bbOf s = p.bbOf s
  rtls : ∀ b, (q.rtlsOf b).isEmpty = (p.rtlsOf b).isEmpty
  phi : ∀ s, q.isPhi s = true → q.stmtOf s = p.stmtOf s
  occ : ∀ b s, q.isPhi s = true → q.occurs b s ≤ p.occurs b s

/-- An environment for the examples: no used locations, the local `tmp` for every symbol,
and the type void for every new assignment. -/
def sampleSsaEnv : SsaEnv Unit where
  addUsedLocs := fun _ => []
  getSymbolExp := fun st _ _ => (.unary .opLocal (.strConst "tmp"), st)
  assignType := fun _ _ => .void

/-- A procedure with the assignment `r25 := 5` in the first BB and the phi-assignment
`r24 := phi(r25)`, whose one operand is defined by that assignment, in the second BB. -/
def sampleSinglePhi : SsaProc Unit where
  objs := [{ stmt := .assign (.integer 32 0) (Exp.regOf 25) (.const 5), bb := some 0 },
    { stmt := .phiAssign (.integer 32 0) (Exp.regOf 24) [{ defn := some 0, e := some (Exp.regOf 25) }],
      bb := some 1 }]
  cfg := [[[0]], [[1]]]
  entryBB := 0
  provenTrue := []
  symbols := ()

/-- A procedure with `r24 := 5` in the first and in the second BB and the phi-assignment
`r24 := phi(r24, r24)` of the two in the third BB. -/
def sampleSamePhi : SsaProc Unit where
  objs := [{ stmt := .assign (.integer 32 0) (Exp.regOf 24) (.const 5), bb := some 0 },
    { stmt := .assign (.integer 32 0) (Exp.regOf 24) (.const 5), bb := some 1 },
    { stmt := .phiAssign (.integer 32 0) (Exp.regOf 24)
        [{ defn := some 0, e := some (Exp.regOf 24) }, { defn := some 1, e := some (Exp.regOf 24) }],
      bb := some 2 }]
  cfg := [[[0]], [[1]], [[2]]]
  entryBB := 0
  provenTrue := []
  symbols := ()

/-! ## Generic compounds -/

/-- The member list with the name at position `i` replaced. -/
def Members.setName : Members → Nat → String → Members
  | .nil, _, _ => .nil
  | .cons t _ o tl, 0, nam => .cons t nam o tl
  | .cons t n o tl, i + 1, nam => .cons t n o (Members.setName tl i nam)

/-- `CompoundType::setNameAtOffset(n, nam)` on the member vectors. -/
def CompoundType.setNameAtOffset (sz : Ty → Option Nat) (types : Members) (n : Nat)
    (nam : String) : Option Members :=
  match Members.indexAtOffset sz types 0 n with
  | none => none
  | some none => some types
  | some (some i) => some (Members.setName types i nam)

/-- `CompoundType::updateGenericMember(off, ty, ch)` on the compound `this`: the compound, the
flag `ch` and the global state after the call.  `none` is the failed assertion that the
compound is generic, or a size that cannot be computed.  The bit offset `off * 8` is an `int`
that the searches take as `unsigned`.  When `meetWith` has changed the member in place, the
member holds the new value before `setTypeAtOffset` is called. -/
def CompoundType.updateGenericMember (env : Env) (fuel : Nat) (g : Globals) (this : Ty)
    (off : Int) (ty : Ty) (ch : Bool) : Option (Ty × Bool × Globals) :=
  match this with
  | .compound types generic nextGenericMemberNum =>
    if !generic then none
    else
      let bit_offset : Nat := Int.toNat ((off * 8) % 2 ^ 32)
      match Members.indexAtOffset (Ty.getSize env g.namedTypes fuel) types 0 bit_offset with
      | none => none
      | some (some i) =>
        match types.get? i with
        | none => none
        | some existingType =>
          match Ty.meetWith env fuel g existingType ty ch false with
          | none => none
          | some r =>
            match CompoundType.setTypeAtOffset (Ty.getSize env r.g.namedTypes fuel)
                (if r.origin = .receiver then Members.setType types i r.ty true else types)
                bit_offset r.ty (decide (r.origin = .receiver)) with
            | none => none
            | some types1 => some (.compound types1 generic nextGenericMemberNum, r.ch, r.g)
      | some none =>
        match CompoundType.setTypeAtOffset (Ty.getSize env g.namedTypes fuel) types bit_offset
            ty false with
        | none => none
        | some types1 =>
          match CompoundType.setNameAtOffset (Ty.getSize env g.namedTypes fuel) types1
              bit_offset ("member" ++ Nat.repr nextGenericMemberNum) with
          | none => none
          | some types2 => some (.compound types2 generic (nextGenericMemberNum + 1), ch, g)
  | _ => none

/-- The bit offset of the member at position `j`: the sum of the sizes of the members before
it, as the searches by offset count it. -/
def Members.offsetOf (sz : Ty → Option Nat) : Members → Nat → Option Nat
  | _, 0 => some 0
  | .nil, _ + 1 => none
  | .cons t _ _ tl, j + 1 =>
    match sz t, Members.offsetOf sz tl j with
    | some s, some r => some (s + r)
    | _, _ => none

/-- The compound that `CompoundType::get(true)` makes: generic, without members, the next
generic member being number 1. -/
def emptyGeneric : Ty := .compound .nil true 1

/-- A compound of two members `int a; int b;`. -/
def sampleTwoInts : Members :=
  .cons (.integer 32 1) "a" none (.cons (.integer 32 1) "b" none .nil)

/-! ## The statuses of the members of a recursion group

The driver again, with the calls of `setStatus` on record: each function below is the
function of the same name above, on a state that also holds the record. -/

/-- The state of the driver together with the calls of `setStatus` made so far, each with the
procedure and the status it was given. -/
structure TracedState where
  st : ProgState
  statusLog : List (Nat × ProcStatus)

/-- `UserProc::setStatus` on the procedure `p`, put on record. -/
def TracedState.setStatus (t : TracedState) (p : Nat) (s : ProcStatus) : TracedState :=
  { st := t.st.setStatus p s, statusLog := t.statusLog ++ [(p, s)] }

/-- The loop `forProcSet` on a state with the record. -/
def forProcSetTraced (body : TracedState → Nat → Option TracedState) (ptr : Nat) :
    Nat → TracedState → Option Nat → Option TracedState
  | 0, _, _ => none
  | fuel + 1, t, last =>
    match t.st.getSet ptr with
    | none => none
    | some set =>
      match ProcSet.next set last with
      | none => some t
      | some cc =>
        match body t cc with
        | none => none
        | some t1 => forProcSetTraced body ptr fuel t1 (some cc)

/-- `UserProc::initialiseDecompile` on a state with the record. -/
def initialiseDecompileTraced (env : DriverEnv) (t : TracedState) (this : Nat) : TracedState :=
  if env.noDecompile then t.setStatus this .PROC_FINAL else t

/-- `UserProc::earlyDecompile` on a state with the record. -/
def earlyDecompileTraced (t : TracedState) (_this : Nat) : TracedState := t

/-- `UserProc::remUnusedStmtEtc()` on a state with the record. -/
def remUnusedStmtEtcTraced (env : DriverEnv) (t : TracedState) (this : Nat) : TracedState :=
  if !env.noRemoveNull then t.setStatus this .PROC_FINAL else t

/-- `UserProc::middleDecompile` on a state with the record; `decompile` is the driver on such
a state. -/
def middleDecompileTraced (env : DriverEnv)
    (decompile : TracedState → Nat → Option (TracedState × Option Nat)) (t : TracedState)
    (this : Nat) : Option (TracedState × Option Nat) :=
  if env.decodeIndirectJmp t.st this then
    let t1 := TracedState.setStatus { t with st := env.reDecode t.st this } this .PROC_VISITED
    match decompile { t1 with st := { t1.st with path := t1.st.path.dropLast } } this with
    | none => none
    | some (t2, ret) => some ({ t2 with st := { t2.st with path := t2.st.path ++ [this] } }, ret)
  else
    let t1 := t.setStatus this .PROC_EARLYDONE
    some ({ t1 with st := t1.st.newProcSet.1 }, some t1.st.newProcSet.2)

/-- A loop over the cycle group of `this` on a state with the record. -/
def forCycleGrpTraced (body : TracedState → Nat → Option TracedState) (fuel : Nat)
    (t : TracedState) (this : Nat) : Option TracedState :=
  match (t.st.procs this).cycleGrp with
  | none => none
  | some cg => forProcSetTraced body cg fuel t none

/-- The body of the second loop of `UserProc::recursionGroupAnalysis` on a state with the
record: `(*curp)->middleDecompile(path, indent)` and then `setStatus(PROC_PRESERVEDS)`. -/
def middleThenPreserveds (env : DriverEnv)
    (decompile : TracedState → Nat → Option (TracedState × Option Nat)) (s : TracedState)
    (curp : Nat) : Option TracedState :=
  match middleDecompileTraced env decompile s curp with
  | none => none
  | some (s1, _) => some (s1.setStatus curp .PROC_PRESERVEDS)

/-- `UserProc::recursionGroupAnalysis` on a state with the record. -/
def recursionGroupAnalysisTraced (env : DriverEnv)
    (decompile : TracedState → Nat → Option (TracedState × Option Nat)) (fuel : Nat)
    (t : TracedState) (this : Nat) : Option TracedState :=
  match (t.st.procs this).cycleGrp with
  | none => none
  | some cg =>
    match t.st.getSet cg with
    | none => none
    | some members =>
      let t0 : TracedState :=
        { t with st := { t.st with groupRuns := t.st.groupRuns ++ [(this, members)] } }
      match forCycleGrpTraced (fun s curp =>
          some (earlyDecompileTraced
            (initialiseDecompileTraced env (s.setStatus curp .PROC_INCYCLE) curp) curp))
          fuel t0 this with
      | none => none
      | some t1 =>
        match forCycleGrpTraced (middleThenPreserveds env decompile) fuel t1 this with
        | none => none
        | some t2 =>
          match forCycleGrpTraced (fun s p => some (remUnusedStmtEtcTraced env s p)) fuel t2
              this with
          | none => none
          | some t3 =>
            forCycleGrpTraced (fun s p => some (remUnusedStmtEtcTraced env s p)) fuel t3 this

/-- The test of `ProcSet.next`: the element `x` comes after the element `last`. -/
def ProcSet.after (last : Option Nat) (x : Nat) : Bool :=
  match last with
  | none => true
  | some l => decide (l < x)

/-- The calls of `setStatus` that the first loop of `recursionGroupAnalysis` makes for a
member. -/
def firstLoopStatuses (env : DriverEnv) (m : Nat) : List (Nat × ProcStatus) :=
  (m, .PROC_INCYCLE) :: (if env.noDecompile then [(m, .PROC_FINAL)] else [])

/-- The calls of `setStatus` for a member in the second loop: the one at the end of
`middleDecompile` and the one that follows the call of `middleDecompile`. -/
def secondLoopStatuses (m : Nat) : List (Nat × ProcStatus) :=
  [(m, .PROC_EARLYDONE), (m, .PROC_PRESERVEDS)]

/-- The call of `setStatus` for a member in each of the two rounds of `remUnusedStmtEtc`. -/
def lastLoopStatuses (env : DriverEnv) (m : Nat) : List (Nat × ProcStatus) :=
  if !env.noRemoveNull then [(m, .PROC_FINAL)] else []

/-- The state in which `decompile` on the procedure 1 calls `recursionGroupAnalysis` when the
procedures 1 and 2 call each other: both are in the cycle, and their cycle group is the set
that the call of `decompile` on the procedure 2 returned. -/
def sampleGroupState : ProgState :=
  { procs := fun p =>
      { status := if p = 1 ∨ p = 2 then .PROC_INCYCLE else .PROC_DECODED,
        cycleGrp := if p = 1 ∨ p = 2 then some 1 else none,
        calls := if p = 1 then [.user 2] else if p = 2 then [.user 1] else [] },
    sets := [[1, 2], [1, 2]], path := [1], groupRuns := [] }

/-! ## The operators of addition and subtraction in the type analysis -/

/-- `sigmaSum(ta, tb)` of dfa.cpp, the type of a sum from the types of its operands.  The
result is the returned type and the global state after the call; `ch` is the value of the
local `bool ch`, which the source passes on without a value. -/
def sigmaSum (env : Env) (fuel : Nat) (g : Globals) (ta tb : Ty) (ch : Bool) :
    Option (Ty × Globals) :=
  (Ty.resolvesToPointer g.namedTypes fuel ta).bind fun taPointer =>
  if taPointer then
    (Ty.resolvesToPointer g.namedTypes fuel tb).bind fun tbPointer =>
    if tbPointer then (Ty.createUnion env fuel g ta tb ch false).map fun r => (r.ty, r.g)
    else some (.pointer .void, g)
  else
    (Ty.resolvesToInteger g.namedTypes fuel ta).bind fun taInteger =>
    if taInteger then
      (Ty.resolvesToPointer g.namedTypes fuel tb).bind fun tbPointer =>
      if tbPointer then some (.pointer .void, g)
      else some (tb.clone, g)
    else
      (Ty.resolvesToPointer g.namedTypes fuel tb).bind fun tbPointer =>
      if tbPointer then some (.pointer .void, g)
      else some (ta.clone, g)

/-- `deltaSubtrahend(tc, ta)` of dfa.cpp, the type of the subtrahend from the type `tc` of a
difference and the type `ta` of its minuend.  After the test of `tc->resolvesToInteger()` the
source has `return ta->clone();` as a statement of its own, so the two statements that follow
it are never reached and are not part of this definition. -/
def deltaSubtrahend (env : Env) (fuel : Nat) (g : Globals) (tc ta : Ty) (ch : Bool) :
    Option (Ty × Globals) :=
  (Ty.resolvesToPointer g.namedTypes fuel tc).bind fun tcPointer =>
  if tcPointer then
    (Ty.resolvesToPointer g.namedTypes fuel ta).bind fun taPointer =>
    if taPointer then some (.integer env.STD_SIZE 0, g)
    else
      (Ty.resolvesToInteger g.namedTypes fuel ta).bind fun taInteger =>
      if taInteger then (Ty.createUnion env fuel g tc ta ch false).map fun r => (r.ty, r.g)
      else some (.integer env.STD_SIZE 0, g)
  else
    (Ty.resolvesToInteger g.namedTypes fuel tc).bind fun tcInteger =>
    if tcInteger then
      (Ty.resolvesToPointer g.namedTypes fuel ta).bind fun taPointer =>
      if taPointer then some (.pointer .void, g)
      else some (ta.clone, g)
    else some (ta.clone, g)

/-- `deltaDifference(ta, tb)` of dfa.cpp, the type of a difference from the types of its
operands. -/
def deltaDifference (env : Env) (fuel : Nat) (g : Globals) (ta tb : Ty) (ch : Bool) :
    Option (Ty × Globals) :=
  (Ty.resolvesToPointer g.namedTypes fuel ta).bind fun taPointer =>
  if taPointer then
    (Ty.resolvesToPointer g.namedTypes fuel tb).bind fun tbPointer =>
    if tbPointer then some (.integer env.STD_SIZE 0, g)
    else
      (Ty.resolvesToInteger g.namedTypes fuel tb).bind fun tbInteger =>
      if tbInteger then some (.pointer .void, g)
      else some (tb.clone, g)
  else
    (Ty.resolvesToInteger g.namedTypes fuel ta).bind fun taInteger =>
    if taInteger then
      (Ty.resolvesToPointer g.namedTypes fuel tb).bind fun tbPointer =>
      if tbPointer then (Ty.createUnion env fuel g ta tb ch false).map fun r => (r.ty, r.g)
      else some (.integer env.STD_SIZE 0, g)
    else
      (Ty.resolvesToPointer g.namedTypes fuel tb).bind fun tbPointer =>
      if tbPointer then some (.integer env.STD_SIZE 0, g)
      else some (ta.clone, g)

/-- `Binary::ascendType` for the operator `op`, where `ta` and `tb` are the types that
`subExp1->ascendType()` and `subExp2->ascendType()` return.  The result is the returned type
and the global state after the call. -/
def Binary.ascendType (env : Env) (fuel : Nat) (g : Globals) (op : OPER) (ta tb : Ty)
    (ch : Bool) : Option (Ty × Globals) :=
  if op = .opFlagCall then some (.void, g)
  else
    match op with
    | .opPlus => sigmaSum env fuel g ta tb ch
    | .opMinus => deltaDifference env fuel g ta tb ch
    | .opMult | .opDiv =>
      (Ty.getSize env g.namedTypes fuel ta).map fun s => (.integer s (-1), g)
    | .opMults | .opDivs | .opShiftRA =>
      (Ty.getSize env g.namedTypes fuel ta).map fun s => (.integer s 1, g)
    | .opBitAnd | .opBitOr | .opBitXor | .opShiftR | .opShiftL =>
      (Ty.getSize env g.namedTypes fuel ta).map fun s => (.integer s 0, g)
    | .opLess | .opGtr | .opLessEq | .opGtrEq | .opLessUns | .opGtrUns | .opLessEqUns
    | .opGtrEqUns => some (.boolean, g)
    | _ => some (.void, g)

/-- The operators that `Binary::ascendType` lists as comparisons. -/
def OPER.isOrderComparison : OPER → Bool
  | .opLess | .opGtr | .opLessEq | .opGtrEq | .opLessUns | .opGtrUns | .opLessEqUns
  | .opGtrEqUns => true
  | _ => false

/-! ## The Palm loader: the compressed data section and the search for a pattern -/

/-- The loop of `PalmBinaryFile::RealLoad` that uncompresses the data section.  `p` holds the
bytes from the read pointer to the end of the section, `q` the bytes written so far; the
result is the bytes written and the flag `done`.  The operation code `rle` is an
`unsigned char` and is compared and subtracted as an `int`, so a loop whose bound is negative
does not run.  `none` stands for `assert(0)`, for a read past the end of the section and for
the end of the fuel; the size of the buffer written to is not followed. -/
def PalmBinaryFile.uncompress : Nat → List Nat → List Nat → Option (List Nat × Bool)
  | 0, _, _ => none
  | fuel + 1, p, q =>
    match p with
    | [] => some (q, false)
    | rle :: p1 =>
      if rle = 0 then some (q, true)
      else if rle = 1 then
        match p1 with
        | b0 :: b1 :: p2 =>
          PalmBinaryFile.uncompress fuel p2 (q ++ [0, 0, 0, 0, 0xFF, 0xFF, b0, b1])
        | _ => none
      else if rle = 2 then
        match p1 with
        | b0 :: b1 :: b2 :: p2 =>
          PalmBinaryFile.uncompress fuel p2 (q ++ [0, 0, 0, 0, 0xFF, b0, b1, b2])
        | _ => none
      else if rle = 3 then
        match p1 with
        | b0 :: b1 :: b2 :: p2 =>
          PalmBinaryFile.uncompress fuel p2 (q ++ [0xA9, 0xF0, 0, 0, b0, b1, 0, b2])
        | _ => none
      else if rle = 4 then
        match p1 with
        | b0 :: b1 :: b2 :: b3 :: p2 =>
          PalmBinaryFile.uncompress fuel p2 (q ++ [0xA9, 0xF0, 0, b0, b1, b2, 0, b3])
        | _ => none
      else if rle < 0x10 then none
      else if rle ≥ 0x80 then
        if p1.length < rle - 0x80 + 1 then none
        else
          PalmBinaryFile.uncompress fuel (p1.drop (rle - 0x80 + 1))
            (q ++ p1.take (rle - 0x80 + 1))
      else if rle ≥ 40 then
        PalmBinaryFile.uncompress fuel p1
          (q ++ List.replicate (Int.toNat ((rle : Int) - 0x40 + 1)) 0)
      else if rle ≥ 20 then
        match p1 with
        | b :: p2 =>
          PalmBinaryFile.uncompress fuel p2
            (q ++ List.replicate (Int.toNat ((rle : Int) - 0x20 + 2)) b)
        | [] => none
      else
        PalmBinaryFile.uncompress fuel p1
          (q ++ List.replicate (Int.toNat ((rle : Int) - 0x10 + 1)) 0xFF)

/-- The table of operation codes as the comments of the loop and the constants subtracted in
it give it: 0x80 and above copy `rle - 0x80 + 1` bytes, 0x40 to 0x7F write `rle - 0x40 + 1`
zero bytes, 0x20 to 0x3F read a byte and write it `rle - 0x20 + 2` times, 0x10 to 0x1F write
`rle - 0x10 + 1` bytes 0xFF, 1 to 4 write the fixed sequences of eight bytes, 0 ends the
data, and 5 to 0xF are invalid. -/
def PalmBinaryFile.uncompressByTable : Nat → List Nat → List Nat → Option (List Nat × Bool)
  | 0, _, _ => none
  | fuel + 1, p, q =>
    match p with
    | [] => some (q, false)
    | rle :: p1 =>
      if rle = 0 then some (q, true)
      else if rle = 1 then
        match p1 with
        | b0 :: b1 :: p2 =>
          PalmBinaryFile.uncompressByTable fuel p2 (q ++ [0, 0, 0, 0, 0xFF, 0xFF, b0, b1])
        | _ => none
      else if rle = 2 then
        match p1 with
        | b0 :: b1 :: b2 :: p2 =>
          PalmBinaryFile.uncompressByTable fuel p2 (q ++ [0, 0, 0, 0, 0xFF, b0, b1, b2])
        | _ => none
      else if rle = 3 then
        match p1 with
        | b0 :: b1 :: b2 :: p2 =>
          PalmBinaryFile.uncompressByTable fuel p2 (q ++ [0xA9, 0xF0, 0, 0, b0, b1, 0, b2])
        | _ => none
      else if rle = 4 then
        match p1 with
        | b0 :: b1 :: b2 :: b3 :: p2 =>
          PalmBinaryFile.uncompressByTable fuel p2 (q ++ [0xA9, 0xF0, 0, b0, b1, b2, 0, b3])
        | _ => none
      else if rle < 0x10 then none
      else if rle ≥ 0x80 then
        if p1.length < rle - 0x80 + 1 then none
        else
          PalmBinaryFile.uncompressByTable fuel (p1.drop (rle - 0x80 + 1))
            (q ++ p1.take (rle - 0x80 + 1))
      else if rle ≥ 0x40 then
        PalmBinaryFile.uncompressByTable fuel p1 (q ++ List.replicate (rle - 0x40 + 1) 0)
      else if rle ≥ 0x20 then
        match p1 with
        | b :: p2 =>
          PalmBinaryFile.uncompressByTable fuel p2 (q ++ List.replicate (rle - 0x20 + 2) b)
        | [] => none
      else
        PalmBinaryFile.uncompressByTable fuel p1 (q ++ List.replicate (rle - 0x10 + 1) 0xFF)

/-- The value of the macro `WILD`. -/
def WILD : Nat := 0x4AFC

/-- The inner loop of `findPattern` from the index `i` on, with `n` indices left: false at
the first mismatch, true when all parts of the pattern matched.  `mem` is the memory in units
of `SWord`, `patt` the pattern. -/
def findPattern.matchFrom (mem patt : Nat → Nat) (start : Nat) : Nat → Nat → Bool
  | _, 0 => true
  | i, n + 1 =>
    if patt i ≠ WILD ∧ patt i ≠ mem (start + i) then false
    else findPattern.matchFrom mem patt start (i + 1) n

/-- The outer loop of `findPattern` from the position `start` on, with `n` positions left
before `last`. -/
def findPattern.scan (mem patt : Nat → Nat) (pattSize : Int) : Nat → Nat → Option Nat
  | _, 0 => none
  | start, n + 1 =>
    if findPattern.matchFrom mem patt start 0 pattSize.toNat then some start
    else findPattern.scan mem patt pattSize (start + 1) n

/-- `findPattern(start, patt, pattSize, max)`: positions are indices of `SWord`s in the
memory `mem`, and `none` is the null pointer.  `pattSize` and `max` are of type `int`; a loop
whose bound is not positive does not run. -/
def findPattern (mem : Nat → Nat) (start : Nat) (patt : Nat → Nat) (pattSize max : Int) :
    Option Nat :=
  findPattern.scan mem patt pattSize start max.toNat

/-! ## Symmetry of compatibility -/

/-- The types Void, Integer, Float, Boolean, Char, Size, Func with a signature, and the
pointers to such types. -/
def Ty.isSimple : Ty → Bool
  | .void => true
  | .integer _ _ => true
  | .float _ => true
  | .boolean => true
  | .char => true
  | .size _ => true
  | .func (some _) => true
  | .pointer p => Ty.isSimple p
  | _ => false

/-- A Size type of STD_SIZE bits stands against a function type, in the two types or, for two
pointers, in what they point to. -/
def Ty.sizeMeetsFunc (env : Env) : Ty → Ty → Bool
  | .size n, .func _ => n == env.STD_SIZE
  | .func _, .size n => n == env.STD_SIZE
  | .pointer p, .pointer q => Ty.sizeMeetsFunc env p q
  | _, _ => false

/-- The number of pointer constructors at the head of a type. -/
def Ty.pointerDepth : Ty → Nat
  | .pointer p => Ty.pointerDepth p + 1
  | _ => 0

/-! ## operator== with the counter of nested pointer comparisons -/

/-- Modelled from the spec: `UnionEntrySet::find` is declared in type.h, which is not part of
the sources; the elements of the other union are compared with the key one after the other up
to the first equal one.  `eq e n` is the comparison of the key with the element `e`, entered
with the counter at `n`; the result is the answer and the counter afterwards. -/
def Members.findCount (eq : Ty → Int → Bool × Int) : Members → Int → Bool × Int
  | .nil, n => (false, n)
  | .cons t _ _ tl, n =>
    match eq t n with
    | (true, n1) => (true, n1)
    | (false, n1) => Members.findCount eq tl n1

mutual
/-- The virtual `Type::operator==` together with the static counter `pointerCompareNest`:
`Ty.eqCount a b n` is the answer of `*a == *b` entered with the counter at `n`, and the
counter when the call returns.  `PointerType::operator==` increments the counter, answers
true without decrementing it once it has reached 20, and otherwise decrements it after the
comparison of the pointees. -/
def Ty.eqCount : Ty → Ty → Int → Bool × Int
  | .void, o, n => (o.isVoid, n)
  | .func s, o, n =>
    match o with
    | .func s2 => (FuncType.sameSignature s s2, n)
    | _ => (false, n)
  | .integer s g, o, n =>
    match o with
    | .integer s2 g2 =>
      ((s == 0 || s2 == 0 || s == s2) &&
        ((decide (g < 0) && decide (g2 < 0)) || (decide (g = 0) && decide (g2 = 0)) ||
          (decide (g > 0) && decide (g2 > 0))), n)
    | _ => (false, n)
  | .float s, o, n =>
    match o with
    | .float s2 => (s == 0 || s2 == 0 || s == s2, n)
    | _ => (false, n)
  | .boolean, o, n => (o.isBoolean, n)
  | .char, o, n => (o.isChar, n)
  | .pointer p, o, n =>
    match o with
    | .pointer q =>
      if n + 1 ≥ 20 then (true, n + 1)
      else
        match Ty.eqCount p q (n + 1) with
        | (ret, n1) => (ret, n1 - 1)
    | _ => (false, n)
  | .array b l, o, n =>
    match o with
    | .array b2 l2 =>
      match Ty.eqCount b b2 n with
      | (true, n1) => (l2 == l, n1)
      | (false, n1) => (false, n1)
    | _ => (false, n)
  | .named m, o, n =>
    match o with
    | .named m2 => (m == m2, n)
    | _ => (false, n)
  | .compound ms _ _, o, n =>
    match o with
    | .compound ms2 _ _ =>
      if ms2.length == ms.length then Members.eqTypesCount ms ms2 n else (false, n)
    | _ => (false, n)
  | .union li, o, n =>
    match o with
    | .union li2 =>
      if li2.length != li.length then (false, n) else Members.allFoundCount li li2 n
    | _ => (false, n)
  | .size s, o, n =>
    match o with
    | .size s2 => (s == s2, n)
    | _ => (false, n)
  | .upper b, o, n =>
    match o with
    | .upper b2 => Ty.eqCount b b2 n
    | _ => (false, n)
  | .lower b, o, n =>
    match o with
    | .lower b2 => Ty.eqCount b b2 n
    | _ => (false, n)
/-- The loop of `CompoundType::operator==` over two member vectors of the same length, which
returns at the first pair of members that differ. -/
def Members.eqTypesCount : Members → Members → Int → Bool × Int
  | .nil, _, n => (true, n)
  | .cons t _ _ tl, o, n =>
    match o with
    | .cons t2 _ _ tl2 =>
      match Ty.eqCount t t2 n with
      | (true, n1) => Members.eqTypesCount tl tl2 n1
      | (false, n1) => (false, n1)
    | .nil => (true, n)
/-- The loop of `UnionType::operator==`, which returns at the first element of the receiver
that is not found in the other union. -/
def Members.allFoundCount : Members → Members → Int → Bool × Int
  | .nil, _, n => (true, n)
  | .cons t _ _ tl, o, n =>
    match Members.findCount (fun e k => Ty.eqCount t e k) o n with
    | (true, n1) => Members.allFoundCount tl o n1
    | (false, n1) => (false, n1)
end

/-- The type `t` under `k` pointer constructors (`PointerType::get` applied `k` times). -/
def Ty.pointerChain : Nat → Ty → Ty
  | 0, t => t
  | k + 1, t => .pointer (Ty.pointerChain k t)

/-! ## The registry of named types -/

/-- `namedTypes[name] = ty` on the registry: the entry of the name is replaced, or added when
there is none. -/
def assignNamedType (nt : List (String × Ty)) (name : String) (ty : Ty) :
    List (String × Ty) :=
  match getNamedType nt name with
  | some _ => setNamedType nt name ty
  | none => nt ++ [(name, ty)]

/-- `Type::addNamedType(name, type)`: a registered name takes the new type when that differs
from the registered one; a new name takes a copy of the type registered under
`type->getCtype()` when there is one, and a copy of `type` otherwise. -/
def Type.addNamedType (env : Env) (nt : List (String × Ty)) (name : String) (type : Ty) :
    List (String × Ty) :=
  match getNamedType nt name with
  | some previous =>
    if !(Ty.opEq type previous) then assignNamedType nt name type else nt
  | none =>
    match getNamedType nt (Ty.getCtype env false type) with
    | some base => assignNamedType nt name base.clone
    | none => assignNamedType nt name type.clone

/-- The registry after a sequence of calls of `Type::addNamedType`, started from `nt`. -/
def Type.addNamedTypes (env : Env) (nt : List (String × Ty)) :
    List (String × Ty) → List (String × Ty)
  | [] => nt
  | (name, type) :: calls => Type.addNamedTypes env (Type.addNamedType env nt name type) calls

/-- The call `Type::addNamedType(name, type)` on the registry `nt` has a type that is not a
NamedType, or it has a new name and a type whose name is registered. -/
def Type.addsResolved (env : Env) (nt : List (String × Ty)) (name : String) (type : Ty) :
    Bool :=
  !type.isNamed ||
    ((getNamedType nt name).isNone && (getNamedType nt (Ty.getCtype env false type)).isSome)

/-- Every call of the sequence, made on the registry that the calls before it leave, has a
type that is not a NamedType, or a new name and a type whose name is registered. -/
def Type.allAddResolved (env : Env) : List (String × Ty) → List (String × Ty) → Bool
  | _, [] => true
  | nt, (name, type) :: calls =>
    Type.addsResolved env nt name type &&
      Type.allAddResolved env (Type.addNamedType env nt name type) calls

/-- No entry of the registry is a NamedType. -/
def NamedType.noneRegistered (nt : List (String × Ty)) : Bool :=
  nt.all fun e => !e.2.isNamed

/-! ## Pointer nesting and null signatures -/

mutual
/-- The depth to which pointer types are nested in a type: the largest number of pointer
constructors on a path from the type down to a type inside it. -/
def Ty.pointerNesting : Ty → Nat
  | .pointer p => Ty.pointerNesting p + 1
  | .array b _ => Ty.pointerNesting b
  | .compound ms _ _ => Members.pointerNesting ms
  | .union li => Members.pointerNesting li
  | .upper b => Ty.pointerNesting b
  | .lower b => Ty.pointerNesting b
  | _ => 0
/-- The largest pointer nesting among the members. -/
def Members.pointerNesting : Members → Nat
  | .nil => 0
  | .cons t _ _ tl => max (Ty.pointerNesting t) (Members.pointerNesting tl)
end

/-- One of the two types is a function type without a signature and the other a function type
with one: `FuncType::operator==` called on the one with the signature dereferences the null
signature of the other. -/
def oneNullSignature : Ty → Ty → Bool
  | .func none, .func (some _) => true
  | .func (some _), .func none => true
  | _, _ => false

/-! ## The iterations of the loop of `middleDecompile` in terms of its passes -/

/-- The state in which the propagation loop of an iteration of the outer loop is entered, when
the iteration has the pass number `pass` and starts in the state `s`: after phi placement, the
numbering of new statements, the renaming, the update of the return statement and the three
rounds that update the returns. -/
def middleBeforePropagate {σ : Type} (ops : MiddleOps σ) (pass : Int) (s : σ) : σ :=
  let ph := ops.placePhiFunctions s
  let rn := ops.doRenameBlockVars pass false
    (if ph.2 then ops.numberStatements ph.1 else ph.1)
  let s2 := if ops.theReturnStatement rn.1 then ops.updateReturns (ops.updateModifieds rn.1)
    else rn.1
  if !ops.noChangeSignatures then
    updateReturnsOnce ops pass (updateReturnsOnce ops pass (updateReturnsOnce ops pass s2))
  else s2

/-- What the renaming that follows phi placement returns in an iteration with the pass number
`pass` that starts in the state `s`. -/
def middleRenamed {σ : Type} (ops : MiddleOps σ) (pass : Int) (s : σ) : Bool :=
  (ops.doRenameBlockVars pass false
    (if (ops.placePhiFunctions s).2 then ops.numberStatements (ops.placePhiFunctions s).1
     else (ops.placePhiFunctions s).1)).2

/-- The state in which the body of the propagation loop is executed for the `k`-th time
(counted from 0) when the loop is entered in the state `s` and every execution before
converted an indirect call: each of them is followed by `setRenameLocalsParams(false)` and the
renaming at level 0. -/
def propagateStateAt {σ : Type} (ops : MiddleOps σ) (pass : Int) : Nat → σ → σ
  | 0, s => s
  | k + 1, s =>
    propagateStateAt ops pass k
      (ops.doRenameBlockVars 0 true (ops.setRenameLocalsParams false
        (ops.doRenameBlockVars pass true (ops.propagateStatements pass s).1).1)).1

/-- What the passes return in the `k`-th execution of the body of the propagation loop entered
in the state `s`: the result of `propagateStatements`, of the renaming after it, the flag
`convert`, and the result of the renaming at level 0 when `convert` is set. -/
def propagateRoundAt {σ : Type} (ops : MiddleOps σ) (pass : Int) (s : σ) (k : Nat) :
    PropagateRound :=
  let t := propagateStateAt ops pass k s
  let p := ops.propagateStatements pass t
  let r := ops.doRenameBlockVars pass true p.1
  { propagated := p.2.1, renamed := r.2, convert := p.2.2,
    renamed0 := if p.2.2 then
        some (ops.doRenameBlockVars 0 true (ops.setRenameLocalsParams false r.1)).2
      else none }

/-- The state in which the propagation loop is left after `m` executions of its body, the last
of which converted no call, followed by the removal of the assignments that
`removeSpAssignsIfPossible` and `removeMatchingAssignsIfPossible` remove. -/
def middleAfterPropagate {σ : Type} (ops : MiddleOps σ) (pass : Int) (s : σ) (m : Nat) : σ :=
  ops.removeMatchingAssignsIfPossible .pc
    (ops.removeMatchingAssignsIfPossible .tempWildStrConst
      (ops.removeSpAssignsIfPossible
        (ops.doRenameBlockVars pass true
          (ops.propagateStatements pass (propagateStateAt ops pass (m - 1) s)).1).1))

/-- The record `e` and the state `t` are those of an iteration of the outer loop with the pass
number `pass` that starts in the state `s`: phi placement and the renaming returned `e.phi`
and `e.renamed`; the body of the propagation loop was executed `m` times, at least once, each
time with the results that the passes return in its state; every execution but the last
converted an indirect call and the last converted none; `e.change` is true exactly when phi
placement, a renaming or a propagation returned true; and `t` is the state that these passes
leave. -/
def MiddlePass.isIteration {σ : Type} (ops : MiddleOps σ) (pass : Int) (s : σ) (e : MiddlePass)
    (t : σ) : Prop :=
  e.pass = pass ∧ e.phi = (ops.placePhiFunctions s).2 ∧ e.renamed = middleRenamed ops pass s ∧
  ∃ m, 1 ≤ m ∧
    e.rounds = (List.range m).map (propagateRoundAt ops pass (middleBeforePropagate ops pass s)) ∧
    (∀ k, k + 1 < m →
      (ops.propagateStatements pass
        (propagateStateAt ops pass k (middleBeforePropagate ops pass s))).2.2 = true) ∧
    (ops.propagateStatements pass
      (propagateStateAt ops pass (m - 1) (middleBeforePropagate ops pass s))).2.2 = false ∧
    e.change = ((ops.placePhiFunctions s).2 || middleRenamed ops pass s ||
      (List.range m).any (fun k =>
        (propagateRoundAt ops pass (middleBeforePropagate ops pass s) k).reported)) ∧
    t = middleAfterPropagate ops pass (middleBeforePropagate ops pass s) m

/-- The iterations with the records `es`, made one after the other with the pass numbers
`pass`, `pass + 1`, ..., lead from the state `s` to the state `t`. -/
def middleChain {σ : Type} (ops : MiddleOps σ) : Int → σ → List MiddlePass → σ → Prop
  | _, s, [], t => t = s
  | pass, s, e :: es, t =>
    ∃ s1, MiddlePass.isIteration ops pass s e s1 ∧ middleChain ops (pass + 1) s1 es t

/-! Theorems: member lists and reflexivity of operator== -/

theorem FuncType.sameSignature_self (s : Option Nat) : FuncType.sameSignature s s = true := by
  cases s <;> simp [FuncType.sameSignature]

theorem Members.append_assoc : ∀ (a b c : Members),
    (a.append b).append c = a.append (b.append c)
  | .nil, _, _ => rfl
  | .cons t n o tl, b, c => by
    simp only [Members.append]
    rw [Members.append_assoc tl b c]

theorem Members.append_nil : ∀ (a : Members), a.append .nil = a
  | .nil => rfl
  | .cons t n o tl => by
    simp only [Members.append]
    rw [Members.append_nil tl]

theorem Members.any_append : ∀ (p : Ty → Bool) (a b : Members),
    (a.append b).any p = (a.any p || b.any p)
  | _, .nil, _ => by simp [Members.append, Members.any]
  | p, .cons t n o tl, b => by
    simp only [Members.append, Members.any]
    rw [Members.any_append p tl b, Bool.or_assoc]

theorem Members.length_append : ∀ (a b : Members),
    (a.append b).length = a.length + b.length
  | .nil, b => by simp [Members.append, Members.length]
  | .cons t n o tl, b => by
    simp only [Members.append, Members.length]
    rw [Members.length_append tl b]
    omega

theorem Members.allFound_self_from : ∀ (li pre : Members) (nest : Nat),
    li.all (fun t => Ty.eqNest t t nest) = true →
    Members.allFound li (pre.append li) nest = true
  | .nil, _, _, _ => rfl
  | .cons t n o tl, pre, nest, h => by
    simp only [Members.all, Bool.and_eq_true] at h
    simp only [Members.allFound, Bool.and_eq_true]
    constructor
    · rw [Members.any_append]
      simp [Members.any, h.1]
    · have := Members.allFound_self_from tl (pre.append (.cons t n o .nil)) nest h.2
      rw [Members.append_assoc] at this
      exact this

mutual
theorem Ty.eqNest_self : ∀ (t : Ty) (nest : Nat), Ty.eqNest t t nest = true
  | .void, _ => rfl
  | .func s, _ => by simp [Ty.eqNest, FuncType.sameSignature_self]
  | .integer s g, _ => by
    simp [Ty.eqNest]
    omega
  | .float s, _ => by simp [Ty.eqNest]
  | .boolean, _ => rfl
  | .char, _ => rfl
  | .pointer p, nest => by
    simp only [Ty.eqNest]
    split
    · rfl
    · exact Ty.eqNest_self p (nest + 1)
  | .array b l, nest => by simp [Ty.eqNest, Ty.eqNest_self b nest]
  | .named n, _ => by simp [Ty.eqNest]
  | .compound ms _ _, nest => by simp [Ty.eqNest, Members.eqTypes_self ms nest]
  | .union li, nest => by
    simp only [Ty.eqNest, beq_self_eq_true, Bool.true_and]
    exact Members.allFound_self_from li .nil nest (Members.all_eqNest_self li nest)
  | .size s, _ => by simp [Ty.eqNest]
  | .upper b, nest => by simp [Ty.eqNest, Ty.eqNest_self b nest]
  | .lower b, nest => by simp [Ty.eqNest, Ty.eqNest_self b nest]
theorem Members.eqTypes_self : ∀ (ms : Members) (nest : Nat), Members.eqTypes ms ms nest = true
  | .nil, _ => rfl
  | .cons t _ _ tl, nest => by
    simp [Members.eqTypes, Ty.eqNest_self t nest, Members.eqTypes_self tl nest]
theorem Members.all_eqNest_self : ∀ (ms : Members) (nest : Nat),
    ms.all (fun t => Ty.eqNest t t nest) = true
  | .nil, _ => rfl
  | .cons t _ _ tl, nest => by
    simp [Members.all, Ty.eqNest_self t nest, Members.all_eqNest_self tl nest]
end

theorem Ty.opEq_self (t : Ty) : Ty.opEq t t = true := Ty.eqNest_self t 0

theorem FuncType.sameSignature_comm (s1 s2 : Option Nat) :
    FuncType.sameSignature s1 s2 = FuncType.sameSignature s2 s1 := by
  cases s1 <;> cases s2 <;> simp [FuncType.sameSignature, eq_comm]

/-! ## clone and resolution -/

theorem UnionType.addEach_of_isSetAfter : ∀ (rest acc : Members),
    Members.isSetAfter acc rest = true → UnionType.addEach acc rest = acc.append rest
  | .nil, acc, _ => by simp [UnionType.addEach, Members.append_nil]
  | .cons t n o tl, acc, h => by
    simp only [Members.isSetAfter, Bool.and_eq_true, Bool.not_eq_true'] at h
    obtain ⟨⟨hu, hf⟩, htl⟩ := h
    have hadd : UnionType.addType acc t n o = acc.append (.cons t n o .nil) := by
      cases t <;> simp_all [UnionType.addType, Members.insert, Ty.isUnion]
    simp only [UnionType.addEach, hadd]
    rw [UnionType.addEach_of_isSetAfter tl _ htl, Members.append_assoc]
    rfl

theorem Members.length_cloneTypes : ∀ (ms : Members), (Members.cloneTypes ms).length = ms.length
  | .nil => rfl
  | .cons t n o tl => by
    simp only [Members.cloneTypes, Members.length]
    rw [Members.length_cloneTypes tl]

mutual
theorem Ty.eqNest_clone : ∀ (t : Ty) (nest : Nat), t.unionsAreSets = true →
    Ty.eqNest t.clone t nest = true
  | .void, _, _ => rfl
  | .func s, _, _ => by simp [Ty.clone, Ty.eqNest, FuncType.sameSignature_self]
  | .integer s g, nest, _ => Ty.eqNest_self (.integer s g) nest
  | .float s, nest, _ => Ty.eqNest_self (.float s) nest
  | .boolean, _, _ => rfl
  | .char, _, _ => rfl
  | .pointer p, nest, h => by
    simp only [Ty.unionsAreSets] at h
    simp only [Ty.clone, Ty.eqNest]
    split
    · rfl
    · exact Ty.eqNest_clone p (nest + 1) h
  | .array b l, nest, h => by
    simp only [Ty.unionsAreSets] at h
    simp [Ty.clone, Ty.eqNest, Ty.eqNest_clone b nest h]
  | .named n, nest, _ => Ty.eqNest_self (.named n) nest
  | .compound ms _ _, nest, h => by
    simp only [Ty.unionsAreSets] at h
    simp [Ty.clone, Ty.eqNest, Members.length_cloneTypes, Members.eqTypes_clone ms nest h]
  | .union li, nest, h => by
    simp only [Ty.unionsAreSets] at h
    simp only [Ty.clone]
    rw [UnionType.addEach_of_isSetAfter li .nil h]
    exact Ty.eqNest_self (.union li) nest
  | .size s, nest, _ => Ty.eqNest_self (.size s) nest
  | .upper b, nest, h => by
    simp only [Ty.unionsAreSets] at h
    simp [Ty.clone, Ty.eqNest, Ty.eqNest_clone b nest h]
  | .lower b, nest, h => by
    simp only [Ty.unionsAreSets] at h
    simp [Ty.clone, Ty.eqNest, Ty.eqNest_clone b nest h]
theorem Members.eqTypes_clone : ∀ (ms : Members) (nest : Nat), ms.unionsAreSets = true →
    Members.eqTypes (Members.cloneTypes ms) ms nest = true
  | .nil, _, _ => rfl
  | .cons t _ _ tl, nest, h => by
    simp only [Members.unionsAreSets, Bool.and_eq_true] at h
    simp [Members.cloneTypes, Members.eqTypes, Ty.eqNest_clone t nest h.1,
      Members.eqTypes_clone tl nest h.2]
end

theorem NamedType.resolvesTo_not_named (nt : List (String × Ty)) :
    ∀ (fuel : Nat) (name : String) (rt : Ty),
      NamedType.resolvesTo nt fuel name = some (some rt) → rt.isNamed = false
  | 0, _, _, h => by simp [NamedType.resolvesTo] at h
  | fuel + 1, name, rt, h => by
    simp only [NamedType.resolvesTo] at h
    split at h
    · exact NamedType.resolvesTo_not_named nt fuel _ rt h
    · next r hr =>
      injection h with h
      cases rt <;> simp_all [Ty.isNamed]

theorem NamedType.finalName_of_resolvesTo (nt : List (String × Ty)) :
    ∀ (fuel : Nat) (name : String) (ro : Option Ty),
      NamedType.resolvesTo nt fuel name = some ro → ∃ key, NamedType.finalName nt fuel name = some key
  | 0, _, _, h => by simp [NamedType.resolvesTo] at h
  | fuel + 1, name, ro, h => by
    simp only [NamedType.resolvesTo] at h
    simp only [NamedType.finalName]
    split at h
    · exact NamedType.finalName_of_resolvesTo nt fuel _ ro h
    · exact ⟨name, rfl⟩

theorem Ty.meetWith_void_arg (env : Env) (fuel : Nat) (g : Globals) (t : Ty) (ch hp : Bool)
    (hv : t.isVoid = false) (hn : t.isNamed = false) :
    Ty.meetWith env (fuel + 1) g t .void ch hp = retThis t ch g := by
  cases t <;> simp_all [Ty.meetWith, Ty.resolved, kindIs, Ty.isVoid, Ty.isNamed]

/-! ## Which object meetWith returns -/

theorem Ty.createUnion_origin (env : Env) (fuel : Nat) (g : Globals) (this other : Ty)
    (ch hp : Bool) (r : MeetResult)
    (h : Ty.createUnion env fuel g this other ch hp = some r) : r.origin = .created := by
  cases fuel with
  | zero => simp [Ty.createUnion] at h
  | succ f =>
    rw [Ty.createUnion] at h
    repeat' split at h
    all_goals first
      | contradiction
      | (simp only [retNew, Option.some.injEq] at h; subst h; rfl)

theorem UnionType.meetEach_origin (meet : Globals → Ty → Ty → Bool → Option MeetResult) :
    ∀ (oli : Members) (this : Ty) (ch : Bool) (g : Globals) (r : MeetResult),
      UnionType.meetEach meet oli this ch g = some r → r.origin = .receiver
  | .nil, this, ch, g, r, h => by
    simp only [UnionType.meetEach, retThis, Option.some.injEq] at h
    subst h
    rfl
  | .cons t n o tl, this, ch, g, r, h => by
    simp only [UnionType.meetEach] at h
    split at h
    · contradiction
    · exact UnionType.meetEach_origin meet tl _ _ _ r h

set_option maxHeartbeats 8000000 in
theorem Ty.meetWith_origin_argument (env : Env) :
    ∀ (fuel : Nat) (g : Globals) (this other : Ty) (ch hp : Bool) (r : MeetResult),
      Ty.meetWith env fuel g this other ch hp = some r → r.origin = .argument →
      ∃ f ms gen nx, Ty.resolved g.namedTypes f other = some (some (.compound ms gen nx))
  | 0, _, _, _, _, _, _, h, _ => by simp [Ty.meetWith] at h
  | fuel + 1, g, this, other, ch, hp, r, h, ho => by
    have ih := Ty.meetWith_origin_argument env fuel
    cases this <;> simp only [Ty.meetWith] at h
    all_goals repeat' split at h
    all_goals first
      | contradiction
      | (simp only [retThis, retNew, Option.some.injEq] at h; subst h; simp at ho; done)
      | (rw [Ty.createUnion_origin _ _ _ _ _ _ _ _ h] at ho; simp at ho)
      | (rw [UnionType.meetEach_origin _ _ _ _ _ _ h] at ho; simp at ho)
      | (simp only [Option.some.injEq] at h; subst h; exact ih _ _ _ _ _ _ (by assumption) ho)
      | exact ⟨_, _, _, _, by assumption⟩

/-! ## The counter of nested pointer comparisons and `Ty.eqNest` -/

/-- The search with the counter is the search without it when every comparison gives the
counter back. -/
theorem Members.findCount_eq (f : Ty → Int → Bool × Int) (p : Ty → Bool) (n K : Nat)
    (hf : ∀ e, n + min K e.pointerNesting < 20 → f e n = (p e, (n : Int))) :
    ∀ (o : Members), n + min K o.pointerNesting < 20 →
      Members.findCount f o n = (o.any p, (n : Int))
  | .nil, _ => rfl
  | .cons t nm ob tl, h => by
    simp only [Members.pointerNesting] at h
    have h1 := hf t (by omega)
    have h2 := Members.findCount_eq f p n K hf tl (by omega)
    simp only [Members.findCount, Members.any, h1]
    cases p t
    · simpa using h2
    · rfl

mutual
/-- When one of the two types nests pointers to a depth that, added to the value of the
counter on entry, stays below 20, the comparison does not reach the cut-off: it answers as
`Ty.eqNest` does and leaves the counter at its value on entry. -/
theorem Ty.eqCount_of_pointerNesting : ∀ (a b : Ty) (n : Nat),
    n + min a.pointerNesting b.pointerNesting < 20 →
    Ty.eqCount a b (n : Int) = (Ty.eqNest a b n, (n : Int))
  | .void, b, n, _ => by simp [Ty.eqCount, Ty.eqNest]
  | .func s, b, n, _ => by cases b <;> simp [Ty.eqCount, Ty.eqNest]
  | .integer s g, b, n, _ => by cases b <;> simp [Ty.eqCount, Ty.eqNest]
  | .float s, b, n, _ => by cases b <;> simp [Ty.eqCount, Ty.eqNest]
  | .boolean, b, n, _ => by simp [Ty.eqCount, Ty.eqNest]
  | .char, b, n, _ => by simp [Ty.eqCount, Ty.eqNest]
  | .named m, b, n, _ => by cases b <;> simp [Ty.eqCount, Ty.eqNest]
  | .size s, b, n, _ => by cases b <;> simp [Ty.eqCount, Ty.eqNest]
  | .pointer p, b, n, h => by
    cases b with
    | pointer q =>
      simp only [Ty.pointerNesting] at h
      have ih := Ty.eqCount_of_pointerNesting p q (n + 1) (by omega)
      have hn : ¬ ((n : Int) + 1 ≥ 20) := by omega
      have hn2 : ¬ (n + 1 ≥ 20) := by omega
      have e1 : ((n : Int) + 1) = ((n + 1 : Nat) : Int) := by omega
      simp only [Ty.eqCount, Ty.eqNest, hn, hn2, if_false]
      rw [e1, ih]
      simp
    | _ => simp [Ty.eqCount, Ty.eqNest]
  | .array b1 l, b, n, h => by
    cases b with
    | array b2 l2 =>
      simp only [Ty.pointerNesting] at h
      have ih := Ty.eqCount_of_pointerNesting b1 b2 n h
      simp only [Ty.eqCount, Ty.eqNest, ih]
      cases Ty.eqNest b1 b2 n <;> simp
    | _ => simp [Ty.eqCount, Ty.eqNest]
  | .compound ms g1 nx, b, n, h => by
    cases b with
    | compound ms2 g2 nx2 =>
      simp only [Ty.pointerNesting] at h
      have ih := Members.eqTypesCount_of_pointerNesting ms ms2 n h
      simp only [Ty.eqCount, Ty.eqNest, ih]
      cases (ms2.length == ms.length) <;> simp
    | _ => simp [Ty.eqCount, Ty.eqNest]
  | .union li, b, n, h => by
    cases b with
    | union li2 =>
      simp only [Ty.pointerNesting] at h
      have ih := Members.allFoundCount_of_pointerNesting li li2 n h
      simp only [Ty.eqCount, Ty.eqNest, ih]
      by_cases hl : li2.length = li.length
      · simp [hl]
      · simp [hl]
    | _ => simp [Ty.eqCount, Ty.eqNest]
  | .upper b1, b, n, h => by
    cases b with
    | upper b2 =>
      simp only [Ty.pointerNesting] at h
      simp only [Ty.eqCount, Ty.eqNest, Ty.eqCount_of_pointerNesting b1 b2 n h]
    | _ => simp [Ty.eqCount, Ty.eqNest]
  | .lower b1, b, n, h => by
    cases b with
    | lower b2 =>
      simp only [Ty.pointerNesting] at h
      simp only [Ty.eqCount, Ty.eqNest, Ty.eqCount_of_pointerNesting b1 b2 n h]
    | _ => simp [Ty.eqCount, Ty.eqNest]
/-- The loop over the members of two compounds, likewise. -/
theorem Members.eqTypesCount_of_pointerNesting : ∀ (ms ms2 : Members) (n : Nat),
    n + min ms.pointerNesting ms2.pointerNesting < 20 →
    Members.eqTypesCount ms ms2 (n : Int) = (Members.eqTypes ms ms2 n, (n : Int))
  | .nil, _, _, _ => rfl
  | .cons t nm ob tl, ms2, n, h => by
    cases ms2 with
    | nil => rfl
    | cons t2 nm2 ob2 tl2 =>
      simp only [Members.pointerNesting] at h
      have ih1 := Ty.eqCount_of_pointerNesting t t2 n (by omega)
      have ih2 := Members.eqTypesCount_of_pointerNesting tl tl2 n (by omega)
      simp only [Members.eqTypesCount, Members.eqTypes, ih1]
      cases Ty.eqNest t t2 n
      · rfl
      · simpa using ih2
/-- The loop over the elements of two unions, likewise. -/
theorem Members.allFoundCount_of_pointerNesting : ∀ (li o : Members) (n : Nat),
    n + min li.pointerNesting o.pointerNesting < 20 →
    Members.allFoundCount li o (n : Int) = (Members.allFound li o n, (n : Int))
  | .nil, _, _, _ => rfl
  | .cons t nm ob tl, o, n, h => by
    simp only [Members.pointerNesting] at h
    have hfind := Members.findCount_eq (fun e k => Ty.eqCount t e k)
      (fun e => Ty.eqNest t e n) n (Ty.pointerNesting t)
      (fun e he => Ty.eqCount_of_pointerNesting t e n he) o (by omega)
    have ih := Members.allFoundCount_of_pointerNesting tl o n (by omega)
    simp only [Members.allFoundCount, Members.allFound, hfind]
    cases Members.any (fun e => Ty.eqNest t e n) o
    · rfl
    · simpa using ih
end

/-- Two searches agree when the tests agree on the elements whose nesting is within the
bound. -/
theorem Members.any_congr_of_pointerNesting (p q : Ty → Bool) (n K : Nat)
    (hpq : ∀ e, n + min K e.pointerNesting < 20 → p e = q e) :
    ∀ (o : Members), n + min K o.pointerNesting < 20 → o.any p = o.any q
  | .nil, _ => rfl
  | .cons t nm ob tl, h => by
    simp only [Members.pointerNesting] at h
    simp only [Members.any, hpq t (by omega),
      Members.any_congr_of_pointerNesting p q n K hpq tl (by omega)]

mutual
/-- Below the cut-off the answer of a comparison does not depend on the value of the counter
on entry. -/
theorem Ty.eqNest_zero_of_pointerNesting : ∀ (a b : Ty) (n : Nat),
    n + min a.pointerNesting b.pointerNesting < 20 → Ty.eqNest a b n = Ty.eqNest a b 0
  | .void, b, n, _ => by simp [Ty.eqNest]
  | .func s, b, n, _ => by cases b <;> simp [Ty.eqNest]
  | .integer s g, b, n, _ => by cases b <;> simp [Ty.eqNest]
  | .float s, b, n, _ => by cases b <;> simp [Ty.eqNest]
  | .boolean, b, n, _ => by simp [Ty.eqNest]
  | .char, b, n, _ => by simp [Ty.eqNest]
  | .named m, b, n, _ => by cases b <;> simp [Ty.eqNest]
  | .size s, b, n, _ => by cases b <;> simp [Ty.eqNest]
  | .pointer p, b, n, h => by
    cases b with
    | pointer q =>
      simp only [Ty.pointerNesting] at h
      have ih1 := Ty.eqNest_zero_of_pointerNesting p q (n + 1) (by omega)
      have ih2 := Ty.eqNest_zero_of_pointerNesting p q 1 (by omega)
      have hn : ¬ (n + 1 ≥ 20) := by omega
      simp only [Ty.eqNest, hn, if_false, ih1]
      simp [ih2]
    | _ => simp [Ty.eqNest]
  | .array b1 l, b, n, h => by
    cases b with
    | array b2 l2 =>
      simp only [Ty.pointerNesting] at h
      simp only [Ty.eqNest, Ty.eqNest_zero_of_pointerNesting b1 b2 n h]
    | _ => simp [Ty.eqNest]
  | .compound ms g1 nx, b, n, h => by
    cases b with
    | compound ms2 g2 nx2 =>
      simp only [Ty.pointerNesting] at h
      simp only [Ty.eqNest, Members.eqTypes_zero_of_pointerNesting ms ms2 n h]
    | _ => simp [Ty.eqNest]
  | .union li, b, n, h => by
    cases b with
    | union li2 =>
      simp only [Ty.pointerNesting] at h
      simp only [Ty.eqNest, Members.allFound_zero_of_pointerNesting li li2 n h]
    | _ => simp [Ty.eqNest]
  | .upper b1, b, n, h => by
    cases b with
    | upper b2 =>
      simp only [Ty.pointerNesting] at h
      simp only [Ty.eqNest, Ty.eqNest_zero_of_pointerNesting b1 b2 n h]
    | _ => simp [Ty.eqNest]
  | .lower b1, b, n, h => by
    cases b with
    | lower b2 =>
      simp only [Ty.pointerNesting] at h
      simp only [Ty.eqNest, Ty.eqNest_zero_of_pointerNesting b1 b2 n h]
    | _ => simp [Ty.eqNest]
/-- The loop over the members of two compounds, likewise. -/
theorem Members.eqTypes_zero_of_pointerNesting : ∀ (ms ms2 : Members) (n : Nat),
    n + min ms.pointerNesting ms2.pointerNesting < 20 →
    Members.eqTypes ms ms2 n = Members.eqTypes ms ms2 0
  | .nil, _, _, _ => rfl
  | .cons t nm ob tl, ms2, n, h => by
    cases ms2 with
    | nil => rfl
    | cons t2 nm2 ob2 tl2 =>
      simp only [Members.pointerNesting] at h
      simp only [Members.eqTypes, Ty.eqNest_zero_of_pointerNesting t t2 n (by omega),
        Members.eqTypes_zero_of_pointerNesting tl tl2 n (by omega)]
/-- The loop over the elements of two unions, likewise. -/
theorem Members.allFound_zero_of_pointerNesting : ∀ (li o : Members) (n : Nat),
    n + min li.pointerNesting o.pointerNesting < 20 →
    Members.allFound li o n = Members.allFound li o 0
  | .nil, _, _, _ => rfl
  | .cons t nm ob tl, o, n, h => by
    simp only [Members.pointerNesting] at h
    have hany := Members.any_congr_of_pointerNesting (fun e => Ty.eqNest t e n)
      (fun e => Ty.eqNest t e 0) n (Ty.pointerNesting t)
      (fun e he => Ty.eqNest_zero_of_pointerNesting t e n he) o (by omega)
    simp only [Members.allFound, hany,
      Members.allFound_zero_of_pointerNesting tl o n (by omega)]
end

/-- For two types of which one nests pointers to a depth that, added to the value `n` of the
counter on entry, stays below 20: `*a == *b` entered with the counter at `n` answers as
`Ty.opEq` does, whatever `n`, and leaves the counter at `n`. -/
theorem Ty.eqCount_eq_opEq (a b : Ty) (n : Nat)
    (h : n + min a.pointerNesting b.pointerNesting < 20) :
    Ty.eqCount a b (n : Int) = (Ty.opEq a b, (n : Int)) := by
  rw [Ty.eqCount_of_pointerNesting a b n h, Ty.eqNest_zero_of_pointerNesting a b n h]
  rfl

/-! ## C1: commutativity -/

/-- C1 (counterexample): Size(64) meet Integer(32) is a copy of the Integer(32) whereas
Integer(32) meet Size(64) is the receiver widened to Integer(64); and Char meet Integer(32) is
a copy of the Integer whereas Integer(32) meet Char is a union of the two.  In both pairs the
two results are not equal under `operator==`, in either order. -/
theorem C1_meet_not_commutative :
    (Ty.meetWith sampleEnv 3 noGlobals (.size 64) (.integer 32 1) false false).map
        (fun r => r.ty) = some (.integer 32 1) ∧
    (Ty.meetWith sampleEnv 3 noGlobals (.integer 32 1) (.size 64) false false).map
        (fun r => r.ty) = some (.integer 64 1) ∧
    Ty.opEq (.integer 32 1) (.integer 64 1) = false ∧
    Ty.opEq (.integer 64 1) (.integer 32 1) = false ∧
    (Ty.meetWith sampleEnv 3 noGlobals .char (.integer 32 0) false false).bind (fun r1 =>
      (Ty.meetWith sampleEnv 3 noGlobals (.integer 32 0) .char false false).map (fun r2 =>
        (r1.ty.isInteger, r2.ty.isUnion, Ty.opEq r1.ty r2.ty, Ty.opEq r2.ty r1.ty))) =
      some (true, true, false, false) :=
  ⟨rfl, rfl, rfl, rfl, by decide⟩

set_option maxHeartbeats 4000000 in
/-- C1 (amended): for all types a and b among Void, Integer (signedness -1, 0 or +1), Float,
Boolean, Char and Func, other than a Char paired with an Integer and other than a function
type without a signature paired with one that has a signature (where `FuncType::operator==`
dereferences the null signature), `a.meetWith(b)` and `b.meetWith(a)` both return and the
returned types are equal under `Type::operator==`, whatever the flags and the global state of
the two calls. -/
theorem C1_meet_commutes_on_basic_types (env : Env) (fuel : Nat) (g1 g2 : Globals) (a b : Ty)
    (ch1 ch2 hp1 hp2 : Bool)
    (ha : a.isBasic = true) (hb : b.isBasic = true) (hcb : charWithInteger a b = false)
    (hns : oneNullSignature a b = false) :
    ∃ r1 r2, Ty.meetWith env (fuel + 2) g1 a b ch1 hp1 = some r1 ∧
      Ty.meetWith env (fuel + 2) g2 b a ch2 hp2 = some r2 ∧
      Ty.opEq r1.ty r2.ty = true ∧ Ty.opEq r2.ty r1.ty = true := by
  cases a <;> cases b <;> simp [Ty.isBasic, charWithInteger, Ty.isChar, Ty.isInteger] at ha hb hcb
  case func.func s1 s2 =>
    have hs := FuncType.sameSignature_comm s2 s1
    cases h : FuncType.sameSignature s1 s2
    · rw [h] at hs
      simp [Ty.meetWith, Ty.createUnion, Ty.opEq, Ty.eqNest, h, hs, Ty.resolved, kindIs, Ty.isVoid,
        Ty.isUnion, retThis, retNew, Ty.clone, UnionType.addType, Members.insert, Members.find,
        Members.any, Members.append, Members.length, Members.allFound, FuncType.sameSignature_self]
    · rw [h] at hs
      simp [Ty.meetWith, Ty.opEq, Ty.eqNest, h, hs, Ty.resolved, kindIs, Ty.isVoid, retThis]
  case integer.integer s1 sg1 s2 sg2 =>
    refine ⟨_, _, rfl, rfl, ?_, ?_⟩
    · simp [Ty.opEq, Ty.eqNest]
      constructor
      · omega
      · split_ifs <;> omega
    · simp [Ty.opEq, Ty.eqNest]
      constructor
      · omega
      · split_ifs <;> omega
  all_goals
    refine ⟨_, _, rfl, rfl, ?_, ?_⟩ <;>
      simp [Ty.opEq, Ty.eqNest, Ty.clone, UnionType.addType, Members.insert, Members.find,
          Members.any, Members.append, Members.length, Members.allFound, Ty.isVoid, Ty.isBoolean,
          Ty.isChar, FuncType.sameSignature_self] <;> omega

/-- C1 (witness): Boolean and Float(32) meet to equal unions in both orders. -/
theorem C1_meet_commutes_on_basic_types_witness :
    Ty.isBasic .boolean = true ∧ Ty.isBasic (.float 32) = true ∧
      charWithInteger .boolean (.float 32) = false ∧
      oneNullSignature .boolean (.float 32) = false ∧
      ∃ r1 r2, Ty.meetWith sampleEnv 2 noGlobals .boolean (.float 32) false false = some r1 ∧
        Ty.meetWith sampleEnv 2 noGlobals (.float 32) .boolean false false = some r2 ∧
        Ty.opEq r1.ty r2.ty = true ∧ Ty.opEq r2.ty r1.ty = true :=
  ⟨by decide, by decide, by decide, by decide,
    C1_meet_commutes_on_basic_types sampleEnv 0 noGlobals noGlobals .boolean (.float 32)
      false false false false (by decide) (by decide) (by decide) (by decide)⟩

/-! ## C2: idempotence -/

/-- C2 (the code at the failing input): Lower(Char) meet a copy of itself is a union, not equal
to the receiver, and sets `ch`; the sibling Upper(Char) meet a copy of itself returns an equal
type and leaves `ch` unset. -/
theorem C2_lower_meet_lower_is_a_union :
    (Ty.meetWith sampleEnv 3 noGlobals (.lower .char) (Ty.clone (.lower .char)) false false).map
        (fun r => (r.ty.isUnion, r.ch, Ty.opEq r.ty (.lower .char))) = some (true, true, false) ∧
    (Ty.meetWith sampleEnv 3 noGlobals (.upper .char) (Ty.clone (.upper .char)) false false).map
        (fun r => (r.ty.isUnion, r.ch, Ty.opEq r.ty (.upper .char))) = some (false, false, true) := by
  decide

/-! ## C3: Void is the identity -/

/-- C3 (counterexample): with `voidname` registered as Void, the named type `voidname` meet
Void returns a new Void object, which is not equal to the named type under `operator==`. -/
theorem C3_named_void_meet_void_is_not_the_receiver :
    (Ty.meetWith sampleEnv 3 voidNameGlobals (.named "voidname") .void false false).map
      (fun r => (r.ty.isVoid, decide (r.origin = .created), Ty.opEq r.ty (.named "voidname"))) =
      some (true, true, false) := by
  decide

/-- C3 (amended): let t be a type whose unions are sets of non-union elements and whose
resolution ends (in `ro`), and let t not be a named type that resolves to Void.  Then
`VoidType.meetWith(t)` returns a type equal to t under `operator==` and `ch` is set exactly when
t does not resolve to Void (it keeps its value otherwise); and `t.meetWith(Void)` returns t
unchanged, the receiver itself unless t is Void, with `ch` as it was. -/
theorem C3_void_identity (env : Env) (fuel : Nat) (g : Globals) (t : Ty) (ch hp : Bool)
    (ro : Option Ty) (hset : t.unionsAreSets = true)
    (hres : Ty.resolved g.namedTypes fuel t = some ro)
    (hnv : t.isNamed = true → kindIs Ty.isVoid ro = false) :
    (∃ r, Ty.meetWith env (fuel + 1) g .void t ch hp = some r ∧ Ty.opEq r.ty t = true ∧
        r.ch = (ch || !(kindIs Ty.isVoid ro))) ∧
    (∃ r, Ty.meetWith env (fuel + 1) g t .void ch hp = some r ∧ r.ty = t ∧ r.ch = ch ∧
        (t.isVoid = false → r.origin = .receiver)) := by
  constructor
  · refine ⟨{ ty := t.clone, origin := .created, ch := ch || !(kindIs Ty.isVoid ro), g := g },
      ?_, Ty.eqNest_clone t 0 hset, rfl⟩
    simp [Ty.meetWith, hres, retNew]
  · by_cases hn : t.isNamed = true
    · cases t <;> simp [Ty.isNamed] at hn
      rename_i n
      simp only [Ty.resolved] at hres
      have hv := hnv rfl
      cases ro with
      | none =>
        refine ⟨{ ty := .named n, origin := .receiver, ch := ch, g := g }, ?_, rfl, rfl,
          fun _ => rfl⟩
        simp [Ty.meetWith, hres, Ty.resolved, kindIs, Ty.isVoid, retThis]
      | some rt =>
        have hrn := NamedType.resolvesTo_not_named _ _ _ _ hres
        obtain ⟨key, hkey⟩ := NamedType.finalName_of_resolvesTo _ _ _ _ hres
        simp only [kindIs] at hv
        cases fuel with
        | zero => simp [NamedType.resolvesTo] at hres
        | succ f =>
          have hin := Ty.meetWith_void_arg env f g rt ch hp hv hrn
          refine ⟨{ ty := .named n, origin := .receiver, ch := ch,
                    g := { g with namedTypes := setNamedType g.namedTypes key rt } },
            ?_, rfl, rfl, fun _ => rfl⟩
          rw [Ty.meetWith]
          simp only [hres, hin, retThis, hkey]
          simp
    · have hn' : t.isNamed = false := by simpa using hn
      by_cases hv : t.isVoid = true
      · cases t <;> simp [Ty.isVoid] at hv
        refine ⟨{ ty := .void, origin := .created, ch := ch, g := g }, ?_, rfl, rfl, ?_⟩
        · simp [Ty.meetWith, Ty.resolved, kindIs, Ty.isVoid, retNew, Ty.clone]
        · simp [Ty.isVoid]
      · have hv' : t.isVoid = false := by simpa using hv
        exact ⟨_, Ty.meetWith_void_arg env fuel g t ch hp hv' hn', rfl, rfl, fun _ => rfl⟩

/-- C3 (witness): the named type `size_t`, registered as an unsigned 32-bit integer. -/
theorem C3_void_identity_witness :
    Ty.unionsAreSets (.named "size_t") = true ∧
      Ty.resolved sizeTGlobals.namedTypes 2 (.named "size_t") =
        some (some (.integer 32 (-1))) ∧
      ((∃ r, Ty.meetWith sampleEnv 3 sizeTGlobals .void (.named "size_t") false false = some r ∧
            Ty.opEq r.ty (.named "size_t") = true ∧
            r.ch = (false || !(kindIs Ty.isVoid (some (.integer 32 (-1)))))) ∧
       (∃ r, Ty.meetWith sampleEnv 3 sizeTGlobals (.named "size_t") .void false false = some r ∧
            r.ty = .named "size_t" ∧ r.ch = false ∧
            (Ty.isVoid (.named "size_t") = false → r.origin = .receiver))) :=
  ⟨rfl, rfl,
    C3_void_identity sampleEnv 2 sizeTGlobals (.named "size_t") false false (some (.integer 32 (-1)))
      rfl rfl (fun _ => rfl)⟩

/-! ## C4: monotonicity -/

theorem UnionType.scan_noChange (compat : Ty → Option Bool)
    (meet : Globals → Ty → Bool → Option MeetResult) (quality : Ty → Nat)
    (v : Ty) (n : String) (o : Option Nat) (tl : Members) (i : Nat) (best : Option BestMeet)
    (ch : Bool) (g : Globals) (r : MeetResult)
    (hc : compat v = some true) (hm : meet g v.clone ch = some r) (hr : r.ch = false) :
    UnionType.scan compat meet quality (.cons v n o tl) i best ch g = some (.noChange r.g) := by
  simp [UnionType.scan, hc, hm, hr]

theorem UnionType.scan_skip (compat : Ty → Option Bool)
    (meet : Globals → Ty → Bool → Option MeetResult) (quality : Ty → Nat)
    (v : Ty) (n : String) (o : Option Nat) (tl : Members) (i : Nat) (best : Option BestMeet)
    (ch : Bool) (g : Globals) (hc : compat v = some false) :
    UnionType.scan compat meet quality (.cons v n o tl) i best ch g =
      UnionType.scan compat meet quality tl (i + 1) best ch g := by
  simp [UnionType.scan, hc]

theorem UnionType.meetWith_float_of_noChange (env : Env) (f : Nat) (g g1 : Globals) (li : Members)
    (s : Nat) (ch hp : Bool)
    (h : UnionType.scan (fun v => Ty.isCompatibleWith env g.namedTypes f v (.float s) false)
          (fun g2 curr c => Ty.meetWith env f g2 curr (.float s) c hp)
          (fun t => (Ty.getCtype env false t).length) li 0 none ch g = some (.noChange g1)) :
    Ty.meetWith env (f + 1) g (.union li) (.float s) ch hp = retThis (.union li) false g1 := by
  rw [Ty.meetWith]
  · simp only [Ty.resolved, kindIs, Ty.isVoid, elementsOf, h]
    rfl
  · intro h
    cases h
  · intro n h
    cases h

theorem UnionType.meetWith_second_float (env : Env) (f : Nat) (g : Globals) (x : Ty) (s : Nat)
    (n1 n2 : String) (hp : Bool) (hx : x = .boolean ∨ x = .char) :
    Ty.meetWith env (f + 3) g (.union (.cons x n1 none (.cons (.float s) n2 none .nil)))
        (.float s) false hp =
      some { ty := .union (.cons x n1 none (.cons (.float s) n2 none .nil)),
             origin := .receiver, ch := false, g := g } := by
  have hm : Ty.meetWith env (f + 2) g (Ty.clone (.float s)) (.float s) false hp =
      some { ty := .float (max s s), origin := .receiver,
             ch := false || decide (max s s ≠ s), g := g } := rfl
  have hn := UnionType.scan_noChange
    (fun v => Ty.isCompatibleWith env g.namedTypes (f + 2) v (.float s) false)
    (fun g2 curr c => Ty.meetWith env (f + 2) g2 curr (.float s) c hp)
    (fun t => (Ty.getCtype env false t).length) (.float s) n2 none .nil 1 none false g _
    rfl hm (by simp)
  rw [UnionType.meetWith_float_of_noChange env (f + 2) g g]
  · rfl
  · rcases hx with rfl | rfl
    · rw [UnionType.scan_skip _ _ _ _ _ _ _ _ _ _ _ rfl]
      exact hn
    · rw [UnionType.scan_skip _ _ _ _ _ _ _ _ _ _ _ rfl]
      exact hn

theorem UnionType.meetWith_first_float (env : Env) (f : Nat) (g : Globals) (s1 s2 : Nat)
    (n : String) (tl : Members) (hp : Bool) (hle : s2 ≤ s1) :
    Ty.meetWith env (f + 3) g (.union (.cons (.float s1) n none tl)) (.float s2) false hp =
      some { ty := .union (.cons (.float s1) n none tl),
             origin := .receiver, ch := false, g := g } := by
  have hm : Ty.meetWith env (f + 2) g (Ty.clone (.float s1)) (.float s2) false hp =
      some { ty := .float (max s1 s2), origin := .receiver,
             ch := false || decide (max s1 s2 ≠ s1), g := g } := rfl
  have hn := UnionType.scan_noChange
    (fun v => Ty.isCompatibleWith env g.namedTypes (f + 2) v (.float s2) false)
    (fun g2 curr c => Ty.meetWith env (f + 2) g2 curr (.float s2) c hp)
    (fun t => (Ty.getCtype env false t).length) (.float s1) n none tl 0 none false g _
    rfl hm (by simpa using hle)
  rw [UnionType.meetWith_float_of_noChange env (f + 2) g g]
  · rfl
  · exact hn


theorem Ty.isPlain_cases (t : Ty) (h : t.isPlain = true) :
    t = .void ∨ t = .boolean ∨ t = .char ∨ ∃ s, s ≠ 0 ∧ t = .float s := by
  cases t <;> simp_all [Ty.isPlain]

theorem Ty.le_of_meet_eq (env : Env) (fuel : Nat) (x y : Ty)
    (h : Ty.meet env fuel x y = some x) : Ty.le env fuel x y = some true := by
  simp [Ty.le, h, Ty.opEq_self]

theorem FloatType.meet_float (env : Env) (fuel : Nat) (s t : Nat) :
    Ty.meet env (fuel + 1) (.float s) (.float t) = some (.float (max s t)) := by
  rfl

theorem FloatType.le_float (env : Env) (fuel : Nat) (s t : Nat) (hs : s ≠ 0) :
    Ty.le env (fuel + 1) (.float s) (.float t) = some true ↔ t ≤ s := by
  simp [Ty.le, FloatType.meet_float, Ty.opEq, Ty.eqNest]
  omega

theorem UnionType.meetWith_union (env : Env) (f : Nat) (g : Globals) (li oli : Members)
    (ch hp : Bool) :
    Ty.meetWith env (f + 1) g (.union li) (.union oli) ch hp =
      UnionType.meetEach (fun g1 t e c => Ty.meetWith env f g1 t e c hp) oli (.union li) ch g := by
  rfl

theorem UnionType.meetEach_two (meet : Globals → Ty → Ty → Bool → Option MeetResult)
    (this e1 e2 : Ty) (n1 n2 : String) (o1 o2 : Option Nat) (g : Globals)
    (h1 : meet g this e1 false = some { ty := this, origin := .receiver, ch := false, g := g })
    (h2 : meet g this e2 false = some { ty := this, origin := .receiver, ch := false, g := g }) :
    UnionType.meetEach meet (.cons e1 n1 o1 (.cons e2 n2 o2 .nil)) this false g =
      some { ty := this, origin := .receiver, ch := false, g := g } := by
  simp [UnionType.meetEach, h1, h2, retThis]

theorem UnionType.meet_second_float (env : Env) (f : Nat) (x : Ty) (s : Nat)
    (n1 n2 : String) (hx : x = .boolean ∨ x = .char) :
    Ty.meet env (f + 3) (.union (.cons x n1 none (.cons (.float s) n2 none .nil))) (.float s) =
      some (.union (.cons x n1 none (.cons (.float s) n2 none .nil))) := by
  unfold Ty.meet
  rw [UnionType.meetWith_second_float env f noGlobals x s n1 n2 false hx]
  rfl

theorem UnionType.meet_self_second_float (env : Env) (f : Nat) (x : Ty) (s : Nat)
    (n1 n2 : String) (hx : x = .boolean ∨ x = .char) :
    Ty.meet env (f + 4) (.union (.cons x n1 none (.cons (.float s) n2 none .nil)))
        (.union (.cons x n1 none (.cons (.float s) n2 none .nil))) =
      some (.union (.cons x n1 none (.cons (.float s) n2 none .nil))) := by
  have h2 := UnionType.meetWith_second_float env f noGlobals x s n1 n2 false hx
  unfold Ty.meet
  rw [UnionType.meetWith_union, UnionType.meetEach_two _ _ _ _ _ _ _ _ _ _ h2]
  · rfl
  · rcases hx with rfl | rfl <;> rfl

theorem UnionType.meet_first_floats (env : Env) (f : Nat) (c : Ty) (s1 s2 : Nat)
    (n1 n2 m1 m2 : String) (hc : c = .boolean ∨ c = .char) (hle : s2 ≤ s1) :
    Ty.meet env (f + 4) (.union (.cons (.float s1) n1 none (.cons c n2 none .nil)))
        (.union (.cons (.float s2) m1 none (.cons c m2 none .nil))) =
      some (.union (.cons (.float s1) n1 none (.cons c n2 none .nil))) := by
  have h1 := UnionType.meetWith_first_float env f noGlobals s1 s2 n1 (.cons c n2 none .nil)
    false hle
  unfold Ty.meet
  rw [UnionType.meetWith_union, UnionType.meetEach_two _ _ _ _ _ _ _ _ _ h1]
  · rfl
  · rcases hc with rfl | rfl <;> rfl

/-- C4 (counterexample): Integer(32, signed) is below Void, yet Integer(32, signed) meet
Integer(32, unsigned), which is Integer(32) of unknown sign, is not below Void meet
Integer(32, unsigned), which is Integer(32, unsigned): their meet is Integer(32, unsigned). -/
theorem C4_integer_signedness_not_monotone :
    Ty.le sampleEnv 4 (.integer 32 1) .void = some true ∧
    Ty.meet sampleEnv 4 (.integer 32 1) (.integer 32 (-1)) = some (.integer 32 0) ∧
    Ty.meet sampleEnv 4 .void (.integer 32 (-1)) = some (.integer 32 (-1)) ∧
    Ty.meet sampleEnv 4 (.integer 32 0) (.integer 32 (-1)) = some (.integer 32 (-1)) ∧
    Ty.le sampleEnv 4 (.integer 32 0) (.integer 32 (-1)) = some false :=
  ⟨rfl, rfl, rfl, rfl, rfl⟩

/-- C4 (amended): for all types a, b and c among Void, Boolean, Char and Float of a non-zero
size, where `x ⊑ y` means that `x.meetWith(y)` equals x under `operator==`: if a ⊑ b then
a meet c and b meet c both return and (a meet c) ⊑ (b meet c). -/
theorem C4_meet_monotone_on_plain_types (env : Env) (fuel : Nat) (a b c : Ty)
    (ha : a.isPlain = true) (hb : b.isPlain = true) (hc : c.isPlain = true)
    (hab : Ty.le env (fuel + 6) a b = some true) :
    ∃ ac bc, Ty.meet env (fuel + 6) a c = some ac ∧ Ty.meet env (fuel + 6) b c = some bc ∧
      Ty.le env (fuel + 6) ac bc = some true := by
  rcases Ty.isPlain_cases a ha with rfl | rfl | rfl | ⟨s1, hs1, rfl⟩ <;>
  rcases Ty.isPlain_cases b hb with rfl | rfl | rfl | ⟨s2, hs2, rfl⟩ <;>
  first
    | exact absurd (show (some false : Option Bool) = some true from hab) (by decide)
    | skip
  all_goals try (have hle : s2 ≤ s1 := (FloatType.le_float env (fuel + 5) s1 s2 hs1).1 hab)
  all_goals rcases Ty.isPlain_cases c hc with rfl | rfl | rfl | ⟨s3, hs3, rfl⟩
  all_goals first
    | exact ⟨_, _, rfl, rfl, rfl⟩
    | exact ⟨_, _, rfl, rfl, Ty.le_of_meet_eq _ _ _ _ rfl⟩
    | exact ⟨_, _, rfl, rfl, (FloatType.le_float env (fuel + 5) _ _ (by omega)).2 (by omega)⟩
    | exact ⟨_, _, rfl, rfl, Ty.le_of_meet_eq _ _ _ _
        (UnionType.meet_second_float env (fuel + 3) _ s3 _ _ (Or.inl rfl))⟩
    | exact ⟨_, _, rfl, rfl, Ty.le_of_meet_eq _ _ _ _
        (UnionType.meet_second_float env (fuel + 3) _ s3 _ _ (Or.inr rfl))⟩
    | exact ⟨_, _, rfl, rfl, Ty.le_of_meet_eq _ _ _ _
        (UnionType.meet_self_second_float env (fuel + 2) _ s3 _ _ (Or.inl rfl))⟩
    | exact ⟨_, _, rfl, rfl, Ty.le_of_meet_eq _ _ _ _
        (UnionType.meet_self_second_float env (fuel + 2) _ s3 _ _ (Or.inr rfl))⟩
    | exact ⟨_, _, rfl, rfl, Ty.le_of_meet_eq _ _ _ _
        (UnionType.meet_first_floats env (fuel + 2) _ s1 s2 _ _ _ _ (Or.inl rfl) hle)⟩
    | exact ⟨_, _, rfl, rfl, Ty.le_of_meet_eq _ _ _ _
        (UnionType.meet_first_floats env (fuel + 2) _ s1 s2 _ _ _ _ (Or.inr rfl) hle)⟩

/-- C4 (witness): Float(64) is below Float(32); both are met with Boolean. -/
theorem C4_meet_monotone_on_plain_types_witness :
    Ty.isPlain (.float 64) = true ∧ Ty.isPlain (.float 32) = true ∧ Ty.isPlain .boolean = true ∧
      Ty.le sampleEnv 6 (.float 64) (.float 32) = some true ∧
      ∃ ac bc, Ty.meet sampleEnv 6 (.float 64) .boolean = some ac ∧
        Ty.meet sampleEnv 6 (.float 32) .boolean = some bc ∧
        Ty.le sampleEnv 6 ac bc = some true :=
  ⟨by decide, by decide, by decide, by decide,
    C4_meet_monotone_on_plain_types sampleEnv 0 (.float 64) (.float 32) .boolean
      (by decide) (by decide) (by decide) (by decide)⟩

/-! ## C5, C6: integers and floats -/

/-- C6: for all sizes s1, s2 and n, Float(s1) meet Float(s2) is the receiver as Float(max(s1,s2))
and Float(s1) meet Size(n) is the receiver as Float(max(s1,n)); in neither case is a union
created (the result is a Float and the global state, with the counter that numbers union
members, is unchanged). -/
theorem C6_float_meet_float_and_size (env : Env) (fuel : Nat) (g : Globals) (s1 s2 n : Nat)
    (ch bHighestPtr : Bool) :
    (∃ r, Ty.meetWith env (fuel + 1) g (.float s1) (.float s2) ch bHighestPtr = some r ∧
        r.ty = .float (max s1 s2) ∧ r.origin = .receiver ∧ r.g = g) ∧
    (∃ r, Ty.meetWith env (fuel + 1) g (.float s1) (.size n) ch bHighestPtr = some r ∧
        r.ty = .float (max s1 n) ∧ r.origin = .receiver ∧ r.g = g) :=
  ⟨⟨_, rfl, rfl, rfl, rfl⟩, by cases fuel <;> exact ⟨_, rfl, rfl, rfl, rfl⟩⟩

/-! ## C7: the change flag -/

/-- C7 (counterexample): Float(64) meet Size(32), called with `ch` false, returns the receiver
as Float(64), what it was, and yet sets `ch`; and Integer of unknown size meet Size(32) returns
the receiver as Integer(32), no longer what it was, and leaves `ch` false (the two integers are
equal under `operator==`, for which the size 0 matches every size). -/
theorem C7_ch_is_not_the_difference :
    (Ty.meetWith sampleEnv 2 noGlobals (.float 64) (.size 32) false false).map
      (fun r => (r.ty, r.origin, r.ch)) = some (.float 64, .receiver, true) ∧
    (Ty.meetWith sampleEnv 2 noGlobals (.integer 0 1) (.size 32) false false).map
      (fun r => (r.ty, r.origin, r.ch)) = some (.integer 32 1, .receiver, false) ∧
    Ty.opNe (.integer 32 1) (.integer 0 1) = false :=
  ⟨rfl, rfl, rfl⟩

set_option maxHeartbeats 4000000 in
/-- C7 (amended): for all types a and b among Void, Integer, Float, Boolean, Char, Func and
Size, other than a function type without a signature paired with one that has a signature
(where `FuncType::operator==` dereferences the null signature), and every initial value of
the flag, `a.meetWith(b, ch)` returns, and if the returned type differs from the receiver as
it was before the call (`operator!=`) then `ch` is true after the call.  The converse is not
claimed. -/
theorem C7_ch_set_when_result_differs (env : Env) (fuel : Nat) (g : Globals) (a b : Ty)
    (ch hp : Bool) (ha : a.isScalar = true) (hb : b.isScalar = true)
    (hns : oneNullSignature a b = false) :
    ∃ r, Ty.meetWith env (fuel + 2) g a b ch hp = some r ∧
      (Ty.opNe r.ty a = true → r.ch = true) := by
  cases a <;> cases b <;> simp only [Ty.isScalar] at ha hb <;> (try contradiction)
  all_goals first
    | (refine ⟨_, rfl, ?_⟩ ; simp [Ty.opNe, Ty.opEq, Ty.eqNest, Ty.clone, Ty.isVoid, Ty.isBoolean, Ty.isChar, FuncType.sameSignature_self, kindIs] ; done)
    | (refine ⟨_, rfl, ?_⟩ ; simp [Ty.opNe, Ty.opEq, Ty.eqNest, Ty.clone, Ty.isVoid, Ty.isBoolean, Ty.isChar, FuncType.sameSignature_self, kindIs] ; omega)
    | skip
  all_goals
    simp [Ty.meetWith, Ty.createUnion, Ty.resolved, kindIs, Ty.isVoid, Ty.isInteger, Ty.isFloat, Ty.isPointer, Ty.isUnion, Ty.isChar,
      retThis, retNew, Ty.getSize, Ty.setSize, Ty.clone, Ty.opNe, Ty.opEq, Ty.eqNest, FuncType.sameSignature_self]
  all_goals
    (repeat' split) <;> refine ⟨_, rfl, ?_⟩ <;>
      simp_all [Ty.eqNest, FuncType.sameSignature_self, Ty.isChar] <;> omega

/-- C7 (witness): Integer(16, signed) meet Size(32). -/
theorem C7_ch_set_when_result_differs_witness :
    Ty.isScalar (.integer 16 1) = true ∧ Ty.isScalar (.size 32) = true ∧
      oneNullSignature (.integer 16 1) (.size 32) = false ∧
      ∃ r, Ty.meetWith sampleEnv 2 noGlobals (.integer 16 1) (.size 32) false false = some r ∧
        (Ty.opNe r.ty (.integer 16 1) = true → r.ch = true) :=
  ⟨by decide, by decide, by decide,
    C7_ch_set_when_result_differs sampleEnv 0 noGlobals (.integer 16 1) (.size 32) false false
      (by decide) (by decide) (by decide)⟩

/-! ## C8: compatibility and unions -/

/-- C8 (counterexample): Float(64) is not compatible with Size(32) although Float(64) meet
Size(32) is the Float(64) and no union; and Boolean is compatible with Size(1) although Boolean
meet Size(1) creates a new union type, of two members (the counter that numbers union members
advances by two). -/
theorem C8_compatibility_does_not_characterise_unions :
    Ty.isCompatibleWith sampleEnv noGlobals.namedTypes 2 (.float 64) (.size 32) false =
      some false ∧
    (Ty.meetWith sampleEnv 2 noGlobals (.float 64) (.size 32) false false).map
      (fun r => (r.ty.isUnion, r.g.nextUnionNumber)) = some (false, 0) ∧
    Ty.isCompatibleWith sampleEnv noGlobals.namedTypes 2 .boolean (.size 1) false = some true ∧
    (Ty.meetWith sampleEnv 2 noGlobals .boolean (.size 1) false false).map
      (fun r => (r.ty.isUnion, decide (r.origin = .created), r.g.nextUnionNumber)) =
      some (true, true, 2) := by
  decide

set_option maxHeartbeats 8000000 in
/-- C8 (amended): for all types a and b among Void, Integer, Float, Boolean, Char, Func and
Size, other than the pairs Integer with Char, Boolean with Size(1), Size(1) with Boolean,
Size(8) with Char and Func with Size(STD_SIZE): if `a.isCompatibleWith(b)` is true then
`a.meetWith(b)` returns a type that is not a union and creates no union type (the counter that
numbers union members is unchanged).  The converse is not claimed. -/
theorem C8_compatible_scalars_meet_without_union (env : Env) (fuel : Nat) (g : Globals)
    (a b : Ty) (ch hp : Bool) (ha : a.isScalar = true) (hb : b.isScalar = true)
    (hc : Ty.isCompatibleWith env g.namedTypes (fuel + 2) a b false = some true)
    (hx : compatibleWithoutCase env a b = false) :
    ∃ r, Ty.meetWith env (fuel + 2) g a b ch hp = some r ∧ r.ty.isUnion = false ∧
      r.g.nextUnionNumber = g.nextUnionNumber := by
  cases a
  case func s =>
    cases s <;> cases b <;> simp only [Ty.isScalar] at ha hb <;> (try contradiction) <;>
    simp [Ty.isCompatibleWith, Ty.isCompatible, Ty.resolved, kindIs, Ty.isVoid, Ty.isInteger, Ty.isFloat,
      Ty.isPointer, Ty.isUnion, Ty.isChar, Ty.isCompound, Ty.isArray, Ty.isFunc, Ty.isBoolean, Ty.isSize,
      sizeIs, Ty.getSize, Ty.opEq, Ty.eqNest, compatibleWithoutCase] at hc hx <;>
    simp [Ty.meetWith, Ty.createUnion, Ty.resolved, kindIs, Ty.isVoid, Ty.isInteger, Ty.isFloat, Ty.isPointer, Ty.isUnion, Ty.isChar,
      Ty.isBoolean, retThis, retNew, Ty.getSize, Ty.setSize, Ty.clone, Ty.opEq, Ty.eqNest]
    case some.func v s2 =>
      cases s2 <;> simp_all [FuncType.sameSignature]
      rename_i w
      have hvw : v = w := by
        by_cases hvw : v = w
        · exact hvw
        · exact (hc hvw).symm
      simp [hvw]
    case some.size v n =>
      simp [hx] at hc
  all_goals
    cases b <;> simp only [Ty.isScalar] at ha hb <;> (try contradiction) <;>
    simp [Ty.isCompatibleWith, Ty.isCompatible, Ty.resolved, kindIs, Ty.isVoid, Ty.isInteger, Ty.isFloat,
      Ty.isPointer, Ty.isUnion, Ty.isChar, Ty.isCompound, Ty.isArray, Ty.isFunc, Ty.isBoolean, Ty.isSize,
      sizeIs, Ty.getSize, Ty.opEq, Ty.eqNest, compatibleWithoutCase] at hc hx <;>
    simp [Ty.meetWith, Ty.createUnion, Ty.resolved, kindIs, Ty.isVoid, Ty.isInteger, Ty.isFloat, Ty.isPointer, Ty.isUnion, Ty.isChar,
      Ty.isBoolean, retThis, retNew, Ty.getSize, Ty.setSize, Ty.clone, Ty.opEq, Ty.eqNest]
  all_goals first
    | omega
    | (subst hc; simp; done)
    | (simp_all; done)
    | skip
  case char.size n =>
    have h8 : n = 8 := by
      by_cases h : n = 8
      · exact h
      · simp [h] at hc
    subst h8
    simp

/-- C8 (witness): Integer(32, signed) with Integer(16). -/
theorem C8_compatible_scalars_meet_without_union_witness :
    Ty.isScalar (.integer 32 1) = true ∧ Ty.isScalar (.integer 16 0) = true ∧
      Ty.isCompatibleWith sampleEnv noGlobals.namedTypes 2 (.integer 32 1) (.integer 16 0) false =
        some true ∧
      compatibleWithoutCase sampleEnv (.integer 32 1) (.integer 16 0) = false ∧
      ∃ r, Ty.meetWith sampleEnv 2 noGlobals (.integer 32 1) (.integer 16 0) false false = some r ∧
        r.ty.isUnion = false ∧ r.g.nextUnionNumber = noGlobals.nextUnionNumber :=
  ⟨by decide, by decide, by decide, by decide,
    C8_compatible_scalars_meet_without_union sampleEnv 0 noGlobals (.integer 32 1) (.integer 16 0)
      false false (by decide) (by decide) (by decide) (by decide)⟩

/-! ## C9: a pointer never points to itself -/

/-- C9: on the objects of the heap.  For every pointer object `self` and every object `q`,
after `self.setPointsTo(q)` the pointee of `self` is not `self`: it is a Void object when `q`
is `self`, and `q` otherwise; the constructor `PointerType(q)` makes a pointer whose pointee is
`q`, which is not the new pointer; and after `PointerType::meetWith`, called on a receiver
whose pointee `pt` is not the receiver, the pointee is still not the receiver.  (`fresh` is an
object the call creates, `opt` the pointee object of the argument; when `opt` is the receiver
the argument is a pointer to the value of the receiver.) -/
theorem C9_pointer_never_points_to_itself (h : Heap) (self q : Ref) (env : Env) (fuel : Nat)
    (g : Globals) (pt opt fresh : Ref) (points_to other : Ty) (ch hp : Bool)
    (hself : self < h.next) (hpt : pt ≠ self) (hfresh : fresh ≠ self)
    (halias : opt = self → ∀ otherBase,
      Ty.resolved g.namedTypes fuel other = some (some (.pointer otherBase)) →
      otherBase = .pointer points_to) :
    (∃ r, (PointerType.setPointsTo h self q).points_to self = some r ∧ r ≠ self ∧
        (q = self → (PointerType.setPointsTo h self q).isVoidObj r = true) ∧
        (q ≠ self → r = q)) ∧
    (q < h.next → (PointerType.create h q).1.points_to (PointerType.create h q).2 = some q ∧
        q ≠ (PointerType.create h q).2) ∧
    (∀ r, PointerType.pointeeAfterMeet env fuel g self pt opt fresh points_to other ch hp = some r →
        r ≠ self) := by
  refine ⟨?_, ?_, ?_⟩
  · by_cases hq : q = self
    · refine ⟨h.next, ?_, ?_, ?_, ?_⟩
      · simp [PointerType.setPointsTo, hq, Heap.newVoid]
      · exact Nat.ne_of_gt hself
      · intro _
        simp [PointerType.setPointsTo, hq, Heap.newVoid]
      · intro hne
        exact absurd hq hne
    · refine ⟨q, ?_, hq, ?_, ?_⟩
      · simp [PointerType.setPointsTo, hq]
      · intro he
        exact absurd he hq
      · intro _
        rfl
  · intro hq
    have hne : q ≠ h.next := Nat.ne_of_lt hq
    refine ⟨?_, ?_⟩
    · simp [PointerType.create, PointerType.setPointsTo, hne]
    · simpa [PointerType.create] using hne
  · intro r hr
    unfold PointerType.pointeeAfterMeet at hr
    repeat' split at hr
    all_goals first
      | contradiction
      | (simp only [Option.some.injEq] at hr; subst hr; exact hpt)
      | (simp only [Option.some.injEq] at hr; subst hr; exact hfresh)
      | (simp only [Option.some.injEq] at hr; subst hr; assumption)
      | skip
    rename_i otherBase hres _ _ _ _ _ _ _ rin hmeet _ horig
    simp only [Option.some.injEq] at hr
    subst hr
    intro he
    have hob := halias he otherBase hres
    obtain ⟨f, ms, gen, nx, hc⟩ := Ty.meetWith_origin_argument env fuel g points_to otherBase ch hp rin hmeet horig
    rw [hob] at hc
    simp [Ty.resolved] at hc

/-- C9 (witness): the pointer object 1 of `sampleHeap`, told to point to itself, and met with a
pointer to Void. -/
theorem C9_pointer_never_points_to_itself_witness :
    (1 : Ref) < sampleHeap.next ∧ (0 : Ref) ≠ 1 ∧ (2 : Ref) ≠ 1 ∧
    ((∃ r, (PointerType.setPointsTo sampleHeap 1 1).points_to 1 = some r ∧ r ≠ 1 ∧
        ((1 : Ref) = 1 → (PointerType.setPointsTo sampleHeap 1 1).isVoidObj r = true) ∧
        ((1 : Ref) ≠ 1 → r = 1)) ∧
     ((1 : Ref) < sampleHeap.next →
        (PointerType.create sampleHeap 1).1.points_to (PointerType.create sampleHeap 1).2 =
          some 1 ∧ (1 : Ref) ≠ (PointerType.create sampleHeap 1).2) ∧
     (∀ r, PointerType.pointeeAfterMeet sampleEnv 3 noGlobals 1 0 0 2 .void (.pointer .void)
          false false = some r → r ≠ 1)) :=
  ⟨by decide, by decide, by decide,
    C9_pointer_never_points_to_itself sampleHeap 1 1 sampleEnv 3 noGlobals 0 0 2 .void
      (.pointer .void) false false (by decide) (by decide) (by decide)
      (fun h => absurd h (by decide))⟩

/-! ## C10: pointers to alpha -/

/-- C10 (the code at the failing input): with no named type registered and `bHighestPtr`
false, `Pointer(Integer(32))` meet `Pointer(alpha0)` is a new union of the two pointers (and
sets `ch`), whereas `Pointer(alpha0)` meet `Pointer(Integer(32))` is the receiver, now a pointer
to Integer(32), and no union. -/
theorem C10_pointer_meet_alpha_argument_is_a_union :
    (Ty.meetWith sampleEnv 4 noGlobals (.pointer (.integer 32 1)) (.pointer (.named "alpha0"))
        false false).map
      (fun r => (r.ty.isUnion, r.ty.getCtype sampleEnv false, r.ch, r.g.nextUnionNumber)) =
      some (true, "union \x7b int * x1; alpha0 * x2; \x7d", true, 2) ∧
    (Ty.meetWith sampleEnv 4 noGlobals (.pointer (.named "alpha0")) (.pointer (.integer 32 1))
        false false).map
      (fun r => (r.ty, r.origin, r.g.nextUnionNumber)) =
      some (.pointer (.integer 32 1), .receiver, 0) ∧
    PointerType.pointsToAlpha (.named "alpha0") = true ∧
    PointerType.pointsToAlpha (.integer 32 1) = false :=
  ⟨by decide, rfl, by decide, by decide⟩

/-! ## C11, C12: arrays -/

/-- For a type that resolves to neither Void, an array nor a union, `ArrayType::isCompatible`
is the compatibility of the base with that type. -/
theorem ArrayType.isCompatible_of_base (env : Env) (nt : List (String × Ty)) (fuel : Nat)
    (b t : Ty) (len : Nat) (ro : Option Ty)
    (hro : Ty.resolved nt fuel t = some ro)
    (hv : kindIs Ty.isVoid ro = false) (ha : kindIs Ty.isArray ro = false)
    (hu : kindIs Ty.isUnion ro = false)
    (hc : Ty.isCompatibleWith env nt fuel b t false = some true) :
    Ty.isCompatible env nt (fuel + 1) (.array b len) t false = some true := by
  rw [Ty.isCompatible]
  · simp only [hro, hv, hu, Bool.false_eq_true, if_false]
    have hb : baseOf ro = none := by
      rcases ro with _ | rt
      · rfl
      · cases rt <;> first | rfl | simp [kindIs, Ty.isArray] at ha
    simp [hb, hc]
  · intro h; cases h
  · intro h; cases h
  · intro n h; cases h

/-- The test `isSubStructOf(otherCmp)` of `CompoundType::meetWith` is the test
`otherCmp->isSuperStructOf(this)` that is made before it: both look for the members of the
receiver at the head of the other compound. -/
theorem CompoundType.isSubStructOf_eq (types otypes : Members) (gen ogen : Bool)
    (nx onx : Nat) :
    CompoundType.isSubStructOf types (.compound otypes ogen onx) =
      CompoundType.isSuperStructOf otypes (.compound types gen nx) := by
  simp [CompoundType.isSubStructOf, CompoundType.isSuperStructOf]

/-- C13 (the code at the failing input): `struct { int a; char b; }` has the member object of
`struct { int a; }` at the same offset and is longer.  Met as the receiver with the shorter
compound it does not come back: the result is a new copy of the shorter compound, and `ch` is
not set.  (Met as the argument it is returned, with `ch` set.)  The test that guards the
branch for a longer receiver, `isSubStructOf(otherCmp)`, is false here, as the test
`otherCmp->isSuperStructOf(this)` before it; the receiver is a super-structure of the
other. -/
theorem C13_longer_receiver_is_not_returned :
    CompoundType.isSuperStructOf
        (.cons (.integer 32 1) "a" (some 1) (.cons .char "b" (some 2) .nil)) sampleShort = true ∧
    CompoundType.isSuperStructOf (.cons (.integer 32 1) "a" (some 1) .nil) sampleLong = false ∧
    CompoundType.isSubStructOf
        (.cons (.integer 32 1) "a" (some 1) (.cons .char "b" (some 2) .nil)) sampleShort =
      false ∧
    (Ty.meetWith sampleEnv 6 noGlobals sampleLong sampleShort false false).map
        (fun r => (r.ty.getCtype sampleEnv true, r.ty.isUnion, r.origin, r.ch)) =
      some ("struct \x7b int a; \x7d", false, .created, false) ∧
    (Ty.meetWith sampleEnv 6 noGlobals sampleShort sampleLong false false).map
        (fun r => (r.ty.getCtype sampleEnv true, r.origin, r.ch)) =
      some ("struct \x7b int a; char b; \x7d", .argument, true) := by
  decide

/-- The compounds `struct { int a; char b; }` and `struct { int x; float y; }`, neither a
super-structure of the other and not equal, meet to a copy of the second and not to a union:
the first member of the second is compatible with the first compound. -/
theorem CompoundType.meetWith_first_member_sample :
    CompoundType.isSuperStructOf
        (.cons (.integer 32 1) "a" (some 1) (.cons .char "b" (some 2) .nil)) sampleIntFloat =
      false ∧
    CompoundType.isSuperStructOf
        (.cons (.integer 32 1) "x" none (.cons (.float 32) "y" none .nil)) sampleLong = false ∧
    Ty.opEq sampleLong sampleIntFloat = false ∧
    (Ty.meetWith sampleEnv 6 noGlobals sampleLong sampleIntFloat false false).map
        (fun r => (r.ty.getCtype sampleEnv true, r.ty.isUnion, r.origin, r.ch)) =
      some ("struct \x7b int x; float y; \x7d", false, .created, false) := by
  decide

/-- What `CompoundType::meetWith` does with a compound, for all compounds c1 (the receiver)
and c2 that nest pointers to a depth that, added to the value `n` of the counter of
`PointerType::operator==` on entry, stays below 20 (the comparisons of the two, followed with
the counter, then answer as in this model and leave the counter at `n`).  When c2 is a super-structure of c1 (the
members of c1 are the first member objects of c2), `c1.meetWith(c2)` returns c2 and sets
`ch`.  When neither is a super-structure of the other and the two are not equal: if the
first member of c2 is compatible with c1 the result is a copy of c2 and `ch` is as it was, and
if it is not the result is a new union of copies of c1 and c2 and `ch` is set. -/
theorem CompoundType.meetWith_compound (env : Env) (fuel : Nat) (g : Globals)
    (types otypes : Members) (gen ogen : Bool) (nx onx : Nat) (ch hp : Bool)
    (n : Nat) (hn : n + types.pointerNesting < 20) (hon : n + otypes.pointerNesting < 20) :
    Ty.eqCount (.compound types gen nx) (.compound otypes ogen onx) (n : Int) =
      (Ty.opEq (.compound types gen nx) (.compound otypes ogen onx), (n : Int)) ∧
    Ty.eqCount (.compound otypes ogen onx) (.compound types gen nx) (n : Int) =
      (Ty.opEq (.compound otypes ogen onx) (.compound types gen nx), (n : Int)) ∧
    (CompoundType.isSuperStructOf otypes (.compound types gen nx) = true →
      Ty.meetWith env (fuel + 2) g (.compound types gen nx) (.compound otypes ogen onx) ch hp =
        some ⟨.compound otypes ogen onx, .argument, true, g⟩) ∧
    (CompoundType.isSuperStructOf otypes (.compound types gen nx) = false →
      CompoundType.isSuperStructOf types (.compound otypes ogen onx) = false →
      Ty.opEq (.compound types gen nx) (.compound otypes ogen onx) = false →
      ∀ firstType, otypes.get? 0 = some firstType →
        (Ty.isCompatibleWith env g.namedTypes fuel firstType (.compound types gen nx) false =
            some true →
          Ty.meetWith env (fuel + 2) g (.compound types gen nx) (.compound otypes ogen onx) ch hp =
            some ⟨Ty.clone (.compound otypes ogen onx), .created, ch, g⟩) ∧
        (Ty.isCompatibleWith env g.namedTypes fuel firstType (.compound types gen nx) false =
            some false →
          Ty.meetWith env (fuel + 2) g (.compound types gen nx) (.compound otypes ogen onx) ch hp =
            some ⟨.union (UnionType.addType
                (UnionType.addType .nil (Ty.clone (.compound types gen nx))
                  (unionName (g.nextUnionNumber + 1)) none)
                (Ty.clone (.compound otypes ogen onx)) (unionName (g.nextUnionNumber + 2)) none),
              .created, true, { g with nextUnionNumber := g.nextUnionNumber + 2 }⟩)) := by
  refine ⟨Ty.eqCount_eq_opEq _ _ n
      (Nat.lt_of_le_of_lt (Nat.add_le_add_left (Nat.min_le_left _ _) n) hn),
    Ty.eqCount_eq_opEq _ _ n
      (Nat.lt_of_le_of_lt (Nat.add_le_add_left (Nat.min_le_left _ _) n) hon), ?_, ?_⟩
  · intro h
    rw [Ty.meetWith]
    · simp [Ty.resolved, kindIs, Ty.isVoid, h]
    · intro h; cases h
    · intro n h; cases h
  · intro h1 h2 h3 firstType hf
    have hsub : CompoundType.isSubStructOf types (.compound otypes ogen onx) = false := by
      simpa [CompoundType.isSubStructOf, CompoundType.isSuperStructOf] using h1
    refine ⟨?_, ?_⟩
    · intro hc
      rw [Ty.meetWith]
      · simp [Ty.resolved, kindIs, Ty.isVoid, h1, hsub, h3, Ty.createUnion, Ty.isUnion, hf, hc,
          retNew]
      · intro h; cases h
      · intro n h; cases h
    · intro hc
      rw [Ty.meetWith]
      · simp [Ty.resolved, kindIs, Ty.isVoid, h1, hsub, h3, Ty.createUnion, Ty.isUnion, hf, hc,
          retNew]
      · intro h; cases h
      · intro n h; cases h

/-- The compounds `struct { int a; }` meet `struct { int a; char b; }`, and
`struct { int a; char b; }` meet `struct { float x; float y; }`. -/
theorem CompoundType.meetWith_compound_sample :
    Ty.meetWith sampleEnv 12 noGlobals sampleShort sampleLong false false =
        some ⟨sampleLong, .argument, true, noGlobals⟩ ∧
    (Ty.meetWith sampleEnv 12 noGlobals sampleLong sampleFloats false false).map
        (fun r => (r.ty.isUnion, r.ch)) = some (true, true) :=
  ⟨(CompoundType.meetWith_compound sampleEnv 10 noGlobals
      (.cons (.integer 32 1) "a" (some 1) .nil)
      (.cons (.integer 32 1) "a" (some 1) (.cons .char "b" (some 2) .nil))
      false false 1 1 false false 0 (by decide) (by decide)).2.2.1 (by decide),
    by
      have h := ((CompoundType.meetWith_compound sampleEnv 10 noGlobals
        (.cons (.integer 32 1) "a" (some 1) (.cons .char "b" (some 2) .nil))
        (.cons (.float 32) "x" none (.cons (.float 32) "y" none .nil))
        false false 1 1 false false 0 (by decide) (by decide)).2.2.2 (by decide) (by decide)
        (by decide) (.float 32)
        rfl).2 (by decide)
      rw [sampleLong, sampleFloats, h]
      rfl⟩

/-! ## C14: a union and a type that is not a union -/

/-- C14 (the code at the failing input): the member `int[4]` of `union { char x1; int[4] x2; }`
is compatible with Integer(32) and its meet with Integer(32) requires no change; yet the union
meet Integer(32), called with `ch` true, replaces its member `char` by `int`, in either order
of the two members, and the result is not equal to the union.  Called with `ch` false on the
union whose first member is the array, the union is returned unchanged. -/
theorem C14_union_replaces_member_when_ch_is_set :
    Ty.isCompatibleWith sampleEnv noGlobals.namedTypes 8 (.array (.integer 32 1) 4)
        (.integer 32 1) false = some true ∧
    (Ty.meetWith sampleEnv 8 noGlobals (Ty.clone (.array (.integer 32 1) 4)) (.integer 32 1)
        false false).map (fun r => (r.ty.getCtype sampleEnv true, r.origin, r.ch)) =
      some ("int[4]", .receiver, false) ∧
    (Ty.meetWith sampleEnv 8 noGlobals sampleUnion (.integer 32 1) true false).map
        (fun r => (r.ty.getCtype sampleEnv true, r.origin, r.ch,
          Ty.opEq r.ty sampleUnion, Ty.opEq sampleUnion r.ty)) =
      some ("union \x7b int[4] x2; int x1; \x7d", .receiver, true, false, false) ∧
    (Ty.meetWith sampleEnv 8 noGlobals
        (.union (.cons (.array (.integer 32 1) 4) "x2" none (.cons .char "x1" none .nil)))
        (.integer 32 1) true false).map
        (fun r => (r.ty.getCtype sampleEnv true, r.origin, r.ch)) =
      some ("union \x7b int[4] x2; int x1; \x7d", .receiver, true) ∧
    (Ty.meetWith sampleEnv 8 noGlobals
        (.union (.cons (.array (.integer 32 1) 4) "x2" none (.cons .char "x1" none .nil)))
        (.integer 32 1) false false).map
        (fun r => (r.ty.getCtype sampleEnv true, r.origin, r.ch)) =
      some ("union \x7b int[4] x2; char x1; \x7d", .receiver, false) := by
  decide

/-! ## C15: sizes -/

/-- C15 (counterexample): Size(64) meet Integer(32) is a copy of the Integer(32), of size 32
and not max(64,32). -/
theorem C15_size_64_meet_integer_32 :
    Ty.meetWith sampleEnv 3 noGlobals (.size 64) (.integer 32 1) false false =
      some ⟨.integer 32 1, .created, true, noGlobals⟩ ∧
    Ty.getSize sampleEnv noGlobals.namedTypes 3 (.integer 32 1) = some 32 ∧
    max 64 32 ≠ 32 :=
  ⟨rfl, rfl, by decide⟩

/-- C15 (amended): for all n, m: Size(n) meet Size(m) is the receiver as Size(max(n,m));
Size(n) meet an Integer or Float of size m > 0 is a copy of that type, of size m, and Size(n)
meet a Pointer is a copy of the pointer (pointers have the standard, non-zero size); Size(n)
meet an Integer or Float of size 0 is that type with size n.  In the last three cases `ch` is
set. -/
theorem C15_size_meet (env : Env) (fuel : Nat) (g : Globals) (n m : Nat) (sg : Int)
    (p : Ty) (ch hp : Bool) :
    (∃ r, Ty.meetWith env (fuel + 1) g (.size n) (.size m) ch hp = some r ∧
        r.ty = .size (max n m) ∧ r.origin = .receiver) ∧
    (m ≠ 0 →
      Ty.meetWith env (fuel + 1) g (.size n) (.integer m sg) ch hp =
          some ⟨.integer m sg, .created, true, g⟩ ∧
        Ty.meetWith env (fuel + 1) g (.size n) (.float m) ch hp =
          some ⟨.float m, .created, true, g⟩) ∧
    (env.STD_SIZE ≠ 0 →
      Ty.meetWith env (fuel + 1) g (.size n) (.pointer p) ch hp =
        some ⟨.pointer p.clone, .created, true, g⟩) ∧
    Ty.meetWith env (fuel + 1) g (.size n) (.integer 0 sg) ch hp =
      some ⟨.integer n sg, .created, true, g⟩ ∧
    Ty.meetWith env (fuel + 1) g (.size n) (.float 0) ch hp =
      some ⟨.float n, .created, true, g⟩ := by
  refine ⟨?_, ?_, ?_, ?_, ?_⟩
  · by_cases h : m = n
    · refine ⟨⟨.size n, .receiver, ch, g⟩, ?_, ?_, rfl⟩
      · simp [Ty.meetWith, Ty.resolved, kindIs, Ty.isVoid, h, retThis]
      · simp [h]
    · refine ⟨⟨.size (max n m), .receiver, decide (max n m ≠ n), g⟩, ?_, rfl, rfl⟩
      simp [Ty.meetWith, Ty.resolved, kindIs, Ty.isVoid, h, retThis]
  · intro hm
    constructor <;>
      simp [Ty.meetWith, Ty.resolved, kindIs, Ty.isVoid, Ty.isInteger, Ty.isFloat, Ty.getSize, hm,
        retNew, Ty.clone]
  · intro hs
    simp [Ty.meetWith, Ty.resolved, kindIs, Ty.isVoid, Ty.isInteger, Ty.isFloat, Ty.isPointer,
      Ty.getSize, hs, retNew, Ty.clone]
  · simp [Ty.meetWith, Ty.resolved, kindIs, Ty.isVoid, Ty.isInteger, Ty.isFloat, Ty.getSize,
      Ty.setSize, retNew, Ty.clone]
  · simp [Ty.meetWith, Ty.resolved, kindIs, Ty.isVoid, Ty.isInteger, Ty.isFloat, Ty.getSize,
      Ty.setSize, retNew, Ty.clone]

/-- C15 (witness): Size(16) meet Integer(32) and Float(32), and Size(16) meet a pointer. -/
theorem C15_size_meet_witness :
    (32 : Nat) ≠ 0 ∧ sampleEnv.STD_SIZE ≠ 0 ∧
    Ty.meetWith sampleEnv 1 noGlobals (.size 16) (.integer 32 1) false false =
      some ⟨.integer 32 1, .created, true, noGlobals⟩ ∧
    Ty.meetWith sampleEnv 1 noGlobals (.size 16) (.pointer .char) false false =
      some ⟨.pointer (Ty.clone .char), .created, true, noGlobals⟩ :=
  ⟨by decide, by decide,
    ((C15_size_meet sampleEnv 0 noGlobals 16 32 1 .char false false).2.1 (by decide)).1,
    (C15_size_meet sampleEnv 0 noGlobals 16 32 1 .char false false).2.2.1 (by decide)⟩

/-! ## The data-interval map -/

namespace DataIntervalMap

/-- The entry before `upper_bound(k)` is an entry of the map, at an address of at most `k`. -/
theorem beforeUpperBound_mem : ∀ (l : List DataIntervalEntry) (k : Nat) (e : DataIntervalEntry),
    beforeUpperBound l k = some e → e ∈ l ∧ e.1 ≤ k
  | [], _, _, h => by simp [beforeUpperBound] at h
  | x :: tl, k, e, h => by
    simp only [beforeUpperBound] at h
    split at h
    · rename_i hx
      split at h
      · rename_i e2 he2
        simp only [Option.some.injEq] at h
        subst h
        have ih := beforeUpperBound_mem tl k e2 he2
        exact ⟨List.mem_cons_of_mem _ ih.1, ih.2⟩
      · simp only [Option.some.injEq] at h
        subst h
        exact ⟨List.mem_cons_self _ _, hx⟩
    · cases h

/-- The entries after the first of an ordered map are ordered. -/
theorem ordered_tail (x : DataIntervalEntry) (tl : List DataIntervalEntry)
    (h : ordered (x :: tl) = true) : ordered tl = true := by
  simp only [ordered, Bool.and_eq_true] at h
  exact h.2

/-- In an ordered map every later entry starts after the first one, at or after its end. -/
theorem ordered_head : ∀ (tl : List DataIntervalEntry) (x : DataIntervalEntry),
    ordered (x :: tl) = true → ∀ y ∈ tl, x.1 < y.1 ∧ x.1 + x.2.size ≤ y.1
  | [], _, _, y, hy => by cases hy
  | z :: tl, x, h, y, hy => by
    have hxz : x.1 < z.1 ∧ x.1 + x.2.size ≤ z.1 := by
      simp only [ordered, Bool.and_eq_true, decide_eq_true_eq] at h
      exact h.1
    rcases List.mem_cons.1 hy with rfl | hy2
    · exact hxz
    · have ih := ordered_head tl z (ordered_tail x _ h) y hy2
      omega

/-- No entry is before `upper_bound(k)` when every entry starts after `k`. -/
theorem beforeUpperBound_none_of_lt (l : List DataIntervalEntry) (k : Nat)
    (h : ∀ y ∈ l, k < y.1) : beforeUpperBound l k = none := by
  cases l with
  | nil => rfl
  | cons x tl =>
    have := h x (List.mem_cons_self _ _)
    simp [beforeUpperBound, Nat.not_le.2 this]

/-- In an ordered map, the entry before `upper_bound(addr)` is the entry that covers `addr`. -/
theorem beforeUpperBound_of_covers : ∀ (l : List DataIntervalEntry) (addr : Nat)
    (e : DataIntervalEntry), ordered l = true → e ∈ l → e.1 ≤ addr → addr < e.1 + e.2.size →
    beforeUpperBound l addr = some e
  | [], _, _, _, he, _, _ => by cases he
  | x :: tl, addr, e, ho, he, h1, h2 => by
    have hh := ordered_head tl x ho
    rcases List.mem_cons.1 he with rfl | he2
    · have hn : beforeUpperBound tl addr = none :=
        beforeUpperBound_none_of_lt tl addr (fun y hy => by have := hh y hy; omega)
      simp [beforeUpperBound, h1, hn]
    · have ih := beforeUpperBound_of_covers tl addr e (ordered_tail x tl ho) he2 h1 h2
      have hx : x.1 ≤ addr := by have := hh e he2; omega
      simp [beforeUpperBound, hx, ih]

/-- In an ordered map, `find(addr)` returns exactly the entries that cover `addr`. -/
theorem find_eq_some_iff (l : List DataIntervalEntry) (addr : Nat) (e : DataIntervalEntry)
    (ho : ordered l = true) :
    find l addr = some e ↔ (e ∈ l ∧ e.1 ≤ addr ∧ addr < e.1 + e.2.size) := by
  constructor
  · intro h
    simp only [find, find_it] at h
    split at h
    · cases h
    · rename_i it hit
      split at h
      · rename_i hc
        simp only [Option.some.injEq] at h
        subst h
        have := beforeUpperBound_mem l addr it hit
        simp only [ge_iff_le, Bool.and_eq_true, decide_eq_true_eq] at hc
        exact ⟨this.1, hc.1, by omega⟩
      · cases h
  · rintro ⟨hm, h1, h2⟩
    have := beforeUpperBound_of_covers l addr e ho hm h1 h2
    simp only [find, find_it, this]
    have h3 : addr - e.1 < e.2.size := by omega
    simp [h1, h3]

end DataIntervalMap

/-- A sum that fits the width of an address is the sum of the numbers. -/
theorem MapEnv.add_eq (m : MapEnv) (a b : Nat) (h : a + b < 2 ^ m.addrBits) :
    m.add a b = a + b := by
  simp [MapEnv.add, Nat.mod_eq_of_lt h]

/-- The difference of an address and a smaller one is the difference of the numbers. -/
theorem MapEnv.sub_eq (m : MapEnv) (a b : Nat) (hb : b ≤ a) (ha : a < 2 ^ m.addrBits) :
    m.sub a b = a - b := by
  have hb2 : b % 2 ^ m.addrBits = b := Nat.mod_eq_of_lt (by omega)
  have : a + (2 ^ m.addrBits - b) = (a - b) + 2 ^ m.addrBits := by omega
  simp only [MapEnv.sub, hb2, this, Nat.add_mod_right]
  exact Nat.mod_eq_of_lt (by omega)

namespace DataIntervalMap

/-- Giving an entry new data leaves the addresses of the map as they were. -/
theorem assign_keys : ∀ (l : List DataIntervalEntry) (k : Nat) (d : DataInterval),
    (assign l k d).map Prod.fst = l.map Prod.fst
  | [], _, _ => rfl
  | e :: tl, k, d => by
    simp only [assign]
    split
    · rename_i h
      simp [h]
    · simp [assign_keys tl k d]

/-- The method `isClear` leaves the addresses of the map as they were. -/
theorem isClear_keys (env : Env) (m : MapEnv) (l : List DataIntervalEntry) (addr size : Nat) :
    (isClear env m l addr size).2.map Prod.fst = l.map Prod.fst := by
  simp only [isClear]
  repeat' split
  all_goals first
    | rfl
    | exact assign_keys _ _ _

/-- The method `isClear` leaves the map unchanged when it returns false. -/
theorem isClear_false (env : Env) (m : MapEnv) (l : List DataIntervalEntry) (addr size : Nat)
    (h : (isClear env m l addr size).1 = false) : (isClear env m l addr size).2 = l := by
  simp only [isClear] at h ⊢
  cases hb : beforeUpperBound l (m.sub (m.add addr size) 1) with
  | none => rfl
  | some it =>
    simp only [hb] at h ⊢
    by_cases hc : (if m.add it.1 it.2.size < it.1 then 0xFFFFFFFF else m.add it.1 it.2.size) ≤ addr
    · simp [hc]
    · by_cases hu : isUnboundedArray env it.2.type = true
      · simp [hc, hu] at h
      · simp [hc, hu]

/-- The check of the entries under a new array leaves the map unchanged. -/
theorem checkArray_dimap (env : Env) (fuel : Nat) (ty : Ty) :
    ∀ (its dimap : List DataIntervalEntry) (g : Globals) (memberType : Ty) (Length : Nat)
      (ch : Bool) (c : Checked),
      checkArray env fuel ty its dimap g memberType Length ch = some c → c.dimap = dimap
  | [], dimap, g, memberType, Length, ch, c, h => by
    simp only [checkArray] at h
    split at h
    · cases h
    · simp only [Option.some.injEq] at h
      subst h
      rfl
  | it :: rest, dimap, g, memberType, Length, ch, c, h => by
    simp only [checkArray] at h
    repeat' split at h
    all_goals first
      | contradiction
      | (simp only [Option.some.injEq] at h; subst h; rfl)
      | exact checkArray_dimap env fuel ty rest dimap _ _ _ _ c h

/-- The check of the entries under a new compound leaves the addresses of the map as they were. -/
theorem checkCompound_keys (env : Env) (m : MapEnv) (fuel : Nat) (addr : Nat) (ty : Ty)
    (generic : Bool) (nx : Nat) :
    ∀ (its dimap : List DataIntervalEntry) (g : Globals) (types : Members) (ch : Bool)
      (c : Checked),
      checkCompound env m fuel addr ty generic nx its dimap g types ch = some c →
      c.dimap.map Prod.fst = dimap.map Prod.fst
  | [], dimap, g, types, ch, c, h => by
    simp only [checkCompound] at h
    split at h
    · cases h
    · simp only [Option.some.injEq] at h
      subst h
      rfl
  | it :: rest, dimap, g, types, ch, c, h => by
    simp only [checkCompound] at h
    repeat' split at h
    all_goals first
      | contradiction
      | (simp only [Option.some.injEq] at h; subst h; rfl)
      | (rw [checkCompound_keys env m fuel addr ty generic nx rest _ _ _ _ c h]
         exact assign_keys _ _ _)
      | exact checkCompound_keys env m fuel addr ty generic nx rest _ _ _ _ c h

/-- The addresses of an ordered map increase strictly. -/
theorem ordered_keys : ∀ (l : List DataIntervalEntry), ordered l = true →
    (l.map Prod.fst).Pairwise (fun a b => a < b)
  | [], _ => List.Pairwise.nil
  | x :: tl, h => by
    simp only [List.map_cons, List.pairwise_cons]
    refine ⟨?_, ordered_keys tl (ordered_tail x tl h)⟩
    intro a ha
    obtain ⟨y, hy, rfl⟩ := List.mem_map.1 ha
    exact (ordered_head tl x h y hy).1

/-- After `dimap[k] = d`, the entry before `upper_bound(k)` is the new one. -/
theorem beforeUpperBound_put : ∀ (l : List DataIntervalEntry) (k : Nat) (d : DataInterval),
    (l.map Prod.fst).Pairwise (fun a b => a < b) →
    beforeUpperBound (put l k d) k = some (k, d)
  | [], k, d, _ => by simp [put, beforeUpperBound]
  | e :: tl, k, d, h => by
    simp only [List.map_cons, List.pairwise_cons] at h
    simp only [put]
    split
    · rename_i hk
      simp [beforeUpperBound, Nat.not_le.2 hk]
    · split
      · rename_i hk he
        have hn : beforeUpperBound tl k = none :=
          beforeUpperBound_none_of_lt tl k (fun y hy => by
            have := h.1 y.1 (List.mem_map.2 ⟨y, hy, rfl⟩)
            omega)
        simp [beforeUpperBound, hn]
      · rename_i hk he
        have hle : e.1 ≤ k := by omega
        simp [beforeUpperBound, hle, beforeUpperBound_put tl k d h.2]

/-- After `dimap[k] = d` with a size that is not zero, `find(k)` returns the new entry. -/
theorem find_put (l : List DataIntervalEntry) (k : Nat) (d : DataInterval)
    (h : (l.map Prod.fst).Pairwise (fun a b => a < b)) (hd : 0 < d.size) :
    find (put l k d) k = some (k, d) := by
  simp [find, find_it, beforeUpperBound_put l k d h, hd]

/-- Erasing a range of entries leaves the remaining addresses in increasing order. -/
theorem eraseRange_keys (l : List DataIntervalEntry) (addr last : Nat)
    (h : (l.map Prod.fst).Pairwise (fun a b => a < b)) :
    ((eraseRange l addr last).map Prod.fst).Pairwise (fun a b => a < b) := by
  rw [List.pairwise_map] at h ⊢
  simp only [eraseRange]
  split
  · exact h.filter _
  · exact h.filter _

/-- When `replaceComponents` logs no error on an ordered map, `find(addr)` afterwards returns the
new entry, if its size in bytes is not zero. -/
theorem replaceComponents_ok (env : Env) (m : MapEnv) (fuel : Nat) (g : Globals)
    (dimap : List DataIntervalEntry) (addr : Nat) (name : String) (ty : Ty) (ch : Bool)
    (r : MapResult) (ho : ordered dimap = true)
    (h : replaceComponents env m fuel g dimap addr name ty ch = some r)
    (hn : r.error = none) :
    ∃ bits1, Ty.getSize env r.g.namedTypes fuel r.ty = some bits1 ∧
      (0 < m.getBytes bits1 →
        find r.dimap addr =
          some (addr, { size := m.getBytes bits1, name := name, type := r.ty })) := by
  have hk := ordered_keys dimap ho
  simp only [replaceComponents] at h
  split at h
  · rename_i bits rt hs hr
    split at h
    · cases h
    · rename_i c hc
      have hck : c.dimap.map Prod.fst = dimap.map Prod.fst := by
        split at hc
        · split at hc
          · cases hc
          · exact checkCompound_keys _ _ _ _ _ _ _ _ _ _ _ _ _ hc
        · split at hc
          · cases hc
          · rw [checkArray_dimap _ _ _ _ _ _ _ _ _ _ hc]
        · simp only [Option.some.injEq] at hc
          subst hc
          exact isClear_keys _ _ _ _ _
      split at h
      · split at h
        · cases h
        · rename_i bits1 hb1
          simp only [Option.some.injEq] at h
          subst h
          refine ⟨bits1, hb1, fun hpos => ?_⟩
          exact find_put _ _ _ (eraseRange_keys _ _ _ (hck ▸ hk)) hpos
      · simp only [Option.some.injEq] at h
        subst h
        simp at hn
  · cases h

end DataIntervalMap

/-! ## C16: find -/

/-- C16 (counterexample): after `addItem(0x108, y, Integer(16))`, `addItem(0x102, x,
Integer(32))` and `addItem(0x100, arr, Array(Integer(16),3))`, none of which logs an error, the
map holds `arr` at 0x100 with 12 bytes and `y` at 0x108 with 2 bytes; the entry `arr` has
0x100 <= 0x10B < 0x100 + 12, and `find(0x10B)` is null. -/
theorem C16_find_misses_covering_entry :
    (DataIntervalMap.thenAdd (DataIntervalMap.thenAdd (DataIntervalMap.thenAdd
        DataIntervalMap.empty 0x108 "y" (.integer 16 1)) 0x102 "x" (.integer 32 1))
        0x100 "arr" (.array (.integer 16 1) 3)).map
      (fun s => (s.error, s.dimap.map (fun e => (e.1, e.2.size, e.2.name)),
        (DataIntervalMap.find s.dimap 0x10B).map (fun e => e.1))) =
      some (none, [(0x100, 12, "arr"), (0x108, 2, "y")], none) ∧
    (0x100 : Nat) ≤ 0x10B ∧ (0x10B : Nat) < 0x100 + 12 := by
  decide

/-- C16 (amended): for every map in which each entry ends at or before the address of the
next, and every address: `find(addr)` returns an entry e exactly when e is an entry of the map
with e.start <= addr < e.start + e.size, and returns null exactly when the map has no such
entry. -/
theorem C16_find_on_ordered_map (dimap : List DataIntervalEntry) (addr : Nat)
    (ho : DataIntervalMap.ordered dimap = true) :
    (∀ e, DataIntervalMap.find dimap addr = some e ↔
      (e ∈ dimap ∧ e.1 ≤ addr ∧ addr < e.1 + e.2.size)) ∧
    (DataIntervalMap.find dimap addr = none ↔
      ∀ e ∈ dimap, ¬ (e.1 ≤ addr ∧ addr < e.1 + e.2.size)) := by
  refine ⟨fun e => DataIntervalMap.find_eq_some_iff dimap addr e ho, ?_⟩
  constructor
  · intro hn e he hc
    have := (DataIntervalMap.find_eq_some_iff dimap addr e ho).2 ⟨he, hc.1, hc.2⟩
    rw [hn] at this
    cases this
  · intro h
    cases hf : DataIntervalMap.find dimap addr with
    | none => rfl
    | some e =>
      have := (DataIntervalMap.find_eq_some_iff dimap addr e ho).1 hf
      exact absurd ⟨this.2.1, this.2.2⟩ (h e this.1)

/-- C16 (witness): the map of the two entries [0x100,0x110) and [0x110,0x114). -/
theorem C16_find_on_ordered_map_witness :
    DataIntervalMap.ordered DataIntervalMap.sampleShrunk = true ∧
    ((∀ e, DataIntervalMap.find DataIntervalMap.sampleShrunk 0x112 = some e ↔
      (e ∈ DataIntervalMap.sampleShrunk ∧ e.1 ≤ 0x112 ∧ 0x112 < e.1 + e.2.size)) ∧
    (DataIntervalMap.find DataIntervalMap.sampleShrunk 0x112 = none ↔
      ∀ e ∈ DataIntervalMap.sampleShrunk, ¬ (e.1 ≤ 0x112 ∧ 0x112 < e.1 + e.2.size))) :=
  ⟨by decide, C16_find_on_ordered_map DataIntervalMap.sampleShrunk 0x112 (by decide)⟩

/-! ## C17: entries do not overlap -/

/-- C17 (the code at the failing input): from the empty map, `addItem(0x108, y, Integer(32))`,
`addItem(0x102, x, Integer(32))` and `addItem(0x100, arr, Array(Integer(16),3))` log no error.
The third call meets the base of the new array, in place, with the type of `x`, so that
`setBaseType` sees a base of 32 bits already and keeps the length 3: the entry `arr` is
entered with 12 bytes, [0x100,0x10C), after the entries in [0x100,0x106) have been removed,
and it overlaps the entry `y`, [0x108,0x10C). -/
theorem C17_array_grows_over_next_entry :
    (DataIntervalMap.thenAdd DataIntervalMap.empty 0x108 "y" (.integer 32 1)).map
        (fun s => s.error) = some none ∧
    (DataIntervalMap.thenAdd (DataIntervalMap.thenAdd DataIntervalMap.empty 0x108 "y"
        (.integer 32 1)) 0x102 "x" (.integer 32 1)).map (fun s => s.error) = some none ∧
    (DataIntervalMap.thenAdd (DataIntervalMap.thenAdd (DataIntervalMap.thenAdd
        DataIntervalMap.empty 0x108 "y" (.integer 32 1)) 0x102 "x" (.integer 32 1))
        0x100 "arr" (.array (.integer 16 1) 3)).map
      (fun s => (s.error, s.dimap.map (fun e => (e.1, e.2.size, e.2.name)),
        s.dimap.map (fun e => e.2.type.getCtype sampleEnv true))) =
      some (none, [(0x100, 12, "arr"), (0x108, 4, "y")], ["int[3]", "int"]) ∧
    DataIntervalMap.overlap (0x100, { size := 12, name := "arr", type := .array (.integer 32 2) 3 })
      (0x108, { size := 4, name := "y", type := .integer 32 1 }) = true := by
  decide

/-! ## C18: weaving -/

/-- C18 (counterexample): after `addItem(0x108, y, Integer(16))`, `addItem(0x102, x,
Integer(32))` and `addItem(0x100, arr, Array(Integer(16),3))`, none of which logs an error, the
map holds the entry `arr`, [0x100,0x10C), and the entry `y`, [0x108,0x10A).
`addItem(0x10B, z, Integer(16))` starts inside `arr` and ends after it, 0x100 < 0x10B < 0x10C
and 0x10C < 0x10B + 2; the call logs no error and enters `z` in the map. -/
theorem C18_weaving_item_enters_overlapped_map :
    DataIntervalMap.layout (DataIntervalMap.thenAdd (DataIntervalMap.thenAdd
        (DataIntervalMap.thenAdd DataIntervalMap.empty 0x108 "y" (.integer 16 1))
        0x102 "x" (.integer 32 1)) 0x100 "arr" (.array (.integer 16 1) 3)) =
      some [(0x100, 12, "arr"), (0x108, 2, "y")] ∧
    (0x100 : Nat) < 0x10B ∧ (0x10B : Nat) < 0x100 + 12 ∧ (0x100 : Nat) + 12 < 0x10B + 16 / 8 ∧
    (DataIntervalMap.thenAdd (DataIntervalMap.thenAdd (DataIntervalMap.thenAdd
        (DataIntervalMap.thenAdd DataIntervalMap.empty 0x108 "y" (.integer 16 1))
        0x102 "x" (.integer 32 1)) 0x100 "arr" (.array (.integer 16 1) 3))
        0x10B "z" (.integer 16 1)).map
      (fun s => (s.error, s.dimap.map (fun e => (e.1, e.2.size, e.2.name)))) =
      some (none, [(0x100, 12, "arr"), (0x108, 2, "y"), (0x10B, 2, "z")]) := by
  decide

/-- C18 (amended): for every map whose entries are in address order without overlap and that
contains an entry e, and every `addItem(addr, name, ty)` with e.start < addr < e.start + e.size
and e.start + e.size < addr + `getSize() / 8`, the two sums as `addItem` computes them, in the
width of an address: the call logs that the item weaves after e and leaves the map, the global
state and the type as they were. -/
theorem C18_weaving_insertion_is_dropped (env : Env) (m : MapEnv) (fuel : Nat) (g : Globals)
    (dimap : List DataIntervalEntry) (e : DataIntervalEntry) (addr : Nat) (name : Option String)
    (ty : Ty) (ch : Bool) (bits : Nat)
    (ho : DataIntervalMap.ordered dimap = true) (he : e ∈ dimap)
    (h1 : e.1 < addr) (h2 : addr < e.1 + e.2.size)
    (hs : Ty.getSize env g.namedTypes fuel ty = some bits)
    (h3 : m.add e.1 e.2.size < m.add addr (bits / 8)) :
    DataIntervalMap.addItem env m fuel g dimap addr name ty ch =
      some { dimap := dimap, g := g, ty := ty, error := some .weavesAfter } := by
  have hf : DataIntervalMap.find dimap addr = some e :=
    (DataIntervalMap.find_eq_some_iff dimap addr e ho).2 ⟨he, Nat.le_of_lt h1, h2⟩
  simp [DataIntervalMap.addItem, hf, hs, h1, h3]

/-- C18 (witness): Integer(32) at 0x100, then Integer(32) at 0x102. -/
theorem C18_weaving_insertion_is_dropped_witness :
    DataIntervalMap.ordered [(0x100, { size := 4, name := "a", type := .integer 32 1 })] = true ∧
      (0x100 : Nat) < 0x102 ∧ (0x102 : Nat) < 0x100 + 4 ∧
      Ty.getSize sampleEnv noGlobals.namedTypes 1 (.integer 32 1) = some 32 ∧
      sampleMapEnv.add 0x100 4 < sampleMapEnv.add 0x102 (32 / 8) ∧
      DataIntervalMap.addItem sampleEnv sampleMapEnv 1 noGlobals
          [(0x100, { size := 4, name := "a", type := .integer 32 1 })] 0x102 (some "b")
          (.integer 32 1) false =
        some { dimap := [(0x100, { size := 4, name := "a", type := .integer 32 1 })],
               g := noGlobals, ty := .integer 32 1, error := some .weavesAfter } :=
  ⟨by decide, by decide, by decide, rfl, by decide,
    C18_weaving_insertion_is_dropped sampleEnv sampleMapEnv 1 noGlobals
      [(0x100, { size := 4, name := "a", type := .integer 32 1 })]
      (0x100, { size := 4, name := "a", type := .integer 32 1 }) 0x102 (some "b")
      (.integer 32 1) false 32 (by decide) (List.mem_cons_self _ _) (by decide) (by decide) rfl
      (by decide)⟩

/-! ## C19: an item at the start of an entry -/

/-- C19 (counterexample): after Integer(16) has been added at 0x100, `addItem(0x100, b,
Integer(32))` logs that the new type overlaps and does not resolve to a compound or array; the
map still holds the entry of 2 bytes named `a`, of type `short`, and `find(0x100)` returns
it. -/
theorem C19_larger_scalar_is_rejected :
    (DataIntervalMap.thenAdd (DataIntervalMap.thenAdd DataIntervalMap.empty 0x100 "a"
        (.integer 16 1)) 0x100 "b" (.integer 32 1)).map
      (fun s => (s.error, s.dimap.map (fun e => (e.1, e.2.size, e.2.name)),
        (DataIntervalMap.find s.dimap 0x100).map
          (fun e => (e.2.name, e.2.size, e.2.type.getCtype sampleEnv true)))) =
      some (some .overlapping, [(0x100, 2, "a")], some ("a", 2, "short")) := by
  rfl

/-- C19 (amended): for every map and every `addItem(addr, name, ty)` for which `find(addr)`
is an entry e that starts at addr.  When e ends where the new item ends and e's type is
compatible with ty, the entry keeps its address, size and name and its type becomes e.type
meet ty.  When e ends before the new item ends: if ty resolves to neither a compound nor an
array and `isClear` finds the range occupied, the call logs an error and leaves the map as it
was; and whenever the call logs no error (the map being in order without overlap), `find(addr)`
afterwards returns the entry with the name `name`, the type ty as the call left it and the
size `getBytes()` of that type, if that size is not zero. -/
theorem C19_add_item_at_start_of_entry (env : Env) (m : MapEnv) (fuel : Nat) (g : Globals)
    (dimap : List DataIntervalEntry) (e : DataIntervalEntry) (addr : Nat) (name : Option String)
    (ty : Ty) (ch : Bool) (bits : Nat)
    (hf : DataIntervalMap.find dimap addr = some e) (he : e.1 = addr)
    (hs : Ty.getSize env g.namedTypes fuel ty = some bits) :
    (m.add e.1 e.2.size = m.add addr (bits / 8) → ∀ r,
      Ty.isCompatibleWith env g.namedTypes fuel e.2.type ty false = some true →
      Ty.meetWith env fuel g e.2.type ty false false = some r →
      DataIntervalMap.addItem env m fuel g dimap addr name ty ch =
        some { dimap := DataIntervalMap.assign dimap addr { e.2 with type := r.ty }, g := r.g,
               ty := ty, error := none }) ∧
    (m.add e.1 e.2.size < m.add addr (bits / 8) →
      (∀ rt, Ty.resolved g.namedTypes fuel ty = some rt → kindIs Ty.isCompound rt = false →
        kindIs Ty.isArray rt = false →
        (DataIntervalMap.isClear env m dimap addr ((bits + 7) / 8)).1 = false →
        DataIntervalMap.addItem env m fuel g dimap addr name ty ch =
          some { dimap := dimap, g := g, ty := ty, error := some .overlapping }) ∧
      (DataIntervalMap.ordered dimap = true → ∀ r,
        DataIntervalMap.addItem env m fuel g dimap addr name ty ch = some r → r.error = none →
        ∃ bits1, Ty.getSize env r.g.namedTypes fuel r.ty = some bits1 ∧
          (0 < m.getBytes bits1 →
            DataIntervalMap.find r.dimap addr =
              some (addr, { size := m.getBytes bits1, name := name.getD "<noname>",
                            type := r.ty })))) := by
  subst he
  refine ⟨?_, ?_⟩
  · intro heq r hc hm
    simp [DataIntervalMap.addItem, hf, hs, heq, DataIntervalMap.checkMatching, hc, hm]
  · intro hlt
    have hadd : DataIntervalMap.addItem env m fuel g dimap e.1 name ty ch =
        DataIntervalMap.replaceComponents env m fuel g dimap e.1 (name.getD "<noname>") ty ch := by
      simp [DataIntervalMap.addItem, hf, hs, hlt]
    refine ⟨?_, ?_⟩
    · intro rt hr hk1 hk2 hcl
      rw [hadd]
      have hcl2 := DataIntervalMap.isClear_false env m dimap e.1 ((bits + 7) / 8) hcl
      simp only [DataIntervalMap.replaceComponents, hs, hr]
      rcases rt with _ | t
      · simp [hcl, hcl2, kindIs]
      · cases t <;> first
          | (simp [kindIs, Ty.isCompound] at hk1; done)
          | (simp [kindIs, Ty.isArray] at hk2; done)
          | simp [hcl, hcl2, kindIs, Ty.isCompound, Ty.isArray]
    · intro ho r hr hn
      rw [hadd] at hr
      exact DataIntervalMap.replaceComponents_ok env m fuel g dimap e.1 _ ty ch r ho hr hn

/-- C19 (witness): Integer(16) at 0x100, then Integer(32) at 0x100. -/
theorem C19_add_item_at_start_of_entry_witness :
    DataIntervalMap.find [(0x100, { size := 2, name := "a", type := .integer 16 1 })] 0x100 =
        some (0x100, { size := 2, name := "a", type := .integer 16 1 }) ∧
      Ty.getSize sampleEnv noGlobals.namedTypes 3 (.integer 32 1) = some 32 ∧
      DataIntervalMap.addItem sampleEnv sampleMapEnv 3 noGlobals
          [(0x100, { size := 2, name := "a", type := .integer 16 1 })] 0x100 (some "b")
          (.integer 32 1) false =
        some { dimap := [(0x100, { size := 2, name := "a", type := .integer 16 1 })],
               g := noGlobals, ty := .integer 32 1, error := some .overlapping } :=
  ⟨rfl, rfl,
    ((C19_add_item_at_start_of_entry sampleEnv sampleMapEnv 3 noGlobals
      [(0x100, { size := 2, name := "a", type := .integer 16 1 })]
      (0x100, { size := 2, name := "a", type := .integer 16 1 }) 0x100 (some "b")
      (.integer 32 1) false 32 rfl rfl rfl).2 (by decide)).1 (some (.integer 32 1)) rfl rfl rfl
      (by decide)⟩

/-! ## C20: unbounded arrays -/

/-- C20 (counterexample): the map holds an unbounded array of `char` at 0x100, shrunk to 16
bytes by `isClear(0x110, 4)`, and an Integer(32) at 0x110 (the state after
`addItem(0x100, u, char[])`, `isClear(0x110, 4)` and `addItem(0x110, i, Integer(32))`).  The
range of `isClear(0x108, 16)` overlaps the array, yet the call returns false and leaves both
entries as they were: the entry it examines is the later one. -/
theorem C20_later_entry_decides :
    DataIntervalMap.isUnboundedArray sampleEnv (.array .char 9999999) = true ∧
    (DataIntervalMap.isClear sampleEnv sampleMapEnv DataIntervalMap.sampleShrunk 0x108 16).1 =
      false ∧
    (DataIntervalMap.isClear sampleEnv sampleMapEnv DataIntervalMap.sampleShrunk 0x108
        16).2.map (fun e => (e.1, e.2.size, e.2.name)) = [(0x100, 16, "u"), (0x110, 4, "i")] ∧
    (DataIntervalMap.thenAdd DataIntervalMap.empty 0x100 "u" (.array .char 9999999)).bind
        (fun s => DataIntervalMap.layout
          (DataIntervalMap.addItem sampleEnv sampleMapEnv 10 s.g
            (DataIntervalMap.isClear sampleEnv sampleMapEnv s.dimap 0x110 4).2 0x110 (some "i")
            (.integer 32 1) false)) =
      some [(0x100, 16, "u"), (0x110, 4, "i")] := by
  decide

/-- C20 (amended): for every map and every query `isClear(addr, size)`, let e be the entry
that the query examines, the last entry that starts at or before the last byte
addr + size - 1.  If e starts before addr and its end, as the query computes it, is after
addr, then: when the type of e is an unbounded array, `isClear` returns true and sets the size
of e to exactly addr - e.start; when it is any other type, `isClear` returns false and leaves
the map unchanged. -/
theorem C20_isClear_examined_entry (env : Env) (m : MapEnv) (dimap : List DataIntervalEntry)
    (addr size : Nat) (e : DataIntervalEntry)
    (hb : DataIntervalMap.beforeUpperBound dimap (m.sub (m.add addr size) 1) = some e)
    (hs : e.1 < addr) (haddr : addr < 2 ^ m.addrBits)
    (hend : addr < DataIntervalMap.endOf m e) :
    (DataIntervalMap.isUnboundedArray env e.2.type = true →
      DataIntervalMap.isClear env m dimap addr size =
        (true, DataIntervalMap.assign dimap e.1 { e.2 with size := addr - e.1 })) ∧
    (DataIntervalMap.isUnboundedArray env e.2.type = false →
      DataIntervalMap.isClear env m dimap addr size = (false, dimap)) := by
  have hsub : m.sub addr e.1 = addr - e.1 := MapEnv.sub_eq m _ _ (Nat.le_of_lt hs) haddr
  have hn : ¬ DataIntervalMap.endOf m e ≤ addr := by omega
  simp only [DataIntervalMap.endOf] at hn
  constructor
  · intro hu
    simp only [DataIntervalMap.isClear, hb, hn, hu, hsub, if_false, if_true]
  · intro hu
    simp [DataIntervalMap.isClear, hb, hn, hu]

/-- C20 (witness): `isClear(0x108, 8)` on the map with an unbounded array at 0x100. -/
theorem C20_isClear_examined_entry_witness :
    DataIntervalMap.beforeUpperBound DataIntervalMap.sampleShrunk
        (sampleMapEnv.sub (sampleMapEnv.add 0x108 8) 1) =
        some (0x100, { size := 16, name := "u", type := .array .char 9999999 }) ∧
      (0x100 : Nat) < 0x108 ∧ (0x108 : Nat) < 2 ^ sampleMapEnv.addrBits ∧
      0x108 < DataIntervalMap.endOf sampleMapEnv
        (0x100, { size := 16, name := "u", type := .array .char 9999999 }) ∧
      DataIntervalMap.isClear sampleEnv sampleMapEnv DataIntervalMap.sampleShrunk 0x108 8 =
        (true, DataIntervalMap.assign DataIntervalMap.sampleShrunk 0x100
          { size := 0x108 - 0x100, name := "u", type := .array .char 9999999 }) :=
  ⟨rfl, by decide, by decide, by decide,
    (C20_isClear_examined_entry sampleEnv sampleMapEnv DataIntervalMap.sampleShrunk 0x108 8
      (0x100, { size := 16, name := "u", type := .array .char 9999999 }) rfl (by decide)
      (by decide) (by decide)).1 rfl⟩

/-! Theorems: the decompilation driver, proofs, parameters, returns and phi removal -/

/-! ## C21: the round-robin loop of the type analysis -/

theorem dfaPass_snd {σ ι : Type} (analyse : ι → σ → σ × Bool) :
    ∀ (stmts : List ι) (s : σ) (ch : Bool),
      (dfaPass analyse stmts s ch).2 = (ch || (dfaReports analyse stmts s).any id)
  | [], s, ch => by simp [dfaPass, dfaReports]
  | it :: rest, s, ch => by
    rw [dfaPass, dfaPass_snd analyse rest]
    cases h : (analyse it s).2 <;> cases ch <;> simp [dfaReports, h]

theorem dfaLoop_spec {σ ι : Type} (analyse : ι → σ → σ × Bool) (stmts : List ι) (s : σ) :
    ∀ (left : Nat) (l : DfaLoop σ), 0 < left →
      l.state = dfaStateAfter analyse stmts s l.passes →
      (∀ k, 1 ≤ k → k ≤ l.passes → dfaChanged analyse stmts s k = true) →
      ∃ n, dfaLoop analyse stmts left l =
          { state := dfaStateAfter analyse stmts s n,
            ch := dfaChanged analyse stmts s n,
            iter := if dfaChanged analyse stmts s n then l.iter + (n - l.passes)
                    else l.iter + (n - l.passes) - 1,
            passes := n } ∧
        l.passes < n ∧ n ≤ l.passes + left ∧
        (∀ k, 1 ≤ k → k < n → dfaChanged analyse stmts s k = true) ∧
        (n < l.passes + left → dfaChanged analyse stmts s n = false)
  | 0, _, h, _, _ => absurd h (Nat.lt_irrefl 0)
  | left + 1, l, _, hs, hc => by
    have hr : (dfaPass analyse stmts l.state false).2 =
        dfaChanged analyse stmts s (l.passes + 1) := by
      rw [dfaPass_snd, hs]
      simp [dfaChanged]
    have hst : (dfaPass analyse stmts l.state false).1 =
        dfaStateAfter analyse stmts s (l.passes + 1) := by
      rw [hs]
      rfl
    rw [dfaLoop]
    cases hch : dfaChanged analyse stmts s (l.passes + 1)
    · refine ⟨l.passes + 1, ?_, by omega, by omega, ?_, fun _ => hch⟩
      · simp [hr, hst, hch]
      · intro k h1 h2
        exact hc k h1 (by omega)
    · simp only [hr, hch, hst, Bool.not_true, Bool.false_eq_true, if_false]
      rcases Nat.eq_zero_or_pos left with h0 | hpos
      · subst h0
        refine ⟨l.passes + 1, ?_, by omega, by omega, ?_, fun h => absurd h (by omega)⟩
        · simp [dfaLoop, hch]
        · intro k h1 h2
          exact hc k h1 (by omega)
      · have hc2 : ∀ k, 1 ≤ k → k ≤ l.passes + 1 → dfaChanged analyse stmts s k = true := by
          intro k h1 h2
          rcases Nat.lt_or_ge k (l.passes + 1) with h | h
          · exact hc k h1 (by omega)
          · have : k = l.passes + 1 := by omega
            rw [this]
            exact hch
        obtain ⟨n, hn, h1, h2, h3, h4⟩ := dfaLoop_spec analyse stmts s left
          { state := dfaStateAfter analyse stmts s (l.passes + 1), ch := true,
            iter := l.iter + 1, passes := l.passes + 1 } hpos rfl hc2
        dsimp only at hn h1 h2 h4
        refine ⟨n, ?_, by omega, by omega, h3, ?_⟩
        · rw [hn]
          simp only [DfaLoop.mk.injEq, true_and]
          split_ifs <;> exact ⟨by omega, trivial⟩
        · intro h
          exact h4 (by omega)

/-- C21: whatever the analysis of a statement does and reports, the round-robin loop of
`UserProc::dfaTypeAnalysis` makes at least one and at most 20 passes over the statement list;
every pass before the last one reported a change, and when fewer than 20 passes were made the
last one reported none, so the loop stops after the first pass in which no statement reports a
change; the warning is logged exactly when 20 passes were made and the 20th reported a
change. -/
theorem C21_dfa_round_robin_stops_within_limit {σ ι : Type} (analyse : ι → σ → σ × Bool)
    (stmts : List ι) (sigCh : Bool) (s : σ) :
    DFA_ITER_LIMIT = 20 ∧
    1 ≤ (UserProc.dfaTypeAnalysis analyse stmts sigCh s).loop.passes ∧
    (UserProc.dfaTypeAnalysis analyse stmts sigCh s).loop.passes ≤ 20 ∧
    (UserProc.dfaTypeAnalysis analyse stmts sigCh s).loop.state =
      dfaStateAfter analyse stmts s (UserProc.dfaTypeAnalysis analyse stmts sigCh s).loop.passes ∧
    (∀ k, 1 ≤ k → k < (UserProc.dfaTypeAnalysis analyse stmts sigCh s).loop.passes →
      dfaChanged analyse stmts s k = true) ∧
    ((UserProc.dfaTypeAnalysis analyse stmts sigCh s).loop.passes < 20 →
      dfaChanged analyse stmts s
        (UserProc.dfaTypeAnalysis analyse stmts sigCh s).loop.passes = false) ∧
    ((UserProc.dfaTypeAnalysis analyse stmts sigCh s).warning = true ↔
      ((UserProc.dfaTypeAnalysis analyse stmts sigCh s).loop.passes = 20 ∧
        dfaChanged analyse stmts s 20 = true)) := by
  obtain ⟨n, hn, h1, h2, h3, h4⟩ := dfaLoop_spec analyse stmts s DFA_ITER_LIMIT
    { state := s, ch := sigCh, iter := 1, passes := 0 } (by decide) rfl
    (fun k hk1 hk2 => absurd hk2 (by simp only []; omega))
  have hl : (UserProc.dfaTypeAnalysis analyse stmts sigCh s).loop =
      { state := dfaStateAfter analyse stmts s n, ch := dfaChanged analyse stmts s n,
        iter := if dfaChanged analyse stmts s n then 1 + (n - 0) else 1 + (n - 0) - 1,
        passes := n } := hn
  have hw : (UserProc.dfaTypeAnalysis analyse stmts sigCh s).warning =
      dfaChanged analyse stmts s n := by
    show (dfaLoop analyse stmts DFA_ITER_LIMIT _).ch = _
    rw [hn]
  dsimp only at h1 h2 h4
  have h20 : DFA_ITER_LIMIT = 20 := rfl
  rw [hl, hw]
  dsimp only
  refine ⟨rfl, by omega, by omega, rfl, h3, fun h => h4 (by omega), ?_⟩
  constructor
  · intro hc
    have : ¬ n < 20 := fun h => by
      rw [h4 (by omega)] at hc
      cases hc
    have hn20 : n = 20 := by omega
    exact ⟨hn20, hn20 ▸ hc⟩
  · rintro ⟨hn20, hc⟩
    rw [hn20]
    exact hc

/-! ## C22: the loop of middleDecompile -/

theorem propagateLoop_spec {σ : Type} (ops : MiddleOps σ) (pass : Int) :
    ∀ (fuel : Nat) (s : σ) (change : Bool) (log : List PropagateRound) (s1 : σ) (change1 : Bool)
      (log1 : List PropagateRound),
      propagateLoop ops pass fuel s change log = some (s1, change1, log1) →
      ∃ rounds, log1 = log ++ rounds ∧
        rounds.map (fun x => x.convert) = List.replicate (rounds.length - 1) true ++ [false] ∧
        change1 = (change || rounds.any (fun x => x.reported))
  | 0, _, _, _, _, _, _, h => by simp [propagateLoop] at h
  | fuel + 1, s, change, log, s1, change1, log1, h => by
    rw [propagateLoop] at h
    dsimp only at h
    split at h
    · obtain ⟨rounds, h1, h2, h3⟩ := propagateLoop_spec ops pass fuel _ _ _ _ _ _ h
      refine ⟨_ :: rounds, by simpa using h1, ?_, ?_⟩
      · have hne : rounds ≠ [] := by
          intro h0
          rw [h0] at h2
          simp at h2
        have hl : rounds.length - 1 + 1 = rounds.length := by
          have := List.length_pos.2 hne
          omega
        simp only [List.map_cons, List.length_cons, Nat.add_sub_cancel, h2]
        rw [← hl, List.replicate_succ, hl]
        simp
      · rw [h3]
        simp only [List.any_cons, PropagateRound.reported]
        cases change <;> cases (ops.propagateStatements pass s).2.1 <;>
          cases (ops.doRenameBlockVars pass true (ops.propagateStatements pass s).1).2 <;>
          cases (ops.doRenameBlockVars 0 true (ops.setRenameLocalsParams false
            (ops.doRenameBlockVars pass true (ops.propagateStatements pass s).1).1)).2 <;> simp
    · simp only [Option.some.injEq, Prod.mk.injEq] at h
      obtain ⟨_, h2, h3⟩ := h
      refine ⟨[_], h3.symm, by simp, ?_⟩
      rw [← h2]
      simp [PropagateRound.reported, Bool.or_assoc]

theorem middlePass_sound {σ : Type} (ops : MiddleOps σ) (fuel : Nat) (pass : Int) (s s1 : σ)
    (e : MiddlePass) (h : middlePass ops fuel pass s = some (s1, e)) :
    e.sound ∧ e.pass = pass := by
  simp only [middlePass] at h
  split at h
  · cases h
  · rename_i s4 change rounds hp
    obtain ⟨rs, h1, h2, h3⟩ := propagateLoop_spec ops pass fuel _ _ _ _ _ _ hp
    simp only [Option.some.injEq, Prod.mk.injEq] at h
    obtain ⟨_, he⟩ := h
    subst he
    simp only [List.nil_append] at h1
    subst h1
    exact ⟨⟨h2, h3⟩, rfl⟩

theorem middleLoop_spec {σ : Type} (ops : MiddleOps σ) (fuel : Nat) :
    ∀ (left : Nat) (pass : Int) (s : σ) (log : List MiddlePass) (s1 : σ) (pass1 : Int)
      (log1 : List MiddlePass), 0 < left →
      middleLoop ops fuel left pass s log = some (s1, pass1, log1) →
      ∃ es c, log1 = log ++ es ∧ 1 ≤ es.length ∧ es.length ≤ left ∧
        es.map (fun e => e.pass) = (List.range es.length).map (fun (i : Nat) => pass + Int.ofNat i) ∧
        es.map (fun e => e.change) = List.replicate (es.length - 1) true ++ [c] ∧
        (es.length < left → c = false) ∧ (∀ e ∈ es, e.sound)
  | 0, _, _, _, _, _, _, h, _ => absurd h (Nat.lt_irrefl 0)
  | left + 1, pass, s, log, s1, pass1, log1, _, h => by
    rw [middleLoop] at h
    split at h
    · cases h
    · rename_i s2 e hm
      obtain ⟨hsound, hpass⟩ := middlePass_sound ops fuel pass s s2 e hm
      cases hc : e.change
      · simp only [hc, Bool.not_false, if_true, Option.some.injEq, Prod.mk.injEq] at h
        refine ⟨[e], false, h.2.2.symm, by simp, by simp, by simp [hpass, List.range_succ], by simp [hc],
          fun _ => rfl, ?_⟩
        intro x hx
        simp only [List.mem_singleton] at hx
        exact hx ▸ hsound
      · simp only [hc, Bool.not_true, Bool.false_eq_true, if_false] at h
        rcases Nat.eq_zero_or_pos left with h0 | hpos
        · subst h0
          simp only [middleLoop, Option.some.injEq, Prod.mk.injEq] at h
          refine ⟨[e], true, h.2.2.symm, by simp, by simp, by simp [hpass, List.range_succ], by simp [hc],
            fun hl => absurd hl (by simp), ?_⟩
          intro x hx
          simp only [List.mem_singleton] at hx
          exact hx ▸ hsound
        · obtain ⟨es, c, h1, h2, h3, h4, h5, h6, h7⟩ :=
            middleLoop_spec ops fuel left (pass + 1) s2 (log ++ [e]) s1 pass1 log1 hpos h
          refine ⟨e :: es, c, by simpa using h1, by simp, by simp; omega, ?_, ?_, ?_, ?_⟩
          · simp only [List.map_cons, List.length_cons, h4, hpass, List.range_succ_eq_map,
              List.map_map]
            simp only [List.map_cons, List.map_map, List.cons.injEq]
            refine ⟨by simp, ?_⟩
            apply List.map_congr_left
            intro i _
            simp only [Function.comp, Int.ofNat_eq_coe, Nat.cast_succ]
            omega
          · have hl : es.length - 1 + 1 = es.length := by omega
            simp only [List.map_cons, List.length_cons, Nat.add_sub_cancel, h5, hc]
            rw [← hl, List.replicate_succ, hl]
            simp
          · intro hl
            exact h6 (by simp at hl; omega)
          · intro x hx
            rcases List.mem_cons.1 hx with hx | hx
            · exact hx ▸ hsound
            · exact h7 x hx

theorem middleLoop_returns {σ : Type} (ops : MiddleOps σ) (fuel : Nat)
    (hp : ∀ (pass : Int) (s : σ) (c : Bool), propagateLoop ops pass fuel s c [] ≠ none) :
    ∀ (left : Nat) (pass : Int) (s : σ) (log : List MiddlePass),
      middleLoop ops fuel left pass s log ≠ none
  | 0, _, _, _ => by simp [middleLoop]
  | left + 1, pass, s, log => by
    have hm : ∃ r, middlePass ops fuel pass s = some r := by
      simp only [middlePass]
      split
      · rename_i h
        exact absurd h (hp _ _ _)
      · exact ⟨_, rfl⟩
    obtain ⟨⟨s1, e⟩, hm⟩ := hm
    rw [middleLoop, hm]
    dsimp only
    split
    · simp
    · exact middleLoop_returns ops fuel hp left _ _ _

/-- What the propagation loop does, in terms of what the passes return: the body is executed
`m` times, every execution but the last converts an indirect call and the last converts none,
the record gets the results of the passes in each execution, `change` gets what they reported,
and the state is the one after the last renaming. -/
theorem propagateLoop_rounds {σ : Type} (ops : MiddleOps σ) (pass : Int) :
    ∀ (fuel : Nat) (s : σ) (change : Bool) (log : List PropagateRound) (s1 : σ) (change1 : Bool)
      (log1 : List PropagateRound),
      propagateLoop ops pass fuel s change log = some (s1, change1, log1) →
      ∃ m, 1 ≤ m ∧ m ≤ fuel ∧
        log1 = log ++ (List.range m).map (propagateRoundAt ops pass s) ∧
        (∀ k, k + 1 < m →
          (ops.propagateStatements pass (propagateStateAt ops pass k s)).2.2 = true) ∧
        (ops.propagateStatements pass (propagateStateAt ops pass (m - 1) s)).2.2 = false ∧
        change1 = (change ||
          (List.range m).any (fun k => (propagateRoundAt ops pass s k).reported)) ∧
        s1 = (ops.doRenameBlockVars pass true
          (ops.propagateStatements pass (propagateStateAt ops pass (m - 1) s)).1).1
  | 0, _, _, _, _, _, _, h => by simp [propagateLoop] at h
  | fuel + 1, s, change, log, s1, change1, log1, h => by
    rw [propagateLoop] at h
    dsimp only at h
    by_cases hc : (ops.propagateStatements pass s).2.2 = true
    · rw [if_pos hc] at h
      obtain ⟨m, h1, h2, h3, h4, h5, h6, h7⟩ :=
        propagateLoop_rounds ops pass fuel _ _ _ _ _ _ h
      refine ⟨m + 1, by omega, by omega, ?_, ?_, ?_, ?_, ?_⟩
      · rw [h3, List.range_succ_eq_map, List.map_cons, List.map_map, List.append_assoc]
        congr 1
        simp only [List.singleton_append, List.cons.injEq]
        refine ⟨?_, rfl⟩
        simp only [propagateRoundAt, propagateStateAt, hc, if_true]
      · intro k hk
        cases k with
        | zero => exact hc
        | succ j => exact h4 j (by omega)
      · have e : m + 1 - 1 = (m - 1) + 1 := by omega
        rw [e]
        exact h5
      · rw [h6, List.range_succ_eq_map, List.any_cons, List.any_map]
        have e0 : (propagateRoundAt ops pass s 0).reported =
            ((ops.propagateStatements pass s).2.1 ||
              (ops.doRenameBlockVars pass true (ops.propagateStatements pass s).1).2 ||
              (ops.doRenameBlockVars 0 true (ops.setRenameLocalsParams false
                (ops.doRenameBlockVars pass true (ops.propagateStatements pass s).1).1)).2) := by
          simp only [propagateRoundAt, propagateStateAt, PropagateRound.reported, hc, if_true]
          cases (ops.doRenameBlockVars 0 true (ops.setRenameLocalsParams false
            (ops.doRenameBlockVars pass true (ops.propagateStatements pass s).1).1)).2 <;> rfl
        rw [e0]
        simp only [Bool.or_assoc]
        rfl
      · have e : m + 1 - 1 = (m - 1) + 1 := by omega
        rw [e]
        exact h7
    · have hf : (ops.propagateStatements pass s).2.2 = false := by
        cases hb : (ops.propagateStatements pass s).2.2
        · rfl
        · exact absurd hb hc
      rw [if_neg hc] at h
      simp only [Option.some.injEq, Prod.mk.injEq] at h
      obtain ⟨g1, g2, g3⟩ := h
      have r1 : List.range 1 = [0] := rfl
      refine ⟨1, by omega, by omega, ?_, ?_, hf, ?_, g1.symm⟩
      · rw [← g3, r1]
        simp [propagateRoundAt, propagateStateAt, hf]
      · intro k hk
        omega
      · rw [← g2, r1]
        simp [propagateRoundAt, propagateStateAt, PropagateRound.reported, hf, Bool.or_assoc]

/-- The propagation loop returns when one of its first `fuel` executions converts no call. -/
theorem propagateLoop_returns {σ : Type} (ops : MiddleOps σ) (pass : Int) :
    ∀ (fuel : Nat) (s : σ) (change : Bool) (log : List PropagateRound),
      (∃ m, 1 ≤ m ∧ m ≤ fuel ∧
        (ops.propagateStatements pass (propagateStateAt ops pass (m - 1) s)).2.2 = false) →
      propagateLoop ops pass fuel s change log ≠ none
  | 0, _, _, _, ⟨m, h1, h2, _⟩ => by omega
  | fuel + 1, s, change, log, ⟨m, h1, h2, h3⟩ => by
    rw [propagateLoop]
    dsimp only
    by_cases hc : (ops.propagateStatements pass s).2.2 = true
    · rw [if_pos hc]
      have hm : 2 ≤ m := by
        rcases Nat.lt_or_ge m 2 with h | h
        · have : m - 1 = 0 := by omega
          rw [this] at h3
          simp only [propagateStateAt] at h3
          rw [h3] at hc
          cases hc
        · exact h
      apply propagateLoop_returns ops pass fuel
      refine ⟨m - 1, by omega, by omega, ?_⟩
      have e : m - 1 = (m - 1 - 1) + 1 := by omega
      rw [e] at h3
      exact h3
    · rw [if_neg hc]
      simp

/-- An iteration of the outer loop in terms of what the passes return. -/
theorem middlePass_isIteration {σ : Type} (ops : MiddleOps σ) (fuel : Nat) (pass : Int)
    (s s1 : σ) (e : MiddlePass) (h : middlePass ops fuel pass s = some (s1, e)) :
    MiddlePass.isIteration ops pass s e s1 := by
  simp only [middlePass] at h
  split at h
  · cases h
  · rename_i s4 change rounds hp
    obtain ⟨m, h1, _, h3, h4, h5, h6, h7⟩ := propagateLoop_rounds ops pass fuel _ _ _ _ _ _ hp
    simp only [Option.some.injEq, Prod.mk.injEq] at h
    obtain ⟨hs, he⟩ := h
    subst he
    subst hs
    simp only [List.nil_append] at h3
    refine ⟨rfl, rfl, rfl, m, h1, h3, h4, h5, ?_, ?_⟩
    · rw [h6]
      rfl
    · rw [h7]
      rfl

/-- The outer loop makes a chain of iterations. -/
theorem middleLoop_chain {σ : Type} (ops : MiddleOps σ) (fuel : Nat) :
    ∀ (left : Nat) (pass : Int) (s : σ) (log : List MiddlePass) (s1 : σ) (pass1 : Int)
      (log1 : List MiddlePass),
      middleLoop ops fuel left pass s log = some (s1, pass1, log1) →
      ∃ es, log1 = log ++ es ∧ middleChain ops pass s es s1
  | 0, pass, s, log, s1, pass1, log1, h => by
    simp only [middleLoop, Option.some.injEq, Prod.mk.injEq] at h
    exact ⟨[], by simp [h.2.2], h.1.symm⟩
  | left + 1, pass, s, log, s1, pass1, log1, h => by
    rw [middleLoop] at h
    split at h
    · cases h
    · rename_i s2 e hm
      have hi := middlePass_isIteration ops fuel pass s s2 e hm
      cases hc : e.change
      · simp only [hc, Bool.not_false, if_true, Option.some.injEq, Prod.mk.injEq] at h
        exact ⟨[e], h.2.2.symm, s2, hi, h.1.symm⟩
      · simp only [hc, Bool.not_true, Bool.false_eq_true, if_false] at h
        obtain ⟨es, h1, h2⟩ := middleLoop_chain ops fuel left (pass + 1) s2 _ _ _ _ h
        exact ⟨e :: es, by simpa using h1, s2, hi, h2⟩

/-- The outer loop returns when every propagation loop has, among its first `fuel`
executions, one that converts no call. -/
theorem middleLoop_returns_of_rounds {σ : Type} (ops : MiddleOps σ) (fuel : Nat)
    (hp : ∀ (pass : Int) (s : σ), ∃ m, 1 ≤ m ∧ m ≤ fuel ∧
      (ops.propagateStatements pass (propagateStateAt ops pass (m - 1) s)).2.2 = false)
    (left : Nat) (pass : Int) (s : σ) (log : List MiddlePass) :
    middleLoop ops fuel left pass s log ≠ none :=
  middleLoop_returns ops fuel
    (fun pass s c => propagateLoop_returns ops pass fuel s c [] (hp pass s)) left pass s log

/-- C22: the loop of `UserProc::middleDecompile` that repeats until no change, whenever it
returns, has executed between one and ten iterations, with the pass numbers 3, 4, ... in
order (so at most 3 through 12).  The iterations are what the passes make of the state, one
after the other from the state in which the loop is entered up to the state in which it is
left: in each of them `change` is true exactly when phi placement, a renaming or a propagation
returned true, and the body of the propagation loop is executed again exactly after an
execution in which `propagateStatements` reported a converted indirect call.  In every
iteration but the last `change` was true at the test, and when fewer than ten iterations were
executed `change` was false in the last one: the loop is left at the end of the first
iteration in which nothing reported a change.  The loop returns whenever every propagation
loop has, among its first `fuel` executions, one in which no call is converted. -/
theorem C22_middle_decompile_loop {σ : Type} (ops : MiddleOps σ) (fuel : Nat) (s : σ) :
    (∀ s1 pass1 log, UserProc.middleDecompileLoop ops fuel s = some (s1, pass1, log) →
      1 ≤ log.length ∧ log.length ≤ 10 ∧
      middleChain ops 3 s log s1 ∧
      log.map (fun e => e.pass) = (List.range log.length).map (fun (i : Nat) => 3 + Int.ofNat i) ∧
      (∃ c, log.map (fun e => e.change) = List.replicate (log.length - 1) true ++ [c] ∧
        (log.length < 10 → c = false)) ∧
      (∀ e ∈ log,
        e.change = (e.phi || e.renamed || e.rounds.any (fun x => x.reported)) ∧
        e.rounds.map (fun x => x.convert) =
          List.replicate (e.rounds.length - 1) true ++ [false])) ∧
    ((∀ (pass : Int) (s1 : σ), ∃ m, 1 ≤ m ∧ m ≤ fuel ∧
        (ops.propagateStatements pass (propagateStateAt ops pass (m - 1) s1)).2.2 = false) →
      UserProc.middleDecompileLoop ops fuel s ≠ none) := by
  constructor
  · intro s1 pass1 log h
    obtain ⟨es, c, h1, h2, h3, h4, h5, h6, h7⟩ :=
      middleLoop_spec ops fuel 10 3 s [] s1 pass1 log (by decide) h
    obtain ⟨es2, k1, k2⟩ := middleLoop_chain ops fuel 10 3 s [] s1 pass1 log h
    simp only [List.nil_append] at h1 k1
    subst h1
    subst k1
    exact ⟨h2, h3, k2, h4, ⟨c, h5, h6⟩, fun e he => ⟨(h7 e he).2, (h7 e he).1⟩⟩
  · intro hp
    exact middleLoop_returns_of_rounds ops fuel hp 10 3 s []

/-- C22 (witness): with the passes of the example, in which propagation adds one to a counter
and reports a change while the counter was below 2, the loop makes the iterations with the
pass numbers 3, 4 and 5 from the counter 0 to the counter 3 and stops after the third, the
first without a change. -/
theorem C22_middle_decompile_loop_witness :
    ∃ s1 pass1 log, UserProc.middleDecompileLoop sampleMiddleOps 1 0 = some (s1, pass1, log) ∧
      s1 = 3 ∧ middleChain sampleMiddleOps 3 0 log s1 ∧
      log.map (fun e => e.pass) = [3, 4, 5] ∧
      log.map (fun e => e.change) = [true, true, false] ∧ log.length ≤ 10 :=
  ⟨_, _, _, rfl, rfl, ((C22_middle_decompile_loop sampleMiddleOps 1 0).1 _ _ _ rfl).2.2.1,
    rfl, rfl, ((C22_middle_decompile_loop sampleMiddleOps 1 0).1 _ _ _ rfl).2.1⟩

/-! ## C23: a cycle of two procedures -/

set_option maxHeartbeats 4000000 in
/-- C23: for procedures A and B at different addresses, each decoded and not visited, where the
only call of A is to B and the only call of B is to A, with children decoded, unused statements
removed and no indirect jump decoded: the call of `decompile` on B that `decompile(A, [])`
makes finds A on the path, returns the set of A and B, which is the cycle group of both (one
object), sets the status of B to `PROC_INCYCLE` and runs no group analysis; `decompile(A, [])`
returns an empty set, has run `recursionGroupAnalysis` exactly once, on A with the group of A
and B, and leaves both procedures with the status `PROC_FINAL` and the path empty. -/
theorem C23_two_procedure_cycle (env : DriverEnv) (a b : Nat) (fuel : Nat) (hab : a ≠ b)
    (h1 : env.noDecodeChildren = false) (h2 : env.noRemoveNull = false)
    (h3 : ∀ st p, env.decodeIndirectJmp st p = false) :
    (∃ st1 g, UserProc.decompile env (fuel + 4) ((twoProcCycle a b).entered a) b =
        some (st1, some g) ∧
      st1.getSet g = some (ProcSet.insertAll [a, b] []) ∧ st1.groupRuns = [] ∧
      (st1.procs a).cycleGrp = some g ∧ (st1.procs b).cycleGrp = some g ∧
      (st1.procs b).status = .PROC_INCYCLE) ∧
    (∃ st2 r g, UserProc.decompile env (fuel + 5) (twoProcCycle a b) a = some (st2, some r) ∧
      st2.getSet r = some [] ∧
      st2.groupRuns = [(a, ProcSet.insertAll [a, b] [])] ∧
      (st2.procs a).status = .PROC_FINAL ∧ (st2.procs b).status = .PROC_FINAL ∧
      (st2.procs a).cycleGrp = some g ∧ (st2.procs b).cycleGrp = some g ∧
      st2.getSet g = some (ProcSet.insertAll [a, b] []) ∧ st2.path = []) := by
  have hba : b ≠ a := fun h => hab h.symm
  rcases Nat.lt_or_gt_of_ne hab with hlt | hlt
  · have hn : ¬ b < a := by omega
    constructor
    · simp [UserProc.decompile, decompileBody, twoProcCycle, ProgState.entered,
        ProgState.setStatus, ProgState.newProcSet, ProcStatus.toNat, h1, h2, h3, hab, hba,
        decompileCalls, decompileCall, ProgState.insertInto, ProgState.getSet, forProcSet,
        markElement, ProcSet.next, ProgState.setCycleGrp, ProcSet.insertAll, ProcSet.insert,
        decompileFinish, firstInGroup, decompileReturn, hlt, hn]
      exact ⟨_, _, ⟨rfl, rfl⟩, by simp [hab, hba]⟩
    · cases hnd : env.noDecompile <;> (
      simp [UserProc.decompile, decompileBody, twoProcCycle, ProgState.entered,
        ProgState.setStatus, ProgState.newProcSet, ProcStatus.toNat, h1, h2, h3, hab, hba,
        decompileCalls, decompileCall, ProgState.insertInto, ProgState.getSet, forProcSet,
        markElement, ProcSet.next, ProgState.setCycleGrp, ProcSet.insertAll, ProcSet.insert,
        decompileFinish, firstInGroup, decompileReturn, hlt, hn, recursionGroupAnalysis,
        forCycleGrp, initialiseDecompile, earlyDecompile, middleDecompile, remUnusedStmtEtc, hnd]
      exact ⟨_, _, ⟨rfl, rfl⟩, by simp [hab, hba]⟩)
  · have hn : ¬ a < b := by omega
    constructor
    · simp [UserProc.decompile, decompileBody, twoProcCycle, ProgState.entered,
        ProgState.setStatus, ProgState.newProcSet, ProcStatus.toNat, h1, h2, h3, hab, hba,
        decompileCalls, decompileCall, ProgState.insertInto, ProgState.getSet, forProcSet,
        markElement, ProcSet.next, ProgState.setCycleGrp, ProcSet.insertAll, ProcSet.insert,
        decompileFinish, firstInGroup, decompileReturn, hlt, hn]
      exact ⟨_, _, ⟨rfl, rfl⟩, by simp [hab, hba]⟩
    · cases hnd : env.noDecompile <;> (
      simp [UserProc.decompile, decompileBody, twoProcCycle, ProgState.entered,
        ProgState.setStatus, ProgState.newProcSet, ProcStatus.toNat, h1, h2, h3, hab, hba,
        decompileCalls, decompileCall, ProgState.insertInto, ProgState.getSet, forProcSet,
        markElement, ProcSet.next, ProgState.setCycleGrp, ProcSet.insertAll, ProcSet.insert,
        decompileFinish, firstInGroup, decompileReturn, hlt, hn, recursionGroupAnalysis,
        forCycleGrp, initialiseDecompile, earlyDecompile, middleDecompile, remUnusedStmtEtc, hnd]
      exact ⟨_, _, ⟨rfl, rfl⟩, by simp [hab, hba]⟩)

/-- C23 (witness): the procedures at the addresses 1 and 2 with no switch of the driver
set. -/
theorem C23_two_procedure_cycle_witness :
    ∃ st2 r g, UserProc.decompile sampleDriverEnv 5 (twoProcCycle 1 2) 1 = some (st2, some r) ∧
      st2.getSet r = some [] ∧
      st2.groupRuns = [(1, ProcSet.insertAll [1, 2] [])] ∧
      (st2.procs 1).status = .PROC_FINAL ∧ (st2.procs 2).status = .PROC_FINAL ∧
      (st2.procs 1).cycleGrp = some g ∧ (st2.procs 2).cycleGrp = some g ∧
      st2.getSet g = some (ProcSet.insertAll [1, 2] []) ∧ st2.path = [] :=
  (C23_two_procedure_cycle sampleDriverEnv 1 2 0 (by decide) rfl rfl (fun _ _ => rfl)).2

/-! ## C24, C25: cycle groups -/

/-- C24 (the code at the failing input): the procedures at the addresses 1 to 4, all
decoded and not visited, where 1 calls 2, 2 calls 3 and then 4, 3 calls 1 and 4 calls 2, so
that all four are reachable from 1. The call of `decompile` on 1 with an empty path returns
(an empty set, the path empty again) after one run of `recursionGroupAnalysis`, on the group
of 1, 2 and 3 only, and the procedure 4 is left with the status `PROC_INCYCLE`. -/
theorem C24_reachable_procedure_left_in_cycle :
    (UserProc.decompile sampleDriverEnv 10 (freshProgram sampleCalls4) 1).map
      (fun r => ((r.1.procs 1).status, (r.1.procs 2).status, (r.1.procs 3).status,
        (r.1.procs 4).status, r.1.groupRuns, r.2.bind r.1.getSet, r.1.path)) =
      some (.PROC_FINAL, .PROC_FINAL, .PROC_FINAL, .PROC_INCYCLE, [(1, [1, 2, 3])], some [], []) ∧
    sampleCalls4 1 = [.user 2] ∧ CallDest.user 4 ∈ sampleCalls4 2 :=
  ⟨rfl, rfl, by decide⟩

/-- C25 (the code at the failing input): the procedures at the addresses 1 to 3 where
1 calls 2, 2 calls 1 and then 3, and 3 calls 2. When `decompile` on 3 has handled its call to
2, which is in the cycle of 1 and 2, the set `child` (at the pointer 2) holds 1, 2 and 3, and
the cycle group of 2 and of 3 is `child`, but the cycle group of 1, which the marking loop
merged in, is still the earlier set (at the pointer 1). At the end of the whole run of
`decompile` on 1 the two sets have the same elements and are still two objects. -/
theorem C25_merged_member_keeps_old_group :
    (decompileCall (UserProc.decompile sampleDriverEnv 5) 5 3 sampleBranchState 2 (.user 2)).map
      (fun r => (r.2, r.1.getSet r.2, (r.1.procs 1).cycleGrp, (r.1.procs 2).cycleGrp,
        (r.1.procs 3).cycleGrp)) =
      some (2, some [1, 2, 3], some 1, some 2, some 2) ∧
    (UserProc.decompile sampleDriverEnv 10 (freshProgram sampleCalls3) 1).map
      (fun r => ((r.1.procs 1).cycleGrp, (r.1.procs 2).cycleGrp, (r.1.procs 3).cycleGrp,
        r.1.getSet 1, r.1.getSet 2)) =
      some (some 1, some 2, some 2, some [1, 2, 3], some [1, 2, 3]) :=
  ⟨rfl, rfl⟩

/-! ## C26, C27: proofs and preserved locations -/

/-- C26 (the code at the failing input): the procedure 0 has `<all> = <all>` in `provenTrue`
and no definition of `r24` reaches its exit.  `prove(r24 = r24, true)` returns true and leaves
the entry `r24 = r24` in `provenTrue`, whatever `prover` would answer, although `conditional`
is true.  In the same state, when a definition of `r24` reaches the exit and `prover` succeeds,
the call with `conditional` true leaves `provenTrue` as it was and the call with `conditional`
false adds the entry. -/
theorem C26_conditional_proof_is_saved :
    (UserProc.prove (sampleProveEnv (fun _ => none) (fun _ => false)) 2 sampleAllProven 0
        (some (Exp.regOf 24, Exp.regOf 24)) true).map
      (fun r => ((r.1.caches 0).provenTrue, r.2)) =
      some ([(Exp.defineAll, Exp.defineAll), (Exp.regOf 24, Exp.regOf 24)], true) ∧
    (UserProc.prove (sampleProveEnv (fun e => some (.ref e (some 5))) (fun _ => true)) 2
        sampleAllProven 0 (some (Exp.regOf 24, Exp.regOf 24)) true).map
      (fun r => ((r.1.caches 0).provenTrue, r.2)) =
      some ([(Exp.defineAll, Exp.defineAll)], true) ∧
    (UserProc.prove (sampleProveEnv (fun e => some (.ref e (some 5))) (fun _ => true)) 2
        sampleAllProven 0 (some (Exp.regOf 24, Exp.regOf 24)) false).map
      (fun r => ((r.1.caches 0).provenTrue, r.2)) =
      some ([(Exp.defineAll, Exp.defineAll), (Exp.regOf 24, Exp.regOf 24)], true) := by
  decide

theorem ExpMap.find_set (m : ExpMap) (k v : Exp) : ExpMap.find (ExpMap.set m k v) k = some v := by
  induction m with
  | nil => simp [ExpMap.set, ExpMap.find]
  | cons e tl ih =>
    simp only [ExpMap.set]
    split
    · simp [ExpMap.find]
    · rename_i h
      have hb : (e.1 == k) = false := by simp [h]
      unfold ExpMap.find at ih ⊢
      rw [List.find?_cons, hb]
      exact ih

theorem ProofState.find_setProven (st : ProofState) (p : Nat) (l r : Exp) :
    ExpMap.find ((st.setProven p l r).caches p).provenTrue l = some r := by
  simp [ProofState.setProven, ExpMap.find_set]

theorem removePreserveds_modifieds : ∀ (m : ExpMap) (rs : ReturnStatement),
    (removePreserveds m rs).modifieds =
      rs.modifieds.filter (fun a => !(m.any (fun pp => decide (pp.1 = pp.2) && (a.lhs == pp.1))))
  | [], rs => by simp [removePreserveds]
  | pp :: rest, rs => by
    rw [removePreserveds, removePreserveds_modifieds rest]
    split
    · rename_i h
      simp only [ReturnStatement.removeModified, List.filter_filter, List.any_cons, h,
        decide_True, Bool.true_and]
      apply List.filter_congr
      intro a _
      simp [bne, Bool.and_comm]
    · rename_i h
      simp [List.any_cons, h]

theorem prove_same_true (env : ProveEnv) : ∀ (fuel : Nat) (st : ProofState) (this : Nat)
    (l : Exp) (st1 : ProofState),
    UserProc.prove env fuel st this (some (l, l)) false = some (st1, true) →
    ExpMap.find (st1.caches this).provenTrue l = some l
  | 0, _, _, _, _, h => by simp [UserProc.prove] at h
  | fuel + 1, st, this, l, st1, h => by
    rw [UserProc.prove] at h
    simp only [Option.getD_some, Option.isNone_some, Bool.false_eq_true, if_false] at h
    split at h
    · rename_i hc
      simp only [Option.some.injEq, Prod.mk.injEq, and_true] at h
      exact h ▸ hc
    · split at h
      · simp at h
      · split at h
        · split at h
          · simp only [proveWithProver, Bool.not_false, Bool.true_and, Option.some.injEq,
              Prod.mk.injEq] at h
            obtain ⟨h1, h2⟩ := h
            rw [h2] at h1
            simp only [if_true] at h1
            rw [← h1]
            exact ProofState.find_setProven _ _ _ _
          · split at h
            · rename_i hs
              split at h
              · cases h
              · simp only [Option.some.injEq, Prod.mk.injEq, and_true] at h
                rw [← h, ← hs.1]
                exact ProofState.find_setProven _ _ _ _
              · simp at h
            · simp at h
        · simp only [proveWithProver, Bool.not_false, Bool.true_and, Option.some.injEq,
            Prod.mk.injEq] at h
          obtain ⟨h1, h2⟩ := h
          rw [h2] at h1
          simp only [if_true] at h1
          rw [← h1]
          exact ProofState.find_setProven _ _ _ _

/-- C27: for every procedure with a return statement, whenever `findPreserveds` returns: the
modifieds of the return statement are the earlier ones, in order, without those whose
left-hand side `provenTrue` now maps to itself, so that for every location l that `provenTrue`
maps to l no assignment to l is left among the modifieds; and whenever `prove(l = l)` returns
true (for r28 as for any l), `provenTrue` maps l to l. -/
theorem C27_preserved_locations_are_not_modified (env : ProveEnv) (fuel : Nat)
    (st : ProofState) (this : Nat) (rs : ReturnStatement) (st1 : ProofState)
    (rs1 : ReturnStatement)
    (h : UserProc.findPreserveds env fuel st this (some rs) = some (st1, some rs1)) :
    (∀ l r, (l, r) ∈ (st1.caches this).provenTrue → l = r →
      ∀ a ∈ rs1.modifieds, a.lhs ≠ l) ∧
    rs1.modifieds = rs.modifieds.filter (fun a =>
      !((st1.caches this).provenTrue.any (fun pp => decide (pp.1 = pp.2) && (a.lhs == pp.1)))) ∧
    (∀ l st2, UserProc.prove env fuel st this (some (l, l)) false = some (st2, true) →
      ExpMap.find (st2.caches this).provenTrue l = some l) := by
  simp only [UserProc.findPreserveds] at h
  split at h
  · cases h
  · rename_i st' hp
    simp only [Option.some.injEq, Prod.mk.injEq] at h
    obtain ⟨h1, h2⟩ := h
    subst h1
    subst h2
    have hm := removePreserveds_modifieds (st'.caches this).provenTrue rs
    refine ⟨?_, hm, fun l st2 hl => prove_same_true env fuel st this l st2 hl⟩
    intro l r hmem hlr a ha hal
    rw [hm, List.mem_filter] at ha
    have : ((st'.caches this).provenTrue.any
        (fun pp => decide (pp.1 = pp.2) && (a.lhs == pp.1))) = true := by
      rw [List.any_eq_true]
      exact ⟨(l, r), hmem, by simp [hlr, hal]⟩
    simp [this] at ha

/-- C27 (witness): the modifieds are `r28` and `r24`, and `prover` succeeds for `r28` only. -/
theorem C27_preserved_locations_are_not_modified_witness :
    UserProc.findPreserveds
        (sampleProveEnv (fun e => some (.ref e (some 2)))
          (fun q => decide (q = .ref (Exp.regOf 28) (some 2))))
        2 sampleNothingProven 0 (some sampleReturn) =
      some (sampleNothingProven.setProven 0 (Exp.regOf 28) (Exp.regOf 28),
        some { modifieds := [{ type := .integer 32 1, lhs := Exp.regOf 24, rhs := none }],
               returns := [] }) ∧
    ((sampleNothingProven.setProven 0 (Exp.regOf 28) (Exp.regOf 28)).caches 0).provenTrue =
      [(Exp.regOf 28, Exp.regOf 28)] ∧
    (∀ l r, (l, r) ∈
        ((sampleNothingProven.setProven 0 (Exp.regOf 28) (Exp.regOf 28)).caches 0).provenTrue →
      l = r → ∀ a ∈ [({ type := .integer 32 1, lhs := Exp.regOf 24, rhs := none } : Assignment)],
        a.lhs ≠ l) :=
  ⟨rfl, rfl,
    (C27_preserved_locations_are_not_modified
      (sampleProveEnv (fun e => some (.ref e (some 2)))
        (fun q => decide (q = .ref (Exp.regOf 28) (some 2))))
      2 sampleNothingProven 0 sampleReturn
      (sampleNothingProven.setProven 0 (Exp.regOf 28) (Exp.regOf 28))
      { modifieds := [{ type := .integer 32 1, lhs := Exp.regOf 24, rhs := none }],
        returns := [] } rfl).1⟩

/-! ## C28: final parameters -/

theorem UserProc.acceptsParam_iff (env : ParamEnv) (sig : Signature) (e : Exp) :
    UserProc.acceptsParam env sig e = true ↔
      Exp.isParamLocation sig.promoted sig.stackRegister e := by
  unfold UserProc.acceptsParam Exp.isParamLocation Exp.isStackParam
  cases e with
  | const k => simp [Exp.isRegOf, UserProc.isLocalOrParamPattern, Exp.memOf]
  | strConst s => simp [Exp.isRegOf, UserProc.isLocalOrParamPattern, Exp.memOf]
  | terminal op => simp [Exp.isRegOf, UserProc.isLocalOrParamPattern, Exp.memOf]
  | binary op x y => simp [Exp.isRegOf, UserProc.isLocalOrParamPattern, Exp.memOf]
  | ref x d => simp [Exp.isRegOf, UserProc.isLocalOrParamPattern, Exp.memOf]
  | unary op x =>
    cases op with
    | opRegOf =>
      cases x <;>
        simp [Exp.isRegOf, Exp.isRegN, UserProc.filterParams, Exp.memOf]
    | opMemOf =>
      cases hp : sig.promoted
      · simp [Exp.isRegOf, UserProc.isLocalOrParamPattern, hp]
      · cases x with
        | const k =>
          simp [Exp.isRegOf, UserProc.isLocalOrParamPattern, hp, UserProc.filterParams,
            Exp.isIntConst, Exp.memOf]
        | strConst s =>
          simp [Exp.isRegOf, UserProc.isLocalOrParamPattern, hp, Exp.memOf]
        | terminal op => simp [Exp.isRegOf, UserProc.isLocalOrParamPattern, hp, Exp.memOf]
        | unary op y => simp [Exp.isRegOf, UserProc.isLocalOrParamPattern, hp, Exp.memOf]
        | ref y d =>
          by_cases hy : Exp.ref y d = .ref (Exp.regOf sig.stackRegister) none
          · simp only [Exp.ref.injEq] at hy
            obtain ⟨h1, h2⟩ := hy
            subst h1 h2
            simp [Exp.isRegOf, UserProc.isLocalOrParamPattern, hp, UserProc.filterParams,
              Exp.isIntConst, Exp.memOf, ParamEnv.isImplicitDef, Exp.regOf, Exp.isRegN]
          · simp [Exp.isRegOf, UserProc.isLocalOrParamPattern, hp, Exp.memOf, hy]
        | binary op l r =>
          by_cases hop : op = .opPlus ∨ op = .opMinus
          · by_cases hl : l = .ref (Exp.regOf sig.stackRegister) none
            · subst hl
              cases r <;> rcases hop with hop | hop <;>
                simp [Exp.isRegOf, UserProc.isLocalOrParamPattern, hp, UserProc.filterParams,
                  Exp.isIntConst, Exp.memOf, hop]
            · rcases hop with hop | hop <;>
                simp [Exp.isRegOf, UserProc.isLocalOrParamPattern, hp, UserProc.filterParams,
                  Exp.isIntConst, Exp.memOf, hop, hl]
          · have h1 : op ≠ .opPlus := fun h => hop (Or.inl h)
            have h2 : op ≠ .opMinus := fun h => hop (Or.inr h)
            simp only [Exp.isRegOf, UserProc.isLocalOrParamPattern, hp, Exp.memOf, ne_eq, h1, h2,
              not_false_eq_true, and_self, if_true, Bool.not_true, Bool.false_eq_true, if_false,
              reduceCtorEq, Bool.or_self, Bool.false_and, false_and, false_or, true_and,
              Exp.unary.injEq, Exp.binary.injEq, false_iff, not_exists, not_and]
            intro op2 K hop2 heq
            subst heq
            exact absurd hop2 hop
    | _ => simp [Exp.isRegOf, UserProc.isLocalOrParamPattern, Exp.memOf]

theorem Signature.findParam_none (sig : Signature) (e : Exp) :
    sig.findParam e = none ↔ ∀ p ∈ sig.params, p.exp ≠ e := by
  unfold Signature.findParam
  cases h : sig.params.findIdx? (fun p => p.exp == e) with
  | none =>
    simp only [true_iff]
    rw [List.findIdx?_eq_none_iff] at h
    intro p hp
    simpa using h p hp
  | some i =>
    simp only [reduceCtorEq, false_iff, not_forall]
    have hs : (sig.params.findIdx? (fun p => p.exp == e)).isSome = true := by simp [h]
    rw [List.findIdx?_isSome, List.any_eq_true] at hs
    obtain ⟨p, hp, hpe⟩ := hs
    exact ⟨p, hp, by simpa using hpe⟩

theorem insertOrdered_mem (cmp : Assignment → Assignment → Bool) (as : Assignment) :
    ∀ (l : List Assignment) (a : Assignment), a ∈ insertOrdered cmp as l ↔ a = as ∨ a ∈ l
  | [], a => by simp [insertOrdered]
  | nn :: rest, a => by
    simp only [insertOrdered]
    split
    · simp
    · simp only [List.mem_cons, insertOrdered_mem cmp as rest a]
      constructor
      · rintro (h | h | h)
        · exact Or.inr (Or.inl h)
        · exact Or.inl h
        · exact Or.inr (Or.inr h)
      · rintro (h | h | h)
        · exact Or.inr (Or.inl h)
        · exact Or.inl h
        · exact Or.inr (Or.inr h)

theorem addAllToSignature_spec : ∀ (l : List Assignment) (i : Nat) (sig : Signature),
    (addAllToSignature l i sig).promoted = sig.promoted ∧
    (addAllToSignature l i sig).stackRegister = sig.stackRegister ∧
    (addAllToSignature l i sig).forced = sig.forced ∧
    (addAllToSignature l i sig).params.map (fun p => p.exp) =
      sig.params.map (fun p => p.exp) ++ l.map (fun a => a.lhs)
  | [], _, sig => by simp [addAllToSignature]
  | a :: rest, i, sig => by
    obtain ⟨h1, h2, h3, h4⟩ := addAllToSignature_spec rest (i + 1)
      (sig.addParameter a.type (some ("param" ++ toString i)) a.lhs)
    rw [addAllToSignature]
    refine ⟨h1, h2, h3, ?_⟩
    rw [h4]
    simp [Signature.addParameter]

theorem findFinalParametersLoop_spec (env : ParamEnv) (promoted : Bool) (sp : Int) :
    ∀ (stmts : List Statement) (st : ParamState), st.inv promoted sp →
      (findFinalParametersLoop env stmts st).inv promoted sp ∧
      (∀ a ∈ st.parameters, a ∈ (findFinalParametersLoop env stmts st).parameters) ∧
      (∀ ty e, Statement.implicitAssign ty e ∈ stmts.takeWhile Statement.isImplicit →
        Exp.isParamLocation promoted sp e →
        ∃ a ∈ (findFinalParametersLoop env stmts st).parameters, a.lhs = e)
  | [], st, h => by
    simp only [findFinalParametersLoop]
    exact ⟨h, fun a ha => ha, by simp⟩
  | s :: rest, st, h => by
    obtain ⟨hp, hsp, hI1, hI2⟩ := h
    cases s with
    | assign ty l r =>
      simp only [findFinalParametersLoop]
      exact ⟨⟨hp, hsp, hI1, hI2⟩, fun a ha => ha, by simp [Statement.isImplicit]⟩
    | phiAssign ty l ds =>
      simp only [findFinalParametersLoop]
      exact ⟨⟨hp, hsp, hI1, hI2⟩, fun a ha => ha, by simp [Statement.isImplicit]⟩
    | other =>
      simp only [findFinalParametersLoop]
      exact ⟨⟨hp, hsp, hI1, hI2⟩, fun a ha => ha, by simp [Statement.isImplicit]⟩
    | implicitAssign ty e =>
      -- the state after the body of the loop, with what it keeps
      have step : ∃ st1 : ParamState,
          findFinalParametersLoop env (.implicitAssign ty e :: rest) st =
            findFinalParametersLoop env rest st1 ∧ st1.inv promoted sp ∧
          (∀ a ∈ st.parameters, a ∈ st1.parameters) ∧
          (Exp.isParamLocation promoted sp e → ∃ a ∈ st1.parameters, a.lhs = e) := by
        have hacc := UserProc.acceptsParam_iff env st.signature e
        rw [hp, hsp] at hacc
        simp only [findFinalParametersLoop]
        by_cases hf : st.signature.findParam e = none
        · simp only [hf, if_true]
          by_cases hform : (e.isRegOf || UserProc.isLocalOrParamPattern st.signature e) = true
          · simp only [hform, Bool.not_true, Bool.false_eq_true, if_false]
            have hsig : (UserProc.addParameter st e ty).signature =
                st.signature.addParameter ty none e := by
              simp [UserProc.addParameter, hf]
            have hpar : (UserProc.addParameter st e ty).parameters = st.parameters := rfl
            have hfc : UserProc.filterParams env (UserProc.addParameter st e ty).signature e =
                UserProc.filterParams env st.signature e := by
              rw [hsig]
              cases e <;> simp [UserProc.filterParams, Signature.addParameter]
            refine ⟨_, rfl, ?_⟩
            unfold UserProc.insertParameter
            rw [hfc]
            cases hfil : UserProc.filterParams env st.signature e
            · -- inserted
              have hok : Exp.isParamLocation promoted sp e :=
                hacc.1 (by simp [UserProc.acceptsParam, hform, hfil])
              simp only [Bool.false_eq_true, if_false, hpar]
              obtain ⟨h1, h2, _, h4⟩ := addAllToSignature_spec
                (insertOrdered env.argumentCompare { type := ty.clone, lhs := e, rhs := none }
                  st.parameters) 1 (UserProc.addParameter st e ty).signature.clearParams
              refine ⟨⟨?_, ?_, ?_, ?_⟩, ?_, ?_⟩
              · rw [h1]
                simp [Signature.clearParams, hsig, Signature.addParameter, hp]
              · rw [h2]
                simp [Signature.clearParams, hsig, Signature.addParameter, hsp]
              · intro a ha
                rcases (insertOrdered_mem _ _ _ _).1 ha with h | h
                · subst h
                  exact ⟨rfl, hok⟩
                · exact hI1 a h
              · intro p hpm _
                have : p.exp ∈ List.map (fun p => p.exp)
                    (addAllToSignature (insertOrdered env.argumentCompare
                      { type := ty.clone, lhs := e, rhs := none } st.parameters) 1
                      (UserProc.addParameter st e ty).signature.clearParams).params :=
                  List.mem_map.2 ⟨p, hpm, rfl⟩
                rw [h4] at this
                simp only [Signature.clearParams, List.map_nil, List.nil_append,
                  List.mem_map] at this
                exact this
              · intro a ha
                exact (insertOrdered_mem _ _ _ _).2 (Or.inr ha)
              · intro _
                exact ⟨_, (insertOrdered_mem _ _ _ _).2 (Or.inl rfl), rfl⟩
            · -- filtered out
              have hno : ¬ Exp.isParamLocation promoted sp e := fun h => by
                have := hacc.2 h
                simp [UserProc.acceptsParam, hfil] at this
              simp only [if_true]
              refine ⟨⟨?_, ?_, hI1, ?_⟩, fun a ha => ha, fun h => absurd h hno⟩
              · simp [hsig, Signature.addParameter, hp]
              · simp [hsig, Signature.addParameter, hsp]
              · intro p hpm hpl
                rw [hsig] at hpm
                simp only [Signature.addParameter, List.mem_append, List.mem_singleton] at hpm
                rcases hpm with h | h
                · exact hI2 p h hpl
                · subst h
                  exact absurd hpl hno
          · have hno : ¬ Exp.isParamLocation promoted sp e := fun h => by
              have := hacc.2 h
              simp only [UserProc.acceptsParam, Bool.and_eq_true] at this
              exact hform this.1
            have hform2 : (e.isRegOf || UserProc.isLocalOrParamPattern st.signature e) = false := by
              simpa using hform
            simp only [hform2, Bool.not_false, if_true]
            exact ⟨st, rfl, ⟨hp, hsp, hI1, hI2⟩, fun a ha => ha, fun h => absurd h hno⟩
        · simp only [hf, if_false]
          refine ⟨st, rfl, ⟨hp, hsp, hI1, hI2⟩, fun a ha => ha, ?_⟩
          intro hok
          have : ¬ ∀ p ∈ st.signature.params, p.exp ≠ e :=
            fun h => hf ((Signature.findParam_none _ _).2 h)
          simp only [ne_eq, not_forall, not_not] at this
          obtain ⟨p, hpm, hpe⟩ := this
          obtain ⟨a, ha, hae⟩ := hI2 p hpm (hpe ▸ hok)
          exact ⟨a, ha, hae.trans hpe⟩
      obtain ⟨st1, heq, hinv, hmono, hin⟩ := step
      obtain ⟨r1, r2, r3⟩ := findFinalParametersLoop_spec env promoted sp rest st1 hinv
      rw [heq]
      refine ⟨r1, fun a ha => r2 a (hmono a ha), ?_⟩
      intro ty2 e2 hmem hok
      simp only [List.takeWhile_cons, Statement.isImplicit, if_true, List.mem_cons] at hmem
      rcases hmem with h | h
      · have he : e2 = e := by
          cases h
          rfl
        subst he
        obtain ⟨a, ha, hae⟩ := hin hok
        exact ⟨a, r2 a ha, hae⟩
      · exact r3 ty2 e2 h hok

/-- C28 (amended): after `findFinalParameters` on a procedure whose signature is not forced,
every element of the list of parameters is an implicit assignment whose left-hand side is a
register other than the stack pointer or, when the signature has been promoted, the memory at
`sp{-}` plus or minus an integer constant; and every implicit assignment at the start of the
statements whose left-hand side is of that form is in the list. -/
theorem C28_final_parameters (env : ParamEnv) (stmts : List Statement) (st : ParamState)
    (hf : st.signature.forced = false) :
    (∀ a ∈ (UserProc.findFinalParameters env stmts st).parameters,
      a.rhs = none ∧
      Exp.isParamLocation st.signature.promoted st.signature.stackRegister a.lhs) ∧
    (∀ ty e, Statement.implicitAssign ty e ∈ stmts.takeWhile Statement.isImplicit →
      Exp.isParamLocation st.signature.promoted st.signature.stackRegister e →
      ∃ a ∈ (UserProc.findFinalParameters env stmts st).parameters, a.lhs = e) := by
  have hinv : ParamState.inv st.signature.promoted st.signature.stackRegister
      { signature := st.signature.clearParams, parameters := [] } :=
    ⟨rfl, rfl, by simp, by simp [Signature.clearParams]⟩
  obtain ⟨r1, _, r3⟩ := findFinalParametersLoop_spec env _ _ stmts _ hinv
  simp only [UserProc.findFinalParameters, hf, Bool.false_eq_true, if_false]
  exact ⟨r1.2.2.1, r3⟩

/-- C28 (counterexample): the signature is not forced, has no parameter and has not been
promoted; the stack pointer is `r28` and the first statement is an implicit assignment to
`m[r28{-} + 4]`.  After `findFinalParameters` the list of parameters is empty. -/
theorem C28_stack_parameter_of_unpromoted_signature :
    ((UserProc.findFinalParameters sampleParamEnv
        [.implicitAssign (.integer 32 1) Exp.stackParam4, .other]
        { signature := { forced := false, promoted := false, stackRegister := 28, params := [] },
          parameters := [] }).parameters.map (fun a => a.lhs)) = [] ∧
    Exp.isStackParam 28 Exp.stackParam4 :=
  ⟨rfl, .opPlus, 4, Or.inl rfl, rfl⟩

/-- C28 (witness): a promoted signature with the stack pointer `r28`, and implicit assignments
to `r24`, `m[r28{-} + 4]` and `r28` at the start of the statements. -/
theorem C28_final_parameters_witness :
    ((UserProc.findFinalParameters sampleParamEnv
        [.implicitAssign (.integer 32 1) (Exp.regOf 24),
          .implicitAssign (.integer 32 1) Exp.stackParam4,
          .implicitAssign (.integer 32 1) (Exp.regOf 28), .other]
        { signature := { forced := false, promoted := true, stackRegister := 28, params := [] },
          parameters := [] }).parameters.map (fun a => a.lhs)) =
      [Exp.regOf 24, Exp.stackParam4] ∧
    (∀ a ∈ (UserProc.findFinalParameters sampleParamEnv
        [.implicitAssign (.integer 32 1) (Exp.regOf 24),
          .implicitAssign (.integer 32 1) Exp.stackParam4,
          .implicitAssign (.integer 32 1) (Exp.regOf 28), .other]
        { signature := { forced := false, promoted := true, stackRegister := 28, params := [] },
          parameters := [] }).parameters,
      a.rhs = none ∧ Exp.isParamLocation true 28 a.lhs) :=
  ⟨rfl, (C28_final_parameters sampleParamEnv _
    { signature := { forced := false, promoted := true, stackRegister := 28, params := [] },
      parameters := [] } rfl).1⟩

/-! ## C29: redundant returns -/

theorem eraseReturns_spec (keep : Assignment → Bool) : ∀ (l : List Assignment),
    (eraseReturns keep l).1 = l.filter keep ∧
    ((eraseReturns keep l).2 = true ↔ ∃ a ∈ l, keep a = false)
  | [] => by simp [eraseReturns]
  | a :: rest => by
    obtain ⟨h1, h2⟩ := eraseReturns_spec keep rest
    cases hk : keep a
    · simp [eraseReturns, hk, h1]
    · simp [eraseReturns, hk, h1, h2]

theorem removeRedundantParametersLoop_spec {σ : Type} (env : ReturnsEnv σ) :
    ∀ (l : List Assignment) (p : ReturnsProc σ) (acc : List Assignment) (ret : Bool),
      (removeRedundantParametersLoop env l p acc ret).1.theReturnStatement =
          p.theReturnStatement ∧
      (removeRedundantParametersLoop env l p acc ret).1.name = p.name ∧
      (removeRedundantParametersLoop env l p acc ret).1.forced = p.forced ∧
      (∃ kept, (removeRedundantParametersLoop env l p acc ret).2.1 = acc ++ kept ∧
        kept.Sublist l ∧
        ((removeRedundantParametersLoop env l p acc ret).2.2 = true ↔
          (ret = true ∨ kept.length < l.length)))
  | [], p, acc, ret => by
    simp [removeRedundantParametersLoop]
  | pp :: rest, p, acc, ret => by
    rw [removeRedundantParametersLoop]
    split
    · obtain ⟨h1, h2, h3, kept, h4, h5, h6⟩ :=
        removeRedundantParametersLoop_spec env rest p (acc ++ [pp]) ret
      refine ⟨h1, h2, h3, pp :: kept, by simp [h4], h5.cons₂ pp, ?_⟩
      rw [h6]
      simp
    · obtain ⟨h1, h2, h3, kept, h4, h5, h6⟩ :=
        removeRedundantParametersLoop_spec env rest
          { p with rest := env.dropParameter pp.lhs p.rest } acc true
      refine ⟨h1, h2, h3, kept, h4, h5.cons pp, ?_⟩
      have := h5.length_le
      simp only [h6, true_or, true_iff, List.length_cons]
      exact Or.inr (by omega)

theorem removeRedundantParameters_spec {σ : Type} (env : ReturnsEnv σ) (p : ReturnsProc σ) :
    (UserProc.removeRedundantParameters env p).1.theReturnStatement = p.theReturnStatement ∧
    (UserProc.removeRedundantParameters env p).1.name = p.name ∧
    (UserProc.removeRedundantParameters env p).1.forced = p.forced ∧
    (UserProc.removeRedundantParameters env p).1.parameters.Sublist p.parameters ∧
    ((UserProc.removeRedundantParameters env p).2 = true ↔
      (UserProc.removeRedundantParameters env p).1.parameters.length < p.parameters.length) := by
  unfold UserProc.removeRedundantParameters
  split
  · simp
  · obtain ⟨h1, h2, h3, kept, h4, h5, h6⟩ :=
      removeRedundantParametersLoop_spec env p.parameters p [] false
    simp only [List.nil_append] at h4
    refine ⟨h1, h2, h3, ?_, ?_⟩
    · simp only [h4]
      exact h5
    · simp only [h4, h6]
      simp

theorem ReturnsProc.setRetType_theReturnStatement {σ : Type} (env : ReturnsEnv σ)
    (p : ReturnsProc σ) : (p.setRetType env).theReturnStatement = p.theReturnStatement := by
  unfold ReturnsProc.setRetType
  split <;> rfl

/-- C29: for a procedure with a return statement, a signature that is not forced and a name
other than `main`, `removeRedundantReturns` returns, and afterwards the returns of the return
statement are the earlier returns, in their order, whose left-hand side is in the union of
the locations live at the call statements that call the procedure (as the use collectors
hold them after the first removal of parameters), each as the final update of the dataflow
leaves it when something was removed; and the result is true exactly when a return was
removed or one of the two removals of parameters removed a parameter. -/
theorem C29_redundant_returns {σ : Type} (env : ReturnsEnv σ) (p : ReturnsProc σ)
    (rs : ReturnStatement) (hr : p.theReturnStatement = some rs) (hf : p.forced = false)
    (hn : p.name ≠ "main") :
    ∃ q b, UserProc.removeRedundantReturns env p = some (q, b) ∧
      q.theReturnStatement.map (fun rs1 => rs1.returns) = some
        ((rs.returns.filter (fun a =>
            (env.callersLive (UserProc.removeRedundantParameters env p).1.rest).flatten.contains
              a.lhs)).map
          (if b then env.updateStatement (p.atUpdate env rs) else id)) ∧
      (b = true ↔
        ((∃ a ∈ rs.returns,
            (env.callersLive (UserProc.removeRedundantParameters env p).1.rest).flatten.contains
              a.lhs = false) ∨
          (UserProc.removeRedundantParameters env p).1.parameters.length < p.parameters.length ∨
          (UserProc.removeRedundantParameters env (p.withLiveReturns env rs)).1.parameters.length <
            (UserProc.removeRedundantParameters env p).1.parameters.length)) := by
  obtain ⟨h1, h2, h3, _, h5⟩ := removeRedundantParameters_spec env p
  obtain ⟨he1, he2⟩ := eraseReturns_spec (fun a =>
    (env.callersLive (UserProc.removeRedundantParameters env p).1.rest).flatten.contains a.lhs)
    rs.returns
  obtain ⟨g1, _, _, _, g5⟩ := removeRedundantParameters_spec env (p.withLiveReturns env rs)
  have hw : (p.withLiveReturns env rs).parameters =
      (UserProc.removeRedundantParameters env p).1.parameters := rfl
  rw [hw] at g5
  have hq : p.withLiveReturns env rs =
      { name := p.name, forced := false,
        signatureReturns := (UserProc.removeRedundantParameters env p).1.signatureReturns,
        parameters := (UserProc.removeRedundantParameters env p).1.parameters,
        theReturnStatement := some
          { modifieds := rs.modifieds,
            returns := rs.returns.filter (fun a =>
              (env.callersLive
                (UserProc.removeRedundantParameters env p).1.rest).flatten.contains a.lhs) },
        rest := (UserProc.removeRedundantParameters env p).1.rest } := by
    simp only [ReturnsProc.withLiveReturns, h2, h3, hf]
  simp only [ReturnsProc.atUpdate]
  rw [hq] at g5 g1
  simp only [UserProc.removeRedundantReturns, h1, hr, h3, hf, h2, hn, Bool.false_eq_true,
    if_false, he1]
  refine ⟨_, _, rfl, ?_, ?_⟩
  · simp only [hq, ReturnsProc.setRetType_theReturnStatement]
    generalize hR : UserProc.removeRedundantParameters env _ = R2 at g1 g5 ⊢
    generalize hP : UserProc.removeRedundantParameters env p = P1 at *
    generalize hL : List.filter _ rs.returns = L at *
    generalize hE : (eraseReturns _ rs.returns).2 = e at *
    have hc : (e || (P1.2 || R2.2)) = (P1.2 || R2.2 || e) := by
      cases e <;> cases P1.2 <;> cases R2.2 <;> rfl
    rw [hc]
    cases (P1.2 || R2.2 || e)
    · simp [g1]
    · simp [ReturnsProc.updateForUseChange, g1]
  · simp only [Bool.or_eq_true, he2, h5, hq]
    constructor
    · rintro (h | h | h)
      · exact Or.inl h
      · exact Or.inr (Or.inl h)
      · exact Or.inr (Or.inr (g5.1 h))
    · rintro (h | h | h)
      · exact Or.inl h
      · exact Or.inr (Or.inl h)
      · exact Or.inr (Or.inr (g5.2 h))

/-- C29 (witness): the procedure `f` returns `r24` and `r25` and its one caller has only
`r25` live: the return of `r24` is removed. -/
theorem C29_redundant_returns_witness :
    sampleReturnsProc.theReturnStatement = some sampleReturns ∧
    sampleReturnsProc.forced = false ∧ sampleReturnsProc.name ≠ "main" ∧
    ∃ q b, UserProc.removeRedundantReturns sampleReturnsEnv sampleReturnsProc = some (q, b) ∧
      q.theReturnStatement.map (fun rs1 => rs1.returns) = some
        ((sampleReturns.returns.filter (fun a =>
            (sampleReturnsEnv.callersLive (UserProc.removeRedundantParameters sampleReturnsEnv
              sampleReturnsProc).1.rest).flatten.contains a.lhs)).map
          (if b then sampleReturnsEnv.updateStatement
            (sampleReturnsProc.atUpdate sampleReturnsEnv sampleReturns) else id)) ∧
      (b = true ↔
        ((∃ a ∈ sampleReturns.returns,
            (sampleReturnsEnv.callersLive (UserProc.removeRedundantParameters sampleReturnsEnv
              sampleReturnsProc).1.rest).flatten.contains a.lhs = false) ∨
          (UserProc.removeRedundantParameters sampleReturnsEnv
              sampleReturnsProc).1.parameters.length < sampleReturnsProc.parameters.length ∨
          (UserProc.removeRedundantParameters sampleReturnsEnv
              (sampleReturnsProc.withLiveReturns sampleReturnsEnv
                sampleReturns)).1.parameters.length <
            (UserProc.removeRedundantParameters sampleReturnsEnv
              sampleReturnsProc).1.parameters.length)) :=
  ⟨rfl, rfl, by decide,
    C29_redundant_returns sampleReturnsEnv sampleReturnsProc sampleReturns rfl rfl (by decide)⟩

/-- The run of `removeRedundantReturns` on the example: only the return of `r25` is left and
the result is true. -/
theorem removeRedundantReturns_sample :
    (UserProc.removeRedundantReturns sampleReturnsEnv sampleReturnsProc).map
        (fun r => (r.1.theReturnStatement.map (fun rs => rs.returns.map (fun a => a.lhs)), r.2)) =
      some (some [Exp.regOf 25], true) := by
  rfl

/-! ## C30: phi removal -/

theorem SsaProc.rtlsOf_of_le {σ : Type} (p : SsaProc σ) (b : Nat) (h : p.cfg.length ≤ b) :
    p.rtlsOf b = [] := by
  simp [SsaProc.rtlsOf, List.getElem?_eq_none h]

theorem SsaProc.occurs_of_le {σ : Type} (p : SsaProc σ) (b s : Nat) (h : p.cfg.length ≤ b) :
    p.occurs b s = 0 := by
  simp [SsaProc.occurs, p.rtlsOf_of_le b h]

theorem SsaProc.mem_getStatements {σ : Type} (p : SsaProc σ) (s : Nat) :
    s ∈ p.getStatements ↔ ∃ b, 0 < p.occurs b s := by
  simp only [SsaProc.getStatements, SsaProc.occurs, SsaProc.rtlsOf, List.count_pos_iff]
  constructor
  · intro h
    obtain ⟨l, hl, hs⟩ := List.mem_flatten.1 h
    obtain ⟨rtls, hr, hl2⟩ := List.mem_flatten.1 hl
    obtain ⟨b, hb⟩ := List.mem_iff_getElem?.1 hr
    exact ⟨b, by rw [hb]; exact List.mem_flatten.2 ⟨l, hl2, hs⟩⟩
  · rintro ⟨b, hb⟩
    cases hc : p.cfg[b]? with
    | none => simp [hc] at hb
    | some rtls =>
      rw [hc] at hb
      obtain ⟨l, hl, hs⟩ := List.mem_flatten.1 hb
      exact List.mem_flatten.2 ⟨l, List.mem_flatten.2
        ⟨rtls, List.mem_iff_getElem?.2 ⟨b, hc⟩, hl⟩, hs⟩

theorem eraseFromRTLs_length (s : Nat) : ∀ (rtls : List (List Nat)),
    (eraseFromRTLs s rtls).length = rtls.length
  | [] => rfl
  | rtl :: rest => by
    unfold eraseFromRTLs
    split
    · rfl
    · simp [eraseFromRTLs_length s rest]

theorem eraseFromRTLs_count (s x : Nat) : ∀ (rtls : List (List Nat)),
    (eraseFromRTLs s rtls).flatten.count x = rtls.flatten.count x - if x = s then 1 else 0
  | [] => by simp [eraseFromRTLs]
  | rtl :: rest => by
    unfold eraseFromRTLs
    split
    · rename_i h
      have hm : s ∈ rtl := by simpa using h
      simp only [List.flatten_cons, List.count_append, List.count_erase, beq_iff_eq]
      by_cases hx : x = s
      · subst hx
        have : 0 < List.count x rtl := List.count_pos_iff.2 hm
        simp only [if_true]
        omega
      · have hx2 : ¬ s = x := fun e => hx e.symm
        simp [hx, hx2]
    · rename_i h
      have hm : s ∉ rtl := by simpa using h
      simp only [List.flatten_cons, List.count_append, eraseFromRTLs_count s x rest]
      by_cases hx : x = s
      · subst hx
        simp [List.count_eq_zero_of_not_mem hm]
      · simp [hx]

theorem insertAtFront_spec (a : Nat) (rtls : List (List Nat)) (h : rtls ≠ []) :
    ∃ r, insertAtFront a rtls = some r ∧ r.isEmpty = false ∧
      ∀ x, r.flatten.count x = rtls.flatten.count x + if x = a then 1 else 0 := by
  cases rtls with
  | nil => exact absurd rfl h
  | cons rtl rest =>
    refine ⟨_, rfl, rfl, fun x => ?_⟩
    simp only [List.flatten_cons, List.cons_append, List.count_cons, beq_iff_eq,
      List.count_append]
    by_cases hx : x = a
    · subst hx; simp
    · have hx2 : ¬ a = x := fun e => hx e.symm
      simp [hx, hx2]

theorem insertAtBack_spec (a : Nat) : ∀ (rtls : List (List Nat)), rtls ≠ [] →
    ∃ r, insertAtBack a rtls = some r ∧ r.isEmpty = false ∧
      ∀ x, r.flatten.count x = rtls.flatten.count x + if x = a then 1 else 0
  | [], h => absurd rfl h
  | [rtl], _ => by
    refine ⟨_, rfl, rfl, fun x => ?_⟩
    simp only [List.flatten_cons, List.flatten_nil, List.append_nil, List.count_append,
      List.count_cons, List.count_nil, beq_iff_eq]
    by_cases hx : x = a
    · subst hx; simp
    · have hx2 : ¬ a = x := fun e => hx e.symm
      simp [hx, hx2]
  | rtl :: rtl2 :: rest, _ => by
    obtain ⟨r, h1, _, h3⟩ := insertAtBack_spec a (rtl2 :: rest) (by simp)
    refine ⟨rtl :: r, by simp [insertAtBack, h1], rfl, fun x => ?_⟩
    simp only [List.flatten_cons, List.count_append] at h3 ⊢
    rw [h3 x]
    omega

theorem SsaProc.Frame.refl {σ : Type} (p : SsaProc σ) : p.Frame p :=
  ⟨rfl, Nat.le_refl _, fun _ => rfl, fun _ => rfl, fun _ _ => rfl, fun _ _ _ => Nat.le_refl _⟩

theorem SsaProc.isPhi_of_stmtOf {σ : Type} {p q : SsaProc σ} {s : Nat}
    (h : q.stmtOf s = p.stmtOf s) : q.isPhi s = p.isPhi s := by
  simp [SsaProc.isPhi, h]

theorem SsaProc.Frame.trans {σ : Type} {p q r : SsaProc σ} (h1 : p.Frame q) (h2 : q.Frame r) :
    p.Frame r where
  entry := h2.entry.trans h1.entry
  len := Nat.le_trans h1.len h2.len
  bb := fun s => (h2.bb s).trans (h1.bb s)
  rtls := fun b => (h2.rtls b).trans (h1.rtls b)
  phi := fun s hs => by
    have e := h2.phi s hs
    have hq : q.isPhi s = true := by rw [← SsaProc.isPhi_of_stmtOf e]; exact hs
    exact e.trans (h1.phi s hq)
  occ := fun b s hs => by
    have e := h2.phi s hs
    have hq : q.isPhi s = true := by rw [← SsaProc.isPhi_of_stmtOf e]; exact hs
    exact Nat.le_trans (h2.occ b s hs) (h1.occ b s hq)

theorem SsaProc.targetOk_of_frame {σ : Type} {p q : SsaProc σ} (h : p.Frame q)
    (d : Option Nat) : q.targetOk d = p.targetOk d := by
  cases d with
  | none => simp only [SsaProc.targetOk, h.entry, h.rtls]
  | some d =>
    simp only [SsaProc.targetOk, h.bb]
    split <;> simp [h.rtls]

theorem SsaProc.phiDefsOf_of_stmtOf {σ : Type} {p q : SsaProc σ} {s : Nat}
    (h : q.stmtOf s = p.stmtOf s) : q.phiDefsOf s = p.phiDefsOf s := by
  simp [SsaProc.phiDefsOf, h]

theorem SsaProc.isPhi_of_phiDefsOf {σ : Type} {p : SsaProc σ} {s : Nat} {rr : PhiInfo}
    (h : rr ∈ p.phiDefsOf s) : p.isPhi s = true := by
  unfold SsaProc.phiDefsOf at h
  unfold SsaProc.isPhi
  split at h
  · rename_i e; rw [e]; rfl
  · simp at h

theorem SsaProc.Sound.of_frame {σ : Type} {p q : SsaProc σ} (hp : p.Sound) (h : p.Frame q) :
    q.Sound where
  phiBB := fun s hs => by
    have e := h.phi s hs
    have hq : p.isPhi s = true := by rw [← SsaProc.isPhi_of_stmtOf e]; exact hs
    obtain ⟨b, hb, hc⟩ := hp.phiBB s hq
    exact ⟨b, (h.bb s).trans hb, fun b1 => Nat.le_trans (h.occ b1 s hs) (hc b1)⟩
  phiDefs := fun s rr hrr hne => by
    have hs := SsaProc.isPhi_of_phiDefsOf hrr
    have e := h.phi s hs
    rw [SsaProc.phiDefsOf_of_stmtOf e] at hrr
    rw [SsaProc.targetOk_of_frame h]
    exact hp.phiDefs s rr hrr hne

theorem UserProc.removeStatement_spec {σ : Type} (env : SsaEnv σ) (p : SsaProc σ) (s b0 : Nat)
    (hb : p.bbOf s = some b0) :
    ∃ q, UserProc.removeStatement env p s = some q ∧ q.objs = p.objs ∧
      q.entryBB = p.entryBB ∧ q.symbols = p.symbols ∧
      (∀ b, (q.rtlsOf b).isEmpty = (p.rtlsOf b).isEmpty) ∧
      ∀ b x, q.occurs b x =
        if b = b0 then p.occurs b x - (if x = s then 1 else 0) else p.occurs b x := by
  unfold SsaProc.bbOf at hb
  refine ⟨{ p with
      provenTrue := p.provenTrue.filter (fun pr => !usesStatement env s pr),
      cfg := p.cfg.modify (eraseFromRTLs s) b0 },
    by simp only [UserProc.removeStatement, hb], rfl, rfl, rfl, ?_, ?_⟩
  · intro b
    simp only [SsaProc.rtlsOf, List.getElem?_modify]
    cases p.cfg[b]? with
    | none => rfl
    | some rtls =>
      by_cases h : b0 = b
      · simp only [h, if_true, Option.map_eq_map, Option.map_some', Option.getD_some]
        have := eraseFromRTLs_length s rtls
        cases rtls with
        | nil => rfl
        | cons a t =>
          cases he : eraseFromRTLs s (a :: t) with
          | nil => rw [he] at this; simp at this
          | cons _ _ => rfl
      · simp [h]
  · intro b x
    simp only [SsaProc.occurs, SsaProc.rtlsOf, List.getElem?_modify]
    cases p.cfg[b]? with
    | none => simp
    | some rtls =>
      by_cases h : b0 = b
      · subst h
        simp [eraseFromRTLs_count]
      · have h2 : ¬ b = b0 := fun e => h e.symm
        simp [h, h2]

theorem UserProc.insertAssignAfter_spec {σ : Type} (env : SsaEnv σ) (p : SsaProc σ)
    (d : Option Nat) (l r : Exp) (ht : p.targetOk d = true) :
    ∃ q, UserProc.insertAssignAfter env p d l r = some q ∧
      q.objs = p.objs ++ [{ stmt := .assign (env.assignType l r) l r, bb := none }] ∧
      q.entryBB = p.entryBB ∧ q.symbols = p.symbols ∧
      (∀ b, (q.rtlsOf b).isEmpty = (p.rtlsOf b).isEmpty) ∧
      ∃ b0, ∀ b x, q.occurs b x =
        p.occurs b x + if b = b0 ∧ x = p.objs.length then 1 else 0 := by
  have key : ∀ (b0 : Nat) (rtls r1 : List (List Nat)), p.cfg[b0]? = some rtls →
      r1.isEmpty = false →
      (∀ x, r1.flatten.count x = rtls.flatten.count x + if x = p.objs.length then 1 else 0) →
      rtls ≠ [] →
      (∀ b : Nat,
        (((p.cfg.set b0 r1)[b]?).getD []).isEmpty = ((p.cfg[b]?).getD []).isEmpty) ∧
      ∀ (b x : Nat), (((p.cfg.set b0 r1)[b]?).getD []).flatten.count x =
        ((p.cfg[b]?).getD []).flatten.count x +
          if b = b0 ∧ x = p.objs.length then 1 else 0 := by
    intro b0 rtls r1 hc he hcount hne
    have hlt : b0 < p.cfg.length := by
      by_contra hn
      rw [List.getElem?_eq_none (Nat.le_of_not_lt hn)] at hc
      cases hc
    constructor
    · intro b
      rw [List.getElem?_set]
      by_cases h : b0 = b
      · subst h
        simp only [if_true, hlt, hc, Option.getD_some, he]
        cases rtls with
        | nil => exact absurd rfl hne
        | cons _ _ => rfl
      · simp [h]
    · intro b x
      rw [List.getElem?_set]
      by_cases h : b0 = b
      · subst h
        simp only [if_true, hlt, hc, Option.getD_some, hcount, true_and]
      · have h2 : ¬ b = b0 := fun e => h e.symm
        simp [h, h2]
  cases d with
  | none =>
    simp only [SsaProc.targetOk, SsaProc.rtlsOf] at ht
    cases hc : p.cfg[p.entryBB]? with
    | none => simp [hc] at ht
    | some rtls =>
      have hne : rtls ≠ [] := by
        intro e
        simp [hc, e] at ht
      obtain ⟨r1, h1, h2, h3⟩ := insertAtFront_spec p.objs.length rtls hne
      obtain ⟨k1, k2⟩ := key p.entryBB rtls r1 hc h2 h3 hne
      exact ⟨{ p with
          objs := p.objs ++ [{ stmt := .assign (env.assignType l r) l r, bb := none }],
          cfg := p.cfg.set p.entryBB r1 },
        by simp only [UserProc.insertAssignAfter, hc, Option.some_bind, h1],
        rfl, rfl, rfl, k1, p.entryBB, k2⟩
  | some d =>
    simp only [SsaProc.targetOk, SsaProc.bbOf] at ht
    cases hbb : (p.objs[d]?).bind (fun o => o.bb) with
    | none => simp [hbb] at ht
    | some bb =>
      simp only [hbb, SsaProc.rtlsOf] at ht
      cases hc : p.cfg[bb]? with
      | none => simp [hc] at ht
      | some rtls =>
        have hne : rtls ≠ [] := by
          intro e
          simp [hc, e] at ht
        obtain ⟨r1, h1, h2, h3⟩ := insertAtBack_spec p.objs.length rtls hne
        obtain ⟨k1, k2⟩ := key bb rtls r1 hc h2 h3 hne
        exact ⟨{ p with
            objs := p.objs ++ [{ stmt := .assign (env.assignType l r) l r, bb := none }],
            cfg := p.cfg.set bb r1 },
          by simp only [UserProc.insertAssignAfter, hbb, hc, Option.some_bind, h1],
          rfl, rfl, rfl, k1, bb, k2⟩

theorem PhiAssign.convertToAssign_spec {σ : Type} (p : SsaProc σ) (s : Nat) (rhs : Exp)
    (ty : Ty) (lhs : Exp) (defs : List PhiInfo) (bb : Option Nat)
    (h : p.objs[s]? = some { stmt := .phiAssign ty lhs defs, bb := bb }) :
    PhiAssign.convertToAssign p s rhs =
      { p with objs := p.objs.set s { stmt := .assign ty lhs rhs, bb := bb } } := by
  simp only [PhiAssign.convertToAssign, h]

theorem SsaProc.Frame.of_append {σ : Type} (p q : SsaProc σ) (l : List StmtObj)
    (ho : q.objs = p.objs ++ l) (hl : ∀ o ∈ l, o.bb = none ∧ o.stmt.isPhi = false)
    (he : q.entryBB = p.entryBB) (hr : ∀ b, (q.rtlsOf b).isEmpty = (p.rtlsOf b).isEmpty)
    (hc : ∀ b x, x < p.objs.length → q.occurs b x = p.occurs b x) : p.Frame q := by
  have hlt : ∀ s, s < p.objs.length → q.objs[s]? = p.objs[s]? := fun s hs => by
    rw [ho, List.getElem?_append_left hs]
  have hge : ∀ s, ¬ s < p.objs.length → q.isPhi s = false ∧ q.bbOf s = none ∧
      p.bbOf s = none := fun s hs => by
    have h1 : p.objs[s]? = none := List.getElem?_eq_none (Nat.le_of_not_lt hs)
    have h2 : q.objs[s]? = l[s - p.objs.length]? := by
      rw [ho, List.getElem?_append_right (Nat.le_of_not_lt hs)]
    simp only [SsaProc.isPhi, SsaProc.stmtOf, SsaProc.bbOf, h1, h2]
    cases hx : l[s - p.objs.length]? with
    | none => simp
    | some o =>
      have hm : o ∈ l := List.mem_iff_getElem?.2 ⟨_, hx⟩
      simp [(hl o hm).1, (hl o hm).2]
  have hphi : ∀ s, q.isPhi s = true → s < p.objs.length := fun s hs => by
    by_contra hn
    rw [(hge s hn).1] at hs
    cases hs
  refine ⟨he, by rw [ho]; simp, fun s => ?_, hr, fun s hs => ?_, fun b s hs => ?_⟩
  · by_cases hs : s < p.objs.length
    · simp only [SsaProc.bbOf, hlt s hs]
    · rw [(hge s hs).2.1, (hge s hs).2.2]
  · simp only [SsaProc.stmtOf, hlt s (hphi s hs)]
  · exact Nat.le_of_eq (hc b s (hphi s hs))

theorem SsaProc.isPhi_of_getElem {σ : Type} (p : SsaProc σ) (s : Nat) (ty : Ty) (lhs : Exp)
    (defs : List PhiInfo) (bb : Option Nat)
    (h : p.objs[s]? = some { stmt := .phiAssign ty lhs defs, bb := bb }) :
    p.isPhi s = true ∧ p.bbOf s = bb ∧ p.phiDefsOf s = defs ∧ s < p.objs.length := by
  refine ⟨by simp [SsaProc.isPhi, SsaProc.stmtOf, h, Statement.isPhi],
    by simp [SsaProc.bbOf, h], by simp [SsaProc.phiDefsOf, SsaProc.stmtOf, h], ?_⟩
  by_contra hn
  rw [List.getElem?_eq_none (Nat.le_of_not_lt hn)] at h
  cases h

theorem UserProc.removeStatement_frame {σ : Type} (env : SsaEnv σ) (p : SsaProc σ) (s b0 : Nat)
    (hb : p.bbOf s = some b0) (hc : ∀ b1, p.occurs b1 s ≤ if b1 = b0 then 1 else 0) :
    ∃ q, UserProc.removeStatement env p s = some q ∧ p.Frame q ∧ q.objs = p.objs ∧
      (∀ b, q.occurs b s = 0) ∧ ∀ b x, x ≠ s → q.occurs b x = p.occurs b x := by
  obtain ⟨q, h1, h2, h3, _, h5, h6⟩ := UserProc.removeStatement_spec env p s b0 hb
  have hle : ∀ b x, q.occurs b x ≤ p.occurs b x := fun b x => by
    rw [h6]
    split
    · exact Nat.sub_le _ _
    · exact Nat.le_refl _
  refine ⟨q, h1, ⟨h3, Nat.le_of_eq (by rw [h2]), fun x => by simp only [SsaProc.bbOf, h2],
    h5, fun x _ => by simp only [SsaProc.stmtOf, h2], fun b x _ => hle b x⟩, h2, fun b => ?_,
    fun b x hx => ?_⟩
  · rw [h6]
    have := hc b
    by_cases hbb : b = b0
    · simp only [hbb, if_true] at this ⊢
      omega
    · simp only [hbb, if_false] at this ⊢
      omega
  · rw [h6]
    simp [hx]

theorem PhiAssign.convertToAssign_frame {σ : Type} (p : SsaProc σ) (s : Nat) (rhs : Exp)
    (ty : Ty) (lhs : Exp) (defs : List PhiInfo) (bb : Option Nat)
    (h : p.objs[s]? = some { stmt := .phiAssign ty lhs defs, bb := bb }) :
    p.Frame (PhiAssign.convertToAssign p s rhs) ∧
      (PhiAssign.convertToAssign p s rhs).isPhi s = false ∧
      (PhiAssign.convertToAssign p s rhs).objs =
        p.objs.set s { stmt := .assign ty lhs rhs, bb := bb } ∧
      (PhiAssign.convertToAssign p s rhs).cfg = p.cfg := by
  rw [PhiAssign.convertToAssign_spec p s rhs ty lhs defs bb h]
  have hlt := (p.isPhi_of_getElem s ty lhs defs bb h).2.2.2
  refine ⟨⟨rfl, by simp, fun x => ?_, fun _ => rfl, fun x hx => ?_, fun _ _ _ => Nat.le_refl _⟩,
    ?_, rfl, rfl⟩
  · simp only [SsaProc.bbOf, List.getElem?_set]
    by_cases hx : s = x
    · subst hx
      simp [hlt, h]
    · simp [hx]
  · simp only [SsaProc.isPhi, SsaProc.stmtOf, List.getElem?_set] at hx ⊢
    by_cases hxs : s = x
    · subst hxs
      simp [hlt, Statement.isPhi] at hx
    · simp [hxs]
  · simp [SsaProc.isPhi, SsaProc.stmtOf, List.getElem?_set, hlt, Statement.isPhi]

theorem insertCopies_spec {σ : Type} (env : SsaEnv σ) (t : Exp) :
    ∀ (defs : List PhiInfo) (p : SsaProc σ),
      (∀ rr ∈ defs, rr.e ≠ none → p.targetOk rr.defn = true) →
      ∃ q, insertCopies env t defs p = some q ∧
        q.objs = p.objs ++ (phiOperands defs).map
          (fun e => { stmt := .assign (env.assignType t e) t e, bb := none }) ∧
        q.entryBB = p.entryBB ∧ q.symbols = p.symbols ∧
        (∀ b, (q.rtlsOf b).isEmpty = (p.rtlsOf b).isEmpty) ∧
        (∀ b x, (x < p.objs.length ∨ p.objs.length + (phiOperands defs).length ≤ x) →
          q.occurs b x = p.occurs b x) ∧
        ∀ i, i < (phiOperands defs).length → ∃ b, 0 < q.occurs b (p.objs.length + i)
  | [], p, _ => ⟨p, rfl, by simp [phiOperands], rfl, rfl, fun _ => rfl, fun _ _ _ => rfl,
      fun i hi => by simp [phiOperands] at hi⟩
  | rr :: rest, p, ht => by
    cases he : rr.e with
    | none =>
      obtain ⟨q, h1, h2, h3, h4, h5, h6, h7⟩ := insertCopies_spec env t rest p
        (fun r hr => ht r (List.mem_cons_of_mem _ hr))
      have hops : phiOperands (rr :: rest) = phiOperands rest := by simp [phiOperands, he]
      rw [hops]
      exact ⟨q, by simp only [insertCopies, he, h1], h2, h3, h4, h5, h6, h7⟩
    | some e =>
      obtain ⟨p1, k1, k2, k3, k4, k5, b0, k6⟩ := UserProc.insertAssignAfter_spec env p rr.defn
        t e (ht rr (List.mem_cons_self _ _) (by simp [he]))
      have hlen : (phiOperands (rr :: rest)).length = (phiOperands rest).length + 1 := by
        simp [phiOperands, he]
      have hf : p.Frame p1 := SsaProc.Frame.of_append p p1 _ k2
        (by simp [Statement.isPhi]) k3 k5 (fun b x hx => by
          rw [k6]
          have : ¬ x = p.objs.length := Nat.ne_of_lt hx
          simp [this])
      obtain ⟨q, h1, h2, h3, h4, h5, h6, h7⟩ := insertCopies_spec env t rest p1
        (fun r hr hne => by
          rw [SsaProc.targetOk_of_frame hf]
          exact ht r (List.mem_cons_of_mem _ hr) hne)
      have hl1 : p1.objs.length = p.objs.length + 1 := by rw [k2]; simp
      refine ⟨q, by simp only [insertCopies, he, k1, h1], ?_, h3.trans k3, h4.trans k4,
        fun b => (h5 b).trans (k5 b), fun b x hx => ?_, fun i hi => ?_⟩
      · rw [h2, k2]
        simp [phiOperands, he]
      · rw [h6 b x (by omega), k6]
        have : ¬ x = p.objs.length := by omega
        simp [this]
      · cases i with
        | zero =>
          refine ⟨b0, ?_⟩
          rw [Nat.add_zero, h6 b0 _ (Or.inl (by omega)), k6]
          simp
        | succ j =>
          obtain ⟨b, hb⟩ := h7 j (by omega)
          refine ⟨b, ?_⟩
          have e1 : p.objs.length + (j + 1) = p1.objs.length + j := by omega
          rw [e1]
          exact hb

theorem phiParamsLoop_some (f : Exp) : ∀ (defs : List PhiInfo),
    phiParamsLoop defs (some f) = (some f, (phiOperands defs).all (fun x => x == f))
  | [] => rfl
  | uu :: rest => by
    cases he : uu.e with
    | none => simp [phiParamsLoop, he, phiOperands, phiParamsLoop_some f rest]
    | some e =>
      by_cases h : e = f
      · simp [phiParamsLoop, he, phiOperands, h, phiParamsLoop_some f rest]
      · simp [phiParamsLoop, he, phiOperands, h]

theorem phiParamsLoop_none : ∀ (defs : List PhiInfo),
    phiParamsLoop defs none =
      match phiOperands defs with
      | [] => (none, true)
      | e :: rest => (some e, rest.all (fun x => x == e))
  | [] => rfl
  | uu :: rest => by
    cases he : uu.e with
    | none =>
      have := phiParamsLoop_none rest
      simp only [phiParamsLoop, he, phiOperands, List.filterMap_cons] at this ⊢
      exact this
    | some e =>
      simp only [phiParamsLoop, he, phiOperands, List.filterMap_cons]
      exact phiParamsLoop_some e rest

theorem removePhi_empty {σ : Type} (env : SsaEnv σ) (p : SsaProc σ) (s : Nat) (ty : Ty)
    (lhs : Exp) (bb : Option Nat)
    (h : p.objs[s]? = some { stmt := .phiAssign ty lhs [], bb := bb }) :
    removePhi env p s = UserProc.removeStatement env p s := by
  simp [removePhi, h]

theorem removePhi_same {σ : Type} (env : SsaEnv σ) (p : SsaProc σ) (s : Nat) (ty : Ty)
    (lhs : Exp) (defs : List PhiInfo) (bb : Option Nat) (e : Exp)
    (h : p.objs[s]? = some { stmt := .phiAssign ty lhs defs, bb := bb })
    (h2 : 2 ≤ defs.length) (hne : phiOperands defs ≠ [])
    (hall : ∀ x ∈ phiOperands defs, x = e) :
    removePhi env p s =
      if lhs = e then UserProc.removeStatement env p s
      else some (PhiAssign.convertToAssign p s e) := by
  have hd : defs.isEmpty = false := by
    cases defs with
    | nil => simp at h2
    | cons _ _ => rfl
  have hl : defs.length > 1 := h2
  have hloop : phiParamsLoop defs none = (some e, true) := by
    rw [phiParamsLoop_none]
    cases ho : phiOperands defs with
    | nil => exact absurd ho hne
    | cons a rest =>
      rw [ho] at hall
      have ha : a = e := hall a (List.mem_cons_self _ _)
      subst ha
      have hr : rest.all (fun x => x == a) = true :=
        List.all_eq_true.2 (fun x hx => by simp [hall x (List.mem_cons_of_mem _ hx)])
      simp [hr]
  simp only [removePhi, h, hd, hl, hloop, if_true, Bool.false_eq_true, if_false, beq_iff_eq]

theorem removePhi_other {σ : Type} (env : SsaEnv σ) (p : SsaProc σ) (s : Nat) (ty : Ty)
    (lhs : Exp) (defs : List PhiInfo) (bb : Option Nat)
    (h : p.objs[s]? = some { stmt := .phiAssign ty lhs defs, bb := bb })
    (hd : defs ≠ [])
    (hc : defs.length = 1 ∨
      ¬ ∃ e, phiOperands defs ≠ [] ∧ ∀ x ∈ phiOperands defs, x = e) :
    removePhi env p s =
      match insertCopies env (env.getSymbolExp p.symbols (.ref lhs (some s)) ty).1 defs
          { p with symbols := (env.getSymbolExp p.symbols (.ref lhs (some s)) ty).2 } with
      | none => none
      | some p1 =>
        some (PhiAssign.convertToAssign p1 s
          (env.getSymbolExp p.symbols (.ref lhs (some s)) ty).1) := by
  have hd2 : defs.isEmpty = false := by
    cases defs with
    | nil => exact absurd rfl hd
    | cons _ _ => rfl
  by_cases hl : defs.length > 1
  · have hc2 : ¬ ∃ e, phiOperands defs ≠ [] ∧ ∀ x ∈ phiOperands defs, x = e := by
      rcases hc with hc | hc
      · omega
      · exact hc
    have hloop : ∀ f, phiParamsLoop defs none ≠ (some f, true) := by
      intro f
      rw [phiParamsLoop_none]
      cases ho : phiOperands defs with
      | nil => simp
      | cons a rest =>
        intro heq
        simp only [Prod.mk.injEq, Option.some.injEq] at heq
        apply hc2
        refine ⟨a, by simp [ho], fun x hx => ?_⟩
        rw [ho] at hx
        rcases List.mem_cons.1 hx with hx | hx
        · exact hx
        · have := List.all_eq_true.1 heq.2 x hx
          simpa using this
    have hm : ∀ (r : Option Exp × Bool) (A : Exp → Option (SsaProc σ))
        (B : Option (SsaProc σ)), (∀ f, r ≠ (some f, true)) →
        (match r with
          | (some first, true) => A first
          | _ => B) = B := by
      intro r A B hr
      rcases r with ⟨_ | f, _ | _⟩
      · rfl
      · rfl
      · rfl
      · exact absurd rfl (hr f)
    simp only [removePhi, h, hd2, hl, if_true, Bool.false_eq_true, if_false] <;>
      first | rfl | exact hm _ _ _ hloop
  · have hm : ∀ (A : Exp → Option (SsaProc σ)) (B : Option (SsaProc σ)),
        (match ((none, true) : Option Exp × Bool) with
          | (some first, true) => A first
          | _ => B) = B := fun _ _ => rfl
    simp only [removePhi, h, hd2, hl, Bool.false_eq_true, if_false] <;>
      first | rfl | exact hm _ _

theorem removePhi_notPhi {σ : Type} (env : SsaEnv σ) (p : SsaProc σ) (s : Nat) (o : StmtObj)
    (h : p.objs[s]? = some o) (hp : o.stmt.isPhi = false) : removePhi env p s = some p := by
  obtain ⟨st, bb⟩ := o
  cases st <;> simp_all [removePhi, Statement.isPhi]

/-- What one round of the last loop of `fromSSAform` does for a statement object of a sound
procedure. -/
theorem removePhi_spec {σ : Type} (env : SsaEnv σ) (p : SsaProc σ) (s : Nat) (hp : p.Sound)
    (hs : s < p.objs.length) :
    ∃ q, removePhi env p s = some q ∧ p.Frame q ∧
      (q.isPhi s = true → ∀ b, q.occurs b s = 0) ∧
      ∀ x ∈ q.getStatements, x ∈ p.getStatements ∨ x < q.objs.length := by
  obtain ⟨o, ho⟩ : ∃ o, p.objs[s]? = some o := ⟨p.objs[s], List.getElem?_eq_getElem hs⟩
  by_cases hphi : o.stmt.isPhi = false
  · refine ⟨p, removePhi_notPhi env p s o ho hphi, SsaProc.Frame.refl p, fun h => ?_,
      fun x hx => Or.inl hx⟩
    simp [SsaProc.isPhi, SsaProc.stmtOf, ho, hphi] at h
  · obtain ⟨st, bb⟩ := o
    cases st with
    | assign _ _ _ => exact absurd rfl hphi
    | implicitAssign _ _ => exact absurd rfl hphi
    | other => exact absurd rfl hphi
    | phiAssign ty lhs defs =>
      obtain ⟨i1, i2, i3, _⟩ := p.isPhi_of_getElem s ty lhs defs bb ho
      obtain ⟨b0, hb0, hocc⟩ := hp.phiBB s i1
      have hrem : ∃ q, UserProc.removeStatement env p s = some q ∧ p.Frame q ∧
          (q.isPhi s = true → ∀ b, q.occurs b s = 0) ∧
          ∀ x ∈ q.getStatements, x ∈ p.getStatements ∨ x < q.objs.length := by
        obtain ⟨q, r1, r2, r3, r4, r5⟩ := UserProc.removeStatement_frame env p s b0 hb0 hocc
        refine ⟨q, r1, r2, fun _ => r4, fun x hx => Or.inl ?_⟩
        obtain ⟨b, hb⟩ := (q.mem_getStatements x).1 hx
        refine (p.mem_getStatements x).2 ⟨b, ?_⟩
        by_cases hxs : x = s
        · rw [hxs, r4 b] at hb
          exact absurd hb (Nat.lt_irrefl 0)
        · rw [r5 b x hxs] at hb
          exact hb
      by_cases hd : defs = []
      · subst hd
        rw [removePhi_empty env p s ty lhs bb ho]
        exact hrem
      · by_cases hc : 2 ≤ defs.length ∧
            ∃ e, phiOperands defs ≠ [] ∧ ∀ x ∈ phiOperands defs, x = e
        · obtain ⟨h2, e, hne, hall⟩ := hc
          rw [removePhi_same env p s ty lhs defs bb e ho h2 hne hall]
          by_cases hl : lhs = e
          · rw [if_pos hl]
            exact hrem
          · rw [if_neg hl]
            obtain ⟨c1, c2, _, c4⟩ := PhiAssign.convertToAssign_frame p s e ty lhs defs bb ho
            refine ⟨_, rfl, c1, fun h => ?_, fun x hx => Or.inl ?_⟩
            · rw [c2] at h
              cases h
            · simpa [SsaProc.getStatements, c4] using hx
        · have hc1 : defs.length = 1 ∨
              ¬ ∃ e, phiOperands defs ≠ [] ∧ ∀ x ∈ phiOperands defs, x = e := by
            by_cases h2 : 2 ≤ defs.length
            · exact Or.inr (fun h => hc ⟨h2, h⟩)
            · left
              cases defs with
              | nil => exact absurd rfl hd
              | cons _ t =>
                cases t with
                | nil => rfl
                | cons _ _ => simp at h2
          rw [removePhi_other env p s ty lhs defs bb ho hd hc1]
          obtain ⟨p1, k1, k2, k3, _, k5, k6, _⟩ := insertCopies_spec env
            (env.getSymbolExp p.symbols (.ref lhs (some s)) ty).1 defs
            { p with symbols := (env.getSymbolExp p.symbols (.ref lhs (some s)) ty).2 }
            (fun rr hrr hne => hp.phiDefs s rr (by rw [i3]; exact hrr) hne)
          have hf1 : p.Frame p1 := SsaProc.Frame.of_append p p1 _ k2
            (by simp [Statement.isPhi]) k3 k5 (fun b x hx => k6 b x (Or.inl hx))
          have ho1 : p1.objs[s]? = some { stmt := .phiAssign ty lhs defs, bb := bb } := by
            rw [k2]
            show (p.objs ++ _)[s]? = _
            rw [List.getElem?_append_left hs]
            exact ho
          obtain ⟨c1, c2, c3, c4⟩ := PhiAssign.convertToAssign_frame p1 s
            (env.getSymbolExp p.symbols (.ref lhs (some s)) ty).1 ty lhs defs bb ho1
          rw [k1]
          refine ⟨_, rfl, hf1.trans c1, fun h => ?_, fun x hx => ?_⟩
          · rw [c2] at h
            cases h
          · have hx1 : x ∈ p1.getStatements := by
              simpa [SsaProc.getStatements, c4] using hx
            have hlen : (PhiAssign.convertToAssign p1 s
                (env.getSymbolExp p.symbols (.ref lhs (some s)) ty).1).objs.length =
                p.objs.length + (phiOperands defs).length := by
              rw [c3, k2]
              simp
            by_cases hx2 : x < p.objs.length + (phiOperands defs).length
            · exact Or.inr (by rw [hlen]; exact hx2)
            · left
              obtain ⟨b, hb⟩ := (p1.mem_getStatements x).1 hx1
              rw [k6 b x (Or.inr (Nat.le_of_not_lt hx2))] at hb
              exact (p.mem_getStatements x).2 ⟨b, hb⟩

theorem removePhis_spec {σ : Type} (env : SsaEnv σ) : ∀ (todo : List Nat) (p : SsaProc σ),
    p.Sound → (∀ s ∈ todo, s < p.objs.length) →
    (∀ s ∈ p.getStatements, s < p.objs.length) →
    (∀ s ∈ p.getStatements, p.isPhi s = true → s ∈ todo) →
    ∃ q, removePhis env todo p = some q ∧ p.Frame q ∧
      (∀ s ∈ q.getStatements, s < q.objs.length) ∧
      ∀ s ∈ q.getStatements, q.isPhi s = false
  | [], p, _, _, hobj, hall => ⟨p, rfl, SsaProc.Frame.refl p, hobj, fun s hs => by
      cases h : p.isPhi s with
      | false => rfl
      | true => exact absurd (hall s hs h) (List.not_mem_nil s)⟩
  | s :: rest, p, hp, hlt, hobj, hall => by
    obtain ⟨p1, h1, h2, h3, h4⟩ := removePhi_spec env p s hp (hlt s (List.mem_cons_self _ _))
    have hobj1 : ∀ x ∈ p1.getStatements, x < p1.objs.length := fun x hx => by
      rcases h4 x hx with h | h
      · exact Nat.lt_of_lt_of_le (hobj x h) h2.len
      · exact h
    obtain ⟨q, k1, k2, k3, k4⟩ := removePhis_spec env rest p1 (hp.of_frame h2)
      (fun x hx => Nat.lt_of_lt_of_le (hlt x (List.mem_cons_of_mem _ hx)) h2.len) hobj1
      (fun x hx hphi => by
        obtain ⟨b, hb⟩ := (p1.mem_getStatements x).1 hx
        have hxs : x ≠ s := by
          intro e
          subst e
          rw [h3 hphi b] at hb
          exact Nat.lt_irrefl 0 hb
        have e := h2.phi x hphi
        have hq : p.isPhi x = true := by rw [← SsaProc.isPhi_of_stmtOf e]; exact hphi
        have hm : x ∈ p.getStatements :=
          (p.mem_getStatements x).2 ⟨b, Nat.lt_of_lt_of_le hb (h2.occ b x hphi)⟩
        rcases List.mem_cons.1 (hall x hm hq) with h | h
        · exact absurd h hxs
        · exact h)
    exact ⟨q, by simp only [removePhis, h1, k1], h2.trans k2, k3, k4⟩

theorem SsaProc.wellFormed_iff {σ : Type} (p : SsaProc σ) :
    p.wellFormed = true ↔ ((∀ s ∈ p.getStatements, s < p.objs.length) ∧ p.Sound) := by
  have hphiLt : ∀ s, p.isPhi s = true → s < p.objs.length := fun s hs => by
    by_contra hn
    simp [SsaProc.isPhi, SsaProc.stmtOf, List.getElem?_eq_none (Nat.le_of_not_lt hn)] at hs
  have hown : ∀ s, p.inOwnBB s = true ↔
      ∃ b, p.bbOf s = some b ∧ ∀ b1, p.occurs b1 s ≤ if b1 = b then 1 else 0 := fun s => by
    unfold SsaProc.inOwnBB
    cases hb : p.bbOf s with
    | none => simp
    | some b =>
      simp only [List.all_eq_true, List.mem_range, decide_eq_true_eq, Option.some.injEq,
        exists_eq_left']
      constructor
      · intro h b1
        by_cases hb1 : b1 < p.cfg.length
        · exact h b1 hb1
        · rw [p.occurs_of_le b1 s (Nat.le_of_not_lt hb1)]
          exact Nat.zero_le _
      · exact fun h b1 _ => h b1
  simp only [SsaProc.wellFormed, Bool.and_eq_true, List.all_eq_true, decide_eq_true_eq,
    List.mem_range, Bool.or_eq_true, Bool.not_eq_true', Option.isNone_iff_eq_none]
  constructor
  · rintro ⟨h1, h2⟩
    refine ⟨h1, ⟨fun s hs => ?_, fun s rr hrr hne => ?_⟩⟩
    · rcases h2 s (hphiLt s hs) with h | h
      · rw [hs] at h; cases h
      · exact (hown s).1 h.1
    · have hs := SsaProc.isPhi_of_phiDefsOf hrr
      rcases h2 s (hphiLt s hs) with h | h
      · rw [hs] at h; cases h
      · rcases h.2 rr hrr with h3 | h3
        · exact absurd h3 hne
        · exact h3
  · rintro ⟨h1, h2⟩
    refine ⟨h1, fun s _ => ?_⟩
    cases hs : p.isPhi s with
    | false => exact Or.inl rfl
    | true =>
      refine Or.inr ⟨(hown s).2 (h2.phiBB s hs), fun rr hrr => ?_⟩
      cases he : rr.e with
      | none => exact Or.inl rfl
      | some e => exact Or.inr (h2.phiDefs s rr hrr (by simp [he]))

/-- C30 (counterexample): the phi `r24 := phi(r25)` with a single operand does
not become the copy `r24 := r25`; the copy `tmp := r25` is put after the definition of the
operand and the phi becomes `r24 := tmp`. -/
theorem C30_single_operand_phi_gets_temporary :
    (UserProc.fromSSAform sampleSsaEnv sampleSinglePhi).map
        (fun q => (q.objs.map (fun o => o.stmt), q.cfg)) =
      some ([.assign (.integer 32 0) (Exp.regOf 25) (.const 5),
          .assign (.integer 32 0) (Exp.regOf 24) (.unary .opLocal (.strConst "tmp")),
          .assign .void (.unary .opLocal (.strConst "tmp")) (Exp.regOf 25)],
        [[[0, 2]], [[1]]]) := by
  rfl

/-- C30 (amended): in a well-formed procedure, one round of the last loop of `fromSSAform` on
a phi-assignment with at least one operand does the following. When the phi has two or more
operands and all its non-null operand expressions are equal to one expression `e`, the phi
is removed from the CFG if its left-hand side equals `e` (no other statement is touched) and
otherwise becomes in place the assignment of `e` to its left-hand side. In every other case,
which includes every phi with a single operand, one new assignment of the operand to the
temporary is made per non-null operand, each is put into the CFG, and the phi becomes in
place the assignment of the temporary to its left-hand side. Every round leaves the procedure
well-formed, and the whole loop returns with no phi-assignment left among the statements of
the procedure. -/
theorem C30_phi_removal {σ : Type} (env : SsaEnv σ) (p : SsaProc σ)
    (hw : p.wellFormed = true) :
    (∀ s ty lhs defs bb,
      p.objs[s]? = some { stmt := .phiAssign ty lhs defs, bb := bb } → defs ≠ [] →
      (∀ e, 2 ≤ defs.length → phiOperands defs ≠ [] → (∀ x ∈ phiOperands defs, x = e) →
        ∃ q, removePhi env p s = some q ∧
          if lhs = e then
            q.objs = p.objs ∧ s ∉ q.getStatements ∧
              ∀ b x, x ≠ s → q.occurs b x = p.occurs b x
          else q.objs = p.objs.set s (StmtObj.mk (.assign ty lhs e) bb) ∧ q.cfg = p.cfg) ∧
      ((defs.length = 1 ∨ ¬ ∃ e, phiOperands defs ≠ [] ∧ ∀ x ∈ phiOperands defs, x = e) →
        ∃ q, removePhi env p s = some q ∧
          q.objs = (p.objs ++ (phiOperands defs).map (fun e =>
              StmtObj.mk (.assign
                  (env.assignType (env.getSymbolExp p.symbols (.ref lhs (some s)) ty).1 e)
                  (env.getSymbolExp p.symbols (.ref lhs (some s)) ty).1 e) none)).set s
            (StmtObj.mk
              (.assign ty lhs (env.getSymbolExp p.symbols (.ref lhs (some s)) ty).1) bb) ∧
          (∀ i, i < (phiOperands defs).length → p.objs.length + i ∈ q.getStatements) ∧
          ∀ b x, x < p.objs.length → q.occurs b x = p.occurs b x)) ∧
    (∀ s q, removePhi env p s = some q → q.wellFormed = true) ∧
    ∃ q, UserProc.fromSSAform env p = some q ∧ ∀ s ∈ q.getStatements, q.isPhi s = false := by
  obtain ⟨hobj, hp⟩ := (p.wellFormed_iff).1 hw
  refine ⟨fun s ty lhs defs bb ho hd => ⟨fun e h2 hne hall => ?_, fun hc => ?_⟩,
    fun s q hq => ?_, ?_⟩
  · obtain ⟨i1, i2, _, _⟩ := p.isPhi_of_getElem s ty lhs defs bb ho
    rw [removePhi_same env p s ty lhs defs bb e ho h2 hne hall]
    by_cases hl : lhs = e
    · obtain ⟨b0, hb0, hocc⟩ := hp.phiBB s i1
      obtain ⟨q, r1, _, r3, r4, r5⟩ := UserProc.removeStatement_frame env p s b0 hb0 hocc
      refine ⟨q, by rw [if_pos hl]; exact r1, ?_⟩
      rw [if_pos hl]
      refine ⟨r3, fun hm => ?_, r5⟩
      obtain ⟨b, hb⟩ := (q.mem_getStatements s).1 hm
      rw [r4 b] at hb
      exact Nat.lt_irrefl 0 hb
    · obtain ⟨_, _, c3, c4⟩ := PhiAssign.convertToAssign_frame p s e ty lhs defs bb ho
      refine ⟨_, by rw [if_neg hl], ?_⟩
      rw [if_neg hl]
      exact ⟨c3, c4⟩
  · obtain ⟨_, _, i3, hs⟩ := p.isPhi_of_getElem s ty lhs defs bb ho
    rw [removePhi_other env p s ty lhs defs bb ho hd hc]
    obtain ⟨p1, k1, k2, _, _, _, k6, k7⟩ := insertCopies_spec env
      (env.getSymbolExp p.symbols (.ref lhs (some s)) ty).1 defs
      { p with symbols := (env.getSymbolExp p.symbols (.ref lhs (some s)) ty).2 }
      (fun rr hrr hne => hp.phiDefs s rr (by rw [i3]; exact hrr) hne)
    have ho1 : p1.objs[s]? = some { stmt := .phiAssign ty lhs defs, bb := bb } := by
      rw [k2]
      show (p.objs ++ _)[s]? = _
      rw [List.getElem?_append_left hs]
      exact ho
    obtain ⟨_, _, c3, c4⟩ := PhiAssign.convertToAssign_frame p1 s
      (env.getSymbolExp p.symbols (.ref lhs (some s)) ty).1 ty lhs defs bb ho1
    have hocc : ∀ b x, (PhiAssign.convertToAssign p1 s
        (env.getSymbolExp p.symbols (.ref lhs (some s)) ty).1).occurs b x = p1.occurs b x :=
      fun b x => by simp only [SsaProc.occurs, SsaProc.rtlsOf, c4]
    rw [k1]
    refine ⟨_, rfl, by rw [c3, k2], fun i hi => ?_, fun b x hx => ?_⟩
    · obtain ⟨b, hb⟩ := k7 i hi
      exact (SsaProc.mem_getStatements _ _).2 ⟨b, by rw [hocc]; exact hb⟩
    · rw [hocc]
      exact k6 b x (Or.inl hx)
  · cases ho : p.objs[s]? with
    | none => simp [removePhi, ho] at hq
    | some o =>
      have hs : s < p.objs.length := by
        by_contra hn
        rw [List.getElem?_eq_none (Nat.le_of_not_lt hn)] at ho
        cases ho
      obtain ⟨q1, h1, h2, _, h4⟩ := removePhi_spec env p s hp hs
      rw [h1] at hq
      cases hq
      refine (SsaProc.wellFormed_iff _).2 ⟨fun x hx => ?_, hp.of_frame h2⟩
      rcases h4 x hx with h | h
      · exact Nat.lt_of_lt_of_le (hobj x h) h2.len
      · exact h
  · obtain ⟨q, h1, _, _, h4⟩ := removePhis_spec env p.getStatements p hp hobj hobj
      (fun s hs _ => hs)
    exact ⟨q, h1, h4⟩

/-- C30 (witness): the procedure with the phi `r24 := phi(r24, r24)` is well-formed, so
the phi is removed and the loop ends without a phi. -/
theorem C30_phi_removal_witness :
    sampleSamePhi.wellFormed = true ∧
    ∃ q, UserProc.fromSSAform sampleSsaEnv sampleSamePhi = some q ∧
      ∀ s ∈ q.getStatements, q.isPhi s = false :=
  ⟨by decide, (C30_phi_removal sampleSsaEnv sampleSamePhi (by decide)).2.2⟩

/-! Theorems: generic compounds, group statuses, sums and differences, the Palm loader,
symmetry, the pointer counter and the registry of named types -/

/-! ## C31: updateGenericMember on a generic compound -/

/-- C31 (the code at the failing input): on the generic compound without members,
`updateGenericMember(0, Integer(32, signed), ch)` returns and leaves the compound without
members, only the number of the next generic member has gone up: `getTypeAtOffset(0)` is still
null afterwards.  The same holds at byte offset 4 of a generic compound whose one member, an
`int`, ends before it. -/
theorem C31_generic_member_is_not_added :
    (CompoundType.updateGenericMember sampleEnv 10 noGlobals emptyGeneric 0 (.integer 32 1)
        false).map (fun r => (r.1, r.2.1)) = some (.compound .nil true 2, false) ∧
    CompoundType.getTypeAtOffset (Ty.getSize sampleEnv [] 10) .nil 0 = some none ∧
    (CompoundType.updateGenericMember sampleEnv 10 noGlobals
        (.compound (.cons (.integer 32 1) "member1" none .nil) true 2) 4 (.float 32)
        false).map (fun r => (r.1, r.2.1)) =
      some (.compound (.cons (.integer 32 1) "member1" none .nil) true 3, false) ∧
    CompoundType.getTypeAtOffset (Ty.getSize sampleEnv [] 10)
      (.cons (.integer 32 1) "member1" none .nil) 32 = some none :=
  ⟨rfl, rfl, rfl, rfl⟩

/-! ## C40: setTypeAtOffset keeps the layout -/

/-- The first member is at bit offset 0. -/
theorem Members.offsetOf_zero (sz : Ty → Option Nat) (ms : Members) :
    Members.offsetOf sz ms 0 = some 0 := by
  cases ms <;> rfl

/-- What the replacement of the member at position `i` by a type that is no larger, with the
padding after it, keeps. -/
theorem Members.setType_layout (sz : Ty → Option Nat) (ty : Ty) (same : Bool)
    (oldsz newsz : Nat) (hn : sz ty = some newsz) (hle : newsz ≤ oldsz)
    (hs : sz (.size (oldsz - newsz)) = some (oldsz - newsz)) :
    ∀ (ms : Members) (i : Nat) (m : Ty) (total : Nat), ms.get? i = some m →
      sz m = some oldsz → Members.sumSizes sz ms = some total →
      (Members.sumSizes sz (if newsz < oldsz then
          Members.insertAt (Members.setType ms i ty same) (i + 1) (.size (oldsz - newsz)) "pad"
        else Members.setType ms i ty same) = some total) ∧
      ((if newsz < oldsz then
          Members.insertAt (Members.setType ms i ty same) (i + 1) (.size (oldsz - newsz)) "pad"
        else Members.setType ms i ty same).get? i = some ty) ∧
      (newsz < oldsz →
        (Members.insertAt (Members.setType ms i ty same) (i + 1) (.size (oldsz - newsz))
            "pad").get? (i + 1) = some (.size (oldsz - newsz)) ∧
        (Members.insertAt (Members.setType ms i ty same) (i + 1) (.size (oldsz - newsz))
            "pad").getName? (i + 1) = some "pad") ∧
      ∀ j, i < j →
        (if newsz < oldsz then
            Members.insertAt (Members.setType ms i ty same) (i + 1) (.size (oldsz - newsz)) "pad"
          else Members.setType ms i ty same).get? (j + if newsz < oldsz then 1 else 0) =
          ms.get? j ∧
        (if newsz < oldsz then
            Members.insertAt (Members.setType ms i ty same) (i + 1) (.size (oldsz - newsz)) "pad"
          else Members.setType ms i ty same).getName? (j + if newsz < oldsz then 1 else 0) =
          ms.getName? j ∧
        Members.offsetOf sz (if newsz < oldsz then
            Members.insertAt (Members.setType ms i ty same) (i + 1) (.size (oldsz - newsz)) "pad"
          else Members.setType ms i ty same) (j + if newsz < oldsz then 1 else 0) =
          Members.offsetOf sz ms j
  | .nil, i, m, total, hg, _, _ => by cases i <;> simp [Members.get?] at hg
  | .cons t nm o tl, 0, m, total, hg, ho, ht => by
    simp only [Members.get?, Option.some.injEq] at hg
    subst hg
    simp only [Members.sumSizes, ho] at ht
    cases hr : Members.sumSizes sz tl with
    | none => simp [hr] at ht
    | some r =>
      simp only [hr, Option.some.injEq] at ht
      by_cases hlt : newsz < oldsz
      · simp only [hlt, if_true, Members.setType, Members.insertAt]
        refine ⟨by simp only [Members.sumSizes, hn, hs, hr, Option.some.injEq]; omega, rfl,
          fun _ => ⟨rfl, rfl⟩, fun j hj => ?_⟩
        obtain ⟨k, rfl⟩ : ∃ k, j = k + 1 := ⟨j - 1, by omega⟩
        refine ⟨rfl, rfl, ?_⟩
        simp only [Members.offsetOf, hn, hs, ho]
        cases Members.offsetOf sz tl k with
        | none => rfl
        | some q => simp only [Option.some.injEq]; omega
      · have he : newsz = oldsz := by omega
        simp only [hlt, if_false, Members.setType, Nat.add_zero]
        refine ⟨by simp only [Members.sumSizes, hn, hr, Option.some.injEq]; omega, rfl,
          fun h => h.elim, fun j hj => ?_⟩
        obtain ⟨k, rfl⟩ : ∃ k, j = k + 1 := ⟨j - 1, by omega⟩
        refine ⟨rfl, rfl, ?_⟩
        simp only [Members.offsetOf, hn, ho, he]
  | .cons t nm o tl, i + 1, m, total, hg, ho, ht => by
    simp only [Members.get?] at hg
    simp only [Members.sumSizes] at ht
    cases hst : sz t with
    | none => simp [hst] at ht
    | some s =>
      cases hr : Members.sumSizes sz tl with
      | none => simp [hst, hr] at ht
      | some r =>
        simp only [hst, hr, Option.some.injEq] at ht
        obtain ⟨h1, h2, h3, h4⟩ := Members.setType_layout sz ty same oldsz newsz hn hle hs tl i m
          r hg ho hr
        by_cases hlt : newsz < oldsz
        · simp only [hlt, if_true, Members.setType, Members.insertAt] at h1 h2 h3 h4 ⊢
          refine ⟨by simp only [Members.sumSizes, hst, h1, Option.some.injEq]; exact ht, h2,
            fun _ => h3 trivial, fun j hj => ?_⟩
          obtain ⟨k, rfl⟩ : ∃ k, j = k + 1 := ⟨j - 1, by omega⟩
          obtain ⟨k1, k2, k3⟩ := h4 k (by omega)
          refine ⟨k1, k2, ?_⟩
          simp only [Members.offsetOf, hst, k3]
        · simp only [hlt, if_false, Members.setType, Nat.add_zero] at h1 h2 h4 ⊢
          refine ⟨by simp only [Members.sumSizes, hst, h1, Option.some.injEq]; exact ht, h2,
            fun h => h.elim, fun j hj => ?_⟩
          obtain ⟨k, rfl⟩ : ∃ k, j = k + 1 := ⟨j - 1, by omega⟩
          obtain ⟨k1, k2, k3⟩ := h4 k (by omega)
          refine ⟨k1, k2, ?_⟩
          simp only [Members.offsetOf, hst, k3]

/-- The size of a Size type is its number of bits. -/
theorem Ty.getSize_size (env : Env) (nt : List (String × Ty)) (fuel k : Nat) :
    Ty.getSize env nt fuel (.size k) = some k := by
  cases fuel <;> rfl

/-- C40: let the member `m` at position `i` cover the bit offset `n` of a compound whose size
is known, and let `ty` be no larger than `m`.  Then `setTypeAtOffset(n, ty)` returns, the
size of the compound is as before, the member at position `i` has the type `ty`, when `ty` is
smaller the member after it is a `SizeType` of the difference of the sizes with the name
`pad`, and every member after `m` keeps its type, its name and its bit offset (one position
further on when the padding was inserted).  When no member covers a bit offset, the compound
is left as it was. -/
theorem C40_setTypeAtOffset_keeps_layout (env : Env) (nt : List (String × Ty)) (fuel : Nat)
    (types : Members) (generic : Bool) (nextGenericMemberNum : Nat) (n : Nat) (ty : Ty)
    (same : Bool) (i : Nat) (m : Ty) (oldsz newsz total : Nat)
    (hi : Members.indexAtOffset (Ty.getSize env nt fuel) types 0 n = some (some i))
    (hm : types.get? i = some m) (ho : Ty.getSize env nt fuel m = some oldsz)
    (hn : Ty.getSize env nt fuel ty = some newsz) (hle : newsz ≤ oldsz)
    (ht : Ty.getSize env nt (fuel + 1) (.compound types generic nextGenericMemberNum) =
      some total) :
    (∃ types1, CompoundType.setTypeAtOffset (Ty.getSize env nt fuel) types n ty same =
        some types1 ∧
      Ty.getSize env nt (fuel + 1) (.compound types1 generic nextGenericMemberNum) =
        some total ∧
      types1.get? i = some ty ∧
      (newsz < oldsz → types1.get? (i + 1) = some (.size (oldsz - newsz)) ∧
        types1.getName? (i + 1) = some "pad") ∧
      ∀ j, i < j →
        types1.get? (j + if newsz < oldsz then 1 else 0) = types.get? j ∧
        types1.getName? (j + if newsz < oldsz then 1 else 0) = types.getName? j ∧
        Members.offsetOf (Ty.getSize env nt fuel) types1 (j + if newsz < oldsz then 1 else 0) =
          Members.offsetOf (Ty.getSize env nt fuel) types j) ∧
    ∀ n1, Members.indexAtOffset (Ty.getSize env nt fuel) types 0 n1 = some none →
      CompoundType.setTypeAtOffset (Ty.getSize env nt fuel) types n1 ty same = some types := by
  have ht1 : Members.sumSizes (Ty.getSize env nt fuel) types = some total := ht
  obtain ⟨h1, h2, h3, h4⟩ := Members.setType_layout (Ty.getSize env nt fuel) ty same oldsz
    newsz hn hle (Ty.getSize_size env nt fuel _) types i m total hm ho ht1
  have hset : CompoundType.setTypeAtOffset (Ty.getSize env nt fuel) types n ty same =
      some (if newsz < oldsz then
          Members.insertAt (Members.setType types i ty same) (i + 1) (.size (oldsz - newsz)) "pad"
        else Members.setType types i ty same) := by
    simp only [CompoundType.setTypeAtOffset, hi, hm, ho, hn]
    split <;> rfl
  refine ⟨⟨_, hset, h1, h2, fun hlt => ?_, h4⟩,
    fun n1 h => by simp only [CompoundType.setTypeAtOffset, h]⟩
  have := h3 hlt
  simpa only [hlt, if_true] using this

/-- C40 (witness): in `struct \x7b int a; int b; \x7d` the member at bit 0 takes a 16-bit
integer. -/
theorem C40_setTypeAtOffset_keeps_layout_witness :
    CompoundType.setTypeAtOffset (Ty.getSize sampleEnv [] 5) sampleTwoInts 0 (.integer 16 1)
        false =
      some (.cons (.integer 16 1) "a" none (.cons (.size 16) "pad" none
        (.cons (.integer 32 1) "b" none .nil))) ∧
    ∃ types1, CompoundType.setTypeAtOffset (Ty.getSize sampleEnv [] 5) sampleTwoInts 0
        (.integer 16 1) false = some types1 ∧
      Ty.getSize sampleEnv [] 6 (.compound types1 false 1) = some 64 ∧
      types1.get? 0 = some (.integer 16 1) ∧
      ((16 : Nat) < 32 → types1.get? (0 + 1) = some (.size (32 - 16)) ∧
        types1.getName? (0 + 1) = some "pad") ∧
      ∀ j, 0 < j →
        types1.get? (j + if (16 : Nat) < 32 then 1 else 0) = sampleTwoInts.get? j ∧
        types1.getName? (j + if (16 : Nat) < 32 then 1 else 0) = sampleTwoInts.getName? j ∧
        Members.offsetOf (Ty.getSize sampleEnv [] 5) types1
            (j + if (16 : Nat) < 32 then 1 else 0) =
          Members.offsetOf (Ty.getSize sampleEnv [] 5) sampleTwoInts j :=
  ⟨rfl, (C40_setTypeAtOffset_keeps_layout sampleEnv [] 5 sampleTwoInts false 1 0
    (.integer 16 1) false 0 (.integer 32 1) 32 16 64 rfl rfl rfl rfl (by decide) rfl).1⟩

/-! ## C32: the statuses of the members of a recursion group -/

/-- The next element of a set after `last` is the first of those that come after it. -/
theorem ProcSet.next_eq (set : List Nat) (last : Option Nat) :
    ProcSet.next set last = (set.filter (ProcSet.after last)).head? := by
  unfold ProcSet.next
  induction set with
  | nil => rfl
  | cons a as ih =>
    rw [List.find?_cons, List.filter_cons]
    cases last with
    | none => simp [ProcSet.after]
    | some l =>
      by_cases h : l < a
      · simp [ProcSet.after, h]
      · simp only [ProcSet.after, h, decide_False, Bool.false_eq_true, if_false]
        simpa [ProcSet.after] using ih

/-- In a set held in increasing order, the elements after the first of those after `last`
are the rest of them. -/
theorem ProcSet.filter_after (members : List Nat) (hs : members.Pairwise (fun a b => a < b))
    (last : Option Nat) (y : Nat) (rest : List Nat)
    (h : members.filter (ProcSet.after last) = y :: rest) :
    members.filter (ProcSet.after (some y)) = rest := by
  induction members with
  | nil => simp at h
  | cons a as ih =>
    rw [List.pairwise_cons] at hs
    have hall : as.filter (ProcSet.after (some a)) = as :=
      List.filter_eq_self.2 (fun x hx => by simpa [ProcSet.after] using hs.1 x hx)
    rw [List.filter_cons] at h
    cases hp : ProcSet.after last a
    · simp only [hp, Bool.false_eq_true, if_false] at h
      have hy : y ∈ as := by
        have : y ∈ List.filter (ProcSet.after last) as := by
          rw [h]; exact List.mem_cons_self _ _
        exact (List.mem_filter.1 this).1
      have hay := hs.1 y hy
      rw [List.filter_cons]
      have : ProcSet.after (some y) a = false := by
        simp only [ProcSet.after, decide_eq_false_iff_not]
        omega
      simp only [this, Bool.false_eq_true, if_false]
      exact ih hs.2 h
    · simp only [hp, if_true] at h
      injection h with h1 h2
      subst h1
      rw [List.filter_cons]
      have : ProcSet.after (some a) a = false := by simp [ProcSet.after]
      simp only [this, Bool.false_eq_true, if_false]
      rw [hall, ← h2]
      refine (List.filter_eq_self.2 (fun x hx => ?_)).symm
      cases last with
      | none => rfl
      | some l =>
        have hl : l < a := by simpa [ProcSet.after] using hp
        have := hs.1 x hx
        simp only [ProcSet.after, decide_eq_true_eq]
        omega

/-- A loop over a set that its body leaves as it is visits the elements in their order. -/
theorem forProcSetTraced_fold (body : TracedState → Nat → Option TracedState)
    (f : TracedState → Nat → TracedState) (ptr : Nat) (members : List Nat)
    (hs : members.Pairwise (fun a b => a < b))
    (hb : ∀ t x, t.st.getSet ptr = some members →
      body t x = some (f t x) ∧ (f t x).st.getSet ptr = some members) :
    ∀ (rest : List Nat) (fuel : Nat) (t : TracedState) (last : Option Nat),
      t.st.getSet ptr = some members → rest.length < fuel →
      members.filter (ProcSet.after last) = rest →
      forProcSetTraced body ptr fuel t last = some (rest.foldl f t) ∧
        (rest.foldl f t).st.getSet ptr = some members
  | rest, 0, _, _, _, hf, _ => by omega
  | [], fuel + 1, t, last, hg, _, hr => by
    refine ⟨?_, hg⟩
    simp only [forProcSetTraced, hg, ProcSet.next_eq, hr, List.head?_nil, List.foldl_nil]
  | y :: rest, fuel + 1, t, last, hg, hf, hr => by
    obtain ⟨h1, h2⟩ := hb t y hg
    have hnext := ProcSet.filter_after members hs last y rest hr
    obtain ⟨k1, k2⟩ := forProcSetTraced_fold body f ptr members hs hb rest fuel (f t y)
      (some y) h2 (by simp only [List.length_cons] at hf; omega) hnext
    refine ⟨?_, k2⟩
    simp only [forProcSetTraced, hg, ProcSet.next_eq, hr, List.head?_cons, h1, List.foldl_cons]
    exact k1

/-- The record after a loop whose body adds the calls `ev x` for the element `x`. -/
theorem foldl_statusLog (f : TracedState → Nat → TracedState)
    (ev : Nat → List (Nat × ProcStatus))
    (hf : ∀ t x, (f t x).statusLog = t.statusLog ++ ev x) :
    ∀ (rest : List Nat) (t : TracedState),
      (rest.foldl f t).statusLog = t.statusLog ++ rest.flatMap ev
  | [], t => by simp
  | y :: rest, t => by
    rw [List.foldl_cons, foldl_statusLog f ev hf rest (f t y), hf]
    simp [List.flatMap_cons]

/-- What a loop keeps of the procedures when its body keeps it. -/
theorem foldl_cycleGrp (f : TracedState → Nat → TracedState) (this : Nat)
    (hf : ∀ t x, ((f t x).st.procs this).cycleGrp = (t.st.procs this).cycleGrp) :
    ∀ (rest : List Nat) (t : TracedState),
      ((rest.foldl f t).st.procs this).cycleGrp = (t.st.procs this).cycleGrp
  | [], _ => rfl
  | y :: rest, t => by
    rw [List.foldl_cons, foldl_cycleGrp f this hf rest (f t y), hf]

/-- A change of status keeps the cycle groups. -/
theorem ProgState.setStatus_cycleGrp (st : ProgState) (p : Nat) (s : ProcStatus) (q : Nat) :
    ((st.setStatus p s).procs q).cycleGrp = (st.procs q).cycleGrp := by
  unfold ProgState.setStatus
  by_cases h : q = p
  · simp [h]
  · simp [h]

/-- A new set keeps the sets that exist. -/
theorem ProgState.getSet_newProcSet (st : ProgState) (ptr : Nat) (members : List Nat)
    (h : st.getSet ptr = some members) : st.newProcSet.1.getSet ptr = some members := by
  unfold ProgState.getSet ProgState.newProcSet at *
  simp only [List.get?_eq_getElem?] at h ⊢
  have hlt : ptr < st.sets.length := by
    by_contra hn
    rw [List.getElem?_eq_none (Nat.le_of_not_lt hn)] at h
    cases h
  rw [List.getElem?_append_left hlt]
  exact h

/-- The traced loop and the loop of the driver go through the same states. -/
theorem forProcSetTraced_st (bodyT : TracedState → Nat → Option TracedState)
    (body : ProgState → Nat → Option ProgState) (ptr : Nat)
    (hb : ∀ t x, (bodyT t x).map (fun r => r.st) = body t.st x) :
    ∀ (fuel : Nat) (t : TracedState) (last : Option Nat),
      (forProcSetTraced bodyT ptr fuel t last).map (fun r => r.st) =
        forProcSet body ptr fuel t.st last
  | 0, _, _ => rfl
  | fuel + 1, t, last => by
    simp only [forProcSetTraced, forProcSet]
    cases t.st.getSet ptr with
    | none => rfl
    | some set =>
      dsimp only
      cases ProcSet.next set last with
      | none => rfl
      | some cc =>
        dsimp only
        have h := hb t cc
        cases hT : bodyT t cc with
        | none =>
          rw [hT] at h
          simp only [Option.map_none'] at h
          simp only [← h]
          rfl
        | some t1 =>
          rw [hT] at h
          simp only [Option.map_some'] at h
          simp only [← h]
          exact forProcSetTraced_st bodyT body ptr hb fuel t1 (some cc)

/-- With no indirect jump decoded, the traced `recursionGroupAnalysis` goes through the states
of `recursionGroupAnalysis`. -/
theorem recursionGroupAnalysisTraced_st (env : DriverEnv)
    (decT : TracedState → Nat → Option (TracedState × Option Nat))
    (dec : ProgState → Nat → Option (ProgState × Option Nat)) (fuel : Nat) (t : TracedState)
    (this : Nat) (h3 : ∀ st p, env.decodeIndirectJmp st p = false) :
    (recursionGroupAnalysisTraced env decT fuel t this).map (fun r => r.st) =
      recursionGroupAnalysis env dec fuel t.st this := by
  have e1 : ∀ (u : TracedState),
      (forCycleGrpTraced (fun s curp =>
          some (earlyDecompileTraced
            (initialiseDecompileTraced env (s.setStatus curp .PROC_INCYCLE) curp) curp))
          fuel u this).map (fun r => r.st) =
        forCycleGrp (fun s curp =>
          some (earlyDecompile (initialiseDecompile env (s.setStatus curp .PROC_INCYCLE) curp)
            curp)) fuel u.st this := by
    intro u
    simp only [forCycleGrpTraced, forCycleGrp]
    cases (u.st.procs this).cycleGrp with
    | none => rfl
    | some cg =>
      refine forProcSetTraced_st _ _ cg (fun s x => ?_) fuel u none
      simp only [earlyDecompileTraced, initialiseDecompileTraced, earlyDecompile,
        initialiseDecompile, Option.map_some', TracedState.setStatus]
      cases env.noDecompile <;> rfl
  have e2 : ∀ (u : TracedState),
      (forCycleGrpTraced (middleThenPreserveds env decT) fuel u this).map
          (fun r => r.st) =
        forCycleGrp (fun s curp =>
          match middleDecompile env dec s curp with
          | none => none
          | some (s1, _) => some (s1.setStatus curp .PROC_PRESERVEDS)) fuel u.st this := by
    intro u
    simp only [forCycleGrpTraced, forCycleGrp]
    cases (u.st.procs this).cycleGrp with
    | none => rfl
    | some cg =>
      refine forProcSetTraced_st _ _ cg (fun s x => ?_) fuel u none
      simp only [middleThenPreserveds, middleDecompileTraced, middleDecompile, h3, Bool.false_eq_true, if_false,
        Option.map_some', TracedState.setStatus] <;> rfl
  have e3 : ∀ (u : TracedState),
      (forCycleGrpTraced (fun s p => some (remUnusedStmtEtcTraced env s p)) fuel u this).map
          (fun r => r.st) =
        forCycleGrp (fun s p => some (remUnusedStmtEtc env s p)) fuel u.st this := by
    intro u
    simp only [forCycleGrpTraced, forCycleGrp]
    cases (u.st.procs this).cycleGrp with
    | none => rfl
    | some cg =>
      refine forProcSetTraced_st _ _ cg (fun s x => ?_) fuel u none
      simp only [remUnusedStmtEtcTraced, remUnusedStmtEtc, Option.map_some',
        TracedState.setStatus]
      cases env.noRemoveNull <;> rfl
  simp only [recursionGroupAnalysisTraced, recursionGroupAnalysis]
  cases (t.st.procs this).cycleGrp with
  | none => rfl
  | some cg =>
    dsimp only
    cases t.st.getSet cg with
    | none => rfl
    | some members =>
      dsimp only
      have k1 := e1 { t with st := { t.st with groupRuns := t.st.groupRuns ++ [(this, members)] } }
      dsimp only at k1
      rw [← k1]
      cases forCycleGrpTraced _ fuel _ this with
      | none => rfl
      | some t1 =>
        dsimp only [Option.map_some']
        have k2 := e2 t1
        cases hA : forCycleGrpTraced _ fuel t1 this with
        | none =>
          erw [hA] at k2
          erw [← k2]
          rfl
        | some t2 =>
          erw [hA] at k2
          erw [← k2]
          dsimp only [Option.map_some']
          rw [← e3 t2]
          cases forCycleGrpTraced _ fuel t2 this with
          | none => rfl
          | some t3 =>
            dsimp only [Option.map_some']
            exact e3 t3

/-- C32 (counterexample): in the recursion group of the procedures 1 and 2, with no switch of
the driver set, the calls of `setStatus` on the procedure 1 along `recursionGroupAnalysis`
give it the statuses `PROC_INCYCLE`, `PROC_EARLYDONE` (at the end of `middleDecompile`),
`PROC_PRESERVEDS`, `PROC_FINAL` and `PROC_FINAL`: the step from `PROC_EARLYDONE` to
`PROC_PRESERVEDS` goes back in the order of the statuses. -/
theorem C32_status_goes_back_to_preserveds :
    (recursionGroupAnalysisTraced sampleDriverEnv (fun _ _ => none) 3
        { st := sampleGroupState, statusLog := [] } 1).map
      (fun t => (t.statusLog.filter (fun e => e.1 == 1)).map (fun e => e.2)) =
      some [.PROC_INCYCLE, .PROC_EARLYDONE, .PROC_PRESERVEDS, .PROC_FINAL, .PROC_FINAL] ∧
    ProcStatus.PROC_PRESERVEDS.toNat < ProcStatus.PROC_EARLYDONE.toNat :=
  ⟨by decide, by decide⟩

/-- C32 (amended): let the cycle group of the procedure hold the procedures `members` (in
the order of the set), and let no indirect jump be decoded.  Then `recursionGroupAnalysis`
returns, and the calls of `setStatus` that it makes are, in this order: for each member
`PROC_INCYCLE` (and `PROC_FINAL` after it when `noDecompile` is set); for each member
`PROC_EARLYDONE`, set at the end of its `middleDecompile`, and right after it
`PROC_PRESERVEDS`; and twice for each member `PROC_FINAL`, unless `noRemoveNull` is set.  So
every member has the status `PROC_PRESERVEDS` right after the call that follows its own
`middleDecompile`, and when `noDecompile` is not set its status moves forward in the order
of the statuses but for the step from `PROC_EARLYDONE` back to `PROC_PRESERVEDS`. -/
theorem C32_statuses_in_group_analysis (env : DriverEnv)
    (decompile : TracedState → Nat → Option (TracedState × Option Nat)) (fuel : Nat)
    (t : TracedState) (this cg : Nat) (members : List Nat)
    (h3 : ∀ st p, env.decodeIndirectJmp st p = false)
    (hcg : (t.st.procs this).cycleGrp = some cg) (hset : t.st.getSet cg = some members)
    (hs : members.Pairwise (fun a b => a < b)) (hfuel : members.length < fuel) :
    ∃ t1, recursionGroupAnalysisTraced env decompile fuel t this = some t1 ∧
      t1.statusLog = t.statusLog ++ members.flatMap (firstLoopStatuses env) ++
        members.flatMap secondLoopStatuses ++ members.flatMap (lastLoopStatuses env) ++
        members.flatMap (lastLoopStatuses env) ∧
      ProcStatus.PROC_INCYCLE.toNat < ProcStatus.PROC_PRESERVEDS.toNat ∧
      ProcStatus.PROC_PRESERVEDS.toNat < ProcStatus.PROC_EARLYDONE.toNat ∧
      ProcStatus.PROC_EARLYDONE.toNat < ProcStatus.PROC_FINAL.toNat := by
  have hall : members.filter (ProcSet.after none) = members :=
    List.filter_eq_self.2 (fun _ _ => rfl)
  -- the three bodies
  have b1 : ∀ (u : TracedState) (x : Nat), u.st.getSet cg = some members →
      (some (earlyDecompileTraced
          (initialiseDecompileTraced env (u.setStatus x .PROC_INCYCLE) x) x) =
        some (earlyDecompileTraced
          (initialiseDecompileTraced env (u.setStatus x .PROC_INCYCLE) x) x)) ∧
      (earlyDecompileTraced
        (initialiseDecompileTraced env (u.setStatus x .PROC_INCYCLE) x) x).st.getSet cg =
        some members := by
    intro u x hu
    refine ⟨rfl, ?_⟩
    simp only [earlyDecompileTraced, initialiseDecompileTraced]
    cases env.noDecompile <;> exact hu
  have b2 : ∀ (u : TracedState) (x : Nat), u.st.getSet cg = some members →
      (middleThenPreserveds env decompile u x =
        some (TracedState.setStatus
          { st := (u.setStatus x .PROC_EARLYDONE).st.newProcSet.1,
            statusLog := (u.setStatus x .PROC_EARLYDONE).statusLog } x .PROC_PRESERVEDS)) ∧
      (TracedState.setStatus
          { st := (u.setStatus x .PROC_EARLYDONE).st.newProcSet.1,
            statusLog := (u.setStatus x .PROC_EARLYDONE).statusLog } x
          .PROC_PRESERVEDS).st.getSet cg = some members := by
    intro u x hu
    refine ⟨by simp only [middleThenPreserveds, middleDecompileTraced, h3, Bool.false_eq_true, if_false], ?_⟩
    exact ProgState.getSet_newProcSet (u.st.setStatus x .PROC_EARLYDONE) cg members hu
  have b3 : ∀ (u : TracedState) (x : Nat), u.st.getSet cg = some members →
      (some (remUnusedStmtEtcTraced env u x) = some (remUnusedStmtEtcTraced env u x)) ∧
      (remUnusedStmtEtcTraced env u x).st.getSet cg = some members := by
    intro u x hu
    refine ⟨rfl, ?_⟩
    simp only [remUnusedStmtEtcTraced]
    cases env.noRemoveNull <;> exact hu
  -- the cycle group of `this` stays
  have c1 : ∀ (u : TracedState) (x : Nat), ((earlyDecompileTraced
      (initialiseDecompileTraced env (u.setStatus x .PROC_INCYCLE) x) x).st.procs
        this).cycleGrp = (u.st.procs this).cycleGrp := by
    intro u x
    simp only [earlyDecompileTraced, initialiseDecompileTraced, TracedState.setStatus]
    cases env.noDecompile <;> simp [ProgState.setStatus_cycleGrp]
  have c2 : ∀ (u : TracedState) (x : Nat), ((TracedState.setStatus
      { st := (u.setStatus x .PROC_EARLYDONE).st.newProcSet.1,
        statusLog := (u.setStatus x .PROC_EARLYDONE).statusLog } x .PROC_PRESERVEDS).st.procs
        this).cycleGrp = (u.st.procs this).cycleGrp := by
    intro u x
    simp only [TracedState.setStatus, ProgState.setStatus_cycleGrp]
    exact ProgState.setStatus_cycleGrp u.st x .PROC_EARLYDONE this
  have c3 : ∀ (u : TracedState) (x : Nat),
      ((remUnusedStmtEtcTraced env u x).st.procs this).cycleGrp =
        (u.st.procs this).cycleGrp := by
    intro u x
    simp only [remUnusedStmtEtcTraced, TracedState.setStatus]
    cases env.noRemoveNull <;> simp [ProgState.setStatus_cycleGrp]
  -- the records
  have l1 : ∀ (u : TracedState) (x : Nat), (earlyDecompileTraced
      (initialiseDecompileTraced env (u.setStatus x .PROC_INCYCLE) x) x).statusLog =
        u.statusLog ++ firstLoopStatuses env x := by
    intro u x
    simp only [earlyDecompileTraced, initialiseDecompileTraced, TracedState.setStatus,
      firstLoopStatuses]
    cases env.noDecompile <;> simp
  have l2 : ∀ (u : TracedState) (x : Nat), (TracedState.setStatus
      { st := (u.setStatus x .PROC_EARLYDONE).st.newProcSet.1,
        statusLog := (u.setStatus x .PROC_EARLYDONE).statusLog } x .PROC_PRESERVEDS).statusLog =
        u.statusLog ++ secondLoopStatuses x := by
    intro u x
    simp [TracedState.setStatus, secondLoopStatuses]
  have l3 : ∀ (u : TracedState) (x : Nat), (remUnusedStmtEtcTraced env u x).statusLog =
      u.statusLog ++ lastLoopStatuses env x := by
    intro u x
    simp only [remUnusedStmtEtcTraced, TracedState.setStatus, lastLoopStatuses]
    cases env.noRemoveNull <;> simp
  -- the four loops
  let t0 : TracedState :=
    { t with st := { t.st with groupRuns := t.st.groupRuns ++ [(this, members)] } }
  have hg0 : t0.st.getSet cg = some members := hset
  have hc0 : (t0.st.procs this).cycleGrp = some cg := hcg
  obtain ⟨r1, g1⟩ := forProcSetTraced_fold _ _ cg members hs b1 members fuel t0 none hg0 hfuel
    hall
  have hc1 := (foldl_cycleGrp _ this c1 members t0).trans hc0
  obtain ⟨r2, g2⟩ := forProcSetTraced_fold _ _ cg members hs b2 members fuel _ none g1 hfuel
    hall
  have hc2 := (foldl_cycleGrp _ this c2 members _).trans hc1
  obtain ⟨r3, g3⟩ := forProcSetTraced_fold _ _ cg members hs b3 members fuel _ none g2 hfuel
    hall
  have hc3 := (foldl_cycleGrp _ this c3 members _).trans hc2
  obtain ⟨r4, _⟩ := forProcSetTraced_fold _ _ cg members hs b3 members fuel _ none g3 hfuel
    hall
  refine ⟨?w, ?h1, ?h2, by decide, by decide, by decide⟩
  case h1 =>
    simp only [recursionGroupAnalysisTraced, hcg, hset, forCycleGrpTraced]
    have e0 : (⟨⟨t.st.procs, t.st.sets, t.st.path, t.st.groupRuns ++ [(this, members)]⟩,
      t.statusLog⟩ : TracedState) = t0 := rfl
    rw [e0, r1]
    simp only [hc1, r2, hc2, r3, hc3]
    exact r4
  case h2 =>
    rw [foldl_statusLog _ _ l3, foldl_statusLog _ _ l3, foldl_statusLog _ _ l2,
      foldl_statusLog _ _ l1]

/-- C32 (witness): the recursion group of the procedures 1 and 2 with no switch of the driver
set. -/
theorem C32_statuses_in_group_analysis_witness :
    ∃ t1, recursionGroupAnalysisTraced sampleDriverEnv (fun _ _ => none) 3
        { st := sampleGroupState, statusLog := [] } 1 = some t1 ∧
      t1.statusLog = [(1, .PROC_INCYCLE), (2, .PROC_INCYCLE), (1, .PROC_EARLYDONE),
        (1, .PROC_PRESERVEDS), (2, .PROC_EARLYDONE), (2, .PROC_PRESERVEDS), (1, .PROC_FINAL),
        (2, .PROC_FINAL), (1, .PROC_FINAL), (2, .PROC_FINAL)] := by
  obtain ⟨t1, h1, h2, _⟩ := C32_statuses_in_group_analysis sampleDriverEnv (fun _ _ => none) 3
    { st := sampleGroupState, statusLog := [] } 1 1 [1, 2] (fun _ _ => rfl) rfl rfl
    (by decide) (by decide)
  exact ⟨t1, h1, h2⟩

/-! ## Lemmas on the tests of the kind of a type -/

/-- The tests `resolvesToPointer` and `resolvesToInteger` return together. -/
theorem Ty.resolvesToKind_defined (p q : Ty → Bool) (nt : List (String × Ty)) (fuel : Nat)
    (t : Ty) (b : Bool) (h : Ty.resolvesToKind p nt fuel t = some b) :
    ∃ c, Ty.resolvesToKind q nt fuel t = some c := by
  unfold Ty.resolvesToKind at *
  cases hr : Ty.resolved nt fuel t with
  | none => rw [hr] at h; cases h
  | some r => exact ⟨_, rfl⟩

/-- A type that resolves to an integer does not resolve to a pointer. -/
theorem Ty.resolvesToPointer_of_integer (nt : List (String × Ty)) (fuel : Nat) (t : Ty)
    (h : Ty.resolvesToInteger nt fuel t = some true) :
    Ty.resolvesToPointer nt fuel t = some false := by
  unfold Ty.resolvesToInteger Ty.resolvesToPointer Ty.resolvesToKind at *
  cases hr : Ty.resolved nt fuel t with
  | none => rw [hr] at h; cases h
  | some r =>
    rw [hr] at h
    cases r with
    | none => rfl
    | some ty =>
      cases ty <;> first | rfl | (simp [kindIs, Ty.isInteger] at h)

/-! ## C33: deltaSubtrahend and its documented table -/

/-- C33 (the code at the failing input): for `tc` the type Size(32), which is neither a
pointer nor an integer, and `ta` a pointer to Char, `deltaSubtrahend(tc, ta)` returns a copy
of `ta`, the pointer to Char; the documented table has pi there, the type of `tc`. -/
theorem C33_deltaSubtrahend_pi_pointer_returns_ta :
    Ty.resolvesToPointer noGlobals.namedTypes 2 (.size 32) = some false ∧
    Ty.resolvesToInteger noGlobals.namedTypes 2 (.size 32) = some false ∧
    Ty.resolvesToPointer noGlobals.namedTypes 2 (.pointer .char) = some true ∧
    deltaSubtrahend sampleEnv 2 noGlobals (.size 32) (.pointer .char) false =
      some (.pointer .char, noGlobals) :=
  ⟨rfl, rfl, rfl, rfl⟩

/-- The other eight entries of the table of `deltaSubtrahend`: for `tc` a pointer the result
is Integer(STD_SIZE, 0) when `ta` is a pointer or neither a pointer nor an integer, and what
`tc->createUnion(ta)` returns when `ta` is an integer; for `tc` an integer it is a pointer to
Void when `ta` is a pointer and a copy of `ta` otherwise; for `tc` neither it is a copy of
`ta`, also when `ta` is a pointer. -/
theorem deltaSubtrahend_entries (env : Env) (fuel : Nat) (g : Globals) (tc ta : Ty)
    (ch : Bool) (c1 c2 a1 a2 : Bool)
    (hc1 : Ty.resolvesToPointer g.namedTypes fuel tc = some c1)
    (hc2 : Ty.resolvesToInteger g.namedTypes fuel tc = some c2)
    (ha1 : Ty.resolvesToPointer g.namedTypes fuel ta = some a1)
    (ha2 : Ty.resolvesToInteger g.namedTypes fuel ta = some a2) :
    deltaSubtrahend env fuel g tc ta ch =
      if c1 then
        if a1 then some (.integer env.STD_SIZE 0, g)
        else if a2 then (Ty.createUnion env fuel g tc ta ch false).map fun r => (r.ty, r.g)
        else some (.integer env.STD_SIZE 0, g)
      else if c2 then
        if a1 then some (.pointer .void, g) else some (ta.clone, g)
      else some (ta.clone, g) := by
  cases c1 <;> cases c2 <;> cases a1 <;> cases a2 <;>
    simp [deltaSubtrahend, hc1, hc2, ha1, ha2]

/-! ## C34: Binary::ascendType for sums, differences and comparisons -/

/-- C34 (counterexample): `opEquals` is a comparison operator, and for two operands of type
Integer(32) `Binary::ascendType` returns Void for it, not Boolean: the operator is not among
the cases of the switch and falls to the default case. -/
theorem C34_equality_comparison_yields_void :
    Binary.ascendType sampleEnv 2 noGlobals .opEquals (.integer 32 1) (.integer 32 1) false =
      some (.void, noGlobals) ∧
    Binary.ascendType sampleEnv 2 noGlobals .opLess (.integer 32 1) (.integer 32 1) false =
      some (.boolean, noGlobals) :=
  ⟨rfl, rfl⟩

/-- C34 (amended): for all operand types `ta` and `tb`, `Binary::ascendType` gives for
`ta - tb` the type Integer(STD_SIZE, 0) when both operands are pointers and a pointer to Void
when `ta` is a pointer and `tb` an integer; for `ta + tb` a pointer to Void when exactly one
operand is a pointer and a copy of `tb` when both are integers; and Boolean for each of the
eight order comparisons `opLess`, `opGtr`, `opLessEq`, `opGtrEq`, `opLessUns`, `opGtrUns`,
`opLessEqUns` and `opGtrEqUns`.  The global state is unchanged in all these cases. -/
theorem C34_ascendType_sum_difference_order (env : Env) (fuel : Nat) (g : Globals)
    (ta tb : Ty) (ch : Bool) :
    (Ty.resolvesToPointer g.namedTypes fuel ta = some true →
      Ty.resolvesToPointer g.namedTypes fuel tb = some true →
      Binary.ascendType env fuel g .opMinus ta tb ch = some (.integer env.STD_SIZE 0, g)) ∧
    (Ty.resolvesToPointer g.namedTypes fuel ta = some true →
      Ty.resolvesToInteger g.namedTypes fuel tb = some true →
      Binary.ascendType env fuel g .opMinus ta tb ch = some (.pointer .void, g)) ∧
    (Ty.resolvesToPointer g.namedTypes fuel ta = some true →
      Ty.resolvesToPointer g.namedTypes fuel tb = some false →
      Binary.ascendType env fuel g .opPlus ta tb ch = some (.pointer .void, g)) ∧
    (Ty.resolvesToPointer g.namedTypes fuel ta = some false →
      Ty.resolvesToPointer g.namedTypes fuel tb = some true →
      Binary.ascendType env fuel g .opPlus ta tb ch = some (.pointer .void, g)) ∧
    (Ty.resolvesToInteger g.namedTypes fuel ta = some true →
      Ty.resolvesToInteger g.namedTypes fuel tb = some true →
      Binary.ascendType env fuel g .opPlus ta tb ch = some (tb.clone, g)) ∧
    (∀ op : OPER, op.isOrderComparison = true →
      Binary.ascendType env fuel g op ta tb ch = some (.boolean, g)) := by
  refine ⟨?_, ?_, ?_, ?_, ?_, ?_⟩
  · intro ha hb
    simp [Binary.ascendType, deltaDifference, ha, hb]
  · intro ha hb
    have hb1 := Ty.resolvesToPointer_of_integer _ _ _ hb
    simp [Binary.ascendType, deltaDifference, ha, hb, hb1]
  · intro ha hb
    simp [Binary.ascendType, sigmaSum, ha, hb]
  · intro ha hb
    obtain ⟨c, hc⟩ := Ty.resolvesToKind_defined Ty.isPointer Ty.isInteger _ _ _ _ ha
    have hc1 : Ty.resolvesToInteger g.namedTypes fuel ta = some c := hc
    cases c <;> simp [Binary.ascendType, sigmaSum, ha, hb, hc1]
  · intro ha hb
    have ha1 := Ty.resolvesToPointer_of_integer _ _ _ ha
    have hb1 := Ty.resolvesToPointer_of_integer _ _ _ hb
    simp [Binary.ascendType, sigmaSum, ha, hb, ha1, hb1]
  · intro op hop
    cases op <;> first | rfl | cases hop

/-- C34 (witness): a pointer to Char and an Integer(32), with STD_SIZE 32. -/
theorem C34_ascendType_sum_difference_order_witness :
    Binary.ascendType sampleEnv 2 noGlobals .opMinus (.pointer .char) (.pointer .char) false =
      some (.integer 32 0, noGlobals) ∧
    Binary.ascendType sampleEnv 2 noGlobals .opMinus (.pointer .char) (.integer 32 1) false =
      some (.pointer .void, noGlobals) ∧
    Binary.ascendType sampleEnv 2 noGlobals .opPlus (.integer 32 1) (.pointer .char) false =
      some (.pointer .void, noGlobals) ∧
    Binary.ascendType sampleEnv 2 noGlobals .opPlus (.integer 16 1) (.integer 32 0) false =
      some (.integer 32 0, noGlobals) ∧
    Binary.ascendType sampleEnv 2 noGlobals .opGtrEqUns (.integer 16 1) (.integer 32 0) false =
      some (.boolean, noGlobals) :=
  have h := C34_ascendType_sum_difference_order sampleEnv 2 noGlobals (.pointer .char)
    (.integer 32 1) false
  have k := C34_ascendType_sum_difference_order sampleEnv 2 noGlobals (.integer 16 1)
    (.integer 32 0) false
  ⟨rfl, h.2.1 rfl rfl, rfl, k.2.2.2.2.1 rfl rfl, k.2.2.2.2.2 .opGtrEqUns rfl⟩

/-! ## C35: the operation codes of the compressed data section -/

/-- Outside the operation codes 20 to 31 and 40 to 63 (decimal) a step of the loop is the step
of the table. -/
theorem PalmBinaryFile.uncompress_step_agrees (fuel rle : Nat) (p1 q : List Nat)
    (h : rle < 20 ∨ (0x20 ≤ rle ∧ rle < 40) ∨ 0x40 ≤ rle)
    (ih : ∀ p q, PalmBinaryFile.uncompress fuel p q =
      PalmBinaryFile.uncompressByTable fuel p q) :
    PalmBinaryFile.uncompress (fuel + 1) (rle :: p1) q =
      PalmBinaryFile.uncompressByTable (fuel + 1) (rle :: p1) q := by
  have e1 : 0x40 ≤ rle → Int.toNat ((rle : Int) - 0x40 + 1) = rle - 0x40 + 1 := by omega
  have e2 : 0x20 ≤ rle → Int.toNat ((rle : Int) - 0x20 + 2) = rle - 0x20 + 2 := by omega
  have e3 : 0x10 ≤ rle → Int.toNat ((rle : Int) - 0x10 + 1) = rle - 0x10 + 1 := by omega
  simp only [PalmBinaryFile.uncompress, PalmBinaryFile.uncompressByTable, ih]
  by_cases h0 : rle = 0
  · simp [h0]
  by_cases h1 : rle = 1
  · simp [h1]
  by_cases h2 : rle = 2
  · simp [h2]
  by_cases h3 : rle = 3
  · simp [h3]
  by_cases h4 : rle = 4
  · simp [h4]
  by_cases h5 : rle < 0x10
  · simp [h0, h1, h2, h3, h4, h5]
  by_cases h6 : rle ≥ 0x80
  · simp [h0, h1, h2, h3, h4, h5, h6]
  by_cases h7 : rle ≥ 0x40
  · have h8 : rle ≥ 40 := by omega
    simp [h0, h1, h2, h3, h4, h5, h6, h7, h8, e1 h7]
  by_cases h9 : rle ≥ 0x20
  · have h10 : ¬ rle ≥ 40 := by omega
    have h11 : rle ≥ 20 := by omega
    simp [h0, h1, h2, h3, h4, h5, h6, h7, h9, h10, h11, e2 h9]
  · have h10 : ¬ rle ≥ 40 := by omega
    have h11 : ¬ rle ≥ 20 := by omega
    simp [h0, h1, h2, h3, h4, h5, h6, h7, h9, h10, h11, e3 (by omega)]

/-- C35 (the code at the failing input): on the bytes 0x30 0x41 0x00 the loop writes two
zero bytes, where the table gives eighteen bytes 0x41: the code 0x30 is not below 40
(decimal), so it is taken for a run of zeros of length `0x30 - 0x40 + 1`, which is empty, and
the byte 0x41 is read as the next operation code.  On the bytes 0x1F 0x41 0x00 the loop
writes one byte 0x41, where the table gives sixteen bytes 0xFF and two zero bytes: the code
0x1F is not below 20 (decimal), so it reads a byte. -/
theorem C35_decimal_bounds_in_uncompress :
    PalmBinaryFile.uncompress 4 [0x30, 0x41, 0x00] [] = some ([0, 0], true) ∧
    PalmBinaryFile.uncompressByTable 4 [0x30, 0x41, 0x00] [] =
      some (List.replicate 18 0x41, true) ∧
    PalmBinaryFile.uncompress 4 [0x1F, 0x41, 0x00] [] = some ([0x41], true) ∧
    PalmBinaryFile.uncompressByTable 4 [0x1F, 0x41, 0x00] [] =
      some (List.replicate 16 0xFF ++ [0, 0], true) := by
  refine ⟨by decide, by decide, by decide, by decide⟩

/-! ## C36: findPattern returns the lowest match -/

/-- The inner loop answers true exactly when every part of the pattern from `i` on is the
wildcard or equals the word of the memory. -/
theorem findPattern.matchFrom_iff (mem patt : Nat → Nat) (start : Nat) :
    ∀ (n i : Nat), findPattern.matchFrom mem patt start i n = true ↔
      ∀ j, i ≤ j → j < i + n → patt j = WILD ∨ mem (start + j) = patt j
  | 0, i => by
    simp only [findPattern.matchFrom, true_iff]
    intro j h1 h2
    omega
  | n + 1, i => by
    simp only [findPattern.matchFrom]
    by_cases h : patt i ≠ WILD ∧ patt i ≠ mem (start + i)
    · rw [if_pos h]
      constructor
      · intro hf
        cases hf
      · intro hall
        rcases hall i (Nat.le_refl i) (by omega) with hw | he
        · exact absurd hw h.1
        · exact absurd he.symm h.2
    · rw [if_neg h, findPattern.matchFrom_iff mem patt start n (i + 1)]
      constructor
      · intro hall j h1 h2
        by_cases hj : j = i
        · subst hj
          by_cases hw : patt j = WILD
          · exact Or.inl hw
          · right
            by_contra hne
            exact h ⟨hw, fun e => hne e.symm⟩
        · exact hall j (by omega) (by omega)
      · intro hall j h1 h2
        exact hall j (by omega) (by omega)

/-- What the outer loop returns: the first position of the range at which the inner loop
answers true. -/
theorem findPattern.scan_spec (mem patt : Nat → Nat) (pattSize : Int) :
    ∀ (n start : Nat),
      (∀ p, findPattern.scan mem patt pattSize start n = some p ↔
        (start ≤ p ∧ p < start + n ∧
          findPattern.matchFrom mem patt p 0 pattSize.toNat = true ∧
          ∀ q, start ≤ q → q < p →
            findPattern.matchFrom mem patt q 0 pattSize.toNat = false)) ∧
      (findPattern.scan mem patt pattSize start n = none ↔
        ∀ p, start ≤ p → p < start + n →
          findPattern.matchFrom mem patt p 0 pattSize.toNat = false)
  | 0, start => by
    refine ⟨fun p => ?_, ?_⟩
    · simp only [findPattern.scan]
      constructor
      · intro h
        cases h
      · rintro ⟨h1, h2, _⟩
        omega
    · simp only [findPattern.scan, true_iff]
      intro p h1 h2
      omega
  | n + 1, start => by
    obtain ⟨ih1, ih2⟩ := findPattern.scan_spec mem patt pattSize n (start + 1)
    by_cases hm : findPattern.matchFrom mem patt start 0 pattSize.toNat = true
    · refine ⟨fun p => ?_, ?_⟩
      · simp only [findPattern.scan, hm, if_true]
        constructor
        · intro h
          cases h
          exact ⟨Nat.le_refl _, by omega, hm, fun q h1 h2 => by omega⟩
        · rintro ⟨h1, _, _, h4⟩
          by_cases hp : p = start
          · rw [hp]
          · have := h4 start (Nat.le_refl _) (by omega)
            rw [hm] at this
            cases this
      · simp only [findPattern.scan, hm, if_true]
        constructor
        · intro h
          cases h
        · intro h
          have := h start (Nat.le_refl _) (by omega)
          rw [hm] at this
          cases this
    · have hf : findPattern.matchFrom mem patt start 0 pattSize.toNat = false := by
        cases hb : findPattern.matchFrom mem patt start 0 pattSize.toNat
        · rfl
        · exact absurd hb hm
      refine ⟨fun p => ?_, ?_⟩
      · simp only [findPattern.scan, hf, Bool.false_eq_true, if_false]
        rw [ih1 p]
        constructor
        · rintro ⟨h1, h2, h3, h4⟩
          refine ⟨by omega, by omega, h3, fun q k1 k2 => ?_⟩
          by_cases hq : q = start
          · rw [hq]
            exact hf
          · exact h4 q (by omega) k2
        · rintro ⟨h1, h2, h3, h4⟩
          have hne : p ≠ start := by
            intro e
            rw [e, hf] at h3
            cases h3
          exact ⟨by omega, by omega, h3, fun q k1 k2 => h4 q (by omega) k2⟩
      · simp only [findPattern.scan, hf, Bool.false_eq_true, if_false]
        rw [ih2]
        constructor
        · intro h p k1 k2
          by_cases hp : p = start
          · rw [hp]
            exact hf
          · exact h p (by omega) (by omega)
        · intro h p k1 k2
          exact h p (by omega) (by omega)

/-- C36: `findPattern(start, patt, pattSize, max)` returns the position `p` exactly when `p`
is the lowest position with `start <= p < start + max` at which every part `patt[i]`,
`i < pattSize`, is the wildcard 0x4AFC or equals `p[i]`; and it returns the null pointer
exactly when there is no such position. -/
theorem C36_findPattern_returns_lowest_match (mem patt : Nat → Nat) (start : Nat)
    (pattSize max : Int) :
    (∀ p : Nat, findPattern mem start patt pattSize max = some p ↔
      (start ≤ p ∧ (p : Int) < start + max ∧
        (∀ i : Nat, (i : Int) < pattSize → patt i = 0x4AFC ∨ mem (p + i) = patt i) ∧
        ∀ q : Nat, start ≤ q → q < p →
          ¬ ∀ i : Nat, (i : Int) < pattSize → patt i = 0x4AFC ∨ mem (q + i) = patt i)) ∧
    (findPattern mem start patt pattSize max = none ↔
      ∀ p : Nat, start ≤ p → (p : Int) < start + max →
        ¬ ∀ i : Nat, (i : Int) < pattSize → patt i = 0x4AFC ∨ mem (p + i) = patt i) := by
  have hM : ∀ p : Nat, findPattern.matchFrom mem patt p 0 pattSize.toNat = true ↔
      ∀ i : Nat, (i : Int) < pattSize → patt i = 0x4AFC ∨ mem (p + i) = patt i := by
    intro p
    rw [findPattern.matchFrom_iff]
    constructor
    · intro h i hi
      exact h i (Nat.zero_le _) (by omega)
    · intro h j _ hj
      exact h j (by omega)
  have hF : ∀ p : Nat, findPattern.matchFrom mem patt p 0 pattSize.toNat = false ↔
      ¬ ∀ i : Nat, (i : Int) < pattSize → patt i = 0x4AFC ∨ mem (p + i) = patt i := by
    intro p
    rw [← hM p]
    cases findPattern.matchFrom mem patt p 0 pattSize.toNat <;> simp
  obtain ⟨s1, s2⟩ := findPattern.scan_spec mem patt pattSize max.toNat start
  refine ⟨fun p => ?_, ?_⟩
  · unfold findPattern
    rw [s1 p, hM p]
    constructor
    · rintro ⟨h1, h2, h3, h4⟩
      exact ⟨h1, by omega, h3, fun q k1 k2 => (hF q).1 (h4 q k1 k2)⟩
    · rintro ⟨h1, h2, h3, h4⟩
      exact ⟨h1, by omega, h3, fun q k1 k2 => (hF q).2 (h4 q k1 k2)⟩
  · unfold findPattern
    rw [s2]
    constructor
    · intro h p k1 k2
      exact (hF p).1 (h p k1 (by omega))
    · intro h p k1 k2
      exact (hF p).2 (h p k1 (by omega))

/-! ## C37: symmetry of isCompatibleWith -/

/-- C37 (counterexample): with STD_SIZE 32, a function type is compatible with Size(32), and
Size(32) is not compatible with the function type: `SizeType::isCompatible` answers false
for every function type. -/
theorem C37_size_and_func_not_symmetric :
    Ty.isCompatibleWith sampleEnv noGlobals.namedTypes 3 (.func (some 0)) (.size 32) false =
      some true ∧
    Ty.isCompatibleWith sampleEnv noGlobals.namedTypes 3 (.size 32) (.func (some 0)) false =
      some false := by
  decide

/-- The forms of a simple type. -/
theorem Ty.isSimple_cases (a : Ty) (h : a.isSimple = true) :
    a = .void ∨ (∃ s g, a = .integer s g) ∨ (∃ s, a = .float s) ∨ a = .boolean ∨ a = .char ∨
      (∃ n, a = .size n) ∨ (∃ v, a = .func (some v)) ∨
      (∃ p, a = .pointer p ∧ p.isSimple = true) := by
  cases a with
  | func s =>
    cases s with
    | none => simp [Ty.isSimple] at h
    | some v => simp
  | pointer p => simpa [Ty.isSimple] using h
  | _ => simp [Ty.isSimple] at h ⊢

set_option maxHeartbeats 4000000 in
/-- Symmetry on the simple types, by recursion on the fuel. -/
theorem Ty.isCompatibleWith_comm_simple (env : Env) (nt : List (String × Ty)) :
    ∀ (fuel : Nat) (a b : Ty) (all : Bool), a.isSimple = true → b.isSimple = true →
      Ty.sizeMeetsFunc env a b = false →
      Ty.isCompatibleWith env nt fuel a b all = Ty.isCompatibleWith env nt fuel b a all
  | 0, _, _, _, _, _, _ => rfl
  | 1, a, b, all, ha, hb, _ => by
    rcases Ty.isSimple_cases a ha with
      rfl | ⟨s, g, rfl⟩ | ⟨s, rfl⟩ | rfl | rfl | ⟨n, rfl⟩ | ⟨v, rfl⟩ | ⟨p, rfl, hp⟩ <;>
    rcases Ty.isSimple_cases b hb with
      rfl | ⟨s2, g2, rfl⟩ | ⟨s2, rfl⟩ | rfl | rfl | ⟨n2, rfl⟩ | ⟨v2, rfl⟩ | ⟨q, rfl, hq⟩ <;>
    rfl
  | fuel + 2, a, b, all, ha, hb, hx => by
    have ih := Ty.isCompatibleWith_comm_simple env nt fuel
    rcases Ty.isSimple_cases a ha with
      rfl | ⟨s, g, rfl⟩ | ⟨s, rfl⟩ | rfl | rfl | ⟨n, rfl⟩ | ⟨v, rfl⟩ | ⟨p, rfl, hp⟩ <;>
    rcases Ty.isSimple_cases b hb with
      rfl | ⟨s2, g2, rfl⟩ | ⟨s2, rfl⟩ | rfl | rfl | ⟨n2, rfl⟩ | ⟨v2, rfl⟩ | ⟨q, rfl, hq⟩ <;>
    simp [Ty.isCompatibleWith, Ty.isCompatible, Ty.resolved, kindIs, Ty.isVoid,
      Ty.isInteger, Ty.isFloat, Ty.isPointer, Ty.isUnion, Ty.isChar, Ty.isCompound,
      Ty.isArray, Ty.isFunc, Ty.isBoolean, Ty.isSize, sizeIs, Ty.getSize, Ty.opEq,
      Ty.eqNest, Ty.sizeMeetsFunc, FuncType.sameSignature] at hx ⊢
    all_goals first
      | (apply ih <;> assumption)
      | (clear ih ha hb
         (try split_ifs) <;> (try split) <;> (try split_ifs) <;> (try simp_all) <;> (try omega))

set_option maxHeartbeats 4000000 in
/-- On the simple types `isCompatibleWith` returns, given two units of fuel and two more for
each pointer level of the receiver. -/
theorem Ty.isCompatibleWith_returns_simple (env : Env) (nt : List (String × Ty)) :
    ∀ (fuel : Nat) (a b : Ty) (all : Bool), a.isSimple = true → b.isSimple = true →
      2 * a.pointerDepth + 2 ≤ fuel →
      ∃ r, Ty.isCompatibleWith env nt fuel a b all = some r
  | 0, _, _, _, _, _, hf => by omega
  | 1, _, _, _, _, _, hf => by omega
  | fuel + 2, a, b, all, ha, hb, hf => by
    have ih := Ty.isCompatibleWith_returns_simple env nt fuel
    rcases Ty.isSimple_cases a ha with
      rfl | ⟨s, g, rfl⟩ | ⟨s, rfl⟩ | rfl | rfl | ⟨n, rfl⟩ | ⟨v, rfl⟩ | ⟨p, rfl, hp⟩ <;>
    rcases Ty.isSimple_cases b hb with
      rfl | ⟨s2, g2, rfl⟩ | ⟨s2, rfl⟩ | rfl | rfl | ⟨n2, rfl⟩ | ⟨v2, rfl⟩ | ⟨q, rfl, hq⟩ <;>
    simp [Ty.isCompatibleWith, Ty.isCompatible, Ty.resolved, kindIs, Ty.isVoid,
      Ty.isInteger, Ty.isFloat, Ty.isPointer, Ty.isUnion, Ty.isChar, Ty.isCompound,
      Ty.isArray, Ty.isFunc, Ty.isBoolean, Ty.isSize, sizeIs, Ty.getSize, Ty.opEq,
      Ty.eqNest, FuncType.sameSignature, Ty.pointerDepth] at hf ⊢
    all_goals first
      | (obtain ⟨r, hr⟩ := ih p q false hp hq (by omega)
         rw [hr]
         cases r <;> simp)
      | (clear ih ha hb
         (try split_ifs) <;> (try split) <;> (try split_ifs) <;> (try simp_all) <;> (try omega))

/-- Outside the simple types: a NamedType whose name is not registered is not compatible with
Size(0), and Size(0) is compatible with it. -/
theorem Ty.isCompatibleWith_named_size_not_symmetric :
    Ty.isCompatibleWith sampleEnv [] 4 (.named "x") (.size 0) false = some false ∧
    Ty.isCompatibleWith sampleEnv [] 4 (.size 0) (.named "x") false = some true := by
  decide

/-- C37 (amended): for all types a and b among Void, Integer, Float, Boolean, Char, Size,
Func with a signature and the pointers to such types, where no Size(STD_SIZE) stands against
a function type (in the two types or, for two pointers, in what they point to),
`a.isCompatibleWith(b, all)` and `b.isCompatibleWith(a, all)` give the same answer; and they
return an answer given two units of fuel and two more for each pointer level. -/
theorem C37_isCompatibleWith_symmetric_on_simple_types (env : Env) (nt : List (String × Ty))
    (fuel : Nat) (a b : Ty) (all : Bool) (ha : a.isSimple = true) (hb : b.isSimple = true)
    (hx : Ty.sizeMeetsFunc env a b = false) :
    Ty.isCompatibleWith env nt fuel a b all = Ty.isCompatibleWith env nt fuel b a all ∧
    (2 * a.pointerDepth + 2 ≤ fuel →
      ∃ r, Ty.isCompatibleWith env nt fuel a b all = some r) :=
  ⟨Ty.isCompatibleWith_comm_simple env nt fuel a b all ha hb hx,
    Ty.isCompatibleWith_returns_simple env nt fuel a b all ha hb⟩

/-- C37 (witness): a pointer to Size(16) and a pointer to Integer(16), and the same with a
function type in the place of the integer: the first two are compatible in both orders and
the other two in neither. -/
theorem C37_isCompatibleWith_symmetric_on_simple_types_witness :
    Ty.isCompatibleWith sampleEnv [] 4 (.pointer (.size 16)) (.pointer (.integer 16 1))
        false = some true ∧
    Ty.isCompatibleWith sampleEnv [] 4 (.pointer (.integer 16 1)) (.pointer (.size 16))
        false = some true ∧
    Ty.isCompatibleWith sampleEnv [] 4 (.pointer (.size 16)) (.pointer (.func (some 0)))
        false = some false ∧
    Ty.isCompatibleWith sampleEnv [] 4 (.pointer (.func (some 0))) (.pointer (.size 16))
        false = some false :=
  have h1 := C37_isCompatibleWith_symmetric_on_simple_types sampleEnv [] 4
    (.pointer (.size 16)) (.pointer (.integer 16 1)) false rfl rfl rfl
  have h2 := C37_isCompatibleWith_symmetric_on_simple_types sampleEnv [] 4
    (.pointer (.size 16)) (.pointer (.func (some 0))) false rfl rfl rfl
  have e1 : Ty.isCompatibleWith sampleEnv [] 4 (.pointer (.size 16))
      (.pointer (.integer 16 1)) false = some true := by decide
  have e2 : Ty.isCompatibleWith sampleEnv [] 4 (.pointer (.size 16))
      (.pointer (.func (some 0))) false = some false := by decide
  ⟨e1, h1.1 ▸ e1, e2, h2.1 ▸ e2⟩

/-! ## C38: the counter of PointerType::operator== -/

/-- C38 (the code at the failing input): entered with the counter at 0, the comparison of a
pointer type of depth 20 over Void with itself reaches the cut-off and returns with the
counter at 1.  The comparison of a pointer of depth 19 over Integer(32) with a pointer of
depth 19 over Float(32) answers false when it is entered with the counter at 0 and true when
it is entered with the counter at 1, and then leaves the counter at 2. -/
theorem C38_counter_is_left_incremented_at_the_cut_off :
    Ty.eqCount (Ty.pointerChain 20 .void) (Ty.pointerChain 20 .void) 0 = (true, 1) ∧
    Ty.eqCount (Ty.pointerChain 19 (.integer 32 1)) (Ty.pointerChain 19 (.float 32)) 0 =
      (false, 0) ∧
    Ty.eqCount (Ty.pointerChain 19 (.integer 32 1)) (Ty.pointerChain 19 (.float 32)) 1 =
      (true, 2) := by
  refine ⟨by decide, by decide, by decide⟩

/-! ## C39: termination of NamedType::resolvesTo -/

/-- C39 (counterexample): on the empty registry `Type::addNamedType("a", NamedType("a"))`
registers the name `a` with the type `NamedType("a")`, and on this registry
`NamedType("a").resolvesTo()` does not return: whatever the fuel, the lookup of `a` is
followed by one more call of `resolvesTo` on `a`. -/
theorem C39_resolvesTo_does_not_return_on_a_cycle :
    Type.addNamedTypes sampleEnv [] [("a", .named "a")] = [("a", .named "a")] ∧
    ∀ fuel, NamedType.resolvesTo (Type.addNamedTypes sampleEnv [] [("a", .named "a")]) fuel
      "a" = none := by
  refine ⟨rfl, fun fuel => ?_⟩
  induction fuel with
  | zero => rfl
  | succ k ih =>
    have e : NamedType.resolvesTo (Type.addNamedTypes sampleEnv [] [("a", .named "a")])
        (k + 1) "a" =
        NamedType.resolvesTo (Type.addNamedTypes sampleEnv [] [("a", .named "a")]) k "a" :=
      rfl
    rw [e, ih]

/-- An entry of a registry without NamedType entries is not a NamedType. -/
theorem NamedType.noneRegistered_lookup :
    ∀ (nt : List (String × Ty)) (name : String) (t : Ty),
      NamedType.noneRegistered nt = true → getNamedType nt name = some t → t.isNamed = false
  | [], _, _, _, h => by cases h
  | (k, v) :: rest, name, t, hn, h => by
    simp only [NamedType.noneRegistered, List.all_cons, Bool.and_eq_true,
      Bool.not_eq_true'] at hn
    simp only [getNamedType, List.lookup] at h
    cases hk : name == k with
    | true =>
      rw [hk] at h
      simp only [Option.some.injEq] at h
      subst h
      exact hn.1
    | false =>
      rw [hk] at h
      exact NamedType.noneRegistered_lookup rest name t hn.2 h

/-- A copy of a type that is not a NamedType is not a NamedType. -/
theorem Ty.clone_isNamed (t : Ty) (h : t.isNamed = false) : t.clone.isNamed = false := by
  cases t <;> first | rfl | cases h

/-- The assignment of a type that is not a NamedType keeps a registry without NamedType
entries. -/
theorem assignNamedType_noneRegistered (nt : List (String × Ty)) (name : String) (ty : Ty)
    (hn : NamedType.noneRegistered nt = true) (ht : ty.isNamed = false) :
    NamedType.noneRegistered (assignNamedType nt name ty) = true := by
  unfold assignNamedType
  cases getNamedType nt name with
  | none =>
    simp only [NamedType.noneRegistered, List.all_append, List.all_cons, List.all_nil,
      Bool.and_true, Bool.and_eq_true, Bool.not_eq_true'] at hn ⊢
    exact ⟨hn, ht⟩
  | some _ =>
    simp only [NamedType.noneRegistered, setNamedType, List.all_map, List.all_eq_true,
      Function.comp, Bool.not_eq_true'] at hn ⊢
    intro e he
    by_cases hk : (e.1 == name) = true
    · simp only [hk, if_true]
      exact ht
    · simp only [hk]
      exact hn e he

/-- A call of `addNamedType` with a type that is not a NamedType, or with a new name and a
type whose name is registered, keeps a registry without NamedType entries. -/
theorem Type.addNamedType_noneRegistered (env : Env) (nt : List (String × Ty))
    (name : String) (type : Ty) (hn : NamedType.noneRegistered nt = true)
    (hc : Type.addsResolved env nt name type = true) :
    NamedType.noneRegistered (Type.addNamedType env nt name type) = true := by
  unfold Type.addNamedType
  unfold Type.addsResolved at hc
  cases hname : getNamedType nt name with
  | some previous =>
    dsimp only
    rw [hname] at hc
    simp only [Option.isNone_some, Bool.false_and, Bool.or_false, Bool.not_eq_true'] at hc
    split
    · exact assignNamedType_noneRegistered nt name type hn hc
    · exact hn
  | none =>
    dsimp only
    cases hbase : getNamedType nt (Ty.getCtype env false type) with
    | some base =>
      dsimp only
      exact assignNamedType_noneRegistered nt name _ hn
        (Ty.clone_isNamed base (NamedType.noneRegistered_lookup nt _ base hn hbase))
    | none =>
      dsimp only
      rw [hname, hbase] at hc
      simp only [Option.isSome_none, Bool.and_false, Bool.or_false, Bool.not_eq_true'] at hc
      exact assignNamedType_noneRegistered nt name _ hn (Ty.clone_isNamed type hc)

/-- Such calls, one after the other, keep a registry without NamedType entries. -/
theorem Type.addNamedTypes_noneRegistered (env : Env) :
    ∀ (calls nt : List (String × Ty)), NamedType.noneRegistered nt = true →
      Type.allAddResolved env nt calls = true →
      NamedType.noneRegistered (Type.addNamedTypes env nt calls) = true
  | [], _, hn, _ => hn
  | (name, type) :: calls, nt, hn, hc => by
    simp only [Type.allAddResolved, Bool.and_eq_true] at hc
    exact Type.addNamedTypes_noneRegistered env calls _
      (Type.addNamedType_noneRegistered env nt name type hn hc.1) hc.2

/-- On a registry without NamedType entries `resolvesTo` returns after one lookup. -/
theorem NamedType.resolvesTo_of_noneRegistered (nt : List (String × Ty)) (fuel : Nat)
    (name : String) (hn : NamedType.noneRegistered nt = true) :
    NamedType.resolvesTo nt (fuel + 1) name = some (getNamedType nt name) := by
  simp only [NamedType.resolvesTo]
  cases hg : getNamedType nt name with
  | none => rfl
  | some ty =>
    have h := NamedType.noneRegistered_lookup nt name ty hn hg
    cases ty <;> first | rfl | cases h

/-- C39 (amended): let the registry be reached from the empty one through calls
`Type::addNamedType(name, type)` each of which has a type that is not a NamedType, or a new
name and a NamedType whose name is registered at the time of the call.  Then
`NamedType::resolvesTo` returns for every name, after one lookup, and what it returns is null
(the name is unknown) or a type that is not a NamedType.  And on every registry, when
`resolvesTo` returns a type, this is not a NamedType. -/
theorem C39_resolvesTo_returns_on_resolved_registries (env : Env)
    (calls : List (String × Ty)) (fuel : Nat) (name : String)
    (h : Type.allAddResolved env [] calls = true) :
    NamedType.resolvesTo (Type.addNamedTypes env [] calls) (fuel + 1) name =
      some (getNamedType (Type.addNamedTypes env [] calls) name) ∧
    (∀ t, getNamedType (Type.addNamedTypes env [] calls) name = some t →
      t.isNamed = false) ∧
    (∀ (nt : List (String × Ty)) (k : Nat) (t : Ty),
      NamedType.resolvesTo nt k name = some (some t) → t.isNamed = false) :=
  have hn := Type.addNamedTypes_noneRegistered env calls [] rfl h
  ⟨NamedType.resolvesTo_of_noneRegistered _ fuel name hn,
    fun t ht => NamedType.noneRegistered_lookup _ name t hn ht,
    fun nt k t hk => NamedType.resolvesTo_not_named nt k name t hk⟩

/-- C39 (witness): `typedef int a; typedef a b;` registers Integer(32) under both names, and
`NamedType("b").resolvesTo()` returns it. -/
theorem C39_resolvesTo_returns_on_resolved_registries_witness :
    Type.addNamedTypes sampleEnv [] [("a", .integer 32 1), ("b", .named "a")] =
      [("a", .integer 32 1), ("b", .integer 32 1)] ∧
    NamedType.resolvesTo
      (Type.addNamedTypes sampleEnv [] [("a", .integer 32 1), ("b", .named "a")]) 1 "b" =
      some (some (.integer 32 1)) :=
  ⟨rfl, (C39_resolvesTo_returns_on_resolved_registries sampleEnv
    [("a", .integer 32 1), ("b", .named "a")] 0 "b" rfl).1⟩

end Boomerang
